import Mathlib

/-!
# mapstructure: a shallow embedding of the decoder and its verification

The Go package `mapstructure` (file `mapstructure.go`) walks a target value through
`reflect` and fills it from an untyped input.  This development embeds

* the part of Go's run-time type and value model that the decoder inspects
  (`Kind`, `Ty`, `StructField`, `Val`), with the `reflect` operations it calls;
* every function of `mapstructure.go`, under its own name.

Modelling conventions.

* A `reflect.Value` is a `Val` (the value with its dynamic type) plus, for a target, its
  `Flags` (addressable, read-only).  `Val.invalid` is the zero `reflect.Value` and also the
  nil `interface{}`.  `Val.nil t` is the nil value of a nillable type `t`.
* The decoder mutates its target in place.  Every function returns the contents of its
  target location after the call, together with the Go `error` it returned.  A run-time
  panic of Go is the result `Res.panic`.  Targets are trees: the target shares no storage
  with the input and no two parts of the target alias each other.
* `d.decode` is recursive.  `decode` takes a fuel argument that bounds the depth of nested
  `d.decode` calls; the other functions take the recursive call as the argument `dec`.
* A map is the list of its entries in the order in which this call enumerates them.
* A declared type that is defined in terms of itself, such as
  `type Node struct { Next *Node }`, is a `Ty.recur` in whose underlying type `Ty.ref`
  stands for the declared type; `Ty.underlying` puts the declared type in its place.
* Pointers and channels carry no address.  `Val.goEq` compares them through what they
  point to or hold, which is Go's `==` on values without pointers and channels
  (`Val.identityFree`); the statements on map keys are made for such keys.
* `int`, `uint` and `uintptr` are 64 bits wide.  A floating-point number is an exact dyadic
  value, an infinity or NaN.
* Library behaviour that depends on tables or on the platform is a field of `GoLib`.
-/

namespace Mapstructure

/-! ## reflect.Kind -/

/-- The kinds of `reflect.Kind`, in the order of their numeric values. -/
inductive Kind
  | Invalid | Bool | Int | Int8 | Int16 | Int32 | Int64
  | Uint | Uint8 | Uint16 | Uint32 | Uint64 | Uintptr
  | Float32 | Float64 | Complex64 | Complex128
  | Array | Chan | Func | Interface | Map | Ptr | Slice | String | Struct | UnsafePointer
  deriving DecidableEq, Repr

/-- The numeric value of a `reflect.Kind`. -/
def Kind.toNat : Kind → Nat
  | .Invalid => 0 | .Bool => 1 | .Int => 2 | .Int8 => 3 | .Int16 => 4 | .Int32 => 5
  | .Int64 => 6 | .Uint => 7 | .Uint8 => 8 | .Uint16 => 9 | .Uint32 => 10 | .Uint64 => 11
  | .Uintptr => 12 | .Float32 => 13 | .Float64 => 14 | .Complex64 => 15 | .Complex128 => 16
  | .Array => 17 | .Chan => 18 | .Func => 19 | .Interface => 20 | .Map => 21 | .Ptr => 22
  | .Slice => 23 | .String => 24 | .Struct => 25 | .UnsafePointer => 26

/-- The text of `reflect.Kind.String`. -/
def kindString : Kind → String
  | .Invalid => "invalid" | .Bool => "bool" | .Int => "int" | .Int8 => "int8"
  | .Int16 => "int16" | .Int32 => "int32" | .Int64 => "int64" | .Uint => "uint"
  | .Uint8 => "uint8" | .Uint16 => "uint16" | .Uint32 => "uint32" | .Uint64 => "uint64"
  | .Uintptr => "uintptr" | .Float32 => "float32" | .Float64 => "float64"
  | .Complex64 => "complex64" | .Complex128 => "complex128" | .Array => "array"
  | .Chan => "chan" | .Func => "func" | .Interface => "interface" | .Map => "map"
  | .Ptr => "ptr" | .Slice => "slice" | .String => "string" | .Struct => "struct"
  | .UnsafePointer => "unsafe.Pointer"

/-- The width in bits of an integer kind (`int`, `uint` and `uintptr` are 64 bits wide). -/
def Kind.bits : Kind → Nat
  | .Int8 => 8 | .Uint8 => 8 | .Int16 => 16 | .Uint16 => 16 | .Int32 => 32 | .Uint32 => 32
  | _ => 64

/-! ## Go types -/

mutual
/-- A Go type as `reflect.Type` presents it. -/
inductive Ty
  /-- A predeclared type: `bool`, `int8`, `string`, `unsafe.Pointer`, ... -/
  | basic (k : Kind)
  /-- A declared type `pkg.name` with its method names and its underlying type. -/
  | named (pkg name : String) (methods : List String) (under : Ty)
  | array (len : Nat) (elem : Ty)
  | chan (elem : Ty)
  /-- A function type, identified by the text of its signature, such as `func() string`. -/
  | func (sig : String)
  /-- An interface type literal with its method names; `interface{}` has none. -/
  | iface (methods : List String)
  | map (key elem : Ty)
  | ptr (elem : Ty)
  | slice (elem : Ty)
  | struct (fields : List StructField)
  /-- A declared type `pkg.name` that is defined in terms of itself, such as
  `type Node struct { Next *Node }` or `type P *P`: within `under`, `Ty.ref pkg name`
  stands for the declared type. -/
  | recur (pkg name : String) (methods : List String) (under : Ty)
  /-- The declared type `pkg.name` within its own underlying type. -/
  | ref (pkg name : String)
/-- A field of a struct type (`reflect.StructField`): `PkgPath` is empty exactly for an
exported field and `Tag` lists the key/value pairs of the field's tag. -/
inductive StructField
  | mk (Name PkgPath : String) (Tag : List (String × String)) (Anonymous : Bool) (Typ : Ty)
end

def StructField.Name : StructField → String
  | .mk n _ _ _ _ => n

def StructField.PkgPath : StructField → String
  | .mk _ p _ _ _ => p

def StructField.Tag : StructField → List (String × String)
  | .mk _ _ t _ _ => t

def StructField.Anonymous : StructField → Bool
  | .mk _ _ _ a _ => a

def StructField.Typ : StructField → Ty
  | .mk _ _ _ _ t => t

mutual
/-- Type identity, as a boolean. -/
def Ty.beq : Ty → Ty → Bool
  | .basic k, .basic k2 => k == k2
  | .named p n ms u, .named p2 n2 ms2 u2 => p == p2 && n == n2 && ms == ms2 && Ty.beq u u2
  | .array l e, .array l2 e2 => l == l2 && Ty.beq e e2
  | .chan e, .chan e2 => Ty.beq e e2
  | .func s, .func s2 => s == s2
  | .iface ms, .iface ms2 => ms == ms2
  | .map k e, .map k2 e2 => Ty.beq k k2 && Ty.beq e e2
  | .ptr e, .ptr e2 => Ty.beq e e2
  | .slice e, .slice e2 => Ty.beq e e2
  | .struct fs, .struct fs2 => Ty.beqFields fs fs2
  | .recur p n ms u, .recur p2 n2 ms2 u2 => p == p2 && n == n2 && ms == ms2 && Ty.beq u u2
  | .ref p n, .ref p2 n2 => p == p2 && n == n2
  | _, _ => false
/-- Identity of two field lists. -/
def Ty.beqFields : List StructField → List StructField → Bool
  | [], [] => true
  | f :: fs, g :: gs => Ty.beqField f g && Ty.beqFields fs gs
  | _, _ => false
/-- Identity of two fields. -/
def Ty.beqField : StructField → StructField → Bool
  | .mk n p t a ty, .mk n2 p2 t2 a2 ty2 =>
      n == n2 && p == p2 && t == t2 && a == a2 && Ty.beq ty ty2
end

instance : BEq Ty := ⟨Ty.beq⟩

mutual
/-- The type with `r` in the place of every `Ty.ref p n`: the declared type `p.n` put in
its place within its underlying type. -/
def Ty.substRef (r : Ty) (p n : String) : Ty → Ty
  | .basic k => .basic k
  | .named q m ms u => .named q m ms (Ty.substRef r p n u)
  | .array l e => .array l (Ty.substRef r p n e)
  | .chan e => .chan (Ty.substRef r p n e)
  | .func s => .func s
  | .iface ms => .iface ms
  | .map k e => .map (Ty.substRef r p n k) (Ty.substRef r p n e)
  | .ptr e => .ptr (Ty.substRef r p n e)
  | .slice e => .slice (Ty.substRef r p n e)
  | .struct fs => .struct (Ty.substRefFields r p n fs)
  | .recur q m ms u =>
      if q = p ∧ m = n then .recur q m ms u else .recur q m ms (Ty.substRef r p n u)
  | .ref q m => if q = p ∧ m = n then r else .ref q m
/-- The fields with `r` in the place of every `Ty.ref p n` in their types. -/
def Ty.substRefFields (r : Ty) (p n : String) : List StructField → List StructField
  | [] => []
  | .mk fn fp tag an t :: rest =>
      .mk fn fp tag an (Ty.substRef r p n t) :: Ty.substRefFields r p n rest
end

/-- The type literal `lit` of the declaration of `r`, the declared type `p.n`, with `r` in
the place of `Ty.ref p n` in its element, key and field types. -/
def Ty.openWith (r : Ty) (p n : String) : Ty → Ty
  | .array l e => .array l (Ty.substRef r p n e)
  | .chan e => .chan (Ty.substRef r p n e)
  | .map k e => .map (Ty.substRef r p n k) (Ty.substRef r p n e)
  | .ptr e => .ptr (Ty.substRef r p n e)
  | .slice e => .slice (Ty.substRef r p n e)
  | .struct fs => .struct (Ty.substRefFields r p n fs)
  | t => t

/-- The underlying type. -/
def Ty.underlying : Ty → Ty
  | .named _ _ _ u => u.underlying
  | .recur p n ms u => Ty.openWith (.recur p n ms u) p n u.underlying
  | t => t

/-- The kind of a type (`reflect.Type.Kind`). -/
def Ty.kind : Ty → Kind
  | .basic k => k
  | .named _ _ _ u => u.kind
  | .array _ _ => .Array
  | .chan _ => .Chan
  | .func _ => .Func
  | .iface _ => .Interface
  | .map _ _ => .Map
  | .ptr _ => .Ptr
  | .slice _ => .Slice
  | .struct _ => .Struct
  | .recur _ _ _ u => u.kind
  | .ref _ _ => .Invalid

/-- The package path of a type (`reflect.Type.PkgPath`): empty for predeclared and for
unnamed types. -/
def Ty.PkgPath : Ty → String
  | .named p _ _ _ => p
  | .recur p _ _ _ => p
  | .ref p _ => p
  | _ => ""

/-- The name of a type within its package (`reflect.Type.Name`): empty for unnamed types. -/
def Ty.Name : Ty → String
  | .basic k => kindString k
  | .named _ n _ _ => n
  | .recur _ n _ _ => n
  | .ref _ n => n
  | _ => ""

/-- Whether the type has a name: predeclared and declared types do. -/
def Ty.hasName : Ty → Bool
  | .basic _ => true
  | .named _ _ _ _ => true
  | .recur _ _ _ _ => true
  | .ref _ _ => true
  | _ => false

/-- The method names of a type: those of a declared type, of the declared type a pointer
points to, or of an interface type. -/
def Ty.methodSet : Ty → List String
  | .named _ _ ms (.iface ims) => ms ++ ims
  | .named _ _ ms _ => ms
  | .recur _ _ ms _ => ms
  | .ptr (.named _ _ ms _) => ms
  | .ptr (.recur _ _ ms _) => ms
  | .iface ms => ms
  | _ => []

/-- The last element of a slash-separated package path. -/
def lastPathElem (cs : List Char) (acc : List Char) : List Char :=
  match cs with
  | [] => acc
  | c :: rest => if c = '/' then lastPathElem rest [] else lastPathElem rest (acc ++ [c])

/-- Joins texts with a separator. -/
def joinWith (sep : String) : List String → String
  | [] => ""
  | [s] => s
  | s :: rest => s ++ sep ++ joinWith sep rest

mutual
/-- The text of `reflect.Type.String`, which `%s` prints for a type. -/
def Ty.typeString : Ty → String
  | .basic k => kindString k
  | .named p n _ _ => if p = "" then n else String.mk (lastPathElem p.data []) ++ "." ++ n
  | .array l e => "[" ++ toString l ++ "]" ++ Ty.typeString e
  | .chan e => "chan " ++ Ty.typeString e
  | .func s => s
  | .iface ms => if ms.isEmpty then "interface \x7b\x7d" else "interface \x7b " ++ joinWith "; " ms ++ " \x7d"
  | .map k e => "map[" ++ Ty.typeString k ++ "]" ++ Ty.typeString e
  | .ptr e => "*" ++ Ty.typeString e
  | .slice e => "[]" ++ Ty.typeString e
  | .struct fs => "struct \x7b" ++ Ty.typeStringFields fs ++ " \x7d"
  | .recur p n _ _ => if p = "" then n else String.mk (lastPathElem p.data []) ++ "." ++ n
  | .ref p n => if p = "" then n else String.mk (lastPathElem p.data []) ++ "." ++ n
/-- The fields of a struct type literal as `Ty.typeString` prints them. -/
def Ty.typeStringFields : List StructField → String
  | [] => ""
  | .mk n _ _ _ t :: rest =>
      " " ++ n ++ " " ++ Ty.typeString t ++ (if rest.isEmpty then "" else ";") ++ Ty.typeStringFields rest
end

/-- The test `reflect.Type.AssignableTo`: a value of type `v` may be assigned to a location
of type `t` when the types are identical, when they have identical underlying types and
are not both named, or when `t` is an interface type whose methods `v` has. -/
def Ty.AssignableTo (v t : Ty) : Bool :=
  (v == t) || (!(t.hasName && v.hasName) && (v.underlying == t.underlying)) ||
    (t.kind == .Interface && t.methodSet.all (fun m => v.methodSet.contains m))

/-- The type `json.Number` of package `encoding/json`. -/
def jsonNumber : Ty :=
  .named "encoding/json" "Number" ["Float64", "Int64", "String"] (.basic .String)

/-- The type `interface{}`. -/
def emptyInterface : Ty := .iface []

/-! ## Floating-point numbers -/

/-- A floating-point number: `fin neg m e` is the exact value `(-1)^neg * m * 2^e`
(a negative zero when `m = 0` and `neg`), `inf neg` an infinity. -/
inductive GoFloat
  | fin (neg : Bool) (mant : Nat) (exp : Int)
  | inf (neg : Bool)
  | nan
  deriving DecidableEq, Repr

/-- The comparison `f < 0` of Go. -/
def GoFloat.ltZero : GoFloat → Bool
  | .fin neg m _ => neg && m != 0
  | .inf neg => neg
  | .nan => false

/-- The comparison `f == 0` of Go. -/
def GoFloat.isZero : GoFloat → Bool
  | .fin _ m _ => m == 0
  | _ => false

/-- The magnitude of a finite value as a fraction `num / den`. -/
def GoFloat.frac (m : Nat) (e : Int) : Nat × Nat :=
  if 0 ≤ e then (m * 2 ^ e.toNat, 1) else (m, 2 ^ (-e).toNat)

/-- The equality `==` of Go on floating-point numbers: NaN differs from everything and
the two zeros are equal. -/
def GoFloat.eq : GoFloat → GoFloat → Bool
  | .fin n m e, .fin n2 m2 e2 =>
      let a := GoFloat.frac m e
      let b := GoFloat.frac m2 e2
      (a.1 * b.2 == b.1 * a.2) && (n == n2 || m == 0)
  | .inf n, .inf n2 => n == n2
  | _, _ => false

/-- The integer part of a finite value (truncation toward zero); `none` for NaN and the
infinities. -/
def GoFloat.trunc : GoFloat → Option Int
  | .fin neg m e =>
      let a := GoFloat.frac m e
      let q : Int := ((a.1 / a.2 : Nat) : Int)
      some (if neg then -q else q)
  | _ => none

/-- The number of binary digits of a natural number. -/
def bitLen : Nat → Nat → Nat
  | 0, _ => 0
  | fuel + 1, n => if n = 0 then 0 else bitLen fuel (n / 2) + 1

/-- Rounding to nearest, ties to even, of `n / d` to an integer. -/
def roundHalfEven (n d : Nat) : Nat :=
  let q := n / d
  let r := n % d
  if 2 * r < d then q else if d < 2 * r then q + 1 else if q % 2 = 0 then q else q + 1

/-- Rounding of a floating-point number to a format with `p` bits of precision, least
exponent `emin` (of the last place) and overflow threshold `2^emax`. -/
def GoFloat.round (p : Nat) (emin emax : Int) : GoFloat → GoFloat
  | .fin neg m e =>
      let k : Int := max ((bitLen m m : Int) - p) (emin - e)
      if k ≤ 0 then
        (if (bitLen m m : Int) + e > emax then .inf neg else .fin neg m e)
      else
        let q := roundHalfEven m (2 ^ k.toNat)
        if (bitLen q q : Int) + (e + k) > emax then .inf neg else .fin neg q (e + k)
  | f => f

/-- The conversion `float32(x)` followed by the widening back to `float64`. -/
def GoFloat.toFloat32 (f : GoFloat) : GoFloat := f.round 24 (-149) 128

/-- The conversion `float64(i)` of a signed integer. -/
def GoFloat.ofInt (i : Int) : GoFloat :=
  (GoFloat.fin (decide (i < 0)) i.natAbs 0).round 53 (-1074) 1024

/-- The conversion `float64(n)` of an unsigned integer. -/
def GoFloat.ofNat (n : Nat) : GoFloat :=
  (GoFloat.fin false n 0).round 53 (-1074) 1024

/-- The decimal digits of `n`, padded on the left with zeros to at least `width` digits. -/
def padDigits (width : Nat) (n : Nat) : String :=
  let s := toString n
  String.mk (List.replicate (width - s.length) '0') ++ s

/-- The text `%f` prints for a floating-point number: six digits after the point, the
exact value rounded to nearest, ties to even. -/
def fmtF : GoFloat → String
  | .fin neg m e =>
      let a := GoFloat.frac m e
      let scaled := roundHalfEven (a.1 * 1000000) a.2
      (if neg then "-" else "") ++ toString (scaled / 1000000) ++ "." ++
        padDigits 6 (scaled % 1000000)
  | .inf neg => if neg then "-Inf" else "+Inf"
  | .nan => "NaN"

/-- The text `%d` prints for an integer. -/
def fmtD (i : Int) : String := toString i

/-! ## Go values -/

/-- A Go value together with its dynamic type, as a `reflect.Value` presents it. -/
inductive Val
  /-- The zero `reflect.Value`; as a datum, the nil `interface{}`. -/
  | invalid
  /-- The nil value of a channel, function, interface, map, pointer or slice type. -/
  | nil (t : Ty)
  | bool (t : Ty) (b : Bool)
  | int (t : Ty) (i : Int)
  | uint (t : Ty) (n : Nat)
  | float (t : Ty) (f : GoFloat)
  | str (t : Ty) (s : String)
  /-- A complex number or an unsafe pointer, which the decoder never looks into. -/
  | other (t : Ty) (id : Nat)
  /-- A channel that is not nil, with the number of elements queued in it. -/
  | chan (t : Ty) (len : Nat)
  /-- A function that is not nil, identified by `id`. -/
  | func (t : Ty) (id : Nat)
  | array (t : Ty) (elems : List Val)
  /-- A slice that is not nil. -/
  | slice (t : Ty) (elems : List Val)
  /-- A map that is not nil: its entries in enumeration order. -/
  | map (t : Ty) (entries : List (Val × Val))
  /-- A pointer that is not nil, with the value it points to. -/
  | ptr (t : Ty) (pointee : Val)
  /-- A value of interface type `t` that is not nil, with the value it holds. -/
  | iface (t : Ty) (held : Val)
  | struct (t : Ty) (fields : List Val)

instance : Inhabited Val := ⟨.invalid⟩

/-- The flag bits of a `reflect.Value` used as a target: whether it is addressable and
whether it was reached through an unexported struct field. -/
structure Flags where
  addr : Bool
  ro : Bool
  deriving DecidableEq, Repr

/-- The test `reflect.Value.CanSet`. -/
def Flags.CanSet (fl : Flags) : Bool := fl.addr && !fl.ro

/-- The test `reflect.Value.CanAddr`. -/
def Flags.CanAddr (fl : Flags) : Bool := fl.addr

/-- The flags of the value a pointer points to (`reflect.Indirect`, `reflect.New(t).Elem()`). -/
def Flags.pointee (fl : Flags) : Flags := { addr := true, ro := fl.ro }

/-- The flags of a fresh addressable value (`reflect.New(t).Elem()`). -/
def Flags.fresh : Flags := { addr := true, ro := false }

/-- The flags of the value an interface holds (`reflect.Value.Elem` on an interface). -/
def Flags.held (fl : Flags) : Flags := { addr := false, ro := fl.ro }

/-- The flags of a struct field (`reflect.Value.Field`). -/
def Flags.field (fl : Flags) (f : StructField) : Flags :=
  { addr := fl.addr, ro := fl.ro || f.PkgPath != "" }

/-- The flags of a slice element (`reflect.Value.Index` on a slice). -/
def Flags.sliceElem (fl : Flags) : Flags := { addr := true, ro := fl.ro }

/-- The result of a computation that may panic or exhaust the fuel of the model. -/
inductive Res (α : Type)
  | ok (a : α)
  | panic (msg : String)
  | outOfFuel

/-- Sequencing of computations that may panic. -/
def Res.bind {α β : Type} (r : Res α) (f : α → Res β) : Res β :=
  match r with
  | .ok a => f a
  | .panic m => .panic m
  | .outOfFuel => .outOfFuel

instance : Monad Res where
  pure := Res.ok
  bind := Res.bind

/-- A Go `error` of this package: a plain error with its message, or the package's
`*Error` with its list of messages. -/
inductive GoError
  | plain (msg : String)
  | agg (errors : List String)
  deriving DecidableEq, Repr

/-- What a decoding function leaves behind: the contents of the target location and the
error it returned (`none` is Go's nil error). -/
abbrev Outcome := Res (Val × Option GoError)

/-- The function returns nil with the target holding `v`. -/
def done (v : Val) : Outcome := .ok (v, none)

/-- The function returns the error `e` with the target holding `v`. -/
def fail (v : Val) (e : GoError) : Outcome := .ok (v, some e)

/-- The recursive call `d.decode(name, input, outVal)`. -/
abbrev Dec := String → Val → Val → Flags → Outcome

/-- Library behaviour that depends on Unicode tables, on the platform or on a parser. -/
structure GoLib where
  /-- The function `strings.EqualFold`. -/
  EqualFold : String → String → Bool
  /-- The call `strconv.ParseInt(s, 10, 64)` behind `json.Number.Int64`, with the text of
  the error. -/
  ParseInt : String → Except String Int
  /-- The call `strconv.ParseFloat(s, 64)` behind `json.Number.Float64`. -/
  ParseFloat : String → Except String GoFloat
  /-- The value of `int64(f)` when `f` is NaN or outside the range of `int64`. -/
  int64OutOfRange : GoFloat → Int
  /-- The value of `uint64(f)` when `f` is NaN or outside the range of `uint64`. -/
  uint64OutOfRange : GoFloat → Nat
  /-- The text `%s` prints for a map key that is not a string. -/
  badVerb : Val → String

/-! ## reflect operations -/

/-- The test `reflect.Value.IsValid`. -/
def Val.IsValid : Val → Bool
  | .invalid => false
  | _ => true

/-- The dynamic type of a value (for the zero Value, a placeholder). -/
def Val.typ : Val → Ty
  | .invalid => .basic .Invalid
  | .nil t => t
  | .bool t _ => t
  | .int t _ => t
  | .uint t _ => t
  | .float t _ => t
  | .str t _ => t
  | .other t _ => t
  | .chan t _ => t
  | .func t _ => t
  | .array t _ => t
  | .slice t _ => t
  | .map t _ => t
  | .ptr t _ => t
  | .iface t _ => t
  | .struct t _ => t

/-- The call `reflect.Value.Type`, which panics on the zero Value. -/
def Val.TypeOf (v : Val) : Res Ty :=
  if v.IsValid then .ok v.typ else .panic "reflect: call of reflect.Value.Type on zero Value"

/-- The call `reflect.Value.kind`. -/
def Val.kind : Val → Kind
  | .invalid => .Invalid
  | v => v.typ.kind

/-- The same value with another dynamic type. -/
def Val.withType (t : Ty) : Val → Val
  | .invalid => .invalid
  | .nil _ => .nil t
  | .bool _ b => .bool t b
  | .int _ i => .int t i
  | .uint _ n => .uint t n
  | .float _ f => .float t f
  | .str _ s => .str t s
  | .other _ i => .other t i
  | .chan _ n => .chan t n
  | .func _ i => .func t i
  | .array _ es => .array t es
  | .slice _ es => .slice t es
  | .map _ es => .map t es
  | .ptr _ p => .ptr t p
  | .iface _ h => .iface t h
  | .struct _ fs => .struct t fs

/-- The family of a kind: the switch of `getKind`. -/
def Kind.family (kind : Kind) : Kind :=
  if Kind.Int.toNat ≤ kind.toNat ∧ kind.toNat ≤ Kind.Int64.toNat then .Int
  else if Kind.Uint.toNat ≤ kind.toNat ∧ kind.toNat ≤ Kind.Uint64.toNat then .Uint
  else if Kind.Float32.toNat ≤ kind.toNat ∧ kind.toNat ≤ Kind.Float64.toNat then .Float32
  else kind

/-- The function `getKind` of the source: the kind with the integer, unsigned and
floating-point families collapsed (`uintptr` lies outside the unsigned range). -/
def getKind (val : Val) : Kind :=
  let kind := val.kind
  if Kind.Int.toNat ≤ kind.toNat ∧ kind.toNat ≤ Kind.Int64.toNat then .Int
  else if Kind.Uint.toNat ≤ kind.toNat ∧ kind.toNat ≤ Kind.Uint64.toNat then .Uint
  else if Kind.Float32.toNat ≤ kind.toNat ∧ kind.toNat ≤ Kind.Float64.toNat then .Float32
  else kind

/-- The call `reflect.Value.IsNil`, which panics unless the kind is nillable. -/
def Val.IsNil (v : Val) : Res Bool :=
  match v.kind with
  | .Chan | .Func | .Interface | .Map | .Ptr | .Slice | .UnsafePointer =>
      .ok (match v with
        | .nil _ => true
        | _ => false)
  | _ => .panic "reflect: call of reflect.Value.IsNil on a value that cannot be nil"

/-- The call `reflect.Value.Elem`: the value an interface holds or a pointer points to,
the zero Value when that is nil. -/
def Val.Elem (v : Val) : Res Val :=
  match v.kind with
  | .Interface | .Ptr =>
      .ok (match v with
        | .iface _ h => h
        | .ptr _ p => p
        | _ => .invalid)
  | _ => .panic "reflect: call of reflect.Value.Elem on a value that is no interface or pointer"

/-- The function `reflect.Indirect`. -/
def Indirect (v : Val) : Val :=
  if v.kind = .Ptr then
    match v with
    | .ptr _ p => p
    | _ => .invalid
  else v

/-- The call `reflect.Value.Interface` on a valid value, as a datum: an interface value
yields what it holds. -/
def Val.Interface (v : Val) : Res Val :=
  match v with
  | .invalid => .panic "reflect: call of reflect.Value.Interface on zero Value"
  | .iface _ h => .ok h
  | .nil t => if t.kind = .Interface then .ok .invalid else .ok (.nil t)
  | v => .ok v

/-- The bytes of a text in UTF-8. -/
def utf8Bytes (s : String) : List Nat :=
  s.data.flatMap (fun c => (String.utf8EncodeChar c).map (fun b => b.toNat))

/-- The call `reflect.Value.Len`. -/
def Val.Len (v : Val) : Res Nat :=
  match v.kind with
  | .Array | .Chan | .Map | .Slice | .String =>
      .ok (match v with
        | .array _ es => es.length
        | .chan _ n => n
        | .map _ es => es.length
        | .slice _ es => es.length
        | .str _ s => (utf8Bytes s).length
        | _ => 0)
  | .Ptr =>
      match v.typ.underlying with
      | .ptr e =>
          match e.underlying with
          | .array n _ => .ok n
          | _ => .panic "reflect: call of reflect.Value.Len on ptr to non-array Value"
      | _ => .panic "reflect: call of reflect.Value.Len on ptr to non-array Value"
  | _ => .panic "reflect: call of reflect.Value.Len on a value that has no length"

/-- The call `reflect.Value.Index`. -/
def Val.Index (v : Val) (i : Nat) : Res Val :=
  match v with
  | .array _ es =>
      match es.get? i with
      | some e => .ok e
      | none => .panic "reflect: array index out of range"
  | .slice _ es =>
      match es.get? i with
      | some e => .ok e
      | none => .panic "reflect: slice index out of range"
  | .str _ s =>
      match (utf8Bytes s).get? i with
      | some b => .ok (.uint (.basic .Uint8) b)
      | none => .panic "reflect: string index out of range"
  | _ => .panic "reflect: call of reflect.Value.Index on a value that cannot be indexed"

/-- The call `reflect.Value.Bool` on a value of kind Bool. -/
def Val.getBool : Val → Bool
  | .bool _ b => b
  | _ => false

/-- The call `reflect.Value.Int` on a value of an integer kind. -/
def Val.getInt : Val → Int
  | .int _ i => i
  | _ => 0

/-- The call `reflect.Value.Uint` on a value of an unsigned kind. -/
def Val.getUint : Val → Nat
  | .uint _ n => n
  | _ => 0

/-- The call `reflect.Value.Float` on a value of a floating-point kind. -/
def Val.getFloat : Val → GoFloat
  | .float _ f => f
  | _ => .fin false 0 0

/-- The call `reflect.Value.String` on a value of kind String. -/
def Val.getString : Val → String
  | .str _ s => s
  | _ => ""

/-- The type with the declared types of `env` in the place of their `Ty.ref`. -/
def Ty.substEnv (env : List Ty) (t : Ty) : Ty :=
  env.foldl (fun acc r => Ty.substRef r r.PkgPath r.Name acc) t

mutual
/-- The zero value of type `t` built along the structure given as last argument, a part
of the underlying type of the declared types `env`, which take the place of their
`Ty.ref` in the types of the elements and fields. -/
def zeroOfE (env : List Ty) (t : Ty) : Ty → Val
  | .basic k =>
      match k with
      | .Bool => .bool t false
      | .Int | .Int8 | .Int16 | .Int32 | .Int64 => .int t 0
      | .Uint | .Uint8 | .Uint16 | .Uint32 | .Uint64 | .Uintptr => .uint t 0
      | .Float32 | .Float64 => .float t (.fin false 0 0)
      | .String => .str t ""
      | .Complex64 | .Complex128 => .other t 0
      | _ => .nil t
  | .named _ _ _ u => zeroOfE env t u
  | .recur p n ms u => zeroOfE (Ty.substEnv env (.recur p n ms u) :: env) t u
  | .array n e => .array t (List.replicate n (zeroOfE env (Ty.substEnv env e) e))
  | .struct fs => .struct t (zeroFieldsE env fs)
  | _ => .nil t
/-- The zero values of the fields of a struct type within the declared types `env`. -/
def zeroFieldsE (env : List Ty) : List StructField → List Val
  | [] => []
  | .mk _ _ _ _ ft :: rest => zeroOfE env (Ty.substEnv env ft) ft :: zeroFieldsE env rest
end

mutual
/-- The zero value of type `t`, whose underlying structure is the second argument. -/
def zeroOf (t : Ty) : Ty → Val
  | .basic k =>
      match k with
      | .Bool => .bool t false
      | .Int | .Int8 | .Int16 | .Int32 | .Int64 => .int t 0
      | .Uint | .Uint8 | .Uint16 | .Uint32 | .Uint64 | .Uintptr => .uint t 0
      | .Float32 | .Float64 => .float t (.fin false 0 0)
      | .String => .str t ""
      | .Complex64 | .Complex128 => .other t 0
      | _ => .nil t
  | .named _ _ _ u => zeroOf t u
  | .recur p n ms u => zeroOfE [.recur p n ms u] t u
  | .array n e => .array t (List.replicate n (zeroOf e e))
  | .struct fs => .struct t (zeroFields fs)
  | _ => .nil t
/-- The zero values of the fields of a struct type. -/
def zeroFields : List StructField → List Val
  | [] => []
  | .mk _ _ _ _ ft :: rest => zeroOf ft ft :: zeroFields rest
end

/-- The function `reflect.Zero`. -/
def Zero (t : Ty) : Val := zeroOf t t

mutual
/-- The equality `==` of Go on comparable values, as map lookup uses it.  Go compares
pointers and channels by their address, which a value of the embedding does not carry:
here two pointers are compared through the values they point to and two channels through
their type and length.  The comparison is that of Go whenever one of the two values holds
no pointer and no channel (`Val.identityFree`). -/
def Val.goEq : Val → Val → Bool
  | .invalid, .invalid => true
  | .nil t, .nil t2 => t == t2
  | .bool t b, .bool t2 b2 => t == t2 && b == b2
  | .int t i, .int t2 i2 => t == t2 && i == i2
  | .uint t n, .uint t2 n2 => t == t2 && n == n2
  | .float t f, .float t2 f2 => t == t2 && GoFloat.eq f f2
  | .str t s, .str t2 s2 => t == t2 && s == s2
  | .other t i, .other t2 i2 => t == t2 && i == i2
  | .chan t i, .chan t2 i2 => t == t2 && i == i2
  | .array t es, .array t2 es2 => t == t2 && Val.goEqList es es2
  | .ptr t p, .ptr t2 p2 => t == t2 && Val.goEq p p2
  | .iface _ h, .iface _ h2 => Val.goEq h h2
  | .struct t fs, .struct t2 fs2 => t == t2 && Val.goEqList fs fs2
  | _, _ => false
/-- Elementwise `==` of two lists of values. -/
def Val.goEqList : List Val → List Val → Bool
  | [], [] => true
  | a :: as, b :: bs => Val.goEq a b && Val.goEqList as bs
  | _, _ => false
end

mutual
/-- Whether a value can be hashed as a map key: values of slice, map and function types
cannot, nor can an interface, array or struct containing one. -/
def Val.hashable : Val → Bool
  | .nil t => !(t.kind == .Slice || t.kind == .Map || t.kind == .Func)
  | .func _ _ => false
  | .slice _ _ => false
  | .map _ _ => false
  | .iface _ h => Val.hashable h
  | .array _ es => Val.hashableList es
  | .struct _ fs => Val.hashableList fs
  | _ => true
/-- Whether every value of a list can be hashed. -/
def Val.hashableList : List Val → Bool
  | [] => true
  | a :: as => Val.hashable a && Val.hashableList as
end

/-- The conversion of `x` for storing it in a location of type `dst`
(`reflect.Value.assignTo`): a directly assignable value takes the type `dst`, a value
assigned to an interface type is wrapped. -/
def assignTo (context : String) (x : Val) (dst : Ty) : Res Val :=
  if !x.IsValid then .panic (context ++ ": zero Value")
  else if (x.typ == dst) ||
      (!(dst.hasName && x.typ.hasName) && (x.typ.underlying == dst.underlying)) then
    .ok (x.withType dst)
  else if dst.kind == .Interface && dst.methodSet.all (fun m => x.typ.methodSet.contains m) then
    match x with
    | .nil t => if t.kind = .Interface then .ok (.nil dst) else .ok (.iface dst (.nil t))
    | .iface _ h => .ok (.iface dst h)
    | v => .ok (.iface dst v)
  else .panic (context ++ ": value of type " ++ x.typ.typeString ++
    " is not assignable to type " ++ dst.typeString)

/-- The call `val.Set(x)` of `reflect`: it panics unless `val` is settable and the type of
`x` is assignable to the type of `val`; the result is the new contents of `val`. -/
def Val.Set (val : Val) (fl : Flags) (x : Val) : Res Val :=
  if !val.IsValid then .panic "reflect: call of reflect.Value.Set on zero Value"
  else if fl.ro then .panic "reflect: reflect.Value.Set using value obtained using unexported field"
  else if !fl.addr then .panic "reflect: reflect.Value.Set using unaddressable value"
  else assignTo "reflect.Set" x val.typ

/-- The checks shared by the typed setters of `reflect`. -/
def mustBeAssignable (what : String) (val : Val) (fl : Flags) : Res Unit :=
  if !val.IsValid then .panic ("reflect: call of " ++ what ++ " on zero Value")
  else if fl.ro then .panic ("reflect: " ++ what ++ " using value obtained using unexported field")
  else if !fl.addr then .panic ("reflect: " ++ what ++ " using unaddressable value")
  else .ok ()

/-- The call `val.SetBool(b)`. -/
def Val.SetBool (val : Val) (fl : Flags) (b : Bool) : Res Val :=
  (mustBeAssignable "reflect.Value.SetBool" val fl).bind fun _ =>
    if val.kind = .Bool then .ok (.bool val.typ b)
    else .panic "reflect: call of reflect.Value.SetBool on a value that is no bool"

/-- The call `val.SetString(s)`. -/
def Val.SetString (val : Val) (fl : Flags) (s : String) : Res Val :=
  (mustBeAssignable "reflect.Value.SetString" val fl).bind fun _ =>
    if val.kind = .String then .ok (.str val.typ s)
    else .panic "reflect: call of reflect.Value.SetString on a value that is no string"

/-- The value of `x` stored in a signed integer of `bits` bits (two's complement
truncation). -/
def wrapInt (bits : Nat) (x : Int) : Int :=
  let m := x % (2 ^ bits : Int)
  if m < (2 ^ (bits - 1) : Int) then m else m - (2 ^ bits : Int)

/-- The value of `x` stored in an unsigned integer of `bits` bits. -/
def wrapUint (bits : Nat) (x : Nat) : Nat := x % 2 ^ bits

/-- The call `val.SetInt(x)`: the value is truncated to the width of the target. -/
def Val.SetInt (val : Val) (fl : Flags) (x : Int) : Res Val :=
  (mustBeAssignable "reflect.Value.SetInt" val fl).bind fun _ =>
    match val.kind with
    | .Int | .Int8 | .Int16 | .Int32 | .Int64 => .ok (.int val.typ (wrapInt val.kind.bits x))
    | _ => .panic "reflect: call of reflect.Value.SetInt on a value that is no integer"

/-- The call `val.SetUint(x)`: the value is truncated to the width of the target. -/
def Val.SetUint (val : Val) (fl : Flags) (x : Nat) : Res Val :=
  (mustBeAssignable "reflect.Value.SetUint" val fl).bind fun _ =>
    match val.kind with
    | .Uint | .Uint8 | .Uint16 | .Uint32 | .Uint64 | .Uintptr =>
        .ok (.uint val.typ (wrapUint val.kind.bits x))
    | _ => .panic "reflect: call of reflect.Value.SetUint on a value that is no unsigned integer"

/-- The call `val.SetFloat(x)`: a `float32` target rounds the value. -/
def Val.SetFloat (val : Val) (fl : Flags) (x : GoFloat) : Res Val :=
  (mustBeAssignable "reflect.Value.SetFloat" val fl).bind fun _ =>
    match val.kind with
    | .Float32 => .ok (.float val.typ x.toFloat32)
    | .Float64 => .ok (.float val.typ x)
    | _ => .panic "reflect: call of reflect.Value.SetFloat on a value that is no float"

/-- The conversion `int64(f)` of a floating-point number. -/
def floatToInt64 (lib : GoLib) (f : GoFloat) : Int :=
  match f.trunc with
  | some i => if -(2 ^ 63 : Int) ≤ i ∧ i < (2 ^ 63 : Int) then i else lib.int64OutOfRange f
  | none => lib.int64OutOfRange f

/-- The conversion `uint64(f)` of a floating-point number. -/
def floatToUint64 (lib : GoLib) (f : GoFloat) : Nat :=
  match f.trunc with
  | some i => if 0 ≤ i ∧ i < (2 ^ 64 : Int) then i.toNat else lib.uint64OutOfRange f
  | none => lib.uint64OutOfRange f

/-! ### Maps -/

/-- The entry stored under a key equal to `k`. -/
def lookupEntry (k : Val) : List (Val × Val) → Option Val
  | [] => none
  | (k2, v) :: rest => if Val.goEq k2 k then some v else lookupEntry k rest

/-- Stores `v` under `k`: an entry with an equal key is overwritten in place, otherwise
the entry is added. -/
def upsertEntry (k v : Val) : List (Val × Val) → List (Val × Val)
  | [] => [(k, v)]
  | (k2, v2) :: rest => if Val.goEq k2 k then (k2, v) :: rest else (k2, v2) :: upsertEntry k v rest

/-- The key and element types of a map type (`Type.Key`, `Type.Elem`), which panic for
other types. -/
def Ty.mapTypes (t : Ty) : Res (Ty × Ty) :=
  match t.underlying with
  | .map k e => .ok (k, e)
  | _ => .panic "reflect: Key of non-map type"

/-- The element type of an array, channel, map, pointer or slice type (`Type.Elem`). -/
def Ty.Elem (t : Ty) : Res Ty :=
  match t.underlying with
  | .array _ e => .ok e
  | .chan e => .ok e
  | .map _ e => .ok e
  | .ptr e => .ok e
  | .slice e => .ok e
  | _ => .panic "reflect: Elem of invalid type"

/-- The entries of a map value; a nil map has none. -/
def Val.entries : Val → List (Val × Val)
  | .map _ es => es
  | _ => []

/-- The call `reflect.Value.MapKeys`: the keys in enumeration order. -/
def Val.MapKeys (m : Val) : Res (List Val) :=
  if m.kind = .Map then .ok (m.entries.map Prod.fst)
  else .panic "reflect: call of reflect.Value.MapKeys on a value that is no map"

/-- The call `m.MapIndex(key)`: the element stored under the key, the zero Value when
there is none. -/
def Val.MapIndex (m : Val) (key : Val) : Res Val :=
  if m.kind = .Map then
    m.typ.mapTypes.bind fun kt =>
      (assignTo "reflect.Value.MapIndex" key kt.1).bind fun k =>
        match lookupEntry k m.entries with
        | some v => .ok v
        | none => .ok .invalid
  else .panic "reflect: call of reflect.Value.MapIndex on a value that is no map"

/-- The call `m.SetMapIndex(key, elem)` with a valid `elem`, on a map that is not nil. -/
def Val.SetMapIndex (m : Val) (fl : Flags) (key elem : Val) : Res Val :=
  if fl.ro then .panic "reflect: reflect.Value.SetMapIndex using value obtained using unexported field"
  else
    match m with
    | .map t es =>
        t.mapTypes.bind fun kt =>
          (assignTo "reflect.Value.SetMapIndex" key kt.1).bind fun k =>
            (assignTo "reflect.Value.SetMapIndex" elem kt.2).bind fun e =>
              if k.hashable then .ok (.map t (upsertEntry k e es))
              else .panic "runtime error: hash of unhashable type"
    | .nil t =>
        if t.kind = .Map then .panic "assignment to entry in nil map"
        else .panic "reflect: call of reflect.Value.SetMapIndex on a value that is no map"
    | _ => .panic "reflect: call of reflect.Value.SetMapIndex on a value that is no map"

/-! ### Structs, tags and texts -/

/-- The fields of a struct type (`Type.NumField`, `Type.Field`), which panic for other
types. -/
def Ty.structFields (t : Ty) : Res (List StructField) :=
  match t.underlying with
  | .struct fs => .ok fs
  | _ => .panic "reflect: NumField of non-struct type"

/-- The field values of a struct value. -/
def Val.fieldVals : Val → List Val
  | .struct _ fs => fs
  | _ => []

/-- The elements of an array or slice value; a nil slice has none. -/
def Val.elems : Val → List Val
  | .array _ es => es
  | .slice _ es => es
  | _ => []

/-- The call `tag.Get(key)` of `reflect.StructTag`. -/
def tagGet (tag : List (String × String)) (key : String) : String :=
  match tag.find? (fun kv => kv.1 == key) with
  | some kv => kv.2
  | none => ""

/-- The parts of a text between commas, `cur` being the part read so far. -/
def splitOnComma : List Char → List Char → List String
  | [], cur => [String.mk cur]
  | c :: rest, cur =>
      if c = ',' then String.mk cur :: splitOnComma rest [] else splitOnComma rest (cur ++ [c])

/-- The call `strings.Split(s, ",")`. -/
def stringsSplit (s : String) : List String := splitOnComma s.data []

/-- The text before the first comma: `strings.SplitN(s, ",", 2)[0]`. -/
def beforeComma : List Char → List Char
  | [] => []
  | c :: rest => if c = ',' then [] else c :: beforeComma rest

/-- The first element of `strings.SplitN(s, ",", 2)`. -/
def stringsSplitN2Head (s : String) : String := String.mk (beforeComma s.data)

/-- The text `%s` prints for a map key held in a `reflect.Value`. -/
def fmtS (lib : GoLib) : Val → String
  | .str _ s => s
  | .iface _ (.str _ s) => s
  | .iface _ h => lib.badVerb h
  | v => lib.badVerb v

mutual
/-- Whether values of the type can be compared with `==` without a run-time panic. -/
def Ty.comparable : Ty → Bool
  | .named _ _ _ u => Ty.comparable u
  | .recur _ _ _ u => Ty.comparable u
  | .array _ e => Ty.comparable e
  | .func _ => false
  | .map _ _ => false
  | .slice _ => false
  | .struct fs => Ty.comparableFields fs
  | _ => true
/-- Whether all field types of a struct type are comparable. -/
def Ty.comparableFields : List StructField → Bool
  | [] => true
  | .mk _ _ _ _ t :: rest => Ty.comparable t && Ty.comparableFields rest
end

mutual
/-- Whether a type is written without a declared type that is defined in terms of itself,
so that taking element, key and field types comes to an end. -/
def Ty.nonRecursive : Ty → Bool
  | .named _ _ _ u => Ty.nonRecursive u
  | .array _ e => Ty.nonRecursive e
  | .chan e => Ty.nonRecursive e
  | .map k e => Ty.nonRecursive k && Ty.nonRecursive e
  | .ptr e => Ty.nonRecursive e
  | .slice e => Ty.nonRecursive e
  | .struct fs => Ty.nonRecursiveFields fs
  | .recur _ _ _ _ => false
  | .ref _ _ => false
  | _ => true
/-- Whether the types of all fields are written without such a declared type. -/
def Ty.nonRecursiveFields : List StructField → Bool
  | [] => true
  | .mk _ _ _ _ t :: rest => Ty.nonRecursive t && Ty.nonRecursiveFields rest
end

/-! ## The package -/

/-- The constant `tagName` of the source. -/
def tagName : String := "json"

/-- Modelled from the spec: `appendErrors` of `error.go`, which is not among the sources.
Every leaf failure adds one message: the messages of an aggregate error are added one by
one, any other error adds its own message. -/
def appendErrors (errors : List String) (err : GoError) : List String :=
  match err with
  | .agg es => errors ++ es
  | .plain m => errors ++ [m]

/-- The messages an optional error contributes to an accumulator. -/
def errorStrings : Option GoError → List String
  | none => []
  | some e => appendErrors [] e

/-- The end of a container converter: `&Error{errors}` when messages were collected. -/
def finish (v : Val) (errors : List String) : Outcome :=
  if errors.length > 0 then fail v (.agg errors) else done v

/-- The message of a type mismatch of the scalar converters. -/
def unconvertible (name : String) (vt dt : Ty) : GoError :=
  .plain ("'" ++ name ++ "' expected type '" ++ vt.typeString ++
    "', got unconvertible type '" ++ dt.typeString ++ "'")

/-- The function `decodeString` of the source. -/
def decodeString (name : String) (data val : Val) (fl : Flags) : Outcome :=
  let dataVal := Indirect data
  let dataKind := getKind dataVal
  if dataKind = .String then
    (val.SetString fl dataVal.getString).bind fun v => done v
  else
    val.TypeOf.bind fun vt => dataVal.TypeOf.bind fun dt => fail val (unconvertible name vt dt)

/-- The function `decodeInt` of the source. -/
def decodeInt (lib : GoLib) (name : String) (data val : Val) (fl : Flags) : Outcome :=
  let dataVal := Indirect data
  let dataKind := getKind dataVal
  dataVal.TypeOf.bind fun dataType =>
    if dataKind = .Int then
      (val.SetInt fl dataVal.getInt).bind fun v => done v
    else if dataKind = .Uint then
      (val.SetInt fl (wrapInt 64 dataVal.getUint)).bind fun v => done v
    else if dataKind = .Float32 then
      (val.SetInt fl (floatToInt64 lib dataVal.getFloat)).bind fun v => done v
    else if dataType.PkgPath = "encoding/json" ∧ dataType.Name = "Number" then
      if data.typ == jsonNumber then
        match lib.ParseInt data.getString with
        | .error err => fail val (.plain ("error decoding json.Number into " ++ name ++ ": " ++ err))
        | .ok i => (val.SetInt fl i).bind fun v => done v
      else .panic "interface conversion: interface is not json.Number"
    else
      val.TypeOf.bind fun vt => fail val (unconvertible name vt dataType)

/-- The function `decodeUint` of the source. -/
def decodeUint (lib : GoLib) (name : String) (data val : Val) (fl : Flags) : Outcome :=
  let dataVal := Indirect data
  let dataKind := getKind dataVal
  if dataKind = .Int then
    let i := dataVal.getInt
    if i < 0 then
      fail val (.plain ("cannot parse '" ++ name ++ "', " ++ fmtD i ++ " overflows uint"))
    else (val.SetUint fl i.toNat).bind fun v => done v
  else if dataKind = .Uint then
    (val.SetUint fl dataVal.getUint).bind fun v => done v
  else if dataKind = .Float32 then
    let f := dataVal.getFloat
    if f.ltZero then
      fail val (.plain ("cannot parse '" ++ name ++ "', " ++ fmtF f ++ " overflows uint"))
    else (val.SetUint fl (floatToUint64 lib f)).bind fun v => done v
  else
    val.TypeOf.bind fun vt => dataVal.TypeOf.bind fun dt => fail val (unconvertible name vt dt)

/-- The function `decodeBool` of the source. -/
def decodeBool (name : String) (data val : Val) (fl : Flags) : Outcome :=
  let dataVal := Indirect data
  let dataKind := getKind dataVal
  if dataKind ≠ .Bool then
    val.TypeOf.bind fun vt => dataVal.TypeOf.bind fun dt => fail val (unconvertible name vt dt)
  else
    (val.SetBool fl dataVal.getBool).bind fun v => done v

/-- The function `decodeFloat` of the source. -/
def decodeFloat (lib : GoLib) (name : String) (data val : Val) (fl : Flags) : Outcome :=
  let dataVal := Indirect data
  let dataKind := getKind dataVal
  dataVal.TypeOf.bind fun dataType =>
    if dataKind = .Int then
      (val.SetFloat fl (GoFloat.ofInt dataVal.getInt)).bind fun v => done v
    else if dataKind = .Uint then
      (val.SetFloat fl (GoFloat.ofNat dataVal.getUint)).bind fun v => done v
    else if dataKind = .Float32 then
      (val.SetFloat fl dataVal.getFloat).bind fun v => done v
    else if dataType.PkgPath = "encoding/json" ∧ dataType.Name = "Number" then
      if data.typ == jsonNumber then
        match lib.ParseFloat data.getString with
        | .error err => fail val (.plain ("error decoding json.Number into " ++ name ++ ": " ++ err))
        | .ok i => (val.SetFloat fl i).bind fun v => done v
      else .panic "interface conversion: interface is not json.Number"
    else
      val.TypeOf.bind fun vt => fail val (unconvertible name vt dataType)

/-- The target after the value it holds or points to has become `new`. -/
def Val.setElem (v new : Val) : Val :=
  match v with
  | .iface t _ => .iface t new
  | .ptr t _ => .ptr t new
  | v => v

/-- The flags of `val.Elem()`. -/
def Flags.elem (fl : Flags) (k : Kind) : Flags :=
  if k = .Ptr then fl.pointee else fl.held

/-- The function `decodeBasic` of the source. -/
def decodeBasic (dec : Dec) (name : String) (data val : Val) (fl : Flags) : Outcome :=
  (if val.IsValid then val.Elem.bind fun e => .ok e.IsValid else .ok false).bind fun held =>
    if held then
      val.Elem.bind fun e =>
        (dec name data e (fl.elem val.kind)).bind fun r => .ok (val.setElem r.1, r.2)
    else
      let dataVal := data
      (if dataVal.kind = .Ptr then
          dataVal.typ.Elem.bind fun et => val.TypeOf.bind fun vt => .ok (et == vt)
        else .ok false).bind fun deref =>
        let dataVal := if deref then Indirect dataVal else dataVal
        (if !dataVal.IsValid then val.TypeOf.bind fun vt => .ok (Zero vt) else .ok dataVal).bind
          fun dataVal =>
            dataVal.TypeOf.bind fun dataValType =>
              val.TypeOf.bind fun vt =>
                if !dataValType.AssignableTo vt then
                  fail val (.plain ("'" ++ name ++ "' expected type '" ++ vt.typeString ++
                    "', got '" ++ dataValType.typeString ++ "'"))
                else (val.Set fl dataVal).bind fun v => done v

/-- The function `decodeFunc` of the source. -/
def decodeFunc (name : String) (data val : Val) (fl : Flags) : Outcome :=
  let dataVal := Indirect data
  val.TypeOf.bind fun vt =>
    dataVal.TypeOf.bind fun dt =>
      if vt != dt then fail val (unconvertible name vt dt)
      else (val.Set fl dataVal).bind fun v => done v

/-- The target of `decodePtr` after the value `reflect.Indirect(val)` has become `new`. -/
def afterIndirect (val new : Val) : Val :=
  if val.kind = .Ptr then val.setElem new else new

/-- The function `decodePtr` of the source. -/
def decodePtr (dec : Dec) (name : String) (data val : Val) (fl : Flags) : Outcome :=
  let isNil := !data.IsValid
  (if !isNil then
      let v := Indirect data
      match v.kind with
      | .Chan | .Func | .Interface | .Map | .Ptr | .Slice => v.IsNil
      | _ => .ok isNil
    else .ok isNil).bind fun isNil =>
    if isNil then
      val.IsNil.bind fun vn =>
        if !vn && fl.CanSet then (val.Set fl (Zero val.typ)).bind fun v => done v
        else done val
    else
      val.TypeOf.bind fun valType =>
        valType.Elem.bind fun valElemType =>
          if fl.CanSet then
            val.IsNil.bind fun vn =>
              let realVal := if vn then Val.ptr (.ptr valElemType) (Zero valElemType) else val
              (dec name data (Indirect realVal) fl.pointee).bind fun r =>
                match r.2 with
                | some err => fail (if vn then val else val.setElem r.1) err
                | none => (val.Set fl (realVal.setElem r.1)).bind fun v => done v
          else
            (dec name data (Indirect val) (if val.kind = Kind.Ptr then fl.pointee else fl)).bind
              fun r => .ok (afterIndirect val r.1, r.2)

/-- The flags of a value made by `reflect.MakeMap` or `reflect.MakeSlice`. -/
def Flags.made : Flags := { addr := false, ro := false }

/-- Whether the value is the nil value of its type. -/
def Val.isNilVal : Val → Bool
  | .nil _ => true
  | _ => false

/-- The loop of `decodeMapFromMap` over the keys of the source: each key and then its
value are decoded into fresh zero values, a failure skips the entry, and a decoded entry
is stored in `valMap`. -/
def decodeMapFromMapLoop (dec : Dec) (lib : GoLib) (name : String) (dataVal : Val)
    (valKeyType valElemType : Ty) (mfl : Flags) :
    List Val → Val → List String → Res (Val × List String)
  | [], valMap, errors => .ok (valMap, errors)
  | k :: ks, valMap, errors =>
      let fieldName := name ++ "[" ++ fmtS lib k ++ "]"
      k.Interface.bind fun kd =>
        (dec fieldName kd (Zero valKeyType) Flags.fresh).bind fun rk =>
          match rk.2 with
          | some err =>
              decodeMapFromMapLoop dec lib name dataVal valKeyType valElemType mfl ks valMap
                (appendErrors errors err)
          | none =>
              (dataVal.MapIndex k).bind fun ev =>
                ev.Interface.bind fun v =>
                  (dec fieldName v (Zero valElemType) Flags.fresh).bind fun rv =>
                    match rv.2 with
                    | some err =>
                        decodeMapFromMapLoop dec lib name dataVal valKeyType valElemType mfl ks
                          valMap (appendErrors errors err)
                    | none =>
                        (valMap.SetMapIndex mfl rk.1 rv.1).bind fun m =>
                          decodeMapFromMapLoop dec lib name dataVal valKeyType valElemType mfl
                            ks m errors

/-- The function `decodeMapFromMap` of the source.  `valMap` (with flags `mfl`) is `val`
itself when `val` is not nil and a fresh empty map otherwise. -/
def decodeMapFromMap (dec : Dec) (lib : GoLib) (name : String) (dataVal val : Val) (fl : Flags)
    (valMap : Val) (mfl : Flags) : Outcome :=
  val.TypeOf.bind fun valType =>
    valType.mapTypes.bind fun kt =>
      dataVal.Len.bind fun n =>
        if n = 0 then
          dataVal.IsNil.bind fun dn =>
            if dn then
              val.IsNil.bind fun vn =>
                if !vn then (val.Set fl dataVal).bind fun v => done v else done val
            else (val.Set fl valMap).bind fun v => done v
        else
          dataVal.MapKeys.bind fun keys =>
            (decodeMapFromMapLoop dec lib name dataVal kt.1 kt.2 mfl keys valMap []).bind fun r =>
              (val.Set fl r.1).bind fun v => finish v r.2

/-- The function `isEmptyValue` of the source. -/
def isEmptyValue (v : Val) : Res Bool :=
  match getKind v with
  | .Array | .Map | .Slice | .String => v.Len.bind fun n => .ok (n == 0)
  | .Bool => .ok (!v.getBool)
  | .Int | .Int8 | .Int16 | .Int32 | .Int64 => .ok (v.getInt == 0)
  | .Uint | .Uint8 | .Uint16 | .Uint32 | .Uint64 | .Uintptr => .ok (v.getUint == 0)
  | .Float32 | .Float64 => .ok v.getFloat.isZero
  | .Interface | .Ptr => v.IsNil
  | _ => .ok false

/-- The loop of `decodeMapFromStruct` over the fields of the source struct.  It yields
`valMap` as the loop leaves it and the error the function returns from inside the loop. -/
def decodeMapFromStructLoop (dec : Dec) (mfl : Flags) :
    List StructField → List Val → Val → Res (Val × Option GoError)
  | [], _, valMap => .ok (valMap, none)
  | f :: fs, [], valMap =>
      if f.PkgPath ≠ "" then decodeMapFromStructLoop dec mfl fs [] valMap
      else .panic "reflect: Field index out of range"
  | f :: fs, v :: vs, valMap =>
      if f.PkgPath ≠ "" then decodeMapFromStructLoop dec mfl fs vs valMap
      else
        v.TypeOf.bind fun vt =>
          valMap.TypeOf.bind fun mt =>
            mt.Elem.bind fun et =>
              if !vt.AssignableTo et then
                .ok (valMap, some (.plain ("cannot assign type '" ++ vt.typeString ++
                  "' to map value field of type '" ++ et.typeString ++ "'")))
              else
                let tagValue := tagGet f.Tag tagName
                let tagParts := stringsSplit tagValue
                let omitempty := tagParts.tail.any (fun tag => tag == "omitempty")
                (if omitempty then isEmptyValue v else .ok false).bind fun skip =>
                  if skip then decodeMapFromStructLoop dec mfl fs vs valMap
                  else if tagParts.headD "" ≠ "" ∧ tagParts.headD "" = "-" then
                    decodeMapFromStructLoop dec mfl fs vs valMap
                  else
                    let keyName := if tagParts.headD "" ≠ "" then tagParts.headD "" else f.Name
                    if v.kind = .Struct then
                      let x := Val.ptr (.ptr vt) v
                      mt.mapTypes.bind fun kt =>
                        let vMap := Val.map (.map kt.1 kt.2) []
                        (dec keyName x vMap Flags.made).bind fun r =>
                          match r.2 with
                          | some err => .ok (valMap, some err)
                          | none =>
                              (valMap.SetMapIndex mfl (.str (.basic .String) keyName) r.1).bind
                                fun m => decodeMapFromStructLoop dec mfl fs vs m
                    else
                      (valMap.SetMapIndex mfl (.str (.basic .String) keyName) v).bind
                        fun m => decodeMapFromStructLoop dec mfl fs vs m

/-- The function `decodeMapFromStruct` of the source.  `valMap` is `val` itself when `val`
is not nil, so that entries stored in it are then visible through `val` even when the
function returns early or does not reach `val.Set`. -/
def decodeMapFromStruct (dec : Dec) (name : String) (dataVal val : Val) (fl : Flags)
    (valMap : Val) (mfl : Flags) : Outcome :=
  let _ := name
  dataVal.TypeOf.bind fun typ =>
    typ.structFields.bind fun fs =>
      (decodeMapFromStructLoop dec mfl fs dataVal.fieldVals valMap).bind fun r =>
        match r.2 with
        | some err => fail (if val.isNilVal then val else r.1) err
        | none =>
            if fl.CanAddr then (val.Set fl r.1).bind fun v => done v
            else done (if val.isNilVal then val else r.1)

/-- The function `decodeMap` of the source. -/
def decodeMap (dec : Dec) (lib : GoLib) (name : String) (data val : Val) (fl : Flags) :
    Outcome :=
  val.TypeOf.bind fun valType =>
    valType.mapTypes.bind fun kt =>
      val.IsNil.bind fun vn =>
        let valMap := if vn then Val.map (.map kt.1 kt.2) [] else val
        let mfl := if vn then Flags.made else fl
        let dataVal := Indirect data
        match dataVal.kind with
        | .Map => decodeMapFromMap dec lib name dataVal val fl valMap mfl
        | .Struct => decodeMapFromStruct dec name dataVal val fl valMap mfl
        | k => fail val (.plain ("'" ++ name ++ "' expected a map, got '" ++ kindString k ++ "'"))

/-- The loop of `decodeSlice` and of `decodeArray` over the indices `i, i+1, ...` of the
source (`remaining` of them are left): element `i` of the source is decoded into element
`i` of the working value `vs`, which a slice target (`grow`) extends with zero values on
demand. -/
def decodeElems (dec : Dec) (name : String) (dataVal : Val) (valElemType : Ty) (efl : Flags)
    (grow : Bool) : Nat → Nat → List Val → List String → Res (List Val × List String)
  | 0, _, vs, errors => .ok (vs, errors)
  | remaining + 1, i, vs, errors =>
      (dataVal.Index i).bind fun e =>
        e.Interface.bind fun currentData =>
          let vs := if grow then vs ++ List.replicate (i + 1 - vs.length) (Zero valElemType) else vs
          match vs.get? i with
          | none => .panic "reflect: array index out of range"
          | some currentField =>
              let fieldName := name ++ "[" ++ toString i ++ "]"
              (dec fieldName currentData currentField efl).bind fun r =>
                decodeElems dec name dataVal valElemType efl grow remaining (i + 1)
                  (vs.set i r.1)
                  (match r.2 with
                    | some err => appendErrors errors err
                    | none => errors)

/-- The part of `decodeSlice` and `decodeArray` after the working value is chosen: the
loop, `val.Set` and the collected errors. -/
def decodeInto (dec : Dec) (name : String) (dataVal val : Val) (fl : Flags)
    (valElemType : Ty) (work : Val) (efl : Flags) (grow : Bool) : Outcome :=
  dataVal.Len.bind fun n =>
    (decodeElems dec name dataVal valElemType efl grow n 0 work.elems []).bind fun r =>
      (val.Set fl (match work with
        | .array t _ => .array t r.1
        | .slice t _ => .slice t r.1
        | w => w)).bind fun v => finish v r.2

/-- The function `decodeSlice` of the source. -/
def decodeSlice (dec : Dec) (name : String) (data val : Val) (fl : Flags) : Outcome :=
  let dataVal := Indirect data
  let dataValKind := dataVal.kind
  val.TypeOf.bind fun valType =>
    valType.Elem.bind fun valElemType =>
      let sliceType := Ty.slice valElemType
      val.IsNil.bind fun vn =>
        if vn then
          if dataValKind ≠ .Array ∧ dataValKind ≠ .Slice then
            fail val (.plain ("'" ++ name ++ "': source data must be an array or slice, got " ++
              kindString dataValKind))
          else
            dataVal.Len.bind fun n =>
              if n = 0 then done val
              else
                decodeInto dec name dataVal val fl valElemType
                  (.slice sliceType (List.replicate n (Zero valElemType))) Flags.fresh true
        else decodeInto dec name dataVal val fl valElemType val fl.sliceElem true

/-- The length of an array type (`Type.Len`), which panics for other types. -/
def Ty.Len (t : Ty) : Res Nat :=
  match t.underlying with
  | .array n _ => .ok n
  | _ => .panic "reflect: Len of non-array type"

/-- The function `decodeArray` of the source. -/
def decodeArray (dec : Dec) (name : String) (data val : Val) (fl : Flags) : Outcome :=
  let dataVal := Indirect data
  let dataValKind := dataVal.kind
  val.TypeOf.bind fun valType =>
    valType.Elem.bind fun valElemType =>
      valType.Len.bind fun len =>
        let arrayType := Ty.array len valElemType
        if fl.ro then .panic "reflect.Value.Interface: cannot return value obtained from unexported field or method"
        else if !valType.comparable then
          .panic ("runtime error: comparing uncomparable type " ++ valType.typeString)
        else if Val.goEq val (Zero valType) then
          if dataValKind ≠ .Array ∧ dataValKind ≠ .Slice then
            fail val (.plain ("'" ++ name ++ "': source data must be an array or slice, got " ++
              kindString dataValKind))
          else
            dataVal.Len.bind fun n =>
              if n > len then
                fail val (.plain ("'" ++ name ++
                  "': expected source data to have length less or equal to " ++ toString len ++
                  ", got " ++ toString n))
              else
                decodeInto dec name dataVal val fl valElemType (Zero arrayType) Flags.fresh false
        else decodeInto dec name dataVal val fl valElemType val fl false

/-- The first key of the source that is a `string` equal to the field name under
`strings.EqualFold`: the slower search of `decodeStructFromMap`. -/
def findFold (lib : GoLib) (fieldName : String) : List Val → Option Val
  | [] => none
  | k :: ks =>
      match k.Interface with
      | .ok (.str t mK) =>
          if t == .basic .String && lib.EqualFold mK fieldName then some k
          else findFold lib fieldName ks
      | _ => findFold lib fieldName ks

/-- The source entry for a field of `decodeStructFromMap`: the entry under the exact name
or else the one the slower search finds; the zero Value when there is none. -/
def resolveField (lib : GoLib) (dataVal : Val) (keys : List Val) (fieldName : String) :
    Res Val :=
  (dataVal.MapIndex (.str (.basic .String) fieldName)).bind fun rawMapVal =>
    if !rawMapVal.IsValid then
      match findFold lib fieldName keys with
      | some k => dataVal.MapIndex k
      | none => .ok .invalid
    else .ok rawMapVal

/-- The name under which `decodeStructFromMap` looks a field up: the tag value before the
first comma, or else the declared name. -/
def effectiveName (field : StructField) : String :=
  let fieldName := field.Name
  let tagValue := tagGet field.Tag tagName
  let tagValue := stringsSplitN2Head tagValue
  if tagValue ≠ "" then tagValue else fieldName

/-- The loop of `decodeStructFromMap` over the fields of the target: it yields the field
values after the loop and the messages collected. -/
def decodeStructFields (dec : Dec) (lib : GoLib) (name : String) (dataVal : Val)
    (keys : List Val) (fl : Flags) :
    List StructField → List Val → List String → Res (List Val × List String)
  | [], vs, errors => .ok (vs, errors)
  | _ :: _, [], _ => .panic "reflect: Field index out of range"
  | field :: fs, fieldValue :: vs, errors =>
      let fieldName := effectiveName field
      (resolveField lib dataVal keys fieldName).bind fun rawMapVal =>
        if !rawMapVal.IsValid then
          (decodeStructFields dec lib name dataVal keys fl fs vs errors).bind fun rest =>
            .ok (fieldValue :: rest.1, rest.2)
        else if !fieldValue.IsValid then .panic "field is not valid"
        else if !(fl.field field).CanSet then
          (decodeStructFields dec lib name dataVal keys fl fs vs errors).bind fun rest =>
            .ok (fieldValue :: rest.1, rest.2)
        else
          let fieldName := if name ≠ "" then name ++ "." ++ fieldName else fieldName
          rawMapVal.Interface.bind fun d =>
            (dec fieldName d fieldValue (fl.field field)).bind fun r =>
              (decodeStructFields dec lib name dataVal keys fl fs vs
                (match r.2 with
                  | some err => appendErrors errors err
                  | none => errors)).bind fun rest => .ok (r.1 :: rest.1, rest.2)

/-- The struct value with other field values. -/
def Val.withFields (v : Val) (fs : List Val) : Val :=
  match v with
  | .struct t _ => .struct t fs
  | v => v

/-- The function `decodeStructFromMap` of the source. -/
def decodeStructFromMap (dec : Dec) (lib : GoLib) (name : String) (dataVal val : Val)
    (fl : Flags) : Outcome :=
  dataVal.TypeOf.bind fun dataValType =>
    dataValType.mapTypes.bind fun kt =>
      if kt.1.kind ≠ .String ∧ kt.1.kind ≠ .Interface then
        fail val (.plain ("'" ++ name ++ "' needs a map with string keys, has '" ++
          kindString kt.1.kind ++ "' keys"))
      else
        dataVal.MapKeys.bind fun dataValKeys =>
          val.TypeOf.bind fun structType =>
            structType.structFields.bind fun fields =>
              if val.fieldVals.length < fields.length then
                .panic "reflect: Field index out of range"
              else
                (decodeStructFields dec lib name dataVal dataValKeys fl fields val.fieldVals
                  []).bind fun r => finish (val.withFields r.1) r.2

/-- The function `decodeStruct` of the source. -/
def decodeStruct (dec : Dec) (lib : GoLib) (name : String) (data val : Val) (fl : Flags) :
    Outcome :=
  let dataVal := Indirect data
  dataVal.TypeOf.bind fun dt =>
    val.TypeOf.bind fun vt =>
      if dt == vt then (val.Set fl dataVal).bind fun v => done v
      else
        match dataVal.kind with
        | .Map => decodeStructFromMap dec lib name dataVal val fl
        | .Struct =>
            let mval := Val.map (.map (.basic .String) emptyInterface) []
            (decodeMapFromStruct dec name dataVal mval Flags.fresh mval Flags.fresh).bind fun r =>
              match r.2 with
              | some err => fail val err
              | none => decodeStructFromMap dec lib name r.1 val fl
        | k => fail val (.plain ("'" ++ name ++ "' expected a map, got '" ++ kindString k ++ "'"))

/-- The body of the method `decode` of the source, `dec` standing for its recursive
calls. -/
def decodeBody (dec : Dec) (lib : GoLib) (name : String) (input outVal : Val) (fl : Flags) :
    Outcome :=
  let inputVal := if input.IsValid then input else Val.invalid
  (if input.IsValid then
      if inputVal.kind = .Ptr then
        inputVal.IsNil.bind fun n => .ok (if n then Val.invalid else input)
      else .ok input
    else .ok input).bind fun input =>
    if !input.IsValid then done outVal
    else if !inputVal.IsValid then
      outVal.TypeOf.bind fun t => (outVal.Set fl (Zero t)).bind fun v => done v
    else
      match getKind outVal with
      | .Bool => decodeBool name input outVal fl
      | .Interface => decodeBasic dec name input outVal fl
      | .String => decodeString name input outVal fl
      | .Int => decodeInt lib name input outVal fl
      | .Uint => decodeUint lib name input outVal fl
      | .Float32 => decodeFloat lib name input outVal fl
      | .Struct => decodeStruct dec lib name input outVal fl
      | .Map => decodeMap dec lib name input outVal fl
      | .Ptr => decodePtr dec name input outVal fl
      | .Slice => decodeSlice dec name input outVal fl
      | .Array => decodeArray dec name input outVal fl
      | .Func => decodeFunc name input outVal fl
      | k => fail outVal (.plain (name ++ ": unsupported type: " ++ kindString k))

/-- The method `decode` of the source; `fuel` bounds the depth of its recursion. -/
def decode (lib : GoLib) : Nat → Dec
  | 0 => fun _ _ _ _ => .outOfFuel
  | fuel + 1 => decodeBody (decode lib fuel) lib

/-- The type `Decoder` of the source. -/
structure Decoder where
  Result : Val

/-- The method `Decode` of `Decoder`: the outcome carries the value `Result` points to. -/
def Decoder.Decode (lib : GoLib) (fuel : Nat) (d : Decoder) (input : Val) : Outcome :=
  d.Result.Elem.bind fun e => decode lib fuel "" input e (Flags.fresh.elem d.Result.kind)

/-- The function `Decode` of the source: the outcome carries `output`, with the value it
points to as the call left it. -/
def Decode (lib : GoLib) (fuel : Nat) (input output : Val) : Outcome :=
  let val := output
  if val.kind ≠ .Ptr then fail output (.plain "result must be a pointer")
  else
    val.Elem.bind fun e =>
      if !(e.IsValid && (Flags.fresh.elem val.kind).CanAddr) then
        fail output (.plain "result must be addressable (a pointer)")
      else
        (Decoder.Decode lib fuel { Result := output } input).bind fun r =>
          .ok (output.setElem r.1, r.2)

/-! ## A library instance

ASCII case folding, decimal numerals and the out-of-range conversions of amd64. -/

/-- The value of a decimal digit. -/
def digitVal (c : Char) : Option Nat :=
  if '0' ≤ c ∧ c ≤ '9' then some (c.toNat - '0'.toNat) else none

/-- The number a list of decimal digits denotes, after the digits `acc` read so far. -/
def parseDigits : List Char → Nat → Option Nat
  | [], acc => some acc
  | c :: rest, acc =>
      match digitVal c with
      | some d => parseDigits rest (acc * 10 + d)
      | none => none

/-- The sign of a numeral and the rest of its text. -/
def splitSign : List Char → Bool × List Char
  | '-' :: rest => (true, rest)
  | '+' :: rest => (false, rest)
  | cs => (false, cs)

/-- A decimal `strconv.ParseInt(s, 10, 64)`. -/
def parseIntDecimal (s : String) : Except String Int :=
  let sr := splitSign s.data
  if sr.2.isEmpty then .error ("strconv.ParseInt: parsing \"" ++ s ++ "\": invalid syntax")
  else
    match parseDigits sr.2 0 with
    | none => .error ("strconv.ParseInt: parsing \"" ++ s ++ "\": invalid syntax")
    | some n =>
        let i : Int := if sr.1 then -(n : Int) else n
        if -(2 ^ 63 : Int) ≤ i ∧ i < (2 ^ 63 : Int) then .ok i
        else .error ("strconv.ParseInt: parsing \"" ++ s ++ "\": value out of range")

/-- The `float64` nearest to the fraction `n / d`. -/
def nearestFloat (neg : Bool) (n d : Nat) : GoFloat :=
  if n = 0 then .fin neg 0 0
  else
    let s0 : Int := 52 + (bitLen d d : Int) - (bitLen n n : Int)
    let scaled (s : Int) : Nat × Nat :=
      if 0 ≤ s then (n * 2 ^ s.toNat, d) else (n, d * 2 ^ (-s).toNat)
    let s : Int := if (scaled s0).1 / (scaled s0).2 < 2 ^ 52 then s0 + 1 else s0
    (GoFloat.fin neg (roundHalfEven (scaled s).1 (scaled s).2) (-s)).round 53 (-1074) 1024

/-- A `strconv.ParseFloat(s, 64)` for numerals of the form `digits` or `digits.digits`
with an optional sign. -/
def parseFloatDecimal (s : String) : Except String GoFloat :=
  let sr := splitSign s.data
  let ip := sr.2.takeWhile (fun c => c != '.')
  let fp := (sr.2.dropWhile (fun c => c != '.')).drop 1
  if ip.isEmpty ∧ fp.isEmpty then
    .error ("strconv.ParseFloat: parsing \"" ++ s ++ "\": invalid syntax")
  else
    match parseDigits (ip ++ fp) 0 with
    | none => .error ("strconv.ParseFloat: parsing \"" ++ s ++ "\": invalid syntax")
    | some n => .ok (nearestFloat sr.1 n (10 ^ fp.length))

/-- Equality of two texts after folding the ASCII letters to lower case. -/
def asciiEqualFold (a b : String) : Bool :=
  a.data.map Char.toLower == b.data.map Char.toLower

/-- A library instance for concrete runs. -/
def stdLib : GoLib where
  EqualFold := asciiEqualFold
  ParseInt := parseIntDecimal
  ParseFloat := parseFloatDecimal
  int64OutOfRange := fun _ => -(2 ^ 63 : Int)
  uint64OutOfRange := fun _ => 2 ^ 63
  badVerb := fun v => "%!s(" ++ v.typ.typeString ++ ")"

/-! ## Values used in concrete runs -/

/-- The type `string`. -/
def tString : Ty := .basic .String

/-- The type `int`. -/
def tInt : Ty := .basic .Int

/-- The type `map[string]string`. -/
def tMapSS : Ty := .map tString tString

/-- The type `map[string]interface{}`. -/
def tMapSI : Ty := .map tString emptyInterface

/-- An exported field without a tag. -/
def plainField (n : String) (t : Ty) : StructField := .mk n "" [] false t

/-- A value stored in an `interface{}` slot. -/
def boxed (v : Val) : Val := .iface emptyInterface v

/-- A text of type `string`. -/
def text (s : String) : Val := .str tString s

/-! ## Notions used in the statements -/

/-- Whether a type is the deferred-precision numeral the integer and floating-point
converters test for: the type named `Number` of package `encoding/json`. -/
def isNumeral (t : Ty) : Bool := t.PkgPath == "encoding/json" && t.Name == "Number"

/-- The text of a map key: the key itself when it is a string, or the string an interface
key holds. -/
def keyText : Val → Option String
  | .str _ s => some s
  | .iface _ (.str _ s) => some s
  | _ => none

/-- Whether a source key equals a field name exactly or under `strings.EqualFold`. -/
def keyMatches (lib : GoLib) (k : Val) (n : String) : Bool :=
  match keyText k with
  | some s => s == n || lib.EqualFold s n
  | none => false

/-- A map type keyed by text: its key type is `string` or `interface{}`. -/
def textKeyed (t : Ty) : Prop :=
  ∃ et : Ty, t.underlying = Ty.map (Ty.basic Kind.String) et ∨
    t.underlying = Ty.map emptyInterface et

/-- The path of a field below `name`. -/
def fieldPath (name : String) (field : StructField) : String :=
  if name ≠ "" then name ++ "." ++ effectiveName field else effectiveName field

/-- What `decodeStructFromMap` does with one field of the target: the value the field holds
afterwards and the messages it adds.  A field without a source entry and a field that
cannot be set keep their value; any other field is decoded from its entry. -/
def fieldOutcome (dec : Dec) (lib : GoLib) (name : String) (dataVal : Val) (keys : List Val)
    (fl : Flags) (field : StructField) (fieldValue : Val) : Res (Val × List String) :=
  (resolveField lib dataVal keys (effectiveName field)).bind fun rawMapVal =>
    if !rawMapVal.IsValid then .ok (fieldValue, [])
    else if !fieldValue.IsValid then .panic "field is not valid"
    else if !(fl.field field).CanSet then .ok (fieldValue, [])
    else
      rawMapVal.Interface.bind fun d =>
        (dec (fieldPath name field) d fieldValue (fl.field field)).bind fun r =>
          .ok (r.1, errorStrings r.2)

/-- The struct `Basic` of the tests, cut down to the fields `VInt` and `VUint`. -/
def tMergeTarget : Ty :=
  .named "mapstructure" "Basic" []
    (.struct [plainField "VInt" tInt, plainField "VUint" (.basic .Uint)])

/-- The input of `TestBasic_Merge`. -/
def mergeInput : Val := .map tMapSI [(text "vint", boxed (.int tInt 42))]

/-- The target of `TestBasic_Merge`, with `VUint` set to 100. -/
def mergeTarget : List Val := [.int tInt 0, .uint (.basic .Uint) 100]

/-- The struct `Person` of the examples. -/
def tPerson : Ty :=
  .named "mapstructure" "Person" []
    (.struct [plainField "Name" tString, plainField "Age" tInt,
      plainField "Emails" (.slice tString), plainField "Extra" tMapSS])

/-- The input of `ExampleDecode_errors`. -/
def personErrInput : Val :=
  .map tMapSI
    [(text "name", boxed (.int tInt 123)),
     (text "age", boxed (text "bad value")),
     (text "emails", boxed (.slice (.slice tInt) [.int tInt 1, .int tInt 2, .int tInt 3]))]

/-- The messages of `ExampleDecode_errors`, in the order in which they are collected. -/
def personErrMessages : List String :=
  ["'Name' expected type 'string', got unconvertible type 'int'",
   "'Age' expected type 'int', got unconvertible type 'string'",
   "'Emails[0]' expected type 'string', got unconvertible type 'int'",
   "'Emails[1]' expected type 'string', got unconvertible type 'int'",
   "'Emails[2]' expected type 'string', got unconvertible type 'int'"]

/-- A struct with two fields of `TypeConversionResult` of the tests. -/
def tConv : Ty :=
  .named "mapstructure" "TypeConversionResult" []
    (.struct [plainField "IntToUint" (.basic .Uint), plainField "IntToString" tString])

/-- The entries `IntToUint: 42` and `IntToString: 42` of `TestDecode_TypeConversion`. -/
def convEntries : List (Val × Val) :=
  [(text "IntToUint", boxed (.int tInt 42)), (text "IntToString", boxed (.int tInt 42))]

/-- The error of the conversion of index `idx` in the loop of `decodeSlice` and
`decodeArray`: element `idx` of the source was decoded into some current element and the
call returned `out`. -/
def indexOutcome (dec : Dec) (name : String) (src : Val) (efl : Flags) (idx : Nat)
    (out : Option GoError) : Prop :=
  ∃ d cur w : Val, (src.Index idx).bind Val.Interface = Res.ok d ∧
    dec (name ++ "[" ++ toString idx ++ "]") d cur efl = Res.ok (w, out)

/-- The error of the conversion of the entry under key `k` in the loop of
`decodeMapFromMap`: the error of the conversion of the key or, when the key was converted,
the error of the conversion of the value. -/
def entryOutcome (dec : Dec) (lib : GoLib) (name : String) (src : Val) (kt et : Ty) (k : Val)
    (out : Option GoError) : Prop :=
  ∃ kd w : Val, k.Interface = Res.ok kd ∧
    ((∃ err, out = some err ∧
        dec (name ++ "[" ++ fmtS lib k ++ "]") kd (Zero kt) Flags.fresh = Res.ok (w, some err)) ∨
      (dec (name ++ "[" ++ fmtS lib k ++ "]") kd (Zero kt) Flags.fresh = Res.ok (w, none) ∧
        ∃ vd w2 : Val, (src.MapIndex k).bind Val.Interface = Res.ok vd ∧
          dec (name ++ "[" ++ fmtS lib k ++ "]") vd (Zero et) Flags.fresh = Res.ok (w2, out)))

/-- The fields of `Person`. -/
def personFields : List StructField :=
  [plainField "Name" tString, plainField "Age" tInt, plainField "Emails" (.slice tString),
    plainField "Extra" tMapSS]

/-- The field values of a zero `Person`. -/
def personZero : List Val := [text "", .int tInt 0, .nil (.slice tString), .nil tMapSS]

/-- The field values of the `Person` after `ExampleDecode_errors`. -/
def personAfterErrors : List Val :=
  [text "", .int tInt 0, .slice (.slice tString) [text "", text "", text ""], .nil tMapSS]

/-- The path of the entry under key `k` of a map at path `name`. -/
def entryPath (lib : GoLib) (name : String) (k : Val) : String :=
  name ++ "[" ++ fmtS lib k ++ "]"

/-- The converted key and value of the source entry under key `k`, when both the key and
the value convert: each is decoded into a zero value of the key and element type of the
target and the call returns nil. -/
def entryConversion (dec : Dec) (lib : GoLib) (name : String) (src : Val) (kt et : Ty)
    (k : Val) : Option (Val × Val) :=
  match k.Interface with
  | .ok kd =>
      match dec (entryPath lib name k) kd (Zero kt) Flags.fresh with
      | .ok (ck, none) =>
          match (src.MapIndex k).bind Val.Interface with
          | .ok vd =>
              match dec (entryPath lib name k) vd (Zero et) Flags.fresh with
              | .ok (cv, none) => some (ck, cv)
              | _ => none
          | _ => none
      | _ => none
  | _ => none

/-- The upsert of the spec: the previous contents `old` of the target, into which every
source entry whose key and value both convert is stored under its converted key, in the
order of the source keys `ks`. -/
def upsertConverted (conv : Val → Option (Val × Val)) (ks : List Val)
    (old : List (Val × Val)) : List (Val × Val) :=
  ks.foldl (fun acc k =>
    match conv k with
    | some ckv => upsertEntry ckv.1 ckv.2 acc
    | none => acc) old

/-- The conversions of the source entry under key `k` return, and a converted key or value
is a value of the key or element type of the target, the key one that can be hashed. -/
def entryReturns (dec : Dec) (lib : GoLib) (name : String) (src : Val) (kt et : Ty)
    (k : Val) : Prop :=
  ∃ (kd : Val) (rk : Val × Option GoError), k.Interface = Res.ok kd ∧
    dec (entryPath lib name k) kd (Zero kt) Flags.fresh = Res.ok rk ∧
    (rk.2 = none →
      rk.1.IsValid = true ∧ rk.1.typ = kt ∧ rk.1.hashable = true ∧
      ∃ (vd : Val) (rv : Val × Option GoError),
        (src.MapIndex k).bind Val.Interface = Res.ok vd ∧
        dec (entryPath lib name k) vd (Zero et) Flags.fresh = Res.ok rv ∧
        (rv.2 = none → rv.1.IsValid = true ∧ rv.1.typ = et))

/-- The source and target types of `TestMapMerge`: `map[interface{}]interface{}`. -/
def tMapII : Ty := .map emptyInterface emptyInterface

/-- The entries of the source map of `TestMapMerge`. -/
def mapMergeEntries : List (Val × Val) :=
  [(boxed (text "foo"), boxed (text "foo")), (boxed (text "bar"), boxed (text "bar"))]

/-- The lexicographic order on lists of numbers, as a boolean. -/
def lexLe : List Nat → List Nat → Bool
  | [], _ => true
  | _ :: _, [] => false
  | a :: as, b :: bs => decide (a < b) || (a == b && lexLe as bs)

/-- The order of Go on strings, which `sort.Strings` uses: lexicographic on the bytes, and
so on the code points, of the two texts. -/
def strLe (a b : String) : Bool :=
  lexLe (a.data.map Char.toNat) (b.data.map Char.toNat)

/-- The function `sort.Strings`. -/
def sortStrings (l : List String) : List String :=
  l.insertionSort (fun a b => strLe a b = true)

/-- Modelled from the spec: the rendering of the package's `*Error` (method `Error` of
`error.go`, which is not among the sources).  The spec gives a header stating the number
of entries, a blank line, then every message on its own line, sorted lexicographically;
the wording of the header and the bullet before each message are those of the expected
output of `ExampleDecode_errors`. -/
def renderAggregate (errors : List String) : String :=
  let points := errors.map fun err => "* " ++ err
  toString errors.length ++ " error(s) decoding:\n\n" ++ joinWith "\n" (sortStrings points)

/-! ## Notions and values of the claims on errors, field names and tags -/

/-- Every error the outcome carries is an aggregate error with at least one message. -/
def errorsAggregate (o : Outcome) : Prop :=
  ∀ (w : Val) (e : GoError), o = Res.ok (w, some e) →
    ∃ msgs : List String, e = GoError.agg msgs ∧ msgs ≠ []

/-- The key under which a map with key type `kt` holds the text `n`: the `string` itself
when the key type is `string`, the `string` boxed in the key type otherwise. -/
def nameKey (kt : Ty) (n : String) : Val :=
  if kt == Ty.basic Kind.String then Val.str (Ty.basic Kind.String) n
  else Val.iface kt (Val.str (Ty.basic Kind.String) n)

/-- The struct `Basic` of the tests. -/
def tBasic : Ty :=
  .named "mapstructure" "Basic" []
    (.struct [plainField "VString" tString, plainField "VInt" tInt,
      plainField "VUint" (.basic .Uint), plainField "VBool" (.basic .Bool),
      plainField "VFloat" (.basic .Float64), plainField "VExtra" tString,
      .mk "vSilent" "mapstructure" [] false (.basic .Bool),
      plainField "VData" emptyInterface, plainField "VJsonInt" tInt,
      plainField "VJsonFloat" (.basic .Float64), plainField "VJsonNumber" jsonNumber])

/-- The field values of a zero `Basic`. -/
def basicZero : List Val :=
  [text "", .int tInt 0, .uint (.basic .Uint) 0, .bool (.basic .Bool) false,
    .float (.basic .Float64) (.fin false 0 0), text "", .bool (.basic .Bool) false,
    .nil emptyInterface, .int tInt 0, .float (.basic .Float64) (.fin false 0 0),
    .str jsonNumber ""]

/-- A source with the key `VFoo` and two keys that equal it ignoring case. -/
def fooEntries : List (Val × Val) :=
  [(text "vfoo", boxed (text "lower")), (text "VFoo", boxed (text "exact")),
    (text "VFOO", boxed (text "upper"))]

/-- A struct with two fields whose names differ only in case. -/
def tTwoCases : Ty :=
  .named "mapstructure" "TwoCases" []
    (.struct [plainField "VFoo" tString, plainField "Vfoo" tString])

/-- A source with the one key `vfoo`. -/
def oneKeyInput : Val := .map tMapSI [(text "vfoo", boxed (text "x"))]

/-- The struct `Embedded` of the tests: `Basic` embedded, and `VUnique`. -/
def tEmbedded : Ty :=
  .named "mapstructure" "Embedded" []
    (.struct [.mk "Basic" "" [] true tBasic, plainField "VUnique" tString])

/-- The struct `EmbeddedPointer` of the tests: `*Basic` embedded, and `VUnique`. -/
def tEmbeddedPointer : Ty :=
  .named "mapstructure" "EmbeddedPointer" []
    (.struct [.mk "Basic" "" [] true (.ptr tBasic), plainField "VUnique" tString])

/-- The input of `TestDecode_Embedded` and `TestDecode_EmbeddedPointer`. -/
def embeddedInput : Val :=
  .map tMapSI
    [(text "vstring", boxed (text "foo")),
     (text "Basic", boxed (.map tMapSI [(text "vstring", boxed (text "innerfoo"))])),
     (text "vunique", boxed (text "bar"))]

/-- The input of `TestDecode_Embedded` without the entry under `Basic`. -/
def flatInput : Val :=
  .map tMapSI [(text "vstring", boxed (text "foo")), (text "vunique", boxed (text "bar"))]

/-- The field with another embedded flag. -/
def StructField.withAnonymous (b : Bool) : StructField → StructField
  | .mk n p tag _ t => .mk n p tag b t

/-- The struct `Tagged` of the tests. -/
def tTagged : Ty :=
  .named "mapstructure" "Tagged" []
    (.struct [.mk "Extra" "" [("json", "bar,what,what")] false tString,
      .mk "Value" "" [("json", "foo")] false tString])

/-- The input of `TestTagged`. -/
def taggedInput : Val :=
  .map tMapSI [(text "foo", boxed (text "bar")), (text "bar", boxed (text "value"))]

/-- The struct of the test "omit tag struct": `Value` under the key `value` and `Omit`,
of type `ft`, excluded by the key `-`. -/
def tOmit (ft : Ty) : Ty :=
  .struct [.mk "Value" "" [("json", "value")] false tString,
    .mk "Omit" "" [("json", "-")] false ft]

/-- A struct whose one field `Value` has the tag key `-`. -/
def tDash : Ty := .struct [.mk "Value" "" [("json", "-")] false tString]

/-- Whether the tag of a field carries the option `omitempty` after its first comma. -/
def hasOmitempty (f : StructField) : Bool :=
  (stringsSplit (tagGet f.Tag tagName)).tail.any (fun tag => tag == "omitempty")

/-- The key of the entry `decodeMapFromStruct` makes for a field: the tag key, or else
the declared name. -/
def entryKeyName (f : StructField) : String :=
  let tagParts := stringsSplit (tagGet f.Tag tagName)
  if tagParts.headD "" ≠ "" then tagParts.headD "" else f.Name

/-- The non-empty values of the spec: a number that is not zero, the boolean true, a text,
mapping, sequence or array of non-zero length, a pointer or dynamic value that is not
nil. -/
def specNonEmpty : Val → Bool
  | .int _ i => i != 0
  | .uint _ n => n != 0
  | .float _ f => !f.isZero
  | .bool _ b => b
  | .str _ s => s != ""
  | .map _ es => es.length != 0
  | .slice _ es => es.length != 0
  | .array _ es => es.length != 0
  | .ptr _ _ => true
  | .iface _ _ => true
  | _ => false

/-- The values of the shapes for which the spec says what empty means, each with a type
of its own kind: numbers, booleans, texts, mappings, sequences, arrays, pointers and
dynamic values, nil or not. -/
def listedShape : Val → Bool
  | .int t _ => t.kind.family == Kind.Int
  | .uint t _ => t.kind.family == Kind.Uint || t.kind == Kind.Uintptr
  | .float t _ => t.kind.family == Kind.Float32
  | .bool t _ => t.kind == Kind.Bool
  | .str t _ => t.kind == Kind.String
  | .map t _ => t.kind == Kind.Map
  | .slice t _ => t.kind == Kind.Slice
  | .array t _ => t.kind == Kind.Array
  | .ptr t _ => t.kind == Kind.Ptr
  | .iface t _ => t.kind == Kind.Interface
  | .nil t => t.kind == Kind.Map || t.kind == Kind.Slice || t.kind == Kind.Ptr ||
      t.kind == Kind.Interface
  | _ => false

/-- The struct `Nested` of the tests. -/
def tNested : Ty :=
  .named "mapstructure" "Nested" [] (.struct [plainField "VFoo" tString, plainField "VBar" tBasic])

/-- The fields of the struct `StructWithOmitEmpty` of the tests. -/
def omitEmptyFields : List StructField :=
  [.mk "VisibleStringField" "" [("json", "visible-string")] false tString,
   .mk "OmitStringField" "" [("json", "omittable-string,omitempty")] false tString,
   .mk "VisibleIntField" "" [("json", "visible-int")] false tInt,
   .mk "OmitIntField" "" [("json", "omittable-int,omitempty")] false tInt,
   .mk "VisibleBoolField" "" [("json", "visible-bool")] false (.basic .Bool),
   .mk "OmitBoolField" "" [("json", "omittable-bool,omitempty")] false (.basic .Bool),
   .mk "VisibleFloatField" "" [("json", "visible-float")] false (.basic .Float64),
   .mk "OmitFloatField" "" [("json", "omittable-float,omitempty")] false (.basic .Float64),
   .mk "VisibleSliceField" "" [("json", "visible-slice")] false (.slice emptyInterface),
   .mk "OmitSliceField" "" [("json", "omittable-slice,omitempty")] false (.slice emptyInterface),
   .mk "VisibleMapField" "" [("json", "visible-map")] false tMapSI,
   .mk "OmitMapField" "" [("json", "omittable-map,omitempty")] false tMapSI,
   .mk "NestedField" "" [("json", "visible-nested")] false (.ptr tNested),
   .mk "OmitNestedField" "" [("json", "omittable-nested,omitempty")] false (.ptr tNested)]

/-- The struct `StructWithOmitEmpty` of the tests. -/
def tOmitEmpty : Ty := .named "mapstructure" "StructWithOmitEmpty" [] (.struct omitEmptyFields)

/-- The input of `TestDecode_StructTaggedWithOmitempty_KeepNonEmptyValues`. -/
def omitEmptyFilled : List Val :=
  [text "", text "string", .int tInt 0, .int tInt 1, .bool (.basic .Bool) false,
    .bool (.basic .Bool) true, .float (.basic .Float64) (.fin false 0 0),
    .float (.basic .Float64) (.fin false 1 0), .nil (.slice emptyInterface),
    .slice (.slice emptyInterface) [boxed (.int tInt 1)], .nil tMapSI,
    .map tMapSI [(text "k", boxed (text "v"))], .nil (.ptr tNested),
    .ptr (.ptr tNested) (Zero tNested)]

/-- The entries of the map after `TestDecode_StructTaggedWithOmitempty_OmitEmptyValues`. -/
def omitEmptyVisible : List (Val × Val) :=
  [(text "visible-string", boxed (text "")),
   (text "visible-int", boxed (.int tInt 0)),
   (text "visible-bool", boxed (.bool (.basic .Bool) false)),
   (text "visible-float", boxed (.float (.basic .Float64) (.fin false 0 0))),
   (text "visible-slice", boxed (.nil (.slice emptyInterface))),
   (text "visible-map", boxed (.nil tMapSI)),
   (text "visible-nested", boxed (.nil (.ptr tNested)))]

/-! ## Notions and values of the claims on records, sequences and pointers -/

/-- The struct `Slice` of the tests. -/
def tSlice : Ty :=
  .named "mapstructure" "Slice" []
    (.struct [plainField "VFoo" tString, plainField "VBar" (.slice tString)])

/-- The struct `Array` of the tests. -/
def tArray : Ty :=
  .named "mapstructure" "Array" []
    (.struct [plainField "VFoo" tString, plainField "VBar" (.array 2 tString)])

/-- The input of `TestInvalidSlice` and `TestInvalidArray`. -/
def invalidSeqInput : Val :=
  .map tMapSI [(text "vfoo", boxed (text "foo")), (text "vbar", boxed (.int tInt 42))]

/-- The struct `SlicePointer` of the tests. -/
def tSlicePointer : Ty :=
  .named "mapstructure" "SlicePointer" [] (.struct [plainField "VBar" (.ptr (.slice tString))])

/-- The struct `NestedPointer` of the tests. -/
def tNestedPointer : Ty :=
  .named "mapstructure" "NestedPointer" []
    (.struct [plainField "VFoo" tString, plainField "VBar" (.ptr tBasic)])

/-- The pointer to a map under the key `vbar` of `TestNestedTypePointer`. -/
def nestedPointerSource : Val :=
  .ptr (.ptr tMapSI) (.map tMapSI
    [(text "vstring", boxed (text "foo")), (text "vint", boxed (.int tInt 42)),
     (text "vbool", boxed (.bool (.basic .Bool) true))])

/-- The input of `TestNestedTypePointer`. -/
def nestedPointerInput : Val :=
  .map tMapSI [(text "vfoo", boxed (text "foo")), (text "vbar", boxed nestedPointerSource)]

/-- The `Basic` of `TestNestedTypePointer` after decoding. -/
def nestedPointerBasic : List Val :=
  [text "foo", .int tInt 42, .uint (.basic .Uint) 0, .bool (.basic .Bool) true] ++
    basicZero.drop 4

/-- Whether `decodePtr` takes the source for nil: the source is the nil interface, or
after one dereference a nil channel, function, interface, map, pointer or slice. -/
def nilSource (data : Val) : Res Bool :=
  let isNil := !data.IsValid
  if !isNil then
    let v := Indirect data
    match v.kind with
    | .Chan | .Func | .Interface | .Map | .Ptr | .Slice => v.IsNil
    | _ => .ok isNil
  else .ok isNil

/-- A source that is, after one dereference, a slice or an array with the elements `es`,
all of them valid; a nil slice has no elements. -/
def seqSource (d : Val) (es : List Val) : Prop :=
  (∀ e ∈ es, e.IsValid = true) ∧
    ((∃ st : Ty, d = Val.slice st es ∧ st.kind = Kind.Slice) ∨
      (∃ st : Ty, d = Val.array st es ∧ st.kind = Kind.Array) ∨
      (∃ st : Ty, d = Val.nil st ∧ st.kind = Kind.Slice ∧ es = []))

/-- The struct `SliceOfStruct` of the tests has the field `Value []Basic`; this is a
source for it whose one element has a text under `vstring` and a text under `vint`. -/
def halfBadElems : Val :=
  .slice (.slice tMapSI)
    [.map tMapSI [(text "vstring", boxed (text "one")), (text "vint", boxed (text "bad"))]]

/-- The type `SliceAlias` of the tests. -/
def tSliceAlias : Ty := .named "mapstructure" "SliceAlias" [] (.slice tString)

/-- The input of `TestArray`. -/
def arrayInput : Val :=
  .map tMapSI
    [(text "vfoo", boxed (text "foo")),
     (text "vbar", boxed (.array (.array 2 tString) [text "foo", text "bar"]))]

/-- The fields of a struct type; other types have none. -/
def Ty.fieldsOf (t : Ty) : List StructField :=
  match t.underlying with
  | .struct fs => fs
  | _ => []

/-- Whether a type is a struct type. -/
def Ty.isStruct (t : Ty) : Bool :=
  match t.underlying with
  | .struct _ => true
  | _ => false

/-- Whether `isEmptyValue` takes the value for empty. -/
def isEmptyB (v : Val) : Bool :=
  match isEmptyValue v with
  | .ok b => b
  | _ => false

/-- Whether a field of a source struct gives no entry: it is unexported, omitted (the
option `omitempty` and an empty value) or excluded (the tag key `-`). -/
def fieldSkipped (f : StructField) (v : Val) : Bool :=
  f.PkgPath != "" || (hasOmitempty f && isEmptyB v) ||
    (stringsSplit (tagGet f.Tag tagName)).headD "" == "-"

/-- Whether the value is an interface value that is not nil. -/
def Val.isIface : Val → Bool
  | .iface _ _ => true
  | _ => false

/-- The value as it is stored in an `interface{}` slot of a map. -/
def dynamicOf (v : Val) : Val :=
  match assignTo "reflect.Value.SetMapIndex" v emptyInterface with
  | .ok e => e
  | _ => .invalid

mutual
/-- The value the spec stores for a field of a record converted into a mapping with keys
of type `kt` and dynamic values: a record becomes the nested mapping of its own fields,
any other value is stored as it is. -/
def recordValue (kt : Ty) : Val → Val
  | .struct t fs => .map (.map kt emptyInterface) (recordEntries kt t.fieldsOf fs)
  | .invalid => .invalid
  | .nil t => .nil t
  | .bool t b => .bool t b
  | .int t i => .int t i
  | .uint t n => .uint t n
  | .float t f => .float t f
  | .str t s => .str t s
  | .other t i => .other t i
  | .chan t n => .chan t n
  | .func t i => .func t i
  | .array t es => .array t es
  | .slice t es => .slice t es
  | .map t es => .map t es
  | .ptr t p => .ptr t p
  | .iface t h => .iface t h
/-- The entries of the spec for the fields of a record: one entry for every field that
is not skipped, under the key of the field, in the order of the fields. -/
def recordEntries (kt : Ty) : List StructField → List Val → List (Val × Val)
  | f :: fs, v :: vs =>
      if fieldSkipped f v then recordEntries kt fs vs
      else (nameKey kt (entryKeyName f), dynamicOf (recordValue kt v)) :: recordEntries kt fs vs
  | _, _ => []
end

mutual
/-- The depth to which records are nested in a value through fields of record shape. -/
def Val.recordDepth : Val → Nat
  | .struct _ fs => Val.recordDepthList fs + 1
  | _ => 0
/-- The greatest depth of the values of a list. -/
def Val.recordDepthList : List Val → Nat
  | [] => 0
  | v :: vs => max (Val.recordDepth v) (Val.recordDepthList vs)
end

/-- Whether the texts of a list are pairwise distinct. -/
def distinctTexts : List String → Bool
  | [] => true
  | s :: rest => !rest.contains s && distinctTexts rest

/-- The keys under which the fields of a struct type may give entries: those of the
exported fields that are not excluded. -/
def candidateKeys (fs : List StructField) : List String :=
  (fs.filter fun f =>
    f.PkgPath == "" && !((stringsSplit (tagGet f.Tag tagName)).headD "" == "-")).map
    entryKeyName

mutual
/-- A well-formed record source: a struct value has a struct type, one valid value for
each field and pairwise distinct keys, and so have the struct values among its fields; a
value of another shape does not have a struct type. -/
def Val.wellFormedRecord : Val → Bool
  | .struct t fs =>
      t.isStruct && distinctTexts (candidateKeys t.fieldsOf) &&
        Val.wellFormedFields t.fieldsOf fs
  | .invalid => false
  | .nil t => t.kind != Kind.Struct
  | .bool t _ => t.kind != Kind.Struct
  | .int t _ => t.kind != Kind.Struct
  | .uint t _ => t.kind != Kind.Struct
  | .float t _ => t.kind != Kind.Struct
  | .str t _ => t.kind != Kind.Struct
  | .other t _ => t.kind != Kind.Struct
  | .chan t _ => t.kind != Kind.Struct
  | .func t _ => t.kind != Kind.Struct
  | .array t _ => t.kind != Kind.Struct
  | .slice t _ => t.kind != Kind.Struct
  | .map t _ => t.kind != Kind.Struct
  | .ptr t _ => t.kind != Kind.Struct
  | .iface t _ => t.kind != Kind.Struct
/-- One well-formed value for each field. -/
def Val.wellFormedFields : List StructField → List Val → Bool
  | [], [] => true
  | _ :: fs, v :: vs => Val.wellFormedRecord v && Val.wellFormedFields fs vs
  | _, _ => false
end

/-- The field values of the `Basic` of the table tests. -/
def basicFilled : List Val :=
  [text "vstring", .int tInt 2, .uint (.basic .Uint) 3, .bool (.basic .Bool) true,
    .float (.basic .Float64) (.fin false 5134103575202365 (-50)), text "vextra",
    .bool (.basic .Bool) true,
    .iface emptyInterface (.slice (.slice (.basic .Uint8))
      [.uint (.basic .Uint8) 100, .uint (.basic .Uint8) 97, .uint (.basic .Uint8) 116,
        .uint (.basic .Uint8) 97]),
    .int tInt 0, .float (.basic .Float64) (.fin false 0 0), .str jsonNumber ""]

/-- The entries the table tests expect for that `Basic`. -/
def basicFilledEntries : List (Val × Val) :=
  [(text "VString", boxed (text "vstring")), (text "VInt", boxed (.int tInt 2)),
    (text "VUint", boxed (.uint (.basic .Uint) 3)),
    (text "VBool", boxed (.bool (.basic .Bool) true)),
    (text "VFloat", boxed (.float (.basic .Float64) (.fin false 5134103575202365 (-50)))),
    (text "VExtra", boxed (text "vextra")),
    (text "VData", boxed (.slice (.slice (.basic .Uint8))
      [.uint (.basic .Uint8) 100, .uint (.basic .Uint8) 97, .uint (.basic .Uint8) 116,
        .uint (.basic .Uint8) 97])),
    (text "VJsonInt", boxed (.int tInt 0)),
    (text "VJsonFloat", boxed (.float (.basic .Float64) (.fin false 0 0))),
    (text "VJsonNumber", boxed (.str jsonNumber ""))]

/-- A value of scalar shape of the type `ft`: a boolean, an integer or unsigned integer
within the width of its type, a floating-point number of the precision of its type, or a
text. -/
def scalarField (ft : Ty) (v : Val) : Prop :=
  (∃ b : Bool, v = Val.bool ft b ∧ ft.kind = Kind.Bool) ∨
  (∃ i : Int, v = Val.int ft i ∧ ft.kind.family = Kind.Int ∧ wrapInt ft.kind.bits i = i) ∨
  (∃ n : Nat, v = Val.uint ft n ∧ ft.kind.family = Kind.Uint ∧ wrapUint ft.kind.bits n = n) ∨
  (∃ x : GoFloat, v = Val.float ft x ∧
    (ft.kind = Kind.Float64 ∨ (ft.kind = Kind.Float32 ∧ x.toFloat32 = x))) ∨
  (∃ s : String, v = Val.str ft s ∧ ft.kind = Kind.String)

/-! ## Notions and values of the claims on dynamic targets, failures and totality -/

/-- The source of `TestBasicTypes` cut down to the keys `vstring` and `VSilent`. -/
def silentInput : Val :=
  .map tMapSI [(text "vstring", boxed (text "foo")), (text "vsilent", boxed (.int tInt 42)),
    (text "VSilent", boxed (.bool (.basic .Bool) true))]

/-- What the loop of `decodeMapFromStruct` does after a first part of the fields: it stops
with the error of that part, or goes on with the other fields. -/
def afterFields (dec : Dec) (mfl : Flags) (rest : List StructField) (vrest : List Val)
    (r : Val × Option GoError) : Res (Val × Option GoError) :=
  match r.2 with
  | some e => .ok (r.1, some e)
  | none => decodeMapFromStructLoop dec mfl rest vrest r.1

/-- A struct with a text field followed by an integer field. -/
def tTextThenInt : Ty := .struct [plainField "Value" tString, plainField "Count" tInt]

/-- Whether a value of type `src` can be stored in a location of type `dst` that is no
interface: the types are identical, or they have identical underlying types and one of
them has no name. -/
def directlyAssignable (src dst : Ty) : Bool :=
  (src == dst) || (!(dst.hasName && src.hasName) && (src.underlying == dst.underlying))

/-- Whether the slower search of `decodeStructFromMap` takes the key for the field name:
the key is a `string` equal to the name under `strings.EqualFold`. -/
def foldMatch (lib : GoLib) (fieldName : String) (k : Val) : Bool :=
  match k.Interface with
  | .ok (.str t mK) => t == .basic .String && lib.EqualFold mK fieldName
  | _ => false

/-- At most one of the keys is taken by the slower search for the field name. -/
def uniqueFold (lib : GoLib) (keys : List Val) (fieldName : String) : Prop :=
  ∀ k1 ∈ keys, ∀ k2 ∈ keys, foldMatch lib fieldName k1 = true →
    foldMatch lib fieldName k2 = true → k1 = k2

/-- A source with the keys `vfoo` and `VFOO`, neither of which is the field name `VFoo`. -/
def foldFirst : Val := .map tMapSI [(text "vfoo", boxed (text "x")), (text "VFOO", boxed (text "y"))]

/-- The same source with its keys enumerated in the other order. -/
def foldSecond : Val :=
  .map tMapSI [(text "VFOO", boxed (text "y")), (text "vfoo", boxed (text "x"))]

/-- The struct `Nested` of the tests cut down to its field `VFoo`. -/
def tOneText : Ty := .struct [plainField "VFoo" tString]

/-- The messages of the source entry under key `k` in the loop of `decodeMapFromMap`:
those of the conversion of the key or, when the key converts, those of the conversion of
the value. -/
def entryMessages (dec : Dec) (lib : GoLib) (name : String) (src : Val) (kt et : Ty)
    (k : Val) : List String :=
  match k.Interface with
  | .ok kd =>
      match dec (entryPath lib name k) kd (Zero kt) Flags.fresh with
      | .ok (_, some err) => errorStrings (some err)
      | .ok (_, none) =>
          match (src.MapIndex k).bind Val.Interface with
          | .ok vd =>
              match dec (entryPath lib name k) vd (Zero et) Flags.fresh with
              | .ok (_, e) => errorStrings e
              | _ => []
          | _ => []
      | _ => []
  | _ => []

/-- A source with the keys `vfoo` and `vbar`. -/
def orderFirst : List (Val × Val) :=
  [(text "vfoo", boxed (text "x")), (text "vbar", boxed (text "y"))]

/-- The same source with its keys enumerated in the other order. -/
def orderSecond : List (Val × Val) :=
  [(text "vbar", boxed (text "y")), (text "vfoo", boxed (text "x"))]

/-- A source map with an entry whose value is the nil `interface{}`. -/
def nilEntryInput : Val :=
  .map tMapSI [(text "a", .nil emptyInterface), (text "c", boxed (text "z"))]

/-- The struct `Slice` of the tests under another name. -/
def tSliceCopy : Ty :=
  .named "mapstructure" "SliceCopy" []
    (.struct [plainField "VFoo" tString, plainField "VBar" (.slice tString)])

/-- The struct `BasicCopy` of the tests. -/
def tBasicCopy : Ty :=
  .named "mapstructure" "BasicCopy" []
    (.struct [plainField "VString" tString, plainField "VInt" tInt,
      plainField "VUint" (.basic .Uint), plainField "VBool" (.basic .Bool),
      plainField "VFloat" (.basic .Float64), plainField "VExtra" tString,
      .mk "vSilent" "mapstructure" [] false (.basic .Bool),
      plainField "VData" emptyInterface, plainField "VJsonInt" tInt,
      plainField "VJsonFloat" (.basic .Float64), plainField "VJsonNumber" jsonNumber])

/-! ## Notions of the revised statements -/

mutual
/-- Whether a value holds no pointer and no channel, at any depth outside slices and
maps.  Go compares pointers and channels by their address, which the values of the
embedding do not carry; on a value without them `Val.goEq` is the `==` of Go. -/
def Val.identityFree : Val → Bool
  | .ptr _ _ => false
  | .chan _ _ => false
  | .iface _ h => Val.identityFree h
  | .array _ es => Val.identityFreeList es
  | .struct _ fs => Val.identityFreeList fs
  | _ => true
/-- Whether no value of a list holds a pointer or a channel. -/
def Val.identityFreeList : List Val → Bool
  | [] => true
  | a :: as => Val.identityFree a && Val.identityFreeList as
end

/-- The zero value of the type `[1][]string`, an array type that is not comparable. -/
def uncomparableArray : Val := Zero (Ty.array 1 (Ty.slice tString))

/-! ## Notions of the claim on the order of the keys -/

/-- The value under the key `q` that the source keys `ks` give, in their order of
enumeration: that of the last key whose converted key equals `q`. -/
def lastConverted (conv : Val → Option (Val × Val)) (q : Val) (ks : List Val) : Option Val :=
  ((ks.reverse.filterMap conv).find? fun c => Val.goEq c.1 q).map Prod.snd

/-- Two source keys do not convert to keys that are equal in Go. -/
def separateConverted (conv : Val → Option (Val × Val)) (k1 k2 : Val) : Prop :=
  ∀ c1 c2 : Val × Val, conv k1 = some c1 → conv k2 = some c2 → Val.goEq c1.1 c2.1 = false

/-- A source with the keys `int8(1)` and `int16(1)`, which both convert to the key 1 of a
`map[int]string`. -/
def collideFirst : Val :=
  .map tMapII [(boxed (.int (.basic .Int8) 1), boxed (text "a")),
    (boxed (.int (.basic .Int16) 1), boxed (text "b"))]

/-- The same source with its keys enumerated in the other order. -/
def collideSecond : Val :=
  .map tMapII [(boxed (.int (.basic .Int16) 1), boxed (text "b")),
    (boxed (.int (.basic .Int8) 1), boxed (text "a"))]

/-! ## Notions of the claim on termination -/

mutual
/-- The nesting depth of a type: the number of element, key or field types one can take
in a row. -/
def Ty.depth : Ty → Nat
  | .named _ _ _ u => Ty.depth u
  | .array _ e => Ty.depth e + 1
  | .chan e => Ty.depth e + 1
  | .map k e => max (Ty.depth k) (Ty.depth e) + 1
  | .ptr e => Ty.depth e + 1
  | .slice e => Ty.depth e + 1
  | .struct fs => Ty.depthFields fs + 1
  | _ => 0
/-- The largest nesting depth of the types of the fields. -/
def Ty.depthFields : List StructField → Nat
  | [] => 0
  | .mk _ _ _ _ t :: rest => max (Ty.depth t) (Ty.depthFields rest)
end

mutual
/-- The nesting depth of a value as an input: a pointer, a dynamic value, a sequence and
a map count one level above what they hold, a text one level above its bytes, a struct
three levels above its field values, which covers the pointer and the intermediate map
that the conversion of a struct to a map puts around them. -/
def Val.inputDepth : Val → Nat
  | .array _ es => Val.inputDepthList es + 1
  | .slice _ es => Val.inputDepthList es + 1
  | .map _ es => Val.inputDepthEntries es + 1
  | .ptr _ p => Val.inputDepth p + 1
  | .iface _ h => Val.inputDepth h + 1
  | .struct _ fs => Val.inputDepthList fs + 3
  | .str _ _ => 1
  | _ => 0
/-- The largest input depth of the values of a list. -/
def Val.inputDepthList : List Val → Nat
  | [] => 0
  | v :: vs => max (Val.inputDepth v) (Val.inputDepthList vs)
/-- The largest input depth of the keys and values of the entries. -/
def Val.inputDepthEntries : List (Val × Val) → Nat
  | [] => 0
  | (k, v) :: es => max (max (Val.inputDepth k) (Val.inputDepth v)) (Val.inputDepthEntries es)
end

mutual
/-- The nesting depth of a value as a target: the depth of its type or, when that is
more, one level above the pointee, the held value, the elements or the field values it
has.  The entries of a map do not count: they are never decoded into. -/
def Val.targetDepth : Val → Nat
  | .invalid => 0
  | .nil t => Ty.depth t
  | .bool t _ => Ty.depth t
  | .int t _ => Ty.depth t
  | .uint t _ => Ty.depth t
  | .float t _ => Ty.depth t
  | .str t _ => Ty.depth t
  | .other t _ => Ty.depth t
  | .chan t _ => Ty.depth t
  | .func t _ => Ty.depth t
  | .array t es => max (Ty.depth t) (Val.targetDepthList es + 1)
  | .slice t es => max (Ty.depth t) (Val.targetDepthList es + 1)
  | .map t _ => Ty.depth t
  | .ptr t p => max (Ty.depth t) (Val.targetDepth p + 1)
  | .iface t h => max (Ty.depth t) (Val.targetDepth h + 1)
  | .struct t fs => max (Ty.depth t) (Val.targetDepthList fs + 1)
/-- The largest target depth of the values of a list. -/
def Val.targetDepthList : List Val → Nat
  | [] => 0
  | v :: vs => max (Val.targetDepth v) (Val.targetDepthList vs)
end

mutual
/-- Whether a target is built without a type that is declared in terms of itself: its
own type and the types of the pointee, the held value, the elements and the field
values. -/
def Val.nonRecursive : Val → Bool
  | .invalid => true
  | .nil t => Ty.nonRecursive t
  | .bool t _ => Ty.nonRecursive t
  | .int t _ => Ty.nonRecursive t
  | .uint t _ => Ty.nonRecursive t
  | .float t _ => Ty.nonRecursive t
  | .str t _ => Ty.nonRecursive t
  | .other t _ => Ty.nonRecursive t
  | .chan t _ => Ty.nonRecursive t
  | .func t _ => Ty.nonRecursive t
  | .array t es => Ty.nonRecursive t && Val.nonRecursiveList es
  | .slice t es => Ty.nonRecursive t && Val.nonRecursiveList es
  | .map t _ => Ty.nonRecursive t
  | .ptr t p => Ty.nonRecursive t && Val.nonRecursive p
  | .iface t h => Ty.nonRecursive t && Val.nonRecursive h
  | .struct t fs => Ty.nonRecursive t && Val.nonRecursiveList fs
/-- Whether all values of a list are built without a type declared in terms of itself. -/
def Val.nonRecursiveList : List Val → Bool
  | [] => true
  | v :: vs => Val.nonRecursive v && Val.nonRecursiveList vs
end

/-- The bound on the input depth of what the loop of `decodeMapFromStruct` stores for
the field values it is given: nothing when there are none. -/
def storedBound : List Val → Nat
  | [] => 0
  | v :: vs => Val.inputDepthList (v :: vs) + 2

/-- A ranking of the targets of a conversion.  `S` holds of the targets the walk can
reach and is closed under the steps the decoder takes on a target: from a pointer to what
it points to and, when it is nil, to the fresh zero value of its element type; from a
dynamic slot to the value it holds; from a sequence or an array to its elements and to
the fresh zero value of its element type; from a map to the fresh zero values of its key
and element types and to a fresh map of these types; from a struct to its field values;
and `S` holds of the fresh `map[string]interface{}` through which a struct source is
decoded.  The rank `rk` is at most `c` on `S` and falls at each step that keeps the input:
from a pointer to its pointee or to the fresh value and from a dynamic slot to the value
it holds. -/
def TargetRanking (S : Val → Prop) (rk : Val → Nat) (c : Nat) : Prop :=
  (∀ v, S v → rk v ≤ c) ∧
  (∀ v t e, S v → v.kind = Kind.Ptr → v.TypeOf = Res.ok t → t.Elem = Res.ok e →
    S (Indirect v) ∧ rk (Indirect v) < rk v ∧
    (v.IsNil = Res.ok true → S (Zero e) ∧ rk (Zero e) < rk v)) ∧
  (∀ v e, S v → v.kind = Kind.Interface → v.Elem = Res.ok e → e.IsValid = true →
    S e ∧ rk e < rk v) ∧
  (∀ v t e, S v → (v.kind = Kind.Slice ∨ v.kind = Kind.Array) → v.TypeOf = Res.ok t →
    t.Elem = Res.ok e → S (Zero e)) ∧
  (∀ v x, S v → x ∈ v.elems → S x) ∧
  (∀ v t kt, S v → v.TypeOf = Res.ok t → t.mapTypes = Res.ok kt →
    S (Zero kt.1) ∧ S (Zero kt.2) ∧ S (Val.map (.map kt.1 kt.2) [])) ∧
  (∀ v x, S v → x ∈ v.fieldVals → S x) ∧
  S (Val.map (.map (.basic .String) emptyInterface) [])

/-- The recursive call returns for every target of `S` whose rank, added to `c + 1` times
the depth of the input, stays below `n`. -/
def Dec.returnsBelow (dec : Dec) (S : Val → Prop) (rk : Val → Nat) (c n : Nat) : Prop :=
  ∀ (name : String) (d v : Val) (fl : Flags), S v →
    d.inputDepth * (c + 1) + rk v < n → dec name d v fl ≠ Res.outOfFuel

/-- The conversion of `data` into `val` returns for no amount of fuel: the recursion of
`decode` does not come to an end. -/
def neverReturns (lib : GoLib) (name : String) (data val : Val) (fl : Flags) : Prop :=
  ∀ fuel : Nat, decode lib fuel name data val fl = Res.outOfFuel

/-- The declared type `type P *P` of the package under test. -/
def tSelfPointer : Ty := .recur "mapstructure" "P" [] (.ptr (.ref "mapstructure" "P"))

/-- The declared type `type Node struct { Value string; Next *Node }`. -/
def tNode : Ty :=
  .recur "mapstructure" "Node" []
    (.struct [plainField "Value" tString, plainField "Next" (.ptr (.ref "mapstructure" "Node"))])

/-- The recursive call, when it converts a struct into an empty map, yields a value at
most one level deeper than the struct. -/
def Dec.convertsWithin (dec : Dec) : Prop :=
  ∀ (name : String) (d : Val) (kt et : Ty) (fl : Flags) (w : Val),
    (Indirect d).kind = Kind.Struct →
    dec name d (Val.map (.map kt et) []) fl = Res.ok (w, none) →
    w.inputDepth ≤ (Indirect d).inputDepth + 1

/-- The targets the walk can reach from a zero `Node`: the zero `Node` and its two field
values, the zero Value that stands for what a nil pointer points to, and the fresh map
through which a struct source is decoded, with the zero values of its key and element
types. -/
def nodeTargets : List Val :=
  [Zero tNode, text "", Val.nil (Ty.ptr tNode), Val.invalid, Val.map tMapSI [],
    Val.nil emptyInterface]

/-- The rank of a target of `nodeTargets`: the number of pointers that can be followed
from it in a row. -/
def nodeRank (v : Val) : Nat := if v.kind = Kind.Ptr then 1 else 0

/-- A source for a list of two nodes: `Value: a, Next: (Value: b)`. -/
def nodeInput : Val :=
  .map tMapSI [(text "Value", boxed (text "a")),
    (text "Next", boxed (.map tMapSI [(text "Value", boxed (text "b"))]))]

/-! ## Notions of the claim on the round trip of a record -/

/-- A value that `decode` gives back when it is decoded into the zero value of its own
type, for every shape the decoder has a converter for.
* `scalar`: a boolean, an integer or unsigned integer within the width of its type, a
  floating-point number of the precision of its type, a text.
* `nilValue`: the nil slice, map, pointer, interface value or function.
* `function`: a function.
* `record`: a struct value, as an element, a pointee or a dynamic value: it is copied.
* `dynamic`: an interface value holding a value that is valid behind at most one pointer
  (so no nil pointer), that is no interface value itself, whose type has the methods of
  the interface type and that is no pointer to that interface type.
* `sequence`: a slice that is not empty, of elements of its element type that are
  faithful.
* `array`: an array of a comparable type, of as many elements as its type says, each of
  the element type and faithful.
* `mapping`: a map that is not nil whose keys are of the key type, can be hashed, equal
  themselves, are pairwise different, hold no pointer and no channel (Go compares those
  by address, which the values here do not carry) and are faithful, and whose values are of
  the element type and faithful.
* `pointer`: a pointer to a faithful value of its element type that is not nil, no
  pointer and no interface value.
* `pointerDynamic`: a pointer to an interface value that is not nil. -/
inductive Val.Faithful : Val → Prop
  | scalar (ft : Ty) (v : Val) : scalarField ft v → Val.Faithful v
  | nilValue (t : Ty) :
      ((∃ et, t.underlying = Ty.slice et) ∨ (∃ kt et, t.underlying = Ty.map kt et) ∨
        t.kind = Kind.Ptr ∨ t.kind = Kind.Interface ∨ t.kind = Kind.Func) →
      Val.Faithful (Val.nil t)
  | function (t : Ty) (i : Nat) : t.kind = Kind.Func → Val.Faithful (Val.func t i)
  | record (t : Ty) (fs : List Val) : t.kind = Kind.Struct → Val.Faithful (Val.struct t fs)
  | dynamic (t : Ty) (h : Val) : t.kind = Kind.Interface → (Indirect h).IsValid = true →
      h.isIface = false → h.kind ≠ Kind.Interface →
      (t.methodSet.all fun m => h.typ.methodSet.contains m) = true →
      (h.kind = Kind.Ptr → ∃ e, h.typ.Elem = Res.ok e ∧ (e == t) = false) →
      Val.Faithful (Val.iface t h)
  | sequence (t et : Ty) (es : List Val) : t.underlying = Ty.slice et → es ≠ [] →
      (∀ x ∈ es, x.typ = et) → (∀ x ∈ es, Val.Faithful x) → Val.Faithful (Val.slice t es)
  | array (t et : Ty) (n : Nat) (es : List Val) : t.underlying = Ty.array n et →
      es.length = n → t.comparable = true → Val.goEq (Zero t) (Zero t) = true →
      (∀ x ∈ es, x.typ = et) → (∀ x ∈ es, Val.Faithful x) → Val.Faithful (Val.array t es)
  | mapping (t kt et : Ty) (es : List (Val × Val)) : t.underlying = Ty.map kt et →
      (∀ e ∈ es, e.1.typ = kt ∧ e.1.hashable = true ∧ e.1.identityFree = true ∧
        Val.goEq e.1 e.1 = true ∧ e.2.typ = et) →
      es.Pairwise (fun a b => Val.goEq a.1 b.1 = false) →
      (∀ e ∈ es, Val.Faithful e.1) → (∀ e ∈ es, Val.Faithful e.2) →
      Val.Faithful (Val.map t es)
  | pointer (t et : Ty) (p : Val) : t.underlying = Ty.ptr et → p.typ = et →
      p.kind ≠ Kind.Ptr → p.kind ≠ Kind.Interface → p.isNilVal = false →
      Val.Faithful p → Val.Faithful (Val.ptr t p)
  | pointerDynamic (t et : Ty) (h : Val) : t.underlying = Ty.ptr et →
      et.kind = Kind.Interface → Val.Faithful (Val.ptr t (Val.iface et h))

/-- A value that the round trip of a record gives back in a field: a faithful value that
is no struct, or a struct value whose type has a zero value of one zero value per field
and whose exported fields have no tag and hold, each, a value of the type of the field
that the round trip gives back.  A struct value in a field is itself taken through the
map of its fields, so that only its exported fields come back. -/
inductive Val.FaithfulField : Val → Prop
  | plain (v : Val) : v.kind ≠ Kind.Struct → Val.Faithful v → Val.FaithfulField v
  | nested (t : Ty) (vs : List Val) :
      Zero t = Val.struct t (zeroFields t.fieldsOf) →
      (∀ (i : Nat) (f : StructField) (v : Val), t.fieldsOf[i]? = some f → vs[i]? = some v →
        f.PkgPath = "" → tagGet f.Tag tagName = "" ∧ v.typ = f.Typ) →
      (∀ (i : Nat) (f : StructField) (v : Val), t.fieldsOf[i]? = some f → vs[i]? = some v →
        f.PkgPath = "" → Val.FaithfulField v) →
      Val.FaithfulField (Val.struct t vs)

/-- The fields of a record that the round trip gives back: every exported field has no
tag and holds a value of its type that the round trip gives back. -/
def faithfulFields (fs : List StructField) (vs : List Val) : Prop :=
  ∀ (i : Nat) (f : StructField) (v : Val), fs[i]? = some f → vs[i]? = some v →
    f.PkgPath = "" → tagGet f.Tag tagName = "" ∧ v.typ = f.Typ ∧ v.FaithfulField

mutual
/-- The value the round trip gives for a field: of a struct value the exported fields,
taken the same way, with zero values in the unexported fields; any other value as it
is. -/
def backValue : Val → Val
  | .struct t fs => .struct t (backFields t.fieldsOf fs)
  | .invalid => .invalid
  | .nil t => .nil t
  | .bool t b => .bool t b
  | .int t i => .int t i
  | .uint t n => .uint t n
  | .float t f => .float t f
  | .str t s => .str t s
  | .other t i => .other t i
  | .chan t n => .chan t n
  | .func t i => .func t i
  | .array t es => .array t es
  | .slice t es => .slice t es
  | .map t es => .map t es
  | .ptr t p => .ptr t p
  | .iface t h => .iface t h
/-- The field values the round trip gives for a record: what it gives for the value of
every exported field, the zero value of every unexported field. -/
def backFields : List StructField → List Val → List Val
  | f :: fs, v :: vs => (if f.PkgPath = "" then backValue v else Zero f.Typ) :: backFields fs vs
  | _, _ => []
end

/-- A struct `Inner` with an exported and an unexported field. -/
def tInner : Ty :=
  .named "mapstructure" "Inner" []
    (.struct [plainField "Name" tString, .mk "secret" "mapstructure" [] false tInt])

/-- The fields of a struct with a field of each container shape: a slice, an array, a
map, a pointer, a struct, a slice of structs and a dynamic value, and an unexported
field. -/
def wideFields : List StructField :=
  [plainField "Title" tString, plainField "Tags" (.slice tString),
    plainField "Pair" (.array 2 tInt), plainField "Ports" (.map tString tInt),
    plainField "Count" (.ptr tInt), plainField "Inner" tInner,
    plainField "Items" (.slice tInner), plainField "Any" emptyInterface,
    .mk "hidden" "mapstructure" [] false (.basic .Bool)]

/-- The struct `Wide` of those fields. -/
def tWide : Ty := .named "mapstructure" "Wide" [] (.struct wideFields)

/-- The struct `WideCopy`, a distinct type with the same fields. -/
def tWideCopy : Ty := .named "mapstructure" "WideCopy" [] (.struct wideFields)

/-- The field values of a `Wide` with no field empty. -/
def wideValues : List Val :=
  [text "t", .slice (.slice tString) [text "a", text "b"],
    .array (.array 2 tInt) [.int tInt 1, .int tInt 2],
    .map (.map tString tInt) [(text "http", .int tInt 80), (text "https", .int tInt 443)],
    .ptr (.ptr tInt) (.int tInt 5), .struct tInner [text "n", .int tInt 7],
    .slice (.slice tInner) [.struct tInner [text "m", .int tInt 9]],
    .iface emptyInterface (.ptr (.ptr tInt) (.int tInt 3)), .bool (.basic .Bool) true]

/-- The field values the round trip gives for that `Wide`: the unexported field of the
struct and that of the struct in the field `Inner` are zero, and the struct in the slice
`Items` is whole. -/
def wideBack : List Val :=
  [text "t", .slice (.slice tString) [text "a", text "b"],
    .array (.array 2 tInt) [.int tInt 1, .int tInt 2],
    .map (.map tString tInt) [(text "http", .int tInt 80), (text "https", .int tInt 443)],
    .ptr (.ptr tInt) (.int tInt 5), .struct tInner [text "n", .int tInt 0],
    .slice (.slice tInner) [.struct tInner [text "m", .int tInt 9]],
    .iface emptyInterface (.ptr (.ptr tInt) (.int tInt 3)), .bool (.basic .Bool) false]

/-- A struct `Holder` with the one exported field `V` of type `ft`. -/
def tHolder (ft : Ty) : Ty := .named "mapstructure" "Holder" [] (.struct [plainField "V" ft])

/-- The struct `HolderCopy`, a distinct type with the same field. -/
def tHolderCopy (ft : Ty) : Ty :=
  .named "mapstructure" "HolderCopy" [] (.struct [plainField "V" ft])

/-- The round trip of a `Holder` whose field holds `v`: the `Holder` decoded into a zero
`HolderCopy`. -/
def holderRoundTrip (ft : Ty) (v : Val) : Outcome :=
  decode stdLib 6 "" (Val.struct (tHolder ft) [v]) (Zero (tHolderCopy ft)) Flags.fresh

/-! # Theorems -/

set_option maxRecDepth 100000

/-! ## Basic facts -/

@[simp]
theorem Res.bind_ok {α β : Type} (a : α) (f : α → Res β) : (Res.ok a).bind f = f a := rfl

@[simp]
theorem Res.bind_panic {α β : Type} (m : String) (f : α → Res β) :
    (Res.panic m : Res α).bind f = .panic m := rfl

@[simp]
theorem Res.bind_outOfFuel {α β : Type} (f : α → Res β) :
    (Res.outOfFuel : Res α).bind f = .outOfFuel := rfl

/-- Putting a declared type in its place within a type literal keeps the kind. -/
theorem Ty.openWith_kind (r : Ty) (p n : String) (x : Ty) : (Ty.openWith r p n x).kind = x.kind := by
  cases x <;> rfl

/-- The kind of a type is the kind of its underlying type. -/
theorem Ty.kind_underlying : ∀ t : Ty, t.underlying.kind = t.kind
  | .basic _ => rfl
  | .named _ _ _ u => by
      simp only [Ty.underlying, Ty.kind]
      exact Ty.kind_underlying u
  | .array _ _ => rfl
  | .chan _ => rfl
  | .func _ => rfl
  | .iface _ => rfl
  | .map _ _ => rfl
  | .ptr _ => rfl
  | .slice _ => rfl
  | .struct _ => rfl
  | .recur p n ms u => by
      simp only [Ty.underlying, Ty.kind]
      rw [Ty.openWith_kind]
      exact Ty.kind_underlying u
  | .ref _ _ => rfl

/-- An underlying type is not a declared type. -/
theorem Ty.underlying_ne_named : ∀ (t : Ty) (p n : String) (ms : List String) (u : Ty),
    t.underlying ≠ .named p n ms u
  | .basic _, _, _, _, _ => by simp [Ty.underlying]
  | .named _ _ _ u2, p, n, ms, u => by
      simp only [Ty.underlying]
      exact Ty.underlying_ne_named u2 p n ms u
  | .array _ _, _, _, _, _ => by simp [Ty.underlying]
  | .chan _, _, _, _, _ => by simp [Ty.underlying]
  | .func _, _, _, _, _ => by simp [Ty.underlying]
  | .iface _, _, _, _, _ => by simp [Ty.underlying]
  | .map _ _, _, _, _, _ => by simp [Ty.underlying]
  | .ptr _, _, _, _, _ => by simp [Ty.underlying]
  | .slice _, _, _, _, _ => by simp [Ty.underlying]
  | .struct _, _, _, _, _ => by simp [Ty.underlying]
  | .recur q m ms2 u2, p, n, ms, u => by
      simp only [Ty.underlying]
      have ih := Ty.underlying_ne_named u2
      generalize u2.underlying = x at ih
      cases x <;> simp [Ty.openWith]
      exact absurd rfl (ih _ _ _ _)
  | .ref _ _, _, _, _, _ => by simp [Ty.underlying]

/-- A value whose kind is `Ptr` is valid. -/
theorem Val.isValid_of_kind_ptr {v : Val} (h : v.kind = .Ptr) : v.IsValid = true := by
  cases v <;> simp_all [Val.kind, Val.IsValid]

/-! ## C1: the no-op law -/

/-- C1. Decoding an absent input (the nil `interface{}`) or a typed-nil pointer returns
nil and leaves the target as it was: `decode` does so for every path, target and flags as
soon as it has fuel for one call, and `Decode` does so for every output that points to a
target. -/
theorem decode_nil_input_noop (lib : GoLib) (fuel : Nat) (input : Val)
    (h : input = Val.invalid ∨ ∃ t : Ty, t.kind = Kind.Ptr ∧ input = Val.nil t) :
    (∀ (name : String) (outVal : Val) (fl : Flags),
        decode lib (fuel + 1) name input outVal fl = done outVal) ∧
    (∀ (t : Ty) (target : Val), t.kind = Kind.Ptr → target.IsValid = true →
        Decode lib (fuel + 1) input (Val.ptr t target) = done (Val.ptr t target)) := by
  have key : ∀ (name : String) (outVal : Val) (fl : Flags),
      decode lib (fuel + 1) name input outVal fl = done outVal := by
    intro name outVal fl
    rcases h with h | ⟨t, ht, h⟩
    · subst h
      simp [decode, decodeBody, Val.IsValid]
    · subst h
      simp [decode, decodeBody, Val.IsValid, Val.kind, Val.typ, ht, Val.IsNil]
  refine ⟨key, ?_⟩
  intro t target ht hv
  simp [Decode, Decoder.Decode, Val.kind, Val.typ, ht, Val.Elem, hv, Flags.elem, Flags.fresh,
    Flags.pointee, Flags.CanAddr, key, done, Val.setElem]

/-- C1 at a concrete input: a typed-nil `*int` decoded into a `string` target holding
`"foo"`, and the nil `interface{}` decoded through `Decode`. -/
theorem decode_nil_input_noop_witness :
    ((Val.nil (Ty.ptr tInt) = Val.invalid ∨
        ∃ t : Ty, t.kind = Kind.Ptr ∧ Val.nil (Ty.ptr tInt) = Val.nil t) ∧
      decode stdLib 1 "" (Val.nil (Ty.ptr tInt)) (text "foo") Flags.fresh = done (text "foo")) ∧
    Decode stdLib 1 (Val.nil (Ty.ptr tInt)) (Val.ptr (Ty.ptr tString) (text "foo")) =
      done (Val.ptr (Ty.ptr tString) (text "foo")) :=
  ⟨⟨Or.inr ⟨Ty.ptr tInt, rfl, rfl⟩,
      (decode_nil_input_noop stdLib 0 _ (Or.inr ⟨Ty.ptr tInt, rfl, rfl⟩)).1 _ _ _⟩,
    (decode_nil_input_noop stdLib 0 _ (Or.inr ⟨Ty.ptr tInt, rfl, rfl⟩)).2 _ _ rfl rfl⟩


mutual
/-- Type identity holds between a type and itself. -/
theorem Ty.beq_refl : ∀ t : Ty, Ty.beq t t = true
  | .basic _ => by simp [Ty.beq]
  | .named _ _ _ u => by simp [Ty.beq, Ty.beq_refl u]
  | .array _ e => by simp [Ty.beq, Ty.beq_refl e]
  | .chan e => by simp [Ty.beq, Ty.beq_refl e]
  | .func _ => by simp [Ty.beq]
  | .iface _ => by simp [Ty.beq]
  | .map k e => by simp [Ty.beq, Ty.beq_refl k, Ty.beq_refl e]
  | .ptr e => by simp [Ty.beq, Ty.beq_refl e]
  | .slice e => by simp [Ty.beq, Ty.beq_refl e]
  | .struct fs => by simp [Ty.beq, Ty.beqFields_refl fs]
  | .recur _ _ _ u => by simp [Ty.beq, Ty.beq_refl u]
  | .ref _ _ => by simp [Ty.beq]
/-- Identity of a field list with itself. -/
theorem Ty.beqFields_refl : ∀ fs : List StructField, Ty.beqFields fs fs = true
  | [] => by simp [Ty.beqFields]
  | f :: fs => by simp [Ty.beqFields, Ty.beqField_refl f, Ty.beqFields_refl fs]
/-- Identity of a field with itself. -/
theorem Ty.beqField_refl : ∀ f : StructField, Ty.beqField f f = true
  | .mk _ _ _ _ t => by simp [Ty.beqField, Ty.beq_refl t]
end

@[simp]
theorem Ty.beq_self (t : Ty) : (t == t) = true := Ty.beq_refl t

@[simp]
theorem Ty.bne_self (t : Ty) : (t != t) = false := by simp [bne]

/-- The function `getKind` is the family of the kind. -/
theorem getKind_eq (v : Val) : getKind v = v.kind.family := rfl

/-- The kind of a type whose underlying type is known. -/
theorem Ty.kind_of_underlying {t u : Ty} (h : t.underlying = u) : t.kind = u.kind := by
  rw [← Ty.kind_underlying t, h]

/-! ## C2: typed-nil maps, slices and functions -/

/-- C2 fails as stated.  A typed-nil `map[string]string` decoded into a settable map
holding `hello: world` returns nil but leaves the target nil, without its entry, and a
typed-nil `func() string` decoded into a function target replaces the function by nil. -/
theorem typed_nil_source_changes_target :
    (decode stdLib 1 "" (Val.nil tMapSS) (Val.map tMapSS [(text "hello", text "world")])
        Flags.fresh = done (Val.nil tMapSS) ∧
      Val.nil tMapSS ≠ Val.map tMapSS [(text "hello", text "world")]) ∧
    (decode stdLib 1 "" (Val.nil (Ty.func "func() string")) (Val.func (Ty.func "func() string") 7)
        Flags.fresh = done (Val.nil (Ty.func "func() string")) ∧
      Val.nil (Ty.func "func() string") ≠ Val.func (Ty.func "func() string") 7) :=
  ⟨⟨rfl, fun h => Val.noConfusion h⟩, ⟨rfl, fun h => Val.noConfusion h⟩⟩

/-- C2 as amended.  A typed-nil slice, map or function is not treated as an absent source
but decoded by the converter of the target: a slice target (nil, or settable and not nil)
is left as it was; a nil map target stays nil, while a settable map target of the source's
type that is not nil becomes nil; a settable function target of the source's type becomes
nil. -/
theorem typed_nil_source_decoding (lib : GoLib) (fuel : Nat) (name : String) (fl : Flags)
    (hset : fl.CanSet = true) :
    (∀ (st vt se ve : Ty), st.underlying = Ty.slice se → vt.underlying = Ty.slice ve →
        decode lib (fuel + 1) name (Val.nil st) (Val.nil vt) fl = done (Val.nil vt)) ∧
    (∀ (st vt se ve : Ty) (es : List Val), st.underlying = Ty.slice se →
        vt.underlying = Ty.slice ve →
        decode lib (fuel + 1) name (Val.nil st) (Val.slice vt es) fl = done (Val.slice vt es)) ∧
    (∀ (st vt sk se vk ve : Ty), st.underlying = Ty.map sk se → vt.underlying = Ty.map vk ve →
        decode lib (fuel + 1) name (Val.nil st) (Val.nil vt) fl = done (Val.nil vt)) ∧
    (∀ (t k e : Ty) (es : List (Val × Val)), t.underlying = Ty.map k e →
        decode lib (fuel + 1) name (Val.nil t) (Val.map t es) fl = done (Val.nil t)) ∧
    (∀ (t : Ty) (sig : String) (id : Nat), t.underlying = Ty.func sig →
        decode lib (fuel + 1) name (Val.nil t) (Val.func t id) fl = done (Val.nil t)) := by
  have hro : fl.ro = false := by
    simp [Flags.CanSet] at hset
    exact hset.2
  have haddr : fl.addr = true := by
    simp [Flags.CanSet] at hset
    exact hset.1
  refine ⟨?_, ?_, ?_, ?_, ?_⟩
  · intro st vt se ve hs hv
    have ks := Ty.kind_of_underlying hs
    have kv := Ty.kind_of_underlying hv
    simp [Ty.kind] at ks kv
    simp [decode, decodeBody, Val.IsValid, Val.kind, Val.typ, ks, kv, getKind, Kind.toNat,
      decodeSlice, Indirect, Val.TypeOf, Ty.Elem, hv, Val.IsNil, Val.Len]
  · intro st vt se ve es hs hv
    have ks := Ty.kind_of_underlying hs
    have kv := Ty.kind_of_underlying hv
    simp [Ty.kind] at ks kv
    simp [decode, decodeBody, Val.IsValid, Val.kind, Val.typ, ks, kv, getKind, Kind.toNat,
      decodeSlice, Indirect, Val.TypeOf, Ty.Elem, hv, Val.IsNil, Val.Len, decodeInto,
      decodeElems, Val.elems, Val.Set, hro, haddr, assignTo, Val.withType, finish, done]
  · intro st vt sk se vk ve hs hv
    have ks := Ty.kind_of_underlying hs
    have kv := Ty.kind_of_underlying hv
    simp [Ty.kind] at ks kv
    simp [decode, decodeBody, Val.IsValid, Val.kind, Val.typ, ks, kv, getKind, Kind.toNat,
      decodeMap, Indirect, Val.TypeOf, Ty.mapTypes, hv, Val.IsNil, Val.Len, decodeMapFromMap]
  · intro t k e es ht
    have kt := Ty.kind_of_underlying ht
    simp [Ty.kind] at kt
    simp [decode, decodeBody, Val.IsValid, Val.kind, Val.typ, kt, getKind, Kind.toNat,
      decodeMap, Indirect, Val.TypeOf, Ty.mapTypes, ht, Val.IsNil, Val.Len, decodeMapFromMap,
      Val.Set, hro, haddr, assignTo, Val.withType, done]
  · intro t sig id ht
    have kt := Ty.kind_of_underlying ht
    simp [Ty.kind] at kt
    simp [decode, decodeBody, Val.IsValid, Val.kind, Val.typ, kt, getKind, Kind.toNat,
      decodeFunc, Indirect, Val.TypeOf, Val.Set, hro, haddr, assignTo, Val.withType, done]

/-- C2 as amended, at concrete inputs: a typed-nil `map[string]string` resets a settable
map of that type. -/
theorem typed_nil_source_decoding_witness :
    Flags.fresh.CanSet = true ∧ tMapSS.underlying = Ty.map tString tString ∧
      decode stdLib 1 "m" (Val.nil tMapSS) (Val.map tMapSS [(text "hello", text "world")])
        Flags.fresh = done (Val.nil tMapSS) :=
  ⟨rfl, rfl, (typed_nil_source_decoding stdLib 0 "m" Flags.fresh rfl).2.2.2.1 tMapSS tString
    tString [(text "hello", text "world")] rfl⟩

/-! ## C5: the acceptance matrix of the scalar converters -/

/-- With a source that is valid after one dereference, `decode` dispatches. -/
theorem decode_dispatch (lib : GoLib) (fuel : Nat) (name : String) (data val : Val) (fl : Flags)
    (hd : (Indirect data).IsValid = true) :
    decode lib (fuel + 1) name data val fl =
      (match getKind val with
      | .Bool => decodeBool name data val fl
      | .Interface => decodeBasic (decode lib fuel) name data val fl
      | .String => decodeString name data val fl
      | .Int => decodeInt lib name data val fl
      | .Uint => decodeUint lib name data val fl
      | .Float32 => decodeFloat lib name data val fl
      | .Struct => decodeStruct (decode lib fuel) lib name data val fl
      | .Map => decodeMap (decode lib fuel) lib name data val fl
      | .Ptr => decodePtr (decode lib fuel) name data val fl
      | .Slice => decodeSlice (decode lib fuel) name data val fl
      | .Array => decodeArray (decode lib fuel) name data val fl
      | .Func => decodeFunc name data val fl
      | k => fail val (.plain (name ++ ": unsupported type: " ++ kindString k))) := by
  have hvalid : data.IsValid = true := by
    cases data <;> simp_all [Indirect, Val.IsValid, Val.kind]
  have hnil : ∀ t, data = Val.nil t → t.kind ≠ Kind.Ptr := by
    intro t ht hk
    subst ht
    simp [Indirect, Val.kind, Val.typ, hk, Val.IsValid] at hd
  simp only [decode, decodeBody, hvalid, if_true]
  by_cases hk : data.kind = Kind.Ptr
  · have hn : data.IsNil = Res.ok false := by
      cases data <;> simp_all [Val.IsNil, Val.kind, Val.typ]
    simp only [hk, hn, hvalid, if_true, Res.bind_ok, Bool.false_eq_true, if_false,
      Bool.not_true]
  · simp only [hk, hvalid, if_false, Res.bind_ok, Bool.not_true, Bool.false_eq_true]


/-- The scalar converters reject a source of another kind with a type mismatch and leave
the target as it was. -/
theorem scalar_reject (lib : GoLib) (name : String) (data val : Val) (fl : Flags)
    (hv : val.IsValid = true) (hd : (Indirect data).IsValid = true) :
    (getKind (Indirect data) ≠ Kind.Bool →
      decodeBool name data val fl = fail val (unconvertible name val.typ (Indirect data).typ)) ∧
    (getKind (Indirect data) ≠ Kind.String →
      decodeString name data val fl =
        fail val (unconvertible name val.typ (Indirect data).typ)) ∧
    (getKind (Indirect data) ≠ Kind.Int → getKind (Indirect data) ≠ Kind.Uint →
      getKind (Indirect data) ≠ Kind.Float32 → isNumeral (Indirect data).typ = false →
      decodeInt lib name data val fl =
        fail val (unconvertible name val.typ (Indirect data).typ)) ∧
    (getKind (Indirect data) ≠ Kind.Int → getKind (Indirect data) ≠ Kind.Uint →
      getKind (Indirect data) ≠ Kind.Float32 →
      decodeUint lib name data val fl =
        fail val (unconvertible name val.typ (Indirect data).typ)) ∧
    (getKind (Indirect data) ≠ Kind.Int → getKind (Indirect data) ≠ Kind.Uint →
      getKind (Indirect data) ≠ Kind.Float32 → isNumeral (Indirect data).typ = false →
      decodeFloat lib name data val fl =
        fail val (unconvertible name val.typ (Indirect data).typ)) := by
  refine ⟨?_, ?_, ?_, ?_, ?_⟩
  · intro h
    simp [decodeBool, h, Val.TypeOf, hv, hd]
  · intro h
    simp [decodeString, h, Val.TypeOf, hv, hd]
  · intro h1 h2 h3 h4
    have h4' : ¬((Indirect data).typ.PkgPath = "encoding/json" ∧
        (Indirect data).typ.Name = "Number") := by
      intro hc
      simp [isNumeral, hc.1, hc.2] at h4
    simp [decodeInt, h1, h2, h3, h4', Val.TypeOf, hv, hd]
  · intro h1 h2 h3
    simp [decodeUint, h1, h2, h3, Val.TypeOf, hv, hd]
  · intro h1 h2 h3 h4
    have h4' : ¬((Indirect data).typ.PkgPath = "encoding/json" ∧
        (Indirect data).typ.Name = "Number") := by
      intro hc
      simp [isNumeral, hc.1, hc.2] at h4
    simp [decodeFloat, h1, h2, h3, h4', Val.TypeOf, hv, hd]

/-- A call that returned an error did not return nil. -/
theorem fail_ne_done (v w : Val) (e : GoError) : fail v e ≠ done w := by
  simp [fail, done]

/-- C5. The strict acceptance matrix of the scalar converters, for every valid target of a
scalar kind, every path and every source that is valid after one dereference.  `decode`
returns nil only if the kind of the source is boolean for a boolean target; text for a
text target; integer, unsigned, floating point or the numeral type for an integer target;
integer, unsigned or floating point for an unsigned target; integer, unsigned, floating
point or the numeral type for a floating-point target.  For every other source it returns
the type-mismatch error and the target is as it was. -/
theorem scalar_acceptance_matrix (lib : GoLib) (fuel : Nat) (name : String) (data val : Val)
    (fl : Flags) (hv : val.IsValid = true) (hd : (Indirect data).IsValid = true) :
    (getKind val = Kind.Bool →
      ((∀ v, decode lib (fuel + 1) name data val fl = done v →
          getKind (Indirect data) = Kind.Bool) ∧
        (getKind (Indirect data) ≠ Kind.Bool →
          decode lib (fuel + 1) name data val fl =
            fail val (unconvertible name val.typ (Indirect data).typ)))) ∧
    (getKind val = Kind.String →
      ((∀ v, decode lib (fuel + 1) name data val fl = done v →
          getKind (Indirect data) = Kind.String) ∧
        (getKind (Indirect data) ≠ Kind.String →
          decode lib (fuel + 1) name data val fl =
            fail val (unconvertible name val.typ (Indirect data).typ)))) ∧
    (getKind val = Kind.Int →
      ((∀ v, decode lib (fuel + 1) name data val fl = done v →
          getKind (Indirect data) = Kind.Int ∨ getKind (Indirect data) = Kind.Uint ∨
            getKind (Indirect data) = Kind.Float32 ∨ isNumeral (Indirect data).typ = true) ∧
        (getKind (Indirect data) ≠ Kind.Int → getKind (Indirect data) ≠ Kind.Uint →
          getKind (Indirect data) ≠ Kind.Float32 → isNumeral (Indirect data).typ = false →
          decode lib (fuel + 1) name data val fl =
            fail val (unconvertible name val.typ (Indirect data).typ)))) ∧
    (getKind val = Kind.Uint →
      ((∀ v, decode lib (fuel + 1) name data val fl = done v →
          getKind (Indirect data) = Kind.Int ∨ getKind (Indirect data) = Kind.Uint ∨
            getKind (Indirect data) = Kind.Float32) ∧
        (getKind (Indirect data) ≠ Kind.Int → getKind (Indirect data) ≠ Kind.Uint →
          getKind (Indirect data) ≠ Kind.Float32 →
          decode lib (fuel + 1) name data val fl =
            fail val (unconvertible name val.typ (Indirect data).typ)))) ∧
    (getKind val = Kind.Float32 →
      ((∀ v, decode lib (fuel + 1) name data val fl = done v →
          getKind (Indirect data) = Kind.Int ∨ getKind (Indirect data) = Kind.Uint ∨
            getKind (Indirect data) = Kind.Float32 ∨ isNumeral (Indirect data).typ = true) ∧
        (getKind (Indirect data) ≠ Kind.Int → getKind (Indirect data) ≠ Kind.Uint →
          getKind (Indirect data) ≠ Kind.Float32 → isNumeral (Indirect data).typ = false →
          decode lib (fuel + 1) name data val fl =
            fail val (unconvertible name val.typ (Indirect data).typ)))) := by
  obtain ⟨hb, hs, hi, hu, hf⟩ := scalar_reject lib name data val fl hv hd
  have hdisp := decode_dispatch lib fuel name data val fl hd
  refine ⟨?_, ?_, ?_, ?_, ?_⟩
  · intro hk
    rw [hdisp, hk]
    refine ⟨fun v hres => ?_, hb⟩
    by_contra hne
    exact fail_ne_done _ _ _ ((hb hne).symm.trans hres)
  · intro hk
    rw [hdisp, hk]
    refine ⟨fun v hres => ?_, hs⟩
    by_contra hne
    exact fail_ne_done _ _ _ ((hs hne).symm.trans hres)
  · intro hk
    rw [hdisp, hk]
    refine ⟨fun v hres => ?_, hi⟩
    by_contra hne
    simp only [not_or, Bool.not_eq_true] at hne
    exact fail_ne_done _ _ _ ((hi hne.1 hne.2.1 hne.2.2.1 hne.2.2.2).symm.trans hres)
  · intro hk
    rw [hdisp, hk]
    refine ⟨fun v hres => ?_, hu⟩
    by_contra hne
    simp only [not_or] at hne
    exact fail_ne_done _ _ _ ((hu hne.1 hne.2.1 hne.2.2).symm.trans hres)
  · intro hk
    rw [hdisp, hk]
    refine ⟨fun v hres => ?_, hf⟩
    by_contra hne
    simp only [not_or, Bool.not_eq_true] at hne
    exact fail_ne_done _ _ _ ((hf hne.1 hne.2.1 hne.2.2.1 hne.2.2.2).symm.trans hres)

/-! ## C6: negative sources of an unsigned target -/

/-- A target of the unsigned family is valid and `SetUint` stores into it. -/
theorem setUint_of_getKind {val : Val} {fl : Flags} (hk : getKind val = Kind.Uint)
    (hset : fl.CanSet = true) (x : Nat) :
    val.SetUint fl x = Res.ok (Val.uint val.typ (wrapUint val.kind.bits x)) := by
  have hro : fl.ro = false := by
    simp [Flags.CanSet] at hset
    exact hset.2
  have haddr : fl.addr = true := by
    simp [Flags.CanSet] at hset
    exact hset.1
  have hv : val.IsValid = true := by
    cases val with
    | invalid => exact absurd hk (by decide)
    | _ => rfl
  rw [getKind_eq] at hk
  simp only [Val.SetUint, mustBeAssignable, hv, hro, haddr, Bool.not_true, Bool.false_eq_true,
    if_false, Res.bind_ok]
  generalize val.kind = k at hk ⊢
  cases k <;> simp_all [Kind.family, Kind.toNat]

/-- A target of the integer family is valid and `SetInt` stores into it. -/
theorem setInt_of_getKind {val : Val} {fl : Flags} (hk : getKind val = Kind.Int)
    (hset : fl.CanSet = true) (x : Int) :
    val.SetInt fl x = Res.ok (Val.int val.typ (wrapInt val.kind.bits x)) := by
  have hro : fl.ro = false := by
    simp [Flags.CanSet] at hset
    exact hset.2
  have haddr : fl.addr = true := by
    simp [Flags.CanSet] at hset
    exact hset.1
  have hv : val.IsValid = true := by
    cases val with
    | invalid => exact absurd hk (by decide)
    | _ => rfl
  rw [getKind_eq] at hk
  simp only [Val.SetInt, mustBeAssignable, hv, hro, haddr, Bool.not_true, Bool.false_eq_true,
    if_false, Res.bind_ok]
  generalize val.kind = k at hk ⊢
  cases k <;> simp_all [Kind.family, Kind.toNat]

/-- C6. For a settable target of the unsigned family at path `name`, `decodeUint` given a
signed integer `i` (directly or behind one pointer) returns the error
`cannot parse 'name', i overflows uint` with `i` in decimal and leaves the target as it was
when `i < 0`, and otherwise returns nil; given a floating-point `f` it returns the same
error with `f` printed by `%f` when `f < 0`, and otherwise returns nil.  The values `-42`
and `-42.0` are printed as `-42` and `-42.000000`. -/
theorem decodeUint_negative_overflows (lib : GoLib) (name : String) (data val : Val)
    (fl : Flags) (hk : getKind val = Kind.Uint) (hset : fl.CanSet = true) :
    (getKind (Indirect data) = Kind.Int →
      decodeUint lib name data val fl =
        if (Indirect data).getInt < 0 then
          fail val (GoError.plain ("cannot parse '" ++ name ++ "', " ++
            fmtD (Indirect data).getInt ++ " overflows uint"))
        else done (Val.uint val.typ (wrapUint val.kind.bits (Indirect data).getInt.toNat))) ∧
    (getKind (Indirect data) = Kind.Float32 →
      decodeUint lib name data val fl =
        if (Indirect data).getFloat.ltZero = true then
          fail val (GoError.plain ("cannot parse '" ++ name ++ "', " ++
            fmtF (Indirect data).getFloat ++ " overflows uint"))
        else done (Val.uint val.typ
          (wrapUint val.kind.bits (floatToUint64 lib (Indirect data).getFloat)))) ∧
    fmtD (-42) = "-42" ∧ fmtF (GoFloat.fin true 42 0) = "-42.000000" := by
  refine ⟨?_, ?_, by decide, by decide⟩
  · intro h
    by_cases hneg : (Indirect data).getInt < 0
    · simp [decodeUint, h, hneg]
    · simp [decodeUint, h, hneg, setUint_of_getKind hk hset, done]
  · intro h
    by_cases hneg : (Indirect data).getFloat.ltZero = true
    · simp [decodeUint, h, hneg]
    · simp [decodeUint, h, hneg, setUint_of_getKind hk hset, done]

/-- C6 at the inputs of `TestInvalidType`: `-42` and `-42.0` decoded into a `uint` at path
`VUint`. -/
theorem decodeUint_negative_overflows_witness :
    (getKind (Val.uint (Ty.basic Kind.Uint) 7) = Kind.Uint ∧ Flags.fresh.CanSet = true) ∧
    decodeUint stdLib "VUint" (Val.int tInt (-42)) (Val.uint (Ty.basic Kind.Uint) 7) Flags.fresh =
      fail (Val.uint (Ty.basic Kind.Uint) 7)
        (GoError.plain "cannot parse 'VUint', -42 overflows uint") ∧
    decodeUint stdLib "VUint" (Val.float (Ty.basic Kind.Float64) (GoFloat.fin true 42 0))
        (Val.uint (Ty.basic Kind.Uint) 7) Flags.fresh =
      fail (Val.uint (Ty.basic Kind.Uint) 7)
        (GoError.plain "cannot parse 'VUint', -42.000000 overflows uint") :=
  ⟨⟨rfl, rfl⟩,
    ((decodeUint_negative_overflows stdLib "VUint" (Val.int tInt (-42))
      (Val.uint (Ty.basic Kind.Uint) 7) Flags.fresh rfl rfl).1 rfl).trans rfl,
    ((decodeUint_negative_overflows stdLib "VUint"
      (Val.float (Ty.basic Kind.Float64) (GoFloat.fin true 42 0))
      (Val.uint (Ty.basic Kind.Uint) 7) Flags.fresh rfl rfl).2.1 rfl).trans rfl⟩

/-! ## C7: no width check -/

/-- C7 fails as stated.  `300` decoded into an `int8` target returns nil and stores `44`;
the `uint64` value `2^63` decoded into an `int64` target returns nil and stores `-2^63`. -/
theorem out_of_range_integer_is_stored_wrapped :
    decode stdLib 1 "n" (Val.int tInt 300) (Val.int (Ty.basic Kind.Int8) 0) Flags.fresh =
      done (Val.int (Ty.basic Kind.Int8) 44) ∧
    decode stdLib 1 "n" (Val.uint (Ty.basic Kind.Uint64) (2 ^ 63))
        (Val.int (Ty.basic Kind.Int64) 0) Flags.fresh =
      done (Val.int (Ty.basic Kind.Int64) (-(2 ^ 63))) := by
  constructor <;> rfl

/-- C7 as amended.  The integer converters check no width.  For a settable target of the
integer family, `decodeInt` given an integer `i` returns nil and stores `i` truncated to
the width of the target, and given an unsigned `n` stores `n` truncated to 64 bits and
then to that width.  For a settable target of the unsigned family, `decodeUint` given an
unsigned `n` returns nil and stores `n` truncated to the width of the target; it reports
an overflow only for a negative source (C6). -/
theorem integer_sources_are_truncated (lib : GoLib) (name : String) (data val : Val)
    (fl : Flags) (hset : fl.CanSet = true) (hd : (Indirect data).IsValid = true) :
    (getKind val = Kind.Int → getKind (Indirect data) = Kind.Int →
      decodeInt lib name data val fl =
        done (Val.int val.typ (wrapInt val.kind.bits (Indirect data).getInt))) ∧
    (getKind val = Kind.Int → getKind (Indirect data) = Kind.Uint →
      decodeInt lib name data val fl =
        done (Val.int val.typ (wrapInt val.kind.bits (wrapInt 64 (Indirect data).getUint)))) ∧
    (getKind val = Kind.Uint → getKind (Indirect data) = Kind.Uint →
      decodeUint lib name data val fl =
        done (Val.uint val.typ (wrapUint val.kind.bits (Indirect data).getUint))) := by
  refine ⟨?_, ?_, ?_⟩
  · intro hk h
    simp [decodeInt, h, Val.TypeOf, hd, setInt_of_getKind hk hset, done]
  · intro hk h
    simp [decodeInt, h, Val.TypeOf, hd, setInt_of_getKind hk hset, done]
  · intro hk h
    simp [decodeUint, h, setUint_of_getKind hk hset, done]

/-- C7 as amended, at a concrete input: `300` into a settable `int8`. -/
theorem integer_sources_are_truncated_witness :
    (Flags.fresh.CanSet = true ∧ (Indirect (Val.int tInt 300)).IsValid = true) ∧
    decodeInt stdLib "n" (Val.int tInt 300) (Val.int (Ty.basic Kind.Int8) 0) Flags.fresh =
      done (Val.int (Ty.basic Kind.Int8) 44) :=
  ⟨⟨rfl, rfl⟩,
    ((integer_sources_are_truncated stdLib "n" (Val.int tInt 300)
      (Val.int (Ty.basic Kind.Int8) 0) Flags.fresh rfl rfl).1 rfl rfl).trans rfl⟩

/-! ## The loop of `decodeStructFromMap` -/

/-- The messages of an error are appended to the accumulator. -/
theorem appendErrors_eq (errors : List String) (err : GoError) :
    appendErrors errors err = errors ++ errorStrings (some err) := by
  cases err <;> simp [appendErrors, errorStrings]

/-- One step of the loop of `decodeStructFromMap`. -/
theorem decodeStructFields_cons (dec : Dec) (lib : GoLib) (name : String) (dataVal : Val)
    (keys : List Val) (fl : Flags) (f : StructField) (fs : List StructField) (v : Val)
    (vs : List Val) (errors : List String) :
    decodeStructFields dec lib name dataVal keys fl (f :: fs) (v :: vs) errors =
      (fieldOutcome dec lib name dataVal keys fl f v).bind fun r =>
        (decodeStructFields dec lib name dataVal keys fl fs vs (errors ++ r.2)).bind fun rest =>
          .ok (r.1 :: rest.1, rest.2) := by
  simp only [decodeStructFields, fieldOutcome, fieldPath]
  cases hres : resolveField lib dataVal keys (effectiveName f) with
  | panic m => simp
  | outOfFuel => simp
  | ok raw =>
    simp only [Res.bind_ok]
    by_cases h1 : raw.IsValid = true
    · by_cases h2 : v.IsValid = true
      · by_cases h3 : (fl.field f).CanSet = true
        · simp only [h1, h2, h3, Bool.not_true, Bool.false_eq_true, if_false]
          cases hi : raw.Interface with
          | panic m => simp
          | outOfFuel => simp
          | ok d =>
            simp only [Res.bind_ok]
            cases hd : dec (if name ≠ "" then name ++ "." ++ effectiveName f else effectiveName f)
                d v (fl.field f) with
            | panic m => simp
            | outOfFuel => simp
            | ok r =>
              obtain ⟨w, e⟩ := r
              cases e with
              | none => simp [errorStrings]
              | some err => simp [appendErrors_eq]
        · simp [h1, h2, h3]
      · simp [h1, h2]
    · simp [h1]

/-- The loop of `decodeStructFromMap` returns exactly when the conversion of every field
returns, and then each field holds the outcome of its own conversion and the messages are
those of the fields, in order. -/
theorem decodeStructFields_iff (dec : Dec) (lib : GoLib) (name : String) (dataVal : Val)
    (keys : List Val) (fl : Flags) :
    ∀ (fs : List StructField) (vs : List Val) (errors : List String) (vs' : List Val)
      (errors' : List String), fs.length ≤ vs.length →
      (decodeStructFields dec lib name dataVal keys fl fs vs errors = .ok (vs', errors') ↔
        ∃ rs : List (Val × List String),
          List.Forall₂ (fun fv r => fieldOutcome dec lib name dataVal keys fl fv.1 fv.2 = .ok r)
            (fs.zip vs) rs ∧
          vs' = rs.map Prod.fst ++ vs.drop fs.length ∧
          errors' = errors ++ (rs.map Prod.snd).flatten)
  | [], vs, errors, vs', errors', _ => by
      simp [decodeStructFields]
      constructor
      · rintro ⟨rfl, rfl⟩
        exact ⟨rfl, rfl⟩
      · rintro ⟨rfl, rfl⟩
        exact ⟨rfl, rfl⟩
  | f :: fs, [], _, _, _, h => by simp at h
  | f :: fs, v :: vs, errors, vs', errors', h => by
      have hlen : fs.length ≤ vs.length := by simpa using h
      rw [decodeStructFields_cons]
      constructor
      · intro hres
        cases hf : fieldOutcome dec lib name dataVal keys fl f v with
        | panic m => simp [hf] at hres
        | outOfFuel => simp [hf] at hres
        | ok r =>
          rw [hf] at hres
          simp only [Res.bind_ok] at hres
          cases hrest : decodeStructFields dec lib name dataVal keys fl fs vs (errors ++ r.2) with
          | panic m => simp [hrest] at hres
          | outOfFuel => simp [hrest] at hres
          | ok rest =>
            rw [hrest] at hres
            simp only [Res.bind_ok, Res.ok.injEq, Prod.mk.injEq] at hres
            obtain ⟨rs, hall, hv, he⟩ :=
              (decodeStructFields_iff dec lib name dataVal keys fl fs vs (errors ++ r.2) rest.1
                rest.2 hlen).1 (by rw [hrest])
            refine ⟨r :: rs, ?_, ?_, ?_⟩
            · simpa [hf] using hall
            · rw [← hres.1, hv]
              simp
            · rw [← hres.2, he]
              simp
      · rintro ⟨rs, hall, hv, he⟩
        cases rs with
        | nil => simp at hall
        | cons r rs =>
          simp only [List.zip_cons_cons, List.forall₂_cons] at hall
          have hrest :=
            (decodeStructFields_iff dec lib name dataVal keys fl fs vs (errors ++ r.2)
              (rs.map Prod.fst ++ vs.drop fs.length) (errors ++ r.2 ++ (rs.map Prod.snd).flatten)
              hlen).2 ⟨rs, hall.2, rfl, rfl⟩
          rw [hall.1]
          simp only [Res.bind_ok]
          rw [hrest]
          simp [hv, he]


/-- A key equal to a string key holds the same text. -/
theorem keyText_of_goEq_str {k : Val} {t : Ty} {n : String}
    (h : Val.goEq k (Val.str t n) = true) : keyText k = some n := by
  cases k <;> simp_all [Val.goEq, keyText]

/-- A key equal to an interface key holding a string holds the same text. -/
theorem keyText_of_goEq_iface {k : Val} {t t2 : Ty} {n : String}
    (h : Val.goEq k (Val.iface t2 (Val.str t n)) = true) : keyText k = some n := by
  cases k with
  | iface ti held =>
    simp only [Val.goEq] at h
    cases held <;> simp_all [keyText, Val.goEq]
  | _ => simp [Val.goEq] at h

/-- A key with the text of the name matches the name. -/
theorem keyMatches_of_keyText (lib : GoLib) {k : Val} {n : String} (h : keyText k = some n) :
    keyMatches lib k n = true := by
  simp [keyMatches, h]

/-- The exact lookup of `decodeStructFromMap` in a map keyed by text: the key is the field
name as a `string`, boxed when the key type is `interface{}`. -/
theorem MapIndex_name (dataVal : Val) (n : String) (hk : dataVal.kind = Kind.Map)
    (ht : textKeyed dataVal.typ) :
    ∃ key : Val, (∀ k : Val, Val.goEq k key = true → keyText k = some n) ∧
      dataVal.MapIndex (Val.str (Ty.basic Kind.String) n) =
        Res.ok ((lookupEntry key dataVal.entries).getD Val.invalid) := by
  obtain ⟨et, h | h⟩ := ht
  · refine ⟨Val.str (Ty.basic Kind.String) n, fun k hk => keyText_of_goEq_str hk, ?_⟩
    simp only [Val.MapIndex, hk, if_true, Ty.mapTypes, h, Res.bind_ok]
    simp only [assignTo, Val.IsValid, Val.typ, Ty.beq_self, Bool.true_or, Val.withType,
      Bool.not_true, Bool.false_eq_true, if_false, if_true, Res.bind_ok]
    cases lookupEntry (Val.str (Ty.basic Kind.String) n) dataVal.entries <;> rfl
  · refine ⟨Val.iface emptyInterface (Val.str (Ty.basic Kind.String) n),
      fun k hk => keyText_of_goEq_iface hk, ?_⟩
    have hne : (Ty.basic Kind.String == emptyInterface) = false := rfl
    simp only [Val.MapIndex, hk, if_true, Ty.mapTypes, h, Res.bind_ok]
    simp only [assignTo, Val.IsValid, Val.typ, hne, Bool.not_true, Bool.false_eq_true, if_false]
    simp only [emptyInterface, Ty.hasName, Ty.underlying, Ty.kind, Ty.methodSet]
    have hne2 : (Ty.basic Kind.String == Ty.iface []) = false := rfl
    simp only [hne2, Bool.false_and, Bool.and_false, Bool.or_false, Bool.false_eq_true, if_false,
      List.all_nil, Bool.and_true, beq_self_eq_true, if_true, Res.bind_ok]
    cases lookupEntry (Val.iface (Ty.iface []) (Val.str (Ty.basic Kind.String) n))
      dataVal.entries <;> rfl

/-- A lookup fails when no key equals the sought one. -/
theorem lookupEntry_eq_none {key : Val} :
    ∀ es : List (Val × Val), (∀ e ∈ es, Val.goEq e.1 key = false) → lookupEntry key es = none
  | [], _ => rfl
  | (k, v) :: rest, h => by
      have h1 : Val.goEq k key = false := h (k, v) (List.mem_cons_self _ _)
      simp only [lookupEntry, h1, Bool.false_eq_true, if_false]
      exact lookupEntry_eq_none rest (fun e he => h e (List.mem_cons_of_mem _ he))

/-- The slower search finds nothing when no key matches the name. -/
theorem findFold_eq_none (lib : GoLib) (n : String) :
    ∀ ks : List Val, (∀ k ∈ ks, keyMatches lib k n = false) → findFold lib n ks = none
  | [], _ => rfl
  | k :: ks, h => by
      have h1 : keyMatches lib k n = false := h k (List.mem_cons_self _ _)
      have ih := findFold_eq_none lib n ks (fun k2 hk2 => h k2 (List.mem_cons_of_mem _ hk2))
      cases k with
      | str t s =>
        simp [keyMatches, keyText] at h1
        simp [findFold, Val.Interface, h1.2, ih]
      | iface t held =>
        cases held with
        | str t2 s =>
          simp [keyMatches, keyText] at h1
          simp [findFold, Val.Interface, h1.2, ih]
        | _ => simp [findFold, Val.Interface, ih]
      | nil t =>
        by_cases hki : t.kind = Kind.Interface <;> simp [findFold, Val.Interface, hki, ih]
      | _ => simp [findFold, Val.Interface, ih]

/-- A field whose name matches no source key has no source entry. -/
theorem resolveField_no_match (lib : GoLib) (dataVal : Val) (n : String)
    (hk : dataVal.kind = Kind.Map) (ht : textKeyed dataVal.typ)
    (hno : ∀ e ∈ dataVal.entries, keyMatches lib e.1 n = false) :
    resolveField lib dataVal (dataVal.entries.map Prod.fst) n = Res.ok Val.invalid := by
  obtain ⟨key, hkey, hidx⟩ := MapIndex_name dataVal n hk ht
  have hl : lookupEntry key dataVal.entries = none := by
    apply lookupEntry_eq_none
    intro e he
    by_contra hc
    have hm := keyMatches_of_keyText lib (hkey e.1 (by simpa using hc))
    rw [hno e he] at hm
    exact absurd hm (by simp)
  have hf : findFold lib n (dataVal.entries.map Prod.fst) = none := by
    apply findFold_eq_none
    intro k hk2
    obtain ⟨e, he, rfl⟩ := List.mem_map.1 hk2
    exact hno e he
  simp [resolveField, hidx, hl, hf, Val.IsValid]


/-- Indexing into the per-field outcomes of a loop over the zipped fields and values. -/
theorem forall₂_zip_index {α β γ : Type} {R : α → β → γ → Prop} :
    ∀ (fs : List α) (vs : List β) (rs : List γ),
      List.Forall₂ (fun fv r => R fv.1 fv.2 r) (fs.zip vs) rs →
      ∀ (i : Nat) (f : α) (v : β), fs[i]? = some f → vs[i]? = some v →
        ∃ r, rs[i]? = some r ∧ R f v r
  | [], _, _, _, i, f, v, hf, _ => by simp at hf
  | _ :: _, [], _, _, i, f, v, _, hv => by simp at hv
  | f0 :: fs, v0 :: vs, rs, h, i, f, v, hf, hv => by
      cases rs with
      | nil => simp at h
      | cons r rs =>
        simp only [List.zip_cons_cons, List.forall₂_cons] at h
        cases i with
        | zero =>
          simp only [List.getElem?_cons_zero, Option.some.injEq] at hf hv
          subst hf
          subst hv
          exact ⟨r, by simp, h.1⟩
        | succ i =>
          simp only [List.getElem?_cons_succ] at hf hv
          obtain ⟨r2, hr2, hR⟩ := forall₂_zip_index fs vs rs h.2 i f v hf hv
          exact ⟨r2, by simpa using hr2, hR⟩

/-- The second components of a zip are a prefix of the second list. -/
theorem map_snd_zip_take {α β : Type} :
    ∀ (fs : List α) (vs : List β), (fs.zip vs).map Prod.snd = vs.take fs.length
  | [], _ => by simp
  | _ :: _, [] => by simp
  | _ :: fs, _ :: vs => by simp [map_snd_zip_take fs vs]

/-- The outcome of a field whose name matches no source key: the field is kept and no
message is added. -/
theorem fieldOutcome_no_match (dec : Dec) (lib : GoLib) (name : String) (dataVal : Val)
    (fl : Flags) (f : StructField) (v : Val) (hk : dataVal.kind = Kind.Map)
    (ht : textKeyed dataVal.typ)
    (hno : ∀ e ∈ dataVal.entries, keyMatches lib e.1 (effectiveName f) = false) :
    fieldOutcome dec lib name dataVal (dataVal.entries.map Prod.fst) fl f v = Res.ok (v, []) := by
  simp [fieldOutcome, resolveField_no_match lib dataVal _ hk ht hno, Val.IsValid]

/-- The function `decodeStructFromMap` on a map keyed by text and a struct target: it runs
the loop over the fields and ends with `finish`. -/
theorem decodeStructFromMap_eq (dec : Dec) (lib : GoLib) (name : String) (dataVal : Val)
    (fl : Flags) (st : Ty) (fields : List StructField) (vals : List Val)
    (hk : dataVal.kind = Kind.Map) (ht : textKeyed dataVal.typ)
    (hst : st.structFields = Res.ok fields) (hlen : fields.length ≤ vals.length) :
    decodeStructFromMap dec lib name dataVal (Val.struct st vals) fl =
      (decodeStructFields dec lib name dataVal (dataVal.entries.map Prod.fst) fl fields vals
        []).bind fun r => finish (Val.struct st r.1) r.2 := by
  have hvalid : dataVal.IsValid = true := by
    cases dataVal with
    | invalid => exact absurd hk (by decide)
    | _ => rfl
  have hnot : ¬ (vals.length < fields.length) := by omega
  obtain ⟨et, h | h⟩ := ht
  · simp only [decodeStructFromMap, Val.TypeOf, hvalid, if_true, Res.bind_ok, Ty.mapTypes, h]
    simp [Ty.kind, Val.MapKeys, hk, Val.IsValid, Val.typ, hst, Val.fieldVals, hnot,
      Val.withFields]
  · simp only [decodeStructFromMap, Val.TypeOf, hvalid, if_true, Res.bind_ok, Ty.mapTypes, h]
    simp [Ty.kind, emptyInterface, Val.MapKeys, hk, Val.IsValid, Val.typ, hst, Val.fieldVals,
      hnot, Val.withFields]

/-! ## C3: the merge law for records -/

/-- C3. The merge law for records.  Let the source be a map keyed by text and the target a
struct.  (1) Whenever `decodeStructFromMap` returns, the target is a struct of the same
type with as many fields, and every field whose effective name (the tag key, else the
declared name) equals no source key, neither exactly nor under `strings.EqualFold`, holds
the value it held before.  (2) If no field has a matching key, the call returns nil and
the target is as it was: a missing key is no error. -/
theorem merge_law_records (dec : Dec) (lib : GoLib) (name : String) (dataVal : Val)
    (fl : Flags) (st : Ty) (fields : List StructField) (vals : List Val)
    (hk : dataVal.kind = Kind.Map) (ht : textKeyed dataVal.typ)
    (hst : st.structFields = Res.ok fields) (hlen : fields.length ≤ vals.length) :
    (∀ (v' : Val) (e : Option GoError),
        decodeStructFromMap dec lib name dataVal (Val.struct st vals) fl = Res.ok (v', e) →
        ∃ vals' : List Val, v' = Val.struct st vals' ∧ vals'.length = vals.length ∧
          ∀ (i : Nat) (f : StructField), fields[i]? = some f →
            (∀ en ∈ dataVal.entries, keyMatches lib en.1 (effectiveName f) = false) →
            vals'[i]? = vals[i]?) ∧
    ((∀ f ∈ fields, ∀ en ∈ dataVal.entries, keyMatches lib en.1 (effectiveName f) = false) →
      decodeStructFromMap dec lib name dataVal (Val.struct st vals) fl =
        done (Val.struct st vals)) := by
  rw [decodeStructFromMap_eq dec lib name dataVal fl st fields vals hk ht hst hlen]
  constructor
  · intro v' e hres
    cases hloop : decodeStructFields dec lib name dataVal (dataVal.entries.map Prod.fst) fl
        fields vals [] with
    | panic m => simp [hloop] at hres
    | outOfFuel => simp [hloop] at hres
    | ok r =>
      obtain ⟨vs', errs'⟩ := r
      rw [hloop] at hres
      obtain ⟨rs, hall, hv, -⟩ :=
        (decodeStructFields_iff dec lib name dataVal _ fl fields vals [] vs' errs' hlen).1 hloop
      have hrl : rs.length = fields.length := by
        have := hall.length_eq
        simp only [List.length_zip] at this
        omega
      have hv' : v' = Val.struct st vs' := by
        simp only [Res.bind_ok, finish] at hres
        split at hres <;> simp [fail, done] at hres <;> exact hres.1.symm
      refine ⟨vs', hv', ?_, ?_⟩
      · rw [hv]
        simp only [List.length_append, List.length_map, List.length_drop, hrl]
        omega
      · intro i f hf hno
        have hi : i < fields.length := by
          by_contra hc
          rw [List.getElem?_eq_none (by omega)] at hf
          exact absurd hf (by simp)
        have hi2 : i < vals.length := by omega
        obtain ⟨r, hr, hout⟩ := forall₂_zip_index
          (R := fun f v r => fieldOutcome dec lib name dataVal (dataVal.entries.map Prod.fst) fl
            f v = Res.ok r) fields vals rs hall i f (vals[i]) hf (List.getElem?_eq_getElem hi2)
        rw [fieldOutcome_no_match dec lib name dataVal fl f _ hk ht hno] at hout
        simp only [Res.ok.injEq] at hout
        rw [hv, List.getElem?_append_left (by simp; omega), List.getElem?_map, hr, ← hout]
        simp [List.getElem?_eq_getElem hi2]
  · intro hno
    have hall : List.Forall₂
        (fun fv r => fieldOutcome dec lib name dataVal (dataVal.entries.map Prod.fst) fl fv.1
          fv.2 = Res.ok r) (fields.zip vals) ((fields.zip vals).map fun fv => (fv.2, [])) := by
      rw [List.forall₂_map_right_iff, List.forall₂_same]
      intro fv hfv
      exact fieldOutcome_no_match dec lib name dataVal fl fv.1 fv.2 hk ht
        (hno fv.1 (List.of_mem_zip hfv).1)
    have hloop :=
      (decodeStructFields_iff dec lib name dataVal _ fl fields vals []
        (((fields.zip vals).map fun fv => ((fv.2, []) : Val × List String)).map Prod.fst ++
          vals.drop fields.length)
        ([] ++ (((fields.zip vals).map fun fv => ((fv.2, []) : Val × List String)).map
          Prod.snd).flatten) hlen).2 ⟨_, hall, rfl, rfl⟩
    rw [hloop]
    have h1 : ((fields.zip vals).map fun fv => ((fv.2, []) : Val × List String)).map Prod.fst =
        vals.take fields.length := by
      rw [List.map_map]
      have : (Prod.fst ∘ fun fv : StructField × Val => ((fv.2, []) : Val × List String)) =
          Prod.snd := rfl
      rw [this, map_snd_zip_take]
    have h2 : (((fields.zip vals).map fun fv => ((fv.2, []) : Val × List String)).map
        Prod.snd).flatten = [] := by
      simp
    rw [h1, h2]
    simp [finish, done]


/-- A lookup in a map from which entries were removed finds the same entry when every
entry under the sought key was kept. -/
theorem lookupEntry_filter (keep : Val → Bool) (key : Val) :
    ∀ es : List (Val × Val), (∀ en ∈ es, Val.goEq en.1 key = true → keep en.1 = true) →
      lookupEntry key (es.filter fun en => keep en.1) = lookupEntry key es
  | [], _ => rfl
  | (k, v) :: rest, h => by
      have ih := lookupEntry_filter keep key rest
        (fun en he => h en (List.mem_cons_of_mem _ he))
      by_cases hg : Val.goEq k key = true
      · have hkeep : keep k = true := h (k, v) (List.mem_cons_self _ _) hg
        simp [List.filter, hkeep, lookupEntry, hg]
      · by_cases hkeep : keep k = true
        · simp [List.filter, hkeep, lookupEntry, hg, ih]
        · simp [List.filter, hkeep, lookupEntry, hg, ih]

/-- The slower search finds the same key after keys were removed, when every key matching
the name was kept. -/
theorem findFold_filter (lib : GoLib) (keep : Val → Bool) (n : String) :
    ∀ ks : List Val, (∀ k ∈ ks, keyMatches lib k n = true → keep k = true) →
      findFold lib n (ks.filter keep) = findFold lib n ks
  | [], _ => rfl
  | k :: ks, h => by
      have ih := findFold_filter lib keep n ks (fun k2 hk2 => h k2 (List.mem_cons_of_mem _ hk2))
      have hk := h k (List.mem_cons_self _ _)
      by_cases hkeep : keep k = true
      · simp only [List.filter, hkeep]
        cases k with
        | str t s => simp only [findFold, Val.Interface, ih]
        | iface t held => simp only [findFold, Val.Interface, ih]
        | nil t =>
          by_cases hki : t.kind = Kind.Interface <;> simp [findFold, Val.Interface, hki, ih]
        | _ => simp [findFold, Val.Interface, ih]
      · simp only [List.filter, hkeep]
        have hm : keyMatches lib k n = false := by
          by_contra hc
          exact hkeep (hk (by simpa using hc))
        cases k with
        | str t s =>
          simp [keyMatches, keyText] at hm
          simp [findFold, Val.Interface, hm.2, ih]
        | iface t held =>
          cases held with
          | str t2 s =>
            simp [keyMatches, keyText] at hm
            simp [findFold, Val.Interface, hm.2, ih]
          | _ => simp [findFold, Val.Interface, ih]
        | nil t =>
          by_cases hki : t.kind = Kind.Interface <;> simp [findFold, Val.Interface, hki, ih]
        | _ => simp [findFold, Val.Interface, ih]

/-- A key the slower search returns holds a text that folds to the name. -/
theorem findFold_some (lib : GoLib) (n : String) :
    ∀ (ks : List Val) (k : Val), findFold lib n ks = some k →
      ∃ s : String, lib.EqualFold s n = true ∧
        ((∃ t, k = Val.str t s) ∨ ∃ t t2, k = Val.iface t (Val.str t2 s))
  | [], k, h => by simp [findFold] at h
  | k0 :: ks, k, h => by
      cases k0 with
      | str t s =>
        simp only [findFold, Val.Interface] at h
        split at h
        · rename_i hc
          simp at h
          subst h
          simp at hc
          exact ⟨s, hc.2, Or.inl ⟨t, rfl⟩⟩
        · exact findFold_some lib n ks k h
      | iface t held =>
        cases held with
        | str t2 s =>
          simp only [findFold, Val.Interface] at h
          split at h
          · rename_i hc
            simp at h
            subst h
            simp at hc
            exact ⟨s, hc.2, Or.inr ⟨t, t2, rfl⟩⟩
          · exact findFold_some lib n ks k h
        | _ =>
          simp only [findFold, Val.Interface] at h
          exact findFold_some lib n ks k h
      | nil t =>
        by_cases hki : t.kind = Kind.Interface
        · simp only [findFold, Val.Interface, hki, if_true] at h
          exact findFold_some lib n ks k h
        · simp only [findFold, Val.Interface, hki, if_false] at h
          exact findFold_some lib n ks k h
      | invalid =>
        simp only [findFold, Val.Interface] at h
        exact findFold_some lib n ks k h
      | _ =>
        simp only [findFold, Val.Interface] at h
        exact findFold_some lib n ks k h


/-- A text key stays a text key with the same text when it is converted for a lookup. -/
theorem assignTo_text (c : String) (k k' : Val) (dst : Ty) (s : String)
    (hk : (∃ t, k = Val.str t s) ∨ ∃ t t2, k = Val.iface t (Val.str t2 s))
    (h : assignTo c k dst = Res.ok k') : ∀ x : Val, Val.goEq x k' = true → keyText x = some s := by
  have hshape : (∃ t, k' = Val.str t s) ∨ ∃ t t2, k' = Val.iface t (Val.str t2 s) := by
    rcases hk with ⟨t, rfl⟩ | ⟨t, t2, rfl⟩
    · simp only [assignTo, Val.IsValid, Val.typ, Val.withType, Bool.not_true, Bool.false_eq_true,
        if_false] at h
      split at h
      · simp only [Res.ok.injEq] at h
        exact Or.inl ⟨dst, h.symm⟩
      · split at h
        · simp only [Res.ok.injEq] at h
          exact Or.inr ⟨dst, t, h.symm⟩
        · simp at h
    · simp only [assignTo, Val.IsValid, Val.typ, Val.withType, Bool.not_true, Bool.false_eq_true,
        if_false] at h
      split at h
      · simp only [Res.ok.injEq] at h
        exact Or.inr ⟨dst, t2, h.symm⟩
      · split at h
        · simp only [Res.ok.injEq] at h
          exact Or.inr ⟨dst, t2, h.symm⟩
        · simp at h
  intro x hx
  rcases hshape with ⟨t, rfl⟩ | ⟨t, t2, rfl⟩
  · exact keyText_of_goEq_str hx
  · exact keyText_of_goEq_iface hx

/-- A map lookup gives the same element after entries were removed, when every entry
under the converted key was kept. -/
theorem MapIndex_filter (keep : Val → Bool) (t : Ty) (es : List (Val × Val)) (k : Val)
    (h : ∀ (kt : Ty × Ty) (k' : Val), t.mapTypes = Res.ok kt →
      assignTo "reflect.Value.MapIndex" k kt.1 = Res.ok k' →
      ∀ en ∈ es, Val.goEq en.1 k' = true → keep en.1 = true) :
    (Val.map t (es.filter fun en => keep en.1)).MapIndex k = (Val.map t es).MapIndex k := by
  simp only [Val.MapIndex, Val.kind, Val.typ, Val.entries]
  split
  · cases hm : t.mapTypes with
    | panic m => rfl
    | outOfFuel => rfl
    | ok kt =>
      simp only [Res.bind_ok]
      cases ha : assignTo "reflect.Value.MapIndex" k kt.1 with
      | panic m => rfl
      | outOfFuel => rfl
      | ok k' =>
        simp only [Res.bind_ok]
        rw [lookupEntry_filter keep k' es (h kt k' hm ha)]
  · rfl

/-- Removing source entries whose keys do not match the name of a field, neither exactly
nor under `strings.EqualFold`, does not change the entry the field resolves to. -/
theorem resolveField_filter (lib : GoLib) (keep : Val → Bool) (t : Ty)
    (es : List (Val × Val)) (n : String)
    (hkeep : ∀ en ∈ es, keyMatches lib en.1 n = true → keep en.1 = true) :
    resolveField lib (Val.map t (es.filter fun en => keep en.1))
        ((es.filter fun en => keep en.1).map Prod.fst) n =
      resolveField lib (Val.map t es) (es.map Prod.fst) n := by
  have hexact : (Val.map t (es.filter fun en => keep en.1)).MapIndex
      (Val.str (Ty.basic Kind.String) n) =
      (Val.map t es).MapIndex (Val.str (Ty.basic Kind.String) n) := by
    apply MapIndex_filter
    intro kt k' _ ha en he hg
    exact hkeep en he (keyMatches_of_keyText lib
      (assignTo_text _ _ _ _ n (Or.inl ⟨_, rfl⟩) ha en.1 hg))
  have hkeys : (es.filter fun en => keep en.1).map Prod.fst = (es.map Prod.fst).filter keep := by
    rw [List.filter_map]
    rfl
  have hfold : findFold lib n ((es.filter fun en => keep en.1).map Prod.fst) =
      findFold lib n (es.map Prod.fst) := by
    rw [hkeys]
    apply findFold_filter
    intro k hk hm
    obtain ⟨en, he, rfl⟩ := List.mem_map.1 hk
    exact hkeep en he hm
  simp only [resolveField, hexact, hfold]
  cases (Val.map t es).MapIndex (Val.str (Ty.basic Kind.String) n) with
  | panic m => rfl
  | outOfFuel => rfl
  | ok raw =>
    simp only [Res.bind_ok]
    split
    · cases hf : findFold lib n (es.map Prod.fst) with
      | none => rfl
      | some k =>
        obtain ⟨s, hs, hshape⟩ := findFold_some lib n _ k hf
        simp only
        apply MapIndex_filter
        intro kt k' _ ha en he hg
        have hkt := assignTo_text _ _ _ _ s hshape ha en.1 hg
        apply hkeep en he
        simp [keyMatches, hkt, hs]
    · rfl


/-- Every outcome of a loop over the zipped fields and values belongs to some index. -/
theorem forall₂_zip_mem {α β γ : Type} {R : α → β → γ → Prop} :
    ∀ (fs : List α) (vs : List β) (rs : List γ),
      List.Forall₂ (fun fv r => R fv.1 fv.2 r) (fs.zip vs) rs →
      ∀ r ∈ rs, ∃ (i : Nat) (f : α) (v : β), fs[i]? = some f ∧ vs[i]? = some v ∧ R f v r
  | [], _, rs, h, r, hr => by
      simp at h
      subst h
      simp at hr
  | _ :: _, [], rs, h, r, hr => by
      simp at h
      subst h
      simp at hr
  | f0 :: fs, v0 :: vs, rs, h, r, hr => by
      cases rs with
      | nil => simp at hr
      | cons r0 rs =>
        simp only [List.zip_cons_cons, List.forall₂_cons] at h
        rcases List.mem_cons.1 hr with rfl | hr2
        · exact ⟨0, f0, v0, by simp, by simp, h.1⟩
        · obtain ⟨i, f, v, hf, hv, hR⟩ := forall₂_zip_mem fs vs rs h.2 r hr2
          exact ⟨i + 1, f, v, by simpa using hf, by simpa using hv, hR⟩

/-- A list of outcomes exists when every index has one. -/
theorem forall₂_zip_of_index {α β γ : Type} {R : α → β → γ → Prop} :
    ∀ (fs : List α) (vs : List β),
      (∀ (i : Nat) (f : α) (v : β), fs[i]? = some f → vs[i]? = some v → ∃ r, R f v r) →
      ∃ rs : List γ, List.Forall₂ (fun fv r => R fv.1 fv.2 r) (fs.zip vs) rs
  | [], _, _ => ⟨[], by simp⟩
  | _ :: _, [], _ => ⟨[], by simp⟩
  | f0 :: fs, v0 :: vs, h => by
      obtain ⟨r0, hr0⟩ := h 0 f0 v0 (by simp) (by simp)
      obtain ⟨rs, hrs⟩ := forall₂_zip_of_index fs vs
        (fun i f v hf hv => h (i + 1) f v (by simpa using hf) (by simpa using hv))
      exact ⟨r0 :: rs, by simpa using ⟨hr0, hrs⟩⟩

/-- What `finish` returns. -/
theorem finish_eq_ok (v v' : Val) (errors : List String) (e : Option GoError)
    (h : finish v errors = Res.ok (v', e)) : v' = v ∧ (e = none ↔ errors = []) := by
  simp only [finish] at h
  split at h
  · rename_i hpos
    simp only [fail, Res.ok.injEq, Prod.mk.injEq] at h
    refine ⟨h.1.symm, ?_⟩
    rw [← h.2]
    constructor
    · intro hc
      simp at hc
    · intro hc
      simp [hc] at hpos
  · rename_i hpos
    simp only [done, Res.ok.injEq, Prod.mk.injEq] at h
    refine ⟨h.1.symm, ?_⟩
    rw [← h.2]
    simp only [true_iff]
    exact List.length_eq_zero.1 (by omega)

/-- The values and messages `decodeStructFromMap` returns on a map keyed by text. -/
theorem decodeStructFromMap_ok (dec : Dec) (lib : GoLib) (name : String) (dataVal : Val)
    (fl : Flags) (st : Ty) (fields : List StructField) (vals : List Val)
    (hk : dataVal.kind = Kind.Map) (ht : textKeyed dataVal.typ)
    (hst : st.structFields = Res.ok fields) (hlen : fields.length ≤ vals.length)
    (v' : Val) (e : Option GoError)
    (hres : decodeStructFromMap dec lib name dataVal (Val.struct st vals) fl = Res.ok (v', e)) :
    ∃ rs : List (Val × List String),
      List.Forall₂ (fun fv r => fieldOutcome dec lib name dataVal (dataVal.entries.map Prod.fst)
        fl fv.1 fv.2 = Res.ok r) (fields.zip vals) rs ∧
      v' = Val.struct st (rs.map Prod.fst ++ vals.drop fields.length) ∧
      (e = none ↔ (rs.map Prod.snd).flatten = []) ∧
      (∀ msgs, e = some (GoError.agg msgs) → msgs = (rs.map Prod.snd).flatten) := by
  rw [decodeStructFromMap_eq dec lib name dataVal fl st fields vals hk ht hst hlen] at hres
  cases hloop : decodeStructFields dec lib name dataVal (dataVal.entries.map Prod.fst) fl
      fields vals [] with
  | panic m => simp [hloop] at hres
  | outOfFuel => simp [hloop] at hres
  | ok r =>
    obtain ⟨vs', errs'⟩ := r
    rw [hloop] at hres
    simp only [Res.bind_ok] at hres
    obtain ⟨rs, hall, hv, he⟩ :=
      (decodeStructFields_iff dec lib name dataVal _ fl fields vals [] vs' errs' hlen).1 hloop
    obtain ⟨h1, h2⟩ := finish_eq_ok _ _ _ _ hres
    simp only [List.nil_append] at he
    refine ⟨rs, hall, by rw [h1, hv], by rw [h2, he], ?_⟩
    intro msgs hm
    subst hm
    simp only [finish] at hres
    split at hres
    · simp only [fail, Res.ok.injEq, Prod.mk.injEq, Option.some.injEq, GoError.agg.injEq] at hres
      rw [← hres.2, he]
    · simp [done] at hres

/-- C3 at the input of `TestBasic_Merge`: `vint: 42` decoded into a struct whose `VUint`
is 100 leaves `VUint` as it was. -/
theorem merge_law_records_witness :
    (mergeInput.kind = Kind.Map ∧ textKeyed mergeInput.typ ∧
      tMergeTarget.structFields =
        Res.ok [plainField "VInt" tInt, plainField "VUint" (Ty.basic Kind.Uint)] ∧
      [plainField "VInt" tInt, plainField "VUint" (Ty.basic Kind.Uint)].length ≤
        mergeTarget.length) ∧
    ∃ vals' : List Val,
      Val.struct tMergeTarget [Val.int tInt 42, Val.uint (Ty.basic Kind.Uint) 100] =
        Val.struct tMergeTarget vals' ∧
      vals'.length = mergeTarget.length ∧
      ∀ (i : Nat) (f : StructField),
        [plainField "VInt" tInt, plainField "VUint" (Ty.basic Kind.Uint)][i]? = some f →
        (∀ en ∈ mergeInput.entries, keyMatches stdLib en.1 (effectiveName f) = false) →
        vals'[i]? = mergeTarget[i]? :=
  ⟨⟨rfl, ⟨emptyInterface, Or.inl rfl⟩, rfl, by decide⟩,
    (merge_law_records (decode stdLib 1) stdLib "" mergeInput Flags.fresh tMergeTarget
      [plainField "VInt" tInt, plainField "VUint" (Ty.basic Kind.Uint)] mergeTarget rfl
      ⟨emptyInterface, Or.inl rfl⟩ rfl (by decide)).1
      (Val.struct tMergeTarget [Val.int tInt 42, Val.uint (Ty.basic Kind.Uint) 100]) none rfl⟩

/-! ## C8: best-effort decoding of records -/

/-- The outcome of a field that has a source entry and can be set: the value and the
messages of its own conversion. -/
theorem fieldOutcome_converted (dec : Dec) (lib : GoLib) (name : String) (dataVal : Val)
    (keys : List Val) (fl : Flags) (f : StructField) (v raw d w : Val) (e : Option GoError)
    (hres : resolveField lib dataVal keys (effectiveName f) = Res.ok raw)
    (hraw : raw.IsValid = true) (hv : v.IsValid = true) (hset : (fl.field f).CanSet = true)
    (hd : raw.Interface = Res.ok d)
    (hdec : dec (fieldPath name f) d v (fl.field f) = Res.ok (w, e)) :
    fieldOutcome dec lib name dataVal keys fl f v = Res.ok (w, errorStrings e) := by
  simp only [fieldOutcome, hres, Res.bind_ok, hraw, hv, hset, Bool.not_true, Bool.false_eq_true,
    if_false, hd, hdec]

/-- C8. Best-effort decoding of a record from a map keyed by text.
(1) The loop does not stop at a failure: if the conversion of every field returns, with
or without an error, `decodeStructFromMap` returns.
(2) Whenever it returns, the target is a struct in which every field holds the outcome
of its own conversion, and the error is nil exactly when no field produced a message.
(3) The outcome of a field that has a source entry and can be set is the value its own
conversion left, whatever the other fields do.
(4) A field ends with the same value when source entries whose keys do not match its
name, such as the failing entries of other fields, are removed from the source. -/
theorem best_effort_record (dec : Dec) (lib : GoLib) (name : String) (t : Ty)
    (entries : List (Val × Val)) (fl : Flags) (st : Ty) (fields : List StructField)
    (vals : List Val) (ht : textKeyed t) (hst : st.structFields = Res.ok fields)
    (hlen : fields.length ≤ vals.length) :
    ((∀ (i : Nat) (f : StructField) (v : Val), fields[i]? = some f → vals[i]? = some v →
        ∃ r, fieldOutcome dec lib name (Val.map t entries) (entries.map Prod.fst) fl f v =
          Res.ok r) →
      ∃ (v' : Val) (e : Option GoError),
        decodeStructFromMap dec lib name (Val.map t entries) (Val.struct st vals) fl =
          Res.ok (v', e)) ∧
    (∀ (v' : Val) (e : Option GoError),
      decodeStructFromMap dec lib name (Val.map t entries) (Val.struct st vals) fl =
        Res.ok (v', e) →
      ∃ vals' : List Val, v' = Val.struct st vals' ∧
        (∀ (i : Nat) (f : StructField) (v : Val), fields[i]? = some f → vals[i]? = some v →
          ∃ r, fieldOutcome dec lib name (Val.map t entries) (entries.map Prod.fst) fl f v =
            Res.ok r ∧ vals'[i]? = some r.1) ∧
        (e = none ↔
          ∀ (i : Nat) (f : StructField) (v : Val) (r : Val × List String),
            fields[i]? = some f → vals[i]? = some v →
            fieldOutcome dec lib name (Val.map t entries) (entries.map Prod.fst) fl f v =
              Res.ok r → r.2 = [])) ∧
    (∀ (f : StructField) (v raw d w : Val) (e : Option GoError),
      resolveField lib (Val.map t entries) (entries.map Prod.fst) (effectiveName f) =
        Res.ok raw →
      raw.IsValid = true → v.IsValid = true → (fl.field f).CanSet = true →
      raw.Interface = Res.ok d → dec (fieldPath name f) d v (fl.field f) = Res.ok (w, e) →
      fieldOutcome dec lib name (Val.map t entries) (entries.map Prod.fst) fl f v =
        Res.ok (w, errorStrings e)) ∧
    (∀ (keep : Val → Bool) (vs1 vs2 : List Val) (e1 e2 : Option GoError),
      decodeStructFromMap dec lib name (Val.map t entries) (Val.struct st vals) fl =
        Res.ok (Val.struct st vs1, e1) →
      decodeStructFromMap dec lib name (Val.map t (entries.filter fun en => keep en.1))
        (Val.struct st vals) fl = Res.ok (Val.struct st vs2, e2) →
      ∀ (i : Nat) (f : StructField), fields[i]? = some f →
        (∀ en ∈ entries, keyMatches lib en.1 (effectiveName f) = true → keep en.1 = true) →
        vs1[i]? = vs2[i]?) := by
  have hk : ∀ es, (Val.map t es).kind = Kind.Map := by
    intro es
    obtain ⟨et, h | h⟩ := ht
    · simpa [Val.kind, Val.typ, Ty.kind] using Ty.kind_of_underlying h
    · simpa [Val.kind, Val.typ, Ty.kind, emptyInterface] using Ty.kind_of_underlying h
  have ht' : ∀ es, textKeyed (Val.map t es).typ := fun _ => ht
  -- the values after a run that returned
  have hvals : ∀ (es : List (Val × Val)) (v' : Val) (e : Option GoError),
      decodeStructFromMap dec lib name (Val.map t es) (Val.struct st vals) fl = Res.ok (v', e) →
      ∃ vals' : List Val, v' = Val.struct st vals' ∧
        (∀ (i : Nat) (f : StructField) (v : Val), fields[i]? = some f → vals[i]? = some v →
          ∃ r, fieldOutcome dec lib name (Val.map t es) (es.map Prod.fst) fl f v =
            Res.ok r ∧ vals'[i]? = some r.1) ∧
        (e = none ↔
          ∀ (i : Nat) (f : StructField) (v : Val) (r : Val × List String),
            fields[i]? = some f → vals[i]? = some v →
            fieldOutcome dec lib name (Val.map t es) (es.map Prod.fst) fl f v =
              Res.ok r → r.2 = []) := by
    intro es v' e hres
    obtain ⟨rs, hall, hv, he, -⟩ := decodeStructFromMap_ok dec lib name (Val.map t es) fl st
      fields vals (hk es) (ht' es) hst hlen v' e hres
    simp only [Val.entries] at hall
    refine ⟨_, hv, ?_, ?_⟩
    · intro i f v hf hvi
      obtain ⟨r, hr, hout⟩ := forall₂_zip_index
        (R := fun f v r => fieldOutcome dec lib name (Val.map t es) (es.map Prod.fst) fl f v =
          Res.ok r) fields vals rs hall i f v hf hvi
      refine ⟨r, hout, ?_⟩
      have hi : i < rs.length := by
        by_contra hc
        rw [List.getElem?_eq_none (by omega)] at hr
        exact absurd hr (by simp)
      rw [List.getElem?_append_left (by simpa using hi), List.getElem?_map, hr]
      rfl
    · rw [he]
      constructor
      · intro hflat i f v r hf hvi hout
        obtain ⟨r2, hr2, hout2⟩ := forall₂_zip_index
          (R := fun f v r => fieldOutcome dec lib name (Val.map t es) (es.map Prod.fst) fl f v =
            Res.ok r) fields vals rs hall i f v hf hvi
        rw [hout] at hout2
        simp only [Res.ok.injEq] at hout2
        subst hout2
        have hmem : r.2 ∈ rs.map Prod.snd :=
          List.mem_map.2 ⟨r, List.getElem?_mem hr2, rfl⟩
        exact (List.flatten_eq_nil_iff.1 hflat) _ hmem
      · intro hall2
        apply List.flatten_eq_nil_iff.2
        intro l hl
        obtain ⟨r, hr, rfl⟩ := List.mem_map.1 hl
        obtain ⟨i, f, v, hf, hvi, hout⟩ := forall₂_zip_mem
          (R := fun f v r => fieldOutcome dec lib name (Val.map t es) (es.map Prod.fst) fl f v =
            Res.ok r) fields vals rs hall r hr
        exact hall2 i f v r hf hvi hout
  refine ⟨?_, hvals entries, ?_, ?_⟩
  · intro hret
    obtain ⟨rs, hrs⟩ := forall₂_zip_of_index
      (R := fun f v r => fieldOutcome dec lib name (Val.map t entries) (entries.map Prod.fst) fl
        f v = Res.ok r) fields vals hret
    have hloop := (decodeStructFields_iff dec lib name (Val.map t entries)
      (entries.map Prod.fst) fl fields vals [] _ _ hlen).2 ⟨rs, hrs, rfl, rfl⟩
    rw [decodeStructFromMap_eq dec lib name (Val.map t entries) fl st fields vals (hk entries)
      (ht' entries) hst hlen]
    simp only [Val.entries, hloop, Res.bind_ok, finish]
    split
    · exact ⟨_, _, rfl⟩
    · exact ⟨_, _, rfl⟩
  · intro f v raw d w e hres hraw hv hset hd hdec
    exact fieldOutcome_converted dec lib name _ _ fl f v raw d w e hres hraw hv hset hd hdec
  · intro keep vs1 vs2 e1 e2 h1 h2 i f hf hkeep
    have hi : i < fields.length := by
      by_contra hc
      rw [List.getElem?_eq_none (by omega)] at hf
      exact absurd hf (by simp)
    have hi2 : i < vals.length := by omega
    obtain ⟨vals1, hv1, hf1, -⟩ := hvals entries _ _ h1
    obtain ⟨vals2, hv2, hf2, -⟩ := hvals _ _ _ h2
    simp only [Val.struct.injEq, true_and] at hv1 hv2
    subst hv1
    subst hv2
    obtain ⟨r1, hr1, hg1⟩ := hf1 i f _ hf (List.getElem?_eq_getElem hi2)
    obtain ⟨r2, hr2, hg2⟩ := hf2 i f _ hf (List.getElem?_eq_getElem hi2)
    have hsame : fieldOutcome dec lib name (Val.map t (entries.filter fun en => keep en.1))
        ((entries.filter fun en => keep en.1).map Prod.fst) fl f vals[i] =
        fieldOutcome dec lib name (Val.map t entries) (entries.map Prod.fst) fl f vals[i] := by
      simp only [fieldOutcome, resolveField_filter lib keep t entries (effectiveName f) hkeep]
    rw [hsame, hr1] at hr2
    simp only [Res.ok.injEq] at hr2
    rw [hg1, hg2, hr2]

/-- C8 at two entries of `TestDecode_TypeConversion`: `IntToString` fails, `IntToUint`
is converted all the same, and the call reports the failure. -/
theorem best_effort_record_witness :
    (textKeyed tMapSI ∧
      tConv.structFields =
        Res.ok [plainField "IntToUint" (Ty.basic Kind.Uint), plainField "IntToString" tString] ∧
      [plainField "IntToUint" (Ty.basic Kind.Uint), plainField "IntToString" tString].length ≤
        [Val.uint (Ty.basic Kind.Uint) 0, text ""].length) ∧
    ∃ vals' : List Val,
      Val.struct tConv [Val.uint (Ty.basic Kind.Uint) 42, text ""] = Val.struct tConv vals' ∧
      (∀ (i : Nat) (f : StructField) (v : Val),
        [plainField "IntToUint" (Ty.basic Kind.Uint), plainField "IntToString" tString][i]? =
          some f →
        [Val.uint (Ty.basic Kind.Uint) 0, text ""][i]? = some v →
        ∃ r, fieldOutcome (decode stdLib 1) stdLib "" (Val.map tMapSI convEntries)
            (convEntries.map Prod.fst) Flags.fresh f v = Res.ok r ∧ vals'[i]? = some r.1) ∧
      (some (GoError.agg ["'IntToString' expected type 'string', got unconvertible type 'int'"]) =
          none ↔
        ∀ (i : Nat) (f : StructField) (v : Val) (r : Val × List String),
          [plainField "IntToUint" (Ty.basic Kind.Uint), plainField "IntToString" tString][i]? =
            some f →
          [Val.uint (Ty.basic Kind.Uint) 0, text ""][i]? = some v →
          fieldOutcome (decode stdLib 1) stdLib "" (Val.map tMapSI convEntries)
            (convEntries.map Prod.fst) Flags.fresh f v = Res.ok r → r.2 = []) :=
  ⟨⟨⟨emptyInterface, Or.inl rfl⟩, rfl, by decide⟩,
    (best_effort_record (decode stdLib 1) stdLib "" tMapSI convEntries Flags.fresh tConv
      [plainField "IntToUint" (Ty.basic Kind.Uint), plainField "IntToString" tString]
      [Val.uint (Ty.basic Kind.Uint) 0, text ""] ⟨emptyInterface, Or.inl rfl⟩ rfl
      (by decide)).2.1
      (Val.struct tConv [Val.uint (Ty.basic Kind.Uint) 42, text ""])
      (some (GoError.agg ["'IntToString' expected type 'string', got unconvertible type 'int'"]))
      rfl⟩

/-! ## C9: one message for each leaf failure -/

/-- One step of the loop of `decodeSlice` and `decodeArray`. -/
theorem decodeElems_succ (dec : Dec) (name : String) (dataVal : Val) (et : Ty) (efl : Flags)
    (grow : Bool) (remaining i : Nat) (vs : List Val) (errors : List String) :
    decodeElems dec name dataVal et efl grow (remaining + 1) i vs errors =
      (dataVal.Index i).bind fun e =>
        e.Interface.bind fun currentData =>
          match (if grow then vs ++ List.replicate (i + 1 - vs.length) (Zero et) else vs)[i]? with
          | none => .panic "reflect: array index out of range"
          | some currentField =>
              (dec (name ++ "[" ++ toString i ++ "]") currentData currentField efl).bind fun r =>
                decodeElems dec name dataVal et efl grow remaining (i + 1)
                  ((if grow then vs ++ List.replicate (i + 1 - vs.length) (Zero et) else vs).set i
                    r.1)
                  (errors ++ errorStrings r.2) := by
  simp only [decodeElems, List.get?_eq_getElem?]
  cases dataVal.Index i with
  | panic m => rfl
  | outOfFuel => rfl
  | ok e =>
    simp only [Res.bind_ok]
    cases e.Interface with
    | panic m => rfl
    | outOfFuel => rfl
    | ok d =>
      simp only [Res.bind_ok]
      generalize (if grow then vs ++ List.replicate (i + 1 - vs.length) (Zero et) else vs) = work
      cases work[i]? with
      | none => rfl
      | some cur =>
        simp only
        cases hd : dec (name ++ "[" ++ toString i ++ "]") d cur efl with
        | panic m => rfl
        | outOfFuel => rfl
        | ok r =>
          obtain ⟨w, e2⟩ := r
          cases e2 with
          | none => simp [errorStrings]
          | some err => simp [appendErrors_eq]

/-- The messages of the loop over the elements of a sequence or array: those collected
before, followed by the messages of the conversion of each index, in order. -/
theorem decodeElems_messages (dec : Dec) (name : String) (dataVal : Val) (et : Ty)
    (efl : Flags) (grow : Bool) :
    ∀ (remaining i : Nat) (vs : List Val) (errors : List String) (vs' : List Val)
      (errors' : List String),
      decodeElems dec name dataVal et efl grow remaining i vs errors = Res.ok (vs', errors') →
      ∃ outs : List (Option GoError),
        List.Forall₂ (indexOutcome dec name dataVal efl) (List.range' i remaining) outs ∧
        errors' = errors ++ (outs.map errorStrings).flatten
  | 0, i, vs, errors, vs', errors', h => by
      simp only [decodeElems, Res.ok.injEq, Prod.mk.injEq] at h
      exact ⟨[], by simp, by simp [h.2]⟩
  | remaining + 1, i, vs, errors, vs', errors', h => by
      rw [decodeElems_succ] at h
      cases hi : dataVal.Index i with
      | panic m => simp [hi] at h
      | outOfFuel => simp [hi] at h
      | ok e =>
        rw [hi] at h
        simp only [Res.bind_ok] at h
        cases hint : e.Interface with
        | panic m => simp [hint] at h
        | outOfFuel => simp [hint] at h
        | ok d =>
          rw [hint] at h
          simp only [Res.bind_ok] at h
          split at h
          · simp at h
          · rename_i cur hcur
            cases hd : dec (name ++ "[" ++ toString i ++ "]") d cur efl with
            | panic m => simp [hd] at h
            | outOfFuel => simp [hd] at h
            | ok r =>
              rw [hd] at h
              simp only [Res.bind_ok] at h
              obtain ⟨outs, hall, he⟩ := decodeElems_messages dec name dataVal et efl grow
                remaining (i + 1) _ _ vs' errors' h
              refine ⟨r.2 :: outs, ?_, ?_⟩
              · simp only [List.range'_succ, List.forall₂_cons]
                exact ⟨⟨d, cur, r.1, by simp [hi, hint], hd⟩, hall⟩
              · rw [he]
                simp


/-- The messages of the loop of `decodeMapFromMap`: those collected before, followed for
each key, in order, by the messages of the conversion of the key or, when the key was
converted, by those of the conversion of its value. -/
theorem decodeMapFromMapLoop_messages (dec : Dec) (lib : GoLib) (name : String)
    (dataVal : Val) (kt et : Ty) (mfl : Flags) :
    ∀ (ks : List Val) (valMap : Val) (errors : List String) (m' : Val)
      (errors' : List String),
      decodeMapFromMapLoop dec lib name dataVal kt et mfl ks valMap errors =
        Res.ok (m', errors') →
      ∃ outs : List (Option GoError),
        List.Forall₂ (entryOutcome dec lib name dataVal kt et) ks outs ∧
        errors' = errors ++ (outs.map errorStrings).flatten
  | [], valMap, errors, m', errors', h => by
      simp only [decodeMapFromMapLoop, Res.ok.injEq, Prod.mk.injEq] at h
      exact ⟨[], by simp, by simp [h.2]⟩
  | k :: ks, valMap, errors, m', errors', h => by
      simp only [decodeMapFromMapLoop] at h
      cases hki : k.Interface with
      | panic m => simp [hki] at h
      | outOfFuel => simp [hki] at h
      | ok kd =>
        rw [hki] at h
        simp only [Res.bind_ok] at h
        cases hdk : dec (name ++ "[" ++ fmtS lib k ++ "]") kd (Zero kt) Flags.fresh with
        | panic m => simp [hdk] at h
        | outOfFuel => simp [hdk] at h
        | ok rk =>
          obtain ⟨w, ek⟩ := rk
          rw [hdk] at h
          simp only [Res.bind_ok] at h
          cases ek with
          | some err =>
            simp only at h
            obtain ⟨outs, hall, he⟩ := decodeMapFromMapLoop_messages dec lib name dataVal kt et
              mfl ks valMap _ m' errors' h
            refine ⟨some err :: outs, ?_, ?_⟩
            · simp only [List.forall₂_cons]
              exact ⟨⟨kd, w, hki, Or.inl ⟨err, rfl, hdk⟩⟩, hall⟩
            · rw [he, appendErrors_eq]
              simp
          | none =>
            simp only at h
            cases hmi : dataVal.MapIndex k with
            | panic m => simp [hmi] at h
            | outOfFuel => simp [hmi] at h
            | ok ev =>
              rw [hmi] at h
              simp only [Res.bind_ok] at h
              cases hvi : ev.Interface with
              | panic m => simp [hvi] at h
              | outOfFuel => simp [hvi] at h
              | ok vd =>
                rw [hvi] at h
                simp only [Res.bind_ok] at h
                cases hdv : dec (name ++ "[" ++ fmtS lib k ++ "]") vd (Zero et) Flags.fresh with
                | panic m => simp [hdv] at h
                | outOfFuel => simp [hdv] at h
                | ok rv =>
                  obtain ⟨w2, ev2⟩ := rv
                  rw [hdv] at h
                  simp only [Res.bind_ok] at h
                  cases ev2 with
                  | some err =>
                    simp only at h
                    obtain ⟨outs, hall, he⟩ := decodeMapFromMapLoop_messages dec lib name
                      dataVal kt et mfl ks valMap _ m' errors' h
                    refine ⟨some err :: outs, ?_, ?_⟩
                    · simp only [List.forall₂_cons]
                      exact ⟨⟨kd, w, hki, Or.inr ⟨hdk, vd, w2, by simp [hmi, hvi], hdv⟩⟩, hall⟩
                    · rw [he, appendErrors_eq]
                      simp
                  | none =>
                    simp only at h
                    cases hset : valMap.SetMapIndex mfl w w2 with
                    | panic m => simp [hset] at h
                    | outOfFuel => simp [hset] at h
                    | ok m2 =>
                      rw [hset] at h
                      simp only [Res.bind_ok] at h
                      obtain ⟨outs, hall, he⟩ := decodeMapFromMapLoop_messages dec lib name
                        dataVal kt et mfl ks m2 _ m' errors' h
                      refine ⟨none :: outs, ?_, ?_⟩
                      · simp only [List.forall₂_cons]
                        exact ⟨⟨kd, w, hki, Or.inr ⟨hdk, vd, w2, by simp [hmi, hvi], hdv⟩⟩, hall⟩
                      · rw [he]
                        simp [errorStrings]

/-! ## The loop of `decodeMapFromMap` -/

/-- A valid value keeps its shape when it takes its own type. -/
theorem Val.withType_typ (v : Val) : v.withType v.typ = v := by
  cases v <;> rfl

/-- Storing a valid value in a location of its own type converts nothing. -/
theorem assignTo_same (c : String) (x : Val) (hx : x.IsValid = true) :
    assignTo c x x.typ = Res.ok x := by
  simp [assignTo, hx, Val.withType_typ]

/-- Storing an entry whose key and value have the key and element type of the map. -/
theorem SetMapIndex_typed (mt kt et : Ty) (es : List (Val × Val)) (mfl : Flags) (k v : Val)
    (hmt : mt.mapTypes = Res.ok (kt, et)) (hro : mfl.ro = false)
    (hk : k.IsValid = true) (hkt : k.typ = kt) (hh : k.hashable = true)
    (hv : v.IsValid = true) (hvt : v.typ = et) :
    (Val.map mt es).SetMapIndex mfl k v = Res.ok (Val.map mt (upsertEntry k v es)) := by
  subst hkt
  subst hvt
  simp [Val.SetMapIndex, hro, hmt, assignTo_same _ _ hk, assignTo_same _ _ hv, hh]

/-- The loop of `decodeMapFromMap` performs the upsert of the spec when the conversions of
all entries return. -/
theorem decodeMapFromMapLoop_upsert (dec : Dec) (lib : GoLib) (name : String) (src : Val)
    (mt kt et : Ty) (mfl : Flags) (hmt : mt.mapTypes = Res.ok (kt, et))
    (hro : mfl.ro = false) :
    ∀ (ks : List Val) (es : List (Val × Val)) (errors : List String),
      (∀ k ∈ ks, entryReturns dec lib name src kt et k) →
      ∃ errors' : List String,
        decodeMapFromMapLoop dec lib name src kt et mfl ks (Val.map mt es) errors =
          Res.ok (Val.map mt (upsertConverted (entryConversion dec lib name src kt et) ks es),
            errors')
  | [], es, errors, _ => ⟨errors, rfl⟩
  | k :: ks, es, errors, h => by
      obtain ⟨kd, rk, hki, hdk, hrest⟩ := h k (List.mem_cons_self _ _)
      have ih := fun es2 errors2 => decodeMapFromMapLoop_upsert dec lib name src mt kt et mfl
        hmt hro ks es2 errors2 (fun k2 hk2 => h k2 (List.mem_cons_of_mem _ hk2))
      simp only [entryPath] at hdk hrest
      obtain ⟨ck, ek⟩ := rk
      cases ek with
      | some err =>
        obtain ⟨errors', he⟩ := ih es (appendErrors errors err)
        refine ⟨errors', ?_⟩
        simp only [decodeMapFromMapLoop, hki, Res.bind_ok, hdk, he, upsertConverted,
          List.foldl_cons, entryConversion, entryPath]
      | none =>
        obtain ⟨hckv, hckt, hckh, vd, rv, hvd, hdv, hrv⟩ := hrest rfl
        obtain ⟨cv, ev⟩ := rv
        cases hmi : src.MapIndex k with
        | panic m => simp [hmi] at hvd
        | outOfFuel => simp [hmi] at hvd
        | ok raw =>
          rw [hmi] at hvd
          simp only [Res.bind_ok] at hvd
          cases ev with
          | some err =>
            obtain ⟨errors', he⟩ := ih es (appendErrors errors err)
            refine ⟨errors', ?_⟩
            simp only [decodeMapFromMapLoop, hki, Res.bind_ok, hdk, hmi, hvd, hdv, he,
              upsertConverted, List.foldl_cons, entryConversion, entryPath]
          | none =>
            obtain ⟨hcvv, hcvt⟩ := hrv rfl
            obtain ⟨errors', he⟩ := ih (upsertEntry ck cv es) errors
            refine ⟨errors', ?_⟩
            simp only [decodeMapFromMapLoop, hki, Res.bind_ok, hdk, hmi, hvd, hdv,
              SetMapIndex_typed mt kt et es mfl ck cv hmt hro hckv hckt hckh hcvv hcvt, he,
              upsertConverted, List.foldl_cons, entryConversion, entryPath]

/-- An entry stays in the list when another key is stored. -/
theorem mem_upsertEntry_of_ne (k v : Val) (en : Val × Val) :
    ∀ es : List (Val × Val), en ∈ es → Val.goEq en.1 k = false → en ∈ upsertEntry k v es
  | [], h, _ => by simp at h
  | (k2, v2) :: rest, h, hne => by
      rcases List.mem_cons.1 h with rfl | h2
      · simp [upsertEntry, hne]
      · by_cases hg : Val.goEq k2 k = true
        · simp only [upsertEntry, hg, if_true]
          exact List.mem_cons_of_mem _ h2
        · simp only [upsertEntry, hg, if_false]
          exact List.mem_cons_of_mem _ (mem_upsertEntry_of_ne k v en rest h2 hne)

/-- An entry of the previous contents stays when no converted key equals its key. -/
theorem mem_upsertConverted (conv : Val → Option (Val × Val)) (en : Val × Val) :
    ∀ (ks : List Val) (old : List (Val × Val)), en ∈ old →
      (∀ k ∈ ks, ∀ ckv, conv k = some ckv → Val.goEq en.1 ckv.1 = false) →
      en ∈ upsertConverted conv ks old
  | [], old, h, _ => h
  | k :: ks, old, h, hne => by
      simp only [upsertConverted, List.foldl_cons]
      apply mem_upsertConverted conv en ks
      · cases hc : conv k with
        | none => exact h
        | some ckv =>
          exact mem_upsertEntry_of_ne _ _ en old h (hne k (List.mem_cons_self _ _) ckv hc)
      · intro k2 hk2 ckv hc
        exact hne k2 (List.mem_cons_of_mem _ hk2) ckv hc


/-! ## C10: deterministic rendering -/

/-- The order `lexLe` is total. -/
theorem lexLe_total : ∀ a b : List Nat, lexLe a b = true ∨ lexLe b a = true
  | [], _ => Or.inl rfl
  | _ :: _, [] => Or.inr rfl
  | a :: as, b :: bs => by
      simp only [lexLe, Bool.or_eq_true, decide_eq_true_eq, Bool.and_eq_true, beq_iff_eq]
      rcases Nat.lt_trichotomy a b with h | h | h
      · exact Or.inl (Or.inl h)
      · rcases lexLe_total as bs with h2 | h2
        · exact Or.inl (Or.inr ⟨h, h2⟩)
        · exact Or.inr (Or.inr ⟨h.symm, h2⟩)
      · exact Or.inr (Or.inl h)

/-- The order `lexLe` is transitive. -/
theorem lexLe_trans : ∀ a b c : List Nat, lexLe a b = true → lexLe b c = true →
    lexLe a c = true
  | [], _, _, _, _ => rfl
  | _ :: _, [], _, h, _ => by simp [lexLe] at h
  | _ :: _, _ :: _, [], _, h => by simp [lexLe] at h
  | a :: as, b :: bs, c :: cs, h1, h2 => by
      simp only [lexLe, Bool.or_eq_true, decide_eq_true_eq, Bool.and_eq_true,
        beq_iff_eq] at h1 h2 ⊢
      rcases h1 with h1 | ⟨h1, h1'⟩
      · rcases h2 with h2 | ⟨h2, _⟩
        · exact Or.inl (by omega)
        · exact Or.inl (by omega)
      · rcases h2 with h2 | ⟨h2, h2'⟩
        · exact Or.inl (by omega)
        · exact Or.inr ⟨by omega, lexLe_trans as bs cs h1' h2'⟩

/-- The order `lexLe` is antisymmetric. -/
theorem lexLe_antisymm : ∀ a b : List Nat, lexLe a b = true → lexLe b a = true → a = b
  | [], [], _, _ => rfl
  | [], _ :: _, _, h => by simp [lexLe] at h
  | _ :: _, [], h, _ => by simp [lexLe] at h
  | a :: as, b :: bs, h1, h2 => by
      simp only [lexLe, Bool.or_eq_true, decide_eq_true_eq, Bool.and_eq_true,
        beq_iff_eq] at h1 h2
      rcases h1 with h1 | ⟨h1, h1'⟩
      · rcases h2 with h2 | ⟨h2, _⟩ <;> omega
      · rcases h2 with h2 | ⟨_, h2'⟩
        · omega
        · rw [h1, lexLe_antisymm as bs h1' h2']

/-- Two texts with the same code points are equal. -/
theorem eq_of_codepoints (a b : String) (h : a.data.map Char.toNat = b.data.map Char.toNat) :
    a = b := by
  have hinj : Function.Injective Char.toNat := by
    intro x y hxy
    apply Char.ext
    apply UInt32.ext
    exact hxy
  exact String.ext (List.map_injective_iff.2 hinj h)

/-- Sorting two lists with the same messages gives the same list. -/
theorem sortStrings_perm (l₁ l₂ : List String) (h : l₁.Perm l₂) :
    sortStrings l₁ = sortStrings l₂ := by
  haveI : IsTotal String (fun a b => strLe a b = true) := ⟨fun a b => lexLe_total _ _⟩
  haveI : IsTrans String (fun a b => strLe a b = true) :=
    ⟨fun a b c h1 h2 => lexLe_trans _ _ _ h1 h2⟩
  haveI : IsAntisymm String (fun a b => strLe a b = true) :=
    ⟨fun a b h1 h2 => eq_of_codepoints a b (lexLe_antisymm _ _ h1 h2)⟩
  apply List.eq_of_perm_of_sorted (r := fun a b => strLe a b = true)
  · exact ((List.perm_insertionSort _ l₁).trans h).trans (List.perm_insertionSort _ l₂).symm
  · exact List.sorted_insertionSort _ l₁
  · exact List.sorted_insertionSort _ l₂

/-- C10. Deterministic rendering of an aggregate error.  (1) The rendering is the header
with the number of messages, a blank line, and the messages, each on its own line after
its bullet, in sorted order.  (2) The sorted list holds the same messages and is in
lexicographic order.  (3) Two aggregates holding the same messages in different orders
render to the same text.  (4) The five messages of `ExampleDecode_errors` render to the
text the example expects. -/
theorem render_is_deterministic :
    (∀ errors : List String,
      renderAggregate errors =
        toString errors.length ++ " error(s) decoding:\n\n" ++
          joinWith "\n" (sortStrings (errors.map fun err => "* " ++ err))) ∧
    (∀ l : List String,
      (sortStrings l).Perm l ∧ List.Sorted (fun a b => strLe a b = true) (sortStrings l)) ∧
    (∀ errors₁ errors₂ : List String, errors₁.Perm errors₂ →
      renderAggregate errors₁ = renderAggregate errors₂) ∧
    renderAggregate personErrMessages =
      "5 error(s) decoding:\n\n" ++
      "* 'Age' expected type 'int', got unconvertible type 'string'\n" ++
      "* 'Emails[0]' expected type 'string', got unconvertible type 'int'\n" ++
      "* 'Emails[1]' expected type 'string', got unconvertible type 'int'\n" ++
      "* 'Emails[2]' expected type 'string', got unconvertible type 'int'\n" ++
      "* 'Name' expected type 'string', got unconvertible type 'int'" := by
  haveI : IsTotal String (fun a b => strLe a b = true) := ⟨fun a b => lexLe_total _ _⟩
  haveI : IsTrans String (fun a b => strLe a b = true) :=
    ⟨fun a b c h1 h2 => lexLe_trans _ _ _ h1 h2⟩
  refine ⟨fun _ => rfl, fun l => ⟨List.perm_insertionSort _ l, List.sorted_insertionSort _ l⟩,
    ?_, rfl⟩
  intro errors₁ errors₂ h
  simp only [renderAggregate]
  rw [h.length_eq, sortStrings_perm _ _ (h.map _)]

/-! ## C5 at concrete inputs -/

/-- C5 at two entries of `TestDecode_TypeConversion`: the integer `42` decoded into a
`string` target is rejected with the type-mismatch error and the target stays empty. -/
theorem scalar_acceptance_matrix_witness :
    ((text "").IsValid = true ∧ (Indirect (Val.int tInt 42)).IsValid = true) ∧
    decode stdLib 1 "IntToString" (Val.int tInt 42) (text "") Flags.fresh =
      fail (text "") (unconvertible "IntToString" tString tInt) :=
  ⟨⟨rfl, rfl⟩,
    ((scalar_acceptance_matrix stdLib 0 "IntToString" (Val.int tInt 42) (text "") Flags.fresh
      rfl rfl).2.1 rfl).2 (by decide)⟩

/-! ## The function `Decode` -/

/-- The function `Decode` on a pointer to a valid target runs `decode` on the target. -/
theorem Decode_ptr (lib : GoLib) (fuel : Nat) (input target : Val) (t : Ty)
    (ht : t.kind = Kind.Ptr) (hv : target.IsValid = true) :
    Decode lib fuel input (Val.ptr t target) =
      (decode lib fuel "" input target Flags.fresh).bind fun r =>
        Res.ok (Val.ptr t r.1, r.2) := by
  have hk : (Val.ptr t target).kind = Kind.Ptr := by simp [Val.kind, Val.typ, ht]
  simp only [Decode, Decoder.Decode, hk, Val.Elem, ne_eq, not_true_eq_false, if_false,
    Res.bind_ok, hv, Flags.elem, if_true, Flags.fresh, Flags.pointee, Flags.CanAddr,
    Bool.and_self, Bool.not_true, Bool.false_eq_true, Val.setElem]

/-! ## C12: usage errors -/

/-- C12. Usage errors, for every input and every fuel, the fuel 0 that allows no call of
`decode` included.  `Decode` called with an output that is not a pointer returns the plain
error "result must be a pointer", and called with a nil pointer returns the plain error
"result must be addressable (a pointer)"; the output is as it was.  The error is returned
before any conversion and is no aggregate error. -/

theorem usage_errors (lib : GoLib) (fuel : Nat) (input : Val) :
    (∀ output : Val, output.kind ≠ Kind.Ptr →
      Decode lib fuel input output = fail output (GoError.plain "result must be a pointer")) ∧
    (∀ t : Ty, t.kind = Kind.Ptr →
      Decode lib fuel input (Val.nil t) =
        fail (Val.nil t) (GoError.plain "result must be addressable (a pointer)")) := by
  constructor
  · intro output hk
    simp [Decode, hk]
  · intro t ht
    have hk : (Val.nil t).kind = Kind.Ptr := by simp [Val.kind, Val.typ, ht]
    simp [Decode, hk, Val.Elem, Val.IsValid]

/-- C12 at the input of `TestNonPtrValue`, a `Basic` passed by value, and at a nil
`*Basic`. -/

theorem usage_errors_witness :
    Decode stdLib 0 (Val.map tMapSI []) (Val.struct tBasic basicZero) =
        fail (Val.struct tBasic basicZero) (GoError.plain "result must be a pointer") ∧
    Decode stdLib 0 (Val.map tMapSI []) (Val.nil (Ty.ptr tBasic)) =
        fail (Val.nil (Ty.ptr tBasic))
          (GoError.plain "result must be addressable (a pointer)") :=
  ⟨(usage_errors stdLib 0 (Val.map tMapSI [])).1 (Val.struct tBasic basicZero) (by decide),
   (usage_errors stdLib 0 (Val.map tMapSI [])).2 (Ty.ptr tBasic) (by decide)⟩

/-! ## C11: the shape of the error at the root -/

/-- A setter followed by `return nil` returns no error. -/
theorem bind_done_error {r : Res Val} {w : Val} {e : GoError}
    (h : (r.bind fun v => done v) = Res.ok (w, some e)) : False := by
  cases r <;> simp [Res.bind, done] at h

/-- An error returned after the types were read is the error itself. -/
theorem bind_fail_error {r : Res Ty} {f : Ty → GoError} {val w : Val} {e : GoError}
    (h : (r.bind fun t => fail val (f t)) = Res.ok (w, some e)) : ∃ t, e = f t := by
  cases r with
  | ok t =>
    simp only [Res.bind_ok, fail, Res.ok.injEq, Prod.mk.injEq, Option.some.injEq] at h
    exact ⟨t, h.2.symm⟩
  | panic m => simp [Res.bind] at h
  | outOfFuel => simp [Res.bind] at h

/-- Every error a scalar converter or the function converter returns is a plain error. -/
theorem scalar_errors_plain (lib : GoLib) (name : String) (data val w : Val) (fl : Flags)
    (e : GoError) :
    (decodeBool name data val fl = Res.ok (w, some e) → ∃ m, e = GoError.plain m) ∧
    (decodeString name data val fl = Res.ok (w, some e) → ∃ m, e = GoError.plain m) ∧
    (decodeInt lib name data val fl = Res.ok (w, some e) → ∃ m, e = GoError.plain m) ∧
    (decodeUint lib name data val fl = Res.ok (w, some e) → ∃ m, e = GoError.plain m) ∧
    (decodeFloat lib name data val fl = Res.ok (w, some e) → ∃ m, e = GoError.plain m) ∧
    (decodeFunc name data val fl = Res.ok (w, some e) → ∃ m, e = GoError.plain m) := by
  refine ⟨?_, ?_, ?_, ?_, ?_, ?_⟩
  · intro h
    simp only [decodeBool] at h
    split at h
    · cases hv : val.TypeOf with
      | ok vt =>
        rw [hv] at h
        simp only [Res.bind_ok] at h
        obtain ⟨t, ht⟩ := bind_fail_error h
        exact ⟨_, ht⟩
      | panic m => simp [hv, Res.bind] at h
      | outOfFuel => simp [hv, Res.bind] at h
    · exact (bind_done_error h).elim
  · intro h
    simp only [decodeString] at h
    split at h
    · exact (bind_done_error h).elim
    · cases hv : val.TypeOf with
      | ok vt =>
        rw [hv] at h
        simp only [Res.bind_ok] at h
        obtain ⟨t, ht⟩ := bind_fail_error h
        exact ⟨_, ht⟩
      | panic m => simp [hv, Res.bind] at h
      | outOfFuel => simp [hv, Res.bind] at h
  · intro h
    simp only [decodeInt] at h
    cases hd : (Indirect data).TypeOf with
    | ok dt =>
      rw [hd] at h
      simp only [Res.bind_ok] at h
      split at h
      · exact (bind_done_error h).elim
      · split at h
        · exact (bind_done_error h).elim
        · split at h
          · exact (bind_done_error h).elim
          · split at h
            · split at h
              · split at h
                · simp only [fail, Res.ok.injEq, Prod.mk.injEq, Option.some.injEq] at h
                  exact ⟨_, h.2.symm⟩
                · exact (bind_done_error h).elim
              · simp at h
            · obtain ⟨t, ht⟩ := bind_fail_error h
              exact ⟨_, ht⟩
    | panic m => simp [hd, Res.bind] at h
    | outOfFuel => simp [hd, Res.bind] at h
  · intro h
    simp only [decodeUint] at h
    split at h
    · split at h
      · simp only [fail, Res.ok.injEq, Prod.mk.injEq, Option.some.injEq] at h
        exact ⟨_, h.2.symm⟩
      · exact (bind_done_error h).elim
    · split at h
      · exact (bind_done_error h).elim
      · split at h
        · split at h
          · simp only [fail, Res.ok.injEq, Prod.mk.injEq, Option.some.injEq] at h
            exact ⟨_, h.2.symm⟩
          · exact (bind_done_error h).elim
        · cases hv : val.TypeOf with
          | ok vt =>
            rw [hv] at h
            simp only [Res.bind_ok] at h
            obtain ⟨t, ht⟩ := bind_fail_error h
            exact ⟨_, ht⟩
          | panic m => simp [hv, Res.bind] at h
          | outOfFuel => simp [hv, Res.bind] at h
  · intro h
    simp only [decodeFloat] at h
    cases hd : (Indirect data).TypeOf with
    | ok dt =>
      rw [hd] at h
      simp only [Res.bind_ok] at h
      split at h
      · exact (bind_done_error h).elim
      · split at h
        · exact (bind_done_error h).elim
        · split at h
          · exact (bind_done_error h).elim
          · split at h
            · split at h
              · split at h
                · simp only [fail, Res.ok.injEq, Prod.mk.injEq, Option.some.injEq] at h
                  exact ⟨_, h.2.symm⟩
                · exact (bind_done_error h).elim
              · simp at h
            · obtain ⟨t, ht⟩ := bind_fail_error h
              exact ⟨_, ht⟩
    | panic m => simp [hd, Res.bind] at h
    | outOfFuel => simp [hd, Res.bind] at h
  · intro h
    simp only [decodeFunc] at h
    cases hv : val.TypeOf with
    | ok vt =>
      cases hd : (Indirect data).TypeOf with
      | ok dt =>
        rw [hv, hd] at h
        simp only [Res.bind_ok] at h
        split at h
        · simp only [fail, Res.ok.injEq, Prod.mk.injEq, Option.some.injEq] at h
          exact ⟨_, h.2.symm⟩
        · exact (bind_done_error h).elim
      | panic m => simp [hv, hd, Res.bind] at h
      | outOfFuel => simp [hv, hd, Res.bind] at h
    | panic m => simp [hv, Res.bind] at h
    | outOfFuel => simp [hv, Res.bind] at h

/-- A step that may panic before the rest runs adds no error of its own. -/
theorem errorsAggregate_bind {α : Type} (r : Res α) (f : α → Outcome)
    (h : ∀ x, errorsAggregate (f x)) : errorsAggregate (r.bind f) := by
  cases r with
  | ok x => simpa using h x
  | panic m => intro w e hc; simp [Res.bind] at hc
  | outOfFuel => intro w e hc; simp [Res.bind] at hc

/-- The end of a container converter returns an aggregate error or nil. -/
theorem errorsAggregate_finish (v : Val) (errors : List String) :
    errorsAggregate (finish v errors) := by
  intro w e h
  simp only [finish] at h
  split at h
  · rename_i hpos
    simp only [fail, Res.ok.injEq, Prod.mk.injEq, Option.some.injEq] at h
    refine ⟨errors, h.2.symm, ?_⟩
    intro hc
    simp [hc] at hpos
  · simp [done] at h

/-- A call that returns nil carries no error. -/
theorem errorsAggregate_done (v : Val) : errorsAggregate (done v) := by
  intro w e h
  simp [done] at h

/-- A call that panics carries no error. -/
theorem errorsAggregate_panic (m : String) : errorsAggregate (Res.panic m) := by
  intro w e h
  simp at h

/-- A branch carries the errors of its two arms. -/
theorem errorsAggregate_ite (c : Prop) [Decidable c] (a b : Outcome)
    (ha : errorsAggregate a) (hb : errorsAggregate b) :
    errorsAggregate (if c then a else b) := by
  split
  · exact ha
  · exact hb

/-- The loop part of the sequence converters returns aggregate errors only. -/
theorem decodeInto_errors (dec : Dec) (name : String) (dataVal val : Val) (fl : Flags)
    (et : Ty) (work : Val) (efl : Flags) (grow : Bool) :
    errorsAggregate (decodeInto dec name dataVal val fl et work efl grow) := by
  unfold decodeInto
  refine errorsAggregate_bind _ _ fun n => errorsAggregate_bind _ _ fun r =>
    errorsAggregate_bind _ _ fun v => errorsAggregate_finish _ _

/-- On a map keyed by text `decodeStructFromMap` returns aggregate errors only. -/
theorem decodeStructFromMap_errors (dec : Dec) (lib : GoLib) (name : String)
    (dataVal val : Val) (fl : Flags) (hk : dataVal.kind = Kind.Map)
    (ht : textKeyed dataVal.typ) :
    errorsAggregate (decodeStructFromMap dec lib name dataVal val fl) := by
  have hvalid : dataVal.IsValid = true := by
    cases dataVal with
    | invalid => exact absurd hk (by decide)
    | _ => rfl
  have hkeys : ∃ kt et, dataVal.typ.mapTypes = Res.ok (kt, et) ∧
      ¬ (kt.kind ≠ Kind.String ∧ kt.kind ≠ Kind.Interface) := by
    obtain ⟨et, h | h⟩ := ht
    · exact ⟨Ty.basic Kind.String, et, by simp [Ty.mapTypes, h], by simp [Ty.kind]⟩
    · exact ⟨emptyInterface, et, by simp [Ty.mapTypes, h], by simp [Ty.kind, emptyInterface]⟩
  obtain ⟨kt, et, hmt, hkind⟩ := hkeys
  unfold decodeStructFromMap
  simp only [Val.TypeOf, hvalid, if_true, Res.bind_ok, hmt, hkind, if_false]
  refine errorsAggregate_bind _ _ fun keys => errorsAggregate_bind _ _ fun st =>
    errorsAggregate_bind _ _ fun fields => errorsAggregate_ite _ _ _
      (errorsAggregate_panic _) (errorsAggregate_bind _ _ fun r => errorsAggregate_finish _ _)

/-- With a map source `decodeMapFromMap` returns aggregate errors only. -/
theorem decodeMapFromMap_errors (dec : Dec) (lib : GoLib) (name : String)
    (dataVal val : Val) (fl : Flags) (valMap : Val) (mfl : Flags) :
    errorsAggregate (decodeMapFromMap dec lib name dataVal val fl valMap mfl) := by
  unfold decodeMapFromMap
  refine errorsAggregate_bind _ _ fun vt => errorsAggregate_bind _ _ fun kt =>
    errorsAggregate_bind _ _ fun n => errorsAggregate_ite _ _ _ ?_ ?_
  · refine errorsAggregate_bind _ _ fun dn => errorsAggregate_ite _ _ _ ?_ ?_
    · refine errorsAggregate_bind _ _ fun vn => errorsAggregate_ite _ _ _ ?_
        (errorsAggregate_done _)
      exact errorsAggregate_bind _ _ fun v => errorsAggregate_done _
    · exact errorsAggregate_bind _ _ fun v => errorsAggregate_done _
  · exact errorsAggregate_bind _ _ fun keys => errorsAggregate_bind _ _ fun r =>
      errorsAggregate_bind _ _ fun v => errorsAggregate_finish _ _

/-- The error `Decode` returns for a pointer to a valid target is the error of `decode`. -/
theorem Decode_error (lib : GoLib) (fuel : Nat) (input target : Val) (t : Ty)
    (ht : t.kind = Kind.Ptr) (hv : target.IsValid = true) (out : Val) (e : GoError)
    (hres : Decode lib fuel input (Val.ptr t target) = Res.ok (out, some e)) :
    ∃ w, decode lib fuel "" input target Flags.fresh = Res.ok (w, some e) := by
  rw [Decode_ptr lib fuel input target t ht hv] at hres
  cases h : decode lib fuel "" input target Flags.fresh with
  | ok r =>
    rw [h] at hres
    simp only [Res.bind_ok, Res.ok.injEq, Prod.mk.injEq] at hres
    exact ⟨r.1, by rw [← hres.2]⟩
  | panic m => simp [h, Res.bind] at hres
  | outOfFuel => simp [h, Res.bind] at hres

/-- C11 fails as stated.  `42` decoded into a `string` at the root, any source decoded
into a `complex128` at the root, and the slice of the test "slice input - should error"
decoded into a map at the root pass the root check and fail with a plain error, which is
no aggregate error. -/

theorem root_scalar_failure_is_plain :
    Decode stdLib 1 (Val.int tInt 42) (Val.ptr (Ty.ptr tString) (text "")) =
        fail (Val.ptr (Ty.ptr tString) (text ""))
          (GoError.plain "'' expected type 'string', got unconvertible type 'int'") ∧
    Decode stdLib 1 (Val.int tInt 42)
        (Val.ptr (Ty.ptr (Ty.basic Kind.Complex128)) (Zero (Ty.basic Kind.Complex128))) =
        fail (Val.ptr (Ty.ptr (Ty.basic Kind.Complex128)) (Zero (Ty.basic Kind.Complex128)))
          (GoError.plain ": unsupported type: complex128") ∧
    Decode stdLib 1 (Val.slice (Ty.slice tString) [text "foo", text "bar"])
        (Val.ptr (Ty.ptr tMapSI) (Val.map tMapSI [])) =
        fail (Val.ptr (Ty.ptr tMapSI) (Val.map tMapSI []))
          (GoError.plain "'' expected a map, got 'slice'") := by
  refine ⟨by rfl, by rfl, by rfl⟩

/-- C11 as amended.  Let `Decode` pass the root check (the output points to a valid
target), the source be valid after one dereference, and the call return the error `e`.
(1) For a target that is no dynamic value, struct, map, pointer, slice or array, that is
a scalar, function or unsupported-kind target, `e` is a plain error.
(2) For a map or struct target and a source that is neither a map nor a struct, `e` is the
plain error "expected a map".
(3) For a struct target and a map source keyed by text, (4) for a map target and a map
source, and (5) for a slice target and an array or slice source, `e` is an aggregate error
with at least one message. -/

theorem root_failure_shapes (lib : GoLib) (fuel : Nat) (input target : Val) (t : Ty)
    (ht : t.kind = Kind.Ptr) (hv : target.IsValid = true)
    (hd : (Indirect input).IsValid = true) (out : Val) (e : GoError)
    (hres : Decode lib (fuel + 1) input (Val.ptr t target) = Res.ok (out, some e)) :
    (getKind target ≠ Kind.Interface → getKind target ≠ Kind.Struct →
      getKind target ≠ Kind.Map → getKind target ≠ Kind.Ptr → getKind target ≠ Kind.Slice →
      getKind target ≠ Kind.Array → ∃ m : String, e = GoError.plain m) ∧
    ((getKind target = Kind.Map ∨ getKind target = Kind.Struct) →
      (Indirect input).kind ≠ Kind.Map → (Indirect input).kind ≠ Kind.Struct →
      e = GoError.plain ("'' expected a map, got '" ++ kindString (Indirect input).kind ++ "'")) ∧
    (getKind target = Kind.Struct → (Indirect input).kind = Kind.Map →
      textKeyed (Indirect input).typ →
      ∃ msgs : List String, e = GoError.agg msgs ∧ msgs ≠ []) ∧
    (getKind target = Kind.Map → (Indirect input).kind = Kind.Map →
      ∃ msgs : List String, e = GoError.agg msgs ∧ msgs ≠ []) ∧
    (getKind target = Kind.Slice →
      ((Indirect input).kind = Kind.Array ∨ (Indirect input).kind = Kind.Slice) →
      ∃ msgs : List String, e = GoError.agg msgs ∧ msgs ≠ []) := by
  obtain ⟨w, hdec⟩ := Decode_error lib (fuel + 1) input target t ht hv out e hres
  rw [decode_dispatch lib fuel "" input target Flags.fresh hd] at hdec
  have hsc := scalar_errors_plain lib "" input target w Flags.fresh e
  refine ⟨?_, ?_, ?_, ?_, ?_⟩
  · intro h1 h2 h3 h4 h5 h6
    generalize hg : getKind target = k at hdec h1 h2 h3 h4 h5 h6
    cases k
    all_goals first
      | exact absurd rfl h1
      | exact absurd rfl h2
      | exact absurd rfl h3
      | exact absurd rfl h4
      | exact absurd rfl h5
      | exact absurd rfl h6
      | exact hsc.1 hdec
      | exact hsc.2.1 hdec
      | exact hsc.2.2.1 hdec
      | exact hsc.2.2.2.1 hdec
      | exact hsc.2.2.2.2.1 hdec
      | exact hsc.2.2.2.2.2 hdec
      | (simp only [fail, Res.ok.injEq, Prod.mk.injEq, Option.some.injEq] at hdec
         exact ⟨_, hdec.2.symm⟩)
  · intro hk h1 h2
    rcases hk with hk | hk
    · rw [hk] at hdec
      simp only [decodeMap] at hdec
      cases h3 : target.TypeOf with
      | ok vt =>
        cases h4 : vt.mapTypes with
        | ok kt =>
          cases h5 : target.IsNil with
          | ok vn =>
            rw [h3] at hdec
            simp only [Res.bind_ok, h4, h5] at hdec
            generalize (Indirect input).kind = k at hdec h1 h2
            cases k
            all_goals first
              | exact absurd rfl h1
              | exact absurd rfl h2
              | (simp only [fail, Res.ok.injEq, Prod.mk.injEq, Option.some.injEq] at hdec
                 exact hdec.2.symm)
          | panic m => simp [h3, h4, h5, Res.bind] at hdec
          | outOfFuel => simp [h3, h4, h5, Res.bind] at hdec
        | panic m => simp [h3, h4, Res.bind] at hdec
        | outOfFuel => simp [h3, h4, Res.bind] at hdec
      | panic m => simp [h3, Res.bind] at hdec
      | outOfFuel => simp [h3, Res.bind] at hdec
    · rw [hk] at hdec
      simp only [decodeStruct, Val.TypeOf, hd, hv, if_true, Res.bind_ok] at hdec
      split at hdec
      · exact (bind_done_error hdec).elim
      · generalize (Indirect input).kind = k at hdec h1 h2
        cases k
        all_goals first
          | exact absurd rfl h1
          | exact absurd rfl h2
          | (simp only [fail, Res.ok.injEq, Prod.mk.injEq, Option.some.injEq] at hdec
             exact hdec.2.symm)
  · intro hk hm htk
    rw [hk] at hdec
    simp only [decodeStruct, Val.TypeOf, hd, hv, if_true, Res.bind_ok, hm] at hdec
    split at hdec
    · exact (bind_done_error hdec).elim
    · exact decodeStructFromMap_errors _ lib "" _ target Flags.fresh hm htk w e hdec
  · intro hk hm
    rw [hk] at hdec
    simp only [decodeMap] at hdec
    cases h3 : target.TypeOf with
    | ok vt =>
      cases h4 : vt.mapTypes with
      | ok kt =>
        cases h5 : target.IsNil with
        | ok vn =>
          rw [h3] at hdec
          simp only [Res.bind_ok, h4, h5, hm] at hdec
          exact decodeMapFromMap_errors _ lib "" _ target Flags.fresh _ _ w e hdec
        | panic m => simp [h3, h4, h5, Res.bind] at hdec
        | outOfFuel => simp [h3, h4, h5, Res.bind] at hdec
      | panic m => simp [h3, h4, Res.bind] at hdec
      | outOfFuel => simp [h3, h4, Res.bind] at hdec
    | panic m => simp [h3, Res.bind] at hdec
    | outOfFuel => simp [h3, Res.bind] at hdec
  · intro hk hs
    rw [hk] at hdec
    have hns : ¬ ((Indirect input).kind ≠ Kind.Array ∧ (Indirect input).kind ≠ Kind.Slice) := by
      rcases hs with hs | hs <;> simp [hs]
    revert hdec
    simp only [decodeSlice, hns, if_false]
    refine errorsAggregate_bind _ _ (fun vt => errorsAggregate_bind _ _ fun et =>
      errorsAggregate_bind _ _ fun vn => errorsAggregate_ite _ _ _
        (errorsAggregate_bind _ _ fun n => errorsAggregate_ite _ _ _ (errorsAggregate_done _)
          (decodeInto_errors _ _ _ _ _ _ _ _ _))
        (decodeInto_errors _ _ _ _ _ _ _ _ _)) w e

/-- C11 as amended, at the input of `ExampleDecode_errors`: the error of a struct target
is the aggregate of the five messages. -/
theorem root_failure_shapes_witness :
    Decode stdLib 3 personErrInput (Val.ptr (Ty.ptr tPerson) (Val.struct tPerson personZero)) =
        Res.ok (Val.ptr (Ty.ptr tPerson) (Val.struct tPerson personAfterErrors),
          some (GoError.agg personErrMessages)) ∧
      ∃ msgs : List String, GoError.agg personErrMessages = GoError.agg msgs ∧ msgs ≠ [] :=
  ⟨by rfl,
   (root_failure_shapes stdLib 2 personErrInput (Val.struct tPerson personZero) (Ty.ptr tPerson)
    (by rfl) (by rfl) (by rfl) (Val.ptr (Ty.ptr tPerson) (Val.struct tPerson personAfterErrors))
    (GoError.agg personErrMessages) (by rfl)).2.2.1 (by rfl) (by rfl)
    ⟨emptyInterface, Or.inl rfl⟩⟩

/-! ## The resolution of a field name -/

/-- A lookup yields the only entry whose key equals the sought one. -/
theorem lookupEntry_unique {key k v : Val} :
    ∀ es : List (Val × Val), (k, v) ∈ es → Val.goEq k key = true →
      (∀ e ∈ es, Val.goEq e.1 key = true → e = (k, v)) → lookupEntry key es = some v
  | [], hmem, _, _ => by simp at hmem
  | (k2, v2) :: rest, hmem, hkey, huniq => by
      by_cases h2 : Val.goEq k2 key = true
      · have := huniq (k2, v2) (List.mem_cons_self _ _) h2
        simp only [Prod.mk.injEq] at this
        simp [lookupEntry, h2, this.2]
      · have hmem2 : (k, v) ∈ rest := by
          rcases List.mem_cons.1 hmem with h | h
          · simp only [Prod.mk.injEq] at h
            rw [h.1] at hkey
            exact absurd hkey h2
          · exact h
        simp only [lookupEntry, h2, if_false]
        exact lookupEntry_unique rest hmem2 hkey
          (fun e he => huniq e (List.mem_cons_of_mem _ he))

/-- The key of a text equals itself, and a key equal to it holds the same text. -/
theorem nameKey_facts (kt : Ty) (hkt : kt = Ty.basic Kind.String ∨ kt = emptyInterface)
    (n : String) (c : String) :
    Val.goEq (nameKey kt n) (nameKey kt n) = true ∧
    (∀ k : Val, Val.goEq k (nameKey kt n) = true → keyText k = some n) ∧
    keyText (nameKey kt n) = some n ∧
    (nameKey kt n).Interface = Res.ok (Val.str (Ty.basic Kind.String) n) ∧
    assignTo c (Val.str (Ty.basic Kind.String) n) kt = Res.ok (nameKey kt n) ∧
    assignTo c (nameKey kt n) kt = Res.ok (nameKey kt n) ∧
    (nameKey kt n).hashable = true := by
  rcases hkt with rfl | rfl
  · have h : nameKey (Ty.basic Kind.String) n = Val.str (Ty.basic Kind.String) n := by
      simp [nameKey]
    rw [h]
    exact ⟨by simp [Val.goEq], fun k hk => keyText_of_goEq_str hk, rfl, rfl,
      assignTo_same _ _ rfl, assignTo_same _ _ rfl, rfl⟩
  · have h : nameKey emptyInterface n =
        Val.iface emptyInterface (Val.str (Ty.basic Kind.String) n) := rfl
    rw [h]
    exact ⟨by simp [Val.goEq], fun k hk => keyText_of_goEq_iface hk, rfl, rfl, rfl,
      assignTo_same _ _ rfl, rfl⟩

/-- The lookup of a text in a map keyed by text. -/
theorem MapIndex_nameKey (t kt et : Ty) (es : List (Val × Val)) (n : String)
    (ht : t.underlying = Ty.map kt et)
    (hkt : kt = Ty.basic Kind.String ∨ kt = emptyInterface) :
    (Val.map t es).MapIndex (Val.str (Ty.basic Kind.String) n) =
        Res.ok ((lookupEntry (nameKey kt n) es).getD Val.invalid) ∧
    (Val.map t es).MapIndex (nameKey kt n) =
        Res.ok ((lookupEntry (nameKey kt n) es).getD Val.invalid) := by
  have hk : (Val.map t es).kind = Kind.Map := by
    simp only [Val.kind, Val.typ]
    rw [Ty.kind_of_underlying ht]
    rfl
  obtain ⟨-, -, -, -, h1, h2, -⟩ :=
    nameKey_facts kt hkt n "reflect.Value.MapIndex"
  constructor
  · simp only [Val.MapIndex, hk, if_true, Val.typ, Ty.mapTypes, ht, Res.bind_ok, h1, Val.entries]
    cases lookupEntry (nameKey kt n) es <;> rfl
  · simp only [Val.MapIndex, hk, if_true, Val.typ, Ty.mapTypes, ht, Res.bind_ok, h2, Val.entries]
    cases lookupEntry (nameKey kt n) es <;> rfl

/-- The slower search yields the only key that equals the name under
`strings.EqualFold`. -/
theorem findFold_unique (lib : GoLib) (n s : String) (k : Val)
    (hi : k.Interface = Res.ok (Val.str (Ty.basic Kind.String) s))
    (hf : lib.EqualFold s n = true) :
    ∀ ks : List Val, k ∈ ks → (∀ k2 ∈ ks, keyMatches lib k2 n = true → k2 = k) →
      findFold lib n ks = some k
  | [], hmem, _ => by simp at hmem
  | k2 :: ks, hmem, huniq => by
      by_cases h2 : k2 = k
      · subst h2
        simp [findFold, hi, hf]
      · have hno : keyMatches lib k2 n = false := by
          by_contra hc
          exact h2 (huniq k2 (List.mem_cons_self _ _) (by simpa using hc))
        have hmem2 : k ∈ ks := by
          rcases List.mem_cons.1 hmem with h | h
          · exact absurd h.symm h2
          · exact h
        have ih := findFold_unique lib n s k hi hf ks hmem2
          (fun k3 hk3 => huniq k3 (List.mem_cons_of_mem _ hk3))
        have hstep : findFold lib n (k2 :: ks) = findFold lib n ks := by
          cases k2 with
          | str t2 s2 =>
            simp [keyMatches, keyText] at hno
            simp [findFold, Val.Interface, hno.2]
          | iface t2 held =>
            cases held with
            | str t3 s3 =>
              simp [keyMatches, keyText] at hno
              simp [findFold, Val.Interface, hno.2]
            | _ => simp [findFold, Val.Interface]
          | nil t2 =>
            by_cases hki : t2.kind = Kind.Interface <;> simp [findFold, Val.Interface, hki]
          | _ => simp [findFold, Val.Interface]
        rw [hstep, ih]

/-- A field whose name is a key of the source resolves to the entry under that key. -/
theorem resolveField_exact (lib : GoLib) (t kt et : Ty) (es : List (Val × Val)) (n : String)
    (v : Val) (ht : t.underlying = Ty.map kt et)
    (hkt : kt = Ty.basic Kind.String ∨ kt = emptyInterface)
    (hmem : (nameKey kt n, v) ∈ es) (hv : v.IsValid = true)
    (huniq : ∀ e ∈ es, Val.goEq e.1 (nameKey kt n) = true → e = (nameKey kt n, v)) :
    resolveField lib (Val.map t es) (es.map Prod.fst) n = Res.ok v := by
  have hl := lookupEntry_unique es hmem (nameKey_facts kt hkt n "").1 huniq
  simp [resolveField, (MapIndex_nameKey t kt et es n ht hkt).1, hl, hv]

/-- A field whose name is no key of the source but equals exactly one key under
`strings.EqualFold` resolves to the entry under that key. -/
theorem resolveField_fold (lib : GoLib) (t kt et : Ty) (es : List (Val × Val)) (n s : String)
    (v : Val) (ht : t.underlying = Ty.map kt et)
    (hkt : kt = Ty.basic Kind.String ∨ kt = emptyInterface)
    (hmem : (nameKey kt s, v) ∈ es) (hf : lib.EqualFold s n = true)
    (hno : ∀ e ∈ es, keyText e.1 ≠ some n)
    (huniq : ∀ e ∈ es, keyMatches lib e.1 n = true → e = (nameKey kt s, v)) :
    resolveField lib (Val.map t es) (es.map Prod.fst) n = Res.ok v := by
  obtain ⟨hrefl, htext, -, hint, -, -, -⟩ := nameKey_facts kt hkt s ""
  have hl0 : lookupEntry (nameKey kt n) es = none := by
    apply lookupEntry_eq_none
    intro e he
    by_contra hc
    exact hno e he ((nameKey_facts kt hkt n "").2.1 e.1 (by simpa using hc))
  have hmatch : ∀ k : Val, keyText k = some s → keyMatches lib k n = true := by
    intro k hk
    simp [keyMatches, hk, hf]
  have hff : findFold lib n (es.map Prod.fst) = some (nameKey kt s) := by
    apply findFold_unique lib n s (nameKey kt s) hint hf
    · exact List.mem_map.2 ⟨_, hmem, rfl⟩
    · intro k2 hk2 hm
      obtain ⟨e, he, rfl⟩ := List.mem_map.1 hk2
      rw [huniq e he hm]
  have hl : lookupEntry (nameKey kt s) es = some v := by
    apply lookupEntry_unique es hmem hrefl
    intro e he hg
    exact huniq e he (hmatch _ (htext e.1 hg))
  simp [resolveField, (MapIndex_nameKey t kt et es n ht hkt).1, hl0, Val.IsValid, hff,
    (MapIndex_nameKey t kt et es s ht hkt).2, hl]

/-- A map value whose type is keyed by text is a map keyed by text. -/
theorem textKeyed_map (t kt et : Ty) (es : List (Val × Val)) (ht : t.underlying = Ty.map kt et)
    (hkt : kt = Ty.basic Kind.String ∨ kt = emptyInterface) :
    (Val.map t es).kind = Kind.Map ∧ textKeyed (Val.map t es).typ := by
  constructor
  · simp only [Val.kind, Val.typ]
    rw [Ty.kind_of_underlying ht]
    rfl
  · rcases hkt with rfl | rfl
    · exact ⟨et, Or.inl ht⟩
    · exact ⟨et, Or.inr ht⟩

/-! ## C13: exact key first, then the key equal ignoring case -/

/-- C13. Field resolution priority.  Let the source be a map keyed by text (key type
`string` or `interface{}`), `f` a field that can be set and `(k, v)` an entry of the
source.
(1) If `k` is the effective name of `f` (no other entry has that key, as in every map),
the field resolves to `v` and is decoded from it, whatever other keys equal the name
ignoring case.
(2) If no key is the effective name and `k` is the one key that equals it under
`strings.EqualFold`, the field resolves to `v` and is decoded from it. -/

theorem field_resolution_priority (dec : Dec) (lib : GoLib) (name : String) (t kt et : Ty)
    (es : List (Val × Val)) (fl : Flags) (f : StructField) (fv k v : Val)
    (ht : t.underlying = Ty.map kt et)
    (hkt : kt = Ty.basic Kind.String ∨ kt = emptyInterface)
    (hmem : (k, v) ∈ es) (hv : v.IsValid = true) (hfv : fv.IsValid = true)
    (hset : (fl.field f).CanSet = true) :
    (k = nameKey kt (effectiveName f) →
      (∀ e ∈ es, Val.goEq e.1 k = true → e = (k, v)) →
      resolveField lib (Val.map t es) (es.map Prod.fst) (effectiveName f) = Res.ok v ∧
      fieldOutcome dec lib name (Val.map t es) (es.map Prod.fst) fl f fv =
        v.Interface.bind fun d =>
          (dec (fieldPath name f) d fv (fl.field f)).bind fun r =>
            Res.ok (r.1, errorStrings r.2)) ∧
    (∀ s : String, k = nameKey kt s → lib.EqualFold s (effectiveName f) = true →
      (∀ e ∈ es, keyText e.1 ≠ some (effectiveName f)) →
      (∀ e ∈ es, keyMatches lib e.1 (effectiveName f) = true → e = (k, v)) →
      resolveField lib (Val.map t es) (es.map Prod.fst) (effectiveName f) = Res.ok v ∧
      fieldOutcome dec lib name (Val.map t es) (es.map Prod.fst) fl f fv =
        v.Interface.bind fun d =>
          (dec (fieldPath name f) d fv (fl.field f)).bind fun r =>
            Res.ok (r.1, errorStrings r.2)) := by
  have hout : resolveField lib (Val.map t es) (es.map Prod.fst) (effectiveName f) = Res.ok v →
      fieldOutcome dec lib name (Val.map t es) (es.map Prod.fst) fl f fv =
        v.Interface.bind fun d =>
          (dec (fieldPath name f) d fv (fl.field f)).bind fun r =>
            Res.ok (r.1, errorStrings r.2) := by
    intro hr
    simp only [fieldOutcome, hr, Res.bind_ok, hv, hfv, hset, Bool.not_true, Bool.false_eq_true,
      if_false]
  constructor
  · intro hk huniq
    subst hk
    have hr := resolveField_exact lib t kt et es (effectiveName f) v ht hkt hmem hv huniq
    exact ⟨hr, hout hr⟩
  · intro s hk hf hno huniq
    subst hk
    have hr := resolveField_fold lib t kt et es (effectiveName f) s v ht hkt hmem hf hno huniq
    exact ⟨hr, hout hr⟩

/-- C13 at concrete inputs: with the keys `vfoo`, `VFoo` and `VFOO` the field `VFoo`
takes the entry under `VFoo`; with the one key `vfoo` it takes that entry. -/

theorem field_resolution_priority_witness :
    fieldOutcome (decode stdLib 1) stdLib "" (Val.map tMapSI fooEntries)
        (fooEntries.map Prod.fst) Flags.fresh (plainField "VFoo" tString) (text "") =
      Res.ok (text "exact", []) ∧
    fieldOutcome (decode stdLib 1) stdLib "" (Val.map tMapSI [(text "vfoo", boxed (text "lower"))])
        ([(text "vfoo", boxed (text "lower"))].map Prod.fst) Flags.fresh
        (plainField "VFoo" tString) (text "") =
      Res.ok (text "lower", []) :=
  ⟨(((field_resolution_priority (decode stdLib 1) stdLib "" tMapSI tString emptyInterface
      fooEntries Flags.fresh (plainField "VFoo" tString) (text "") (text "VFoo")
      (boxed (text "exact")) rfl (Or.inl rfl) (by simp [fooEntries]) rfl rfl rfl).1 rfl
      (by simp [fooEntries, Val.goEq, text])).2).trans (by rfl),
   (((field_resolution_priority (decode stdLib 1) stdLib "" tMapSI tString emptyInterface
      [(text "vfoo", boxed (text "lower"))] Flags.fresh (plainField "VFoo" tString) (text "")
      (text "vfoo") (boxed (text "lower")) rfl (Or.inl rfl) (by simp) rfl rfl rfl).2 "vfoo" rfl
      (by rfl) (by simp [keyText, text, effectiveName, plainField, tagGet, StructField.Tag, StructField.Name, stringsSplitN2Head, beforeComma]) (by simp)).2).trans (by rfl)⟩

/-! ## C14: the slower search looks at every key -/

/-- C14 fails as stated.  The one source key `vfoo` populates both `VFoo` and `Vfoo`. -/

theorem source_key_populates_two_fields :
    Decode stdLib 2 oneKeyInput (Val.ptr (Ty.ptr tTwoCases) (Val.struct tTwoCases [text "", text ""])) =
      done (Val.ptr (Ty.ptr tTwoCases) (Val.struct tTwoCases [text "x", text "x"])) := by
  rfl

/-- C14 as amended.  The slower search keeps no record of the keys already used.  Let
the source be a map keyed by text with the entry `(s, v)` and let `decodeStructFromMap`
return.  Then every field that is valid and can be set, whose effective name is no key of
the source and for which `s` is the one key equal to it under `strings.EqualFold`, holds
the outcome of decoding `v`, whatever the fields before it were resolved to: one key
populates every such field. -/

theorem fallback_scans_all_keys (dec : Dec) (lib : GoLib) (name : String) (t kt et : Ty)
    (es : List (Val × Val)) (fl : Flags) (st : Ty) (fields : List StructField)
    (vals : List Val) (s : String) (v v' : Val) (e : Option GoError)
    (ht : t.underlying = Ty.map kt et)
    (hkt : kt = Ty.basic Kind.String ∨ kt = emptyInterface)
    (hst : st.structFields = Res.ok fields) (hlen : fields.length ≤ vals.length)
    (hmem : (nameKey kt s, v) ∈ es) (hv : v.IsValid = true)
    (hres : decodeStructFromMap dec lib name (Val.map t es) (Val.struct st vals) fl =
      Res.ok (v', e)) :
    ∀ (i : Nat) (f : StructField) (fv : Val), fields[i]? = some f → vals[i]? = some fv →
      fv.IsValid = true → (fl.field f).CanSet = true →
      lib.EqualFold s (effectiveName f) = true →
      (∀ en ∈ es, keyText en.1 ≠ some (effectiveName f)) →
      (∀ en ∈ es, keyMatches lib en.1 (effectiveName f) = true → en = (nameKey kt s, v)) →
      ∃ (d w : Val) (err : Option GoError), v.Interface = Res.ok d ∧
        dec (fieldPath name f) d fv (fl.field f) = Res.ok (w, err) ∧
        v'.fieldVals[i]? = some w := by
  intro i f fv hf hfv hvalid hset hfold hno huniq
  obtain ⟨hk, htk⟩ := textKeyed_map t kt et es ht hkt
  obtain ⟨rs, hall, hv', -, -⟩ :=
    decodeStructFromMap_ok dec lib name (Val.map t es) fl st fields vals hk htk hst hlen v' e hres
  obtain ⟨r, hr, hout⟩ := forall₂_zip_index
    (R := fun f v r => fieldOutcome dec lib name (Val.map t es)
      ((Val.map t es).entries.map Prod.fst) fl f v = Res.ok r) fields vals rs hall i f fv hf hfv
  have hres2 := resolveField_fold lib t kt et es (effectiveName f) s v ht hkt hmem hfold hno huniq
  simp only [Val.entries] at hout
  simp only [fieldOutcome, hres2, Res.bind_ok, hv, hvalid, hset, Bool.not_true,
    Bool.false_eq_true, if_false] at hout
  cases hd : v.Interface with
  | ok d =>
    rw [hd] at hout
    simp only [Res.bind_ok] at hout
    cases hdec : dec (fieldPath name f) d fv (fl.field f) with
    | ok rr =>
      rw [hdec] at hout
      simp only [Res.bind_ok, Res.ok.injEq] at hout
      refine ⟨d, rr.1, rr.2, rfl, hdec, ?_⟩
      rw [hv']
      simp only [Val.fieldVals]
      have hi : i < rs.length := by
        by_contra hc
        rw [List.getElem?_eq_none (by omega)] at hr
        exact absurd hr (by simp)
      rw [List.getElem?_append_left (by simpa using hi)]
      simp [hr, ← hout]
    | panic m => simp [hdec, Res.bind] at hout
    | outOfFuel => simp [hdec, Res.bind] at hout
  | panic m => simp [hd, Res.bind] at hout
  | outOfFuel => simp [hd, Res.bind] at hout

/-- C14 as amended, at a concrete input: the second field `Vfoo` is decoded from the
entry under `vfoo`, which the first field `VFoo` was decoded from as well. -/

theorem fallback_scans_all_keys_witness :
    ∃ (d w : Val) (err : Option GoError), (boxed (text "x")).Interface = Res.ok d ∧
      decode stdLib 1 (fieldPath "" (plainField "Vfoo" tString)) d (text "")
        (Flags.fresh.field (plainField "Vfoo" tString)) = Res.ok (w, err) ∧
      (Val.struct tTwoCases [text "x", text "x"]).fieldVals[1]? = some w :=
  fallback_scans_all_keys (decode stdLib 1) stdLib "" tMapSI tString emptyInterface
    [(text "vfoo", boxed (text "x"))] Flags.fresh tTwoCases
    [plainField "VFoo" tString, plainField "Vfoo" tString] [text "", text ""] "vfoo"
    (boxed (text "x")) (Val.struct tTwoCases [text "x", text "x"]) none rfl (Or.inl rfl) rfl
    (by decide) (List.mem_singleton.2 rfl) rfl (by rfl) 1 (plainField "Vfoo" tString) (text "") rfl rfl rfl rfl
    (by rfl)
    (by simp [keyText, text, effectiveName, plainField, tagGet, StructField.Tag,
      StructField.Name, stringsSplitN2Head, beforeComma])
    (fun en hen _ => List.mem_singleton.1 hen)

/-! ## C15: embedded members are not flattened -/

/-- C15 fails as stated.  With the keys `vstring` and `vunique` in the parent map and no
key `Basic`, the embedded `Basic` keeps its zero `VString`; with the nested map under
`Basic` its `VString` becomes `innerfoo`, not the `foo` of the parent map. -/

theorem embedded_fields_are_not_promoted :
    Decode stdLib 3 flatInput (Val.ptr (Ty.ptr tEmbedded)
        (Val.struct tEmbedded [Val.struct tBasic basicZero, text ""])) =
      done (Val.ptr (Ty.ptr tEmbedded)
        (Val.struct tEmbedded [Val.struct tBasic basicZero, text "bar"])) ∧
    Decode stdLib 3 embeddedInput (Val.ptr (Ty.ptr tEmbedded)
        (Val.struct tEmbedded [Val.struct tBasic basicZero, text ""])) =
      done (Val.ptr (Ty.ptr tEmbedded)
        (Val.struct tEmbedded
          [Val.struct tBasic (text "innerfoo" :: basicZero.tail), text "bar"])) := by
  constructor <;> rfl

/-- The embedded flag does not change what the loop does with a field. -/
theorem fieldOutcome_withAnonymous (dec : Dec) (lib : GoLib) (name : String) (dataVal : Val)
    (keys : List Val) (fl : Flags) (b : Bool) (f : StructField) (v : Val) :
    fieldOutcome dec lib name dataVal keys fl (f.withAnonymous b) v =
      fieldOutcome dec lib name dataVal keys fl f v := by
  cases f
  rfl

/-- C15 as amended.  Decoding a map into a struct never reads the embedded flag: the
effective name of a field, what the loop does with one field and the whole loop are the
same whatever the flag is.  An embedded member is resolved under its own effective name
among the keys of the parent map: when no key of a map keyed by text matches that name,
the member is left as it was, whatever other keys the parent map has. -/

theorem embedded_flag_is_ignored (dec : Dec) (lib : GoLib) (name : String) (dataVal : Val)
    (keys : List Val) (fl : Flags) (b : Bool) :
    (∀ (f : StructField), effectiveName (f.withAnonymous b) = effectiveName f) ∧
    (∀ (f : StructField) (v : Val),
      fieldOutcome dec lib name dataVal keys fl (f.withAnonymous b) v =
        fieldOutcome dec lib name dataVal keys fl f v) ∧
    (∀ (fs : List StructField) (vs : List Val) (errors : List String),
      decodeStructFields dec lib name dataVal keys fl (fs.map (StructField.withAnonymous b)) vs
          errors =
        decodeStructFields dec lib name dataVal keys fl fs vs errors) ∧
    (∀ (f : StructField) (v : Val), f.Anonymous = true → dataVal.kind = Kind.Map →
      textKeyed dataVal.typ →
      (∀ e ∈ dataVal.entries, keyMatches lib e.1 (effectiveName f) = false) →
      fieldOutcome dec lib name dataVal (dataVal.entries.map Prod.fst) fl f v =
        Res.ok (v, [])) := by
  refine ⟨fun f => by cases f; rfl, fieldOutcome_withAnonymous dec lib name dataVal keys fl b,
    ?_, fun f v _ hk ht hno => fieldOutcome_no_match dec lib name dataVal fl f v hk ht hno⟩
  intro fs
  induction fs with
  | nil => intro vs errors; rfl
  | cons f fs ih =>
    intro vs errors
    cases vs with
    | nil => rfl
    | cons v vs =>
      cases f with
      | mk n p tag a t =>
        simp only [List.map_cons, StructField.withAnonymous, decodeStructFields, ih]
        rfl

/-- C15 as amended, at a concrete input: with the keys `vstring` and `vunique` only, the
embedded `Basic` is left as it was. -/

theorem embedded_flag_is_ignored_witness :
    fieldOutcome (decode stdLib 2) stdLib "" flatInput (flatInput.entries.map Prod.fst)
      Flags.fresh (StructField.mk "Basic" "" [] true tBasic) (Val.struct tBasic basicZero) =
        Res.ok (Val.struct tBasic basicZero, []) :=
  (embedded_flag_is_ignored (decode stdLib 2) stdLib "" flatInput
    (flatInput.entries.map Prod.fst) Flags.fresh true).2.2.2
    (StructField.mk "Basic" "" [] true tBasic) (Val.struct tBasic basicZero) rfl rfl
    ⟨emptyInterface, Or.inl rfl⟩
    (by
      intro e he
      simp only [flatInput, Val.entries, List.mem_cons, List.mem_singleton, List.not_mem_nil,
        or_false] at he
      rcases he with rfl | rfl <;> rfl)

/-! ## C16: an embedded member is decoded from the entry under its own name -/

/-- C16. Let the source be a map keyed by text and `f` an embedded field of the target
that can be set, with value `fv`.
(1) Without a tag the effective name of `f` is its declared name, the name of the
embedded type.
(2) If the source has an entry `v` under that name, the member is decoded from `v` as
any other field is: the outcome is that of `decode` on `v` and `fv`, so the fields of
the member come from the nested map and the other keys of the parent map play no part.
(3) If no key matches the name, the member is left as it was, whatever keys naming its
fields the parent map has.
(4) With the source `vstring: foo, Basic: (vstring: innerfoo), vunique: bar` the embedded
`VString` ends as `innerfoo` and `VUnique` as `bar`, for `Embedded` and for
`EmbeddedPointer`. -/

theorem embedded_member_is_nested (dec : Dec) (lib : GoLib) (name : String) (t kt et : Ty)
    (es : List (Val × Val)) (fl : Flags) (f : StructField) (fv : Val)
    (ht : t.underlying = Ty.map kt et)
    (hkt : kt = Ty.basic Kind.String ∨ kt = emptyInterface)
    (_hanon : f.Anonymous = true) (hfv : fv.IsValid = true)
    (hset : (fl.field f).CanSet = true) :
    (tagGet f.Tag tagName = "" → effectiveName f = f.Name) ∧
    (∀ v : Val, (nameKey kt (effectiveName f), v) ∈ es → v.IsValid = true →
      (∀ e ∈ es, Val.goEq e.1 (nameKey kt (effectiveName f)) = true →
        e = (nameKey kt (effectiveName f), v)) →
      fieldOutcome dec lib name (Val.map t es) (es.map Prod.fst) fl f fv =
        v.Interface.bind fun d =>
          (dec (fieldPath name f) d fv (fl.field f)).bind fun r =>
            Res.ok (r.1, errorStrings r.2)) ∧
    ((∀ e ∈ es, keyMatches lib e.1 (effectiveName f) = false) →
      fieldOutcome dec lib name (Val.map t es) (es.map Prod.fst) fl f fv = Res.ok (fv, [])) ∧
    Decode stdLib 3 embeddedInput (Val.ptr (Ty.ptr tEmbedded)
        (Val.struct tEmbedded [Val.struct tBasic basicZero, text ""])) =
      done (Val.ptr (Ty.ptr tEmbedded)
        (Val.struct tEmbedded
          [Val.struct tBasic (text "innerfoo" :: basicZero.tail), text "bar"])) ∧
    Decode stdLib 4 embeddedInput (Val.ptr (Ty.ptr tEmbeddedPointer)
        (Val.struct tEmbeddedPointer [Val.nil (Ty.ptr tBasic), text ""])) =
      done (Val.ptr (Ty.ptr tEmbeddedPointer)
        (Val.struct tEmbeddedPointer
          [Val.ptr (Ty.ptr tBasic) (Val.struct tBasic (text "innerfoo" :: basicZero.tail)),
            text "bar"])) := by
  refine ⟨?_, ?_, ?_, by rfl, by rfl⟩
  · intro h
    simp [effectiveName, h, stringsSplitN2Head, beforeComma]
  · intro v hmem hv huniq
    have hr := resolveField_exact lib t kt et es (effectiveName f) v ht hkt hmem hv huniq
    simp only [fieldOutcome, hr, Res.bind_ok, hv, hfv, hset, Bool.not_true, Bool.false_eq_true,
      if_false]
  · intro hno
    obtain ⟨hk, htk⟩ := textKeyed_map t kt et es ht hkt
    exact fieldOutcome_no_match dec lib name (Val.map t es) fl f fv hk htk hno

/-- C16 at the input of `TestDecode_Embedded`: the embedded `Basic` is decoded from the
nested map under the key `Basic`. -/

theorem embedded_member_is_nested_witness :
    fieldOutcome (decode stdLib 2) stdLib "" embeddedInput (embeddedInput.entries.map Prod.fst)
      Flags.fresh (StructField.mk "Basic" "" [] true tBasic) (Val.struct tBasic basicZero) =
        Res.ok (Val.struct tBasic (text "innerfoo" :: basicZero.tail), []) :=
  ((embedded_member_is_nested (decode stdLib 2) stdLib "" tMapSI tString emptyInterface
    embeddedInput.entries Flags.fresh (StructField.mk "Basic" "" [] true tBasic)
    (Val.struct tBasic basicZero) rfl (Or.inl rfl) rfl rfl rfl).2.1
    (boxed (.map tMapSI [(text "vstring", boxed (text "innerfoo"))]))
    (by simp [embeddedInput, Val.entries, nameKey, effectiveName, text, tString,
          StructField.Name, StructField.Tag, tagGet, stringsSplitN2Head, beforeComma])
    rfl
    (by
      intro e he hg
      simp only [embeddedInput, Val.entries, List.mem_cons, List.mem_singleton,
        List.not_mem_nil, or_false] at he
      rcases he with rfl | rfl | rfl
      · exact absurd hg (by decide)
      · rfl
      · exact absurd hg (by decide))).trans (by rfl)

/-! ## C17: the tag key overrides the declared name -/

/-- The text before the first comma of a text that starts with a key without commas. -/
theorem beforeComma_append : ∀ (k rest : List Char), ',' ∉ k →
    (rest = [] ∨ rest.head? = some ',') → beforeComma (k ++ rest) = k
  | [], rest, _, hrest => by
      rcases hrest with rfl | h
      · rfl
      · cases rest with
        | nil => rfl
        | cons c cs =>
          simp only [List.head?_cons, Option.some.injEq] at h
          simp [beforeComma, h]
  | c :: k, rest, hk, hrest => by
      have hc : c ≠ ',' := fun h => hk (by simp [h])
      have hk2 : ',' ∉ k := fun h => hk (List.mem_cons_of_mem _ h)
      simp [beforeComma, hc, beforeComma_append k rest hk2 hrest]

/-- C17. Tag override.  Let the tag value of the field `f` be the key `k`, not empty and
without a comma, followed by nothing or by a comma and any options.
(1) The effective name of `f` is `k`.
(2) What the loop does with `f` is stated with `k` alone: the entry is resolved under `k`
(exactly, else ignoring case) and the path ends in `k`.
(3) A field with any other declared name and any other options after the key `k` has the
same outcome: neither the declared name nor the options play a part.
(4) When no key of a source keyed by text matches `k`, the field is left as it was, also
when a key is the declared name. -/

theorem tag_overrides_name (dec : Dec) (lib : GoLib) (name : String) (dataVal : Val)
    (keys : List Val) (fl : Flags) (f : StructField) (fv : Val) (k rest : String)
    (htag : tagGet f.Tag tagName = k ++ rest) (hk : k ≠ "") (hcomma : ',' ∉ k.data)
    (hrest : rest = "" ∨ rest.data.head? = some ',') :
    effectiveName f = k ∧
    fieldOutcome dec lib name dataVal keys fl f fv =
      ((resolveField lib dataVal keys k).bind fun rawMapVal =>
        if !rawMapVal.IsValid then Res.ok (fv, [])
        else if !fv.IsValid then Res.panic "field is not valid"
        else if !(fl.field f).CanSet then Res.ok (fv, [])
        else
          rawMapVal.Interface.bind fun d =>
            (dec (if name ≠ "" then name ++ "." ++ k else k) d fv (fl.field f)).bind fun r =>
              Res.ok (r.1, errorStrings r.2)) ∧
    (∀ (g : StructField) (rest2 : String), g.PkgPath = f.PkgPath →
      tagGet g.Tag tagName = k ++ rest2 → (rest2 = "" ∨ rest2.data.head? = some ',') →
      fieldOutcome dec lib name dataVal keys fl g fv =
        fieldOutcome dec lib name dataVal keys fl f fv) ∧
    (dataVal.kind = Kind.Map → textKeyed dataVal.typ →
      (∀ e ∈ dataVal.entries, keyMatches lib e.1 k = false) →
      fieldOutcome dec lib name dataVal (dataVal.entries.map Prod.fst) fl f fv =
        Res.ok (fv, [])) := by
  have hname : ∀ (g : StructField) (rest2 : String), tagGet g.Tag tagName = k ++ rest2 →
      (rest2 = "" ∨ rest2.data.head? = some ',') → effectiveName g = k := by
    intro g rest2 hg hr
    have hr2 : rest2.data = [] ∨ rest2.data.head? = some ',' := by
      rcases hr with rfl | h
      · exact Or.inl rfl
      · exact Or.inr h
    have hb : stringsSplitN2Head (k ++ rest2) = k := by
      simp only [stringsSplitN2Head, String.data_append]
      rw [beforeComma_append k.data rest2.data hcomma hr2]
    simp only [effectiveName, hg, hb, hk, ne_eq, not_false_eq_true, if_true]
  have hf := hname f rest htag hrest
  refine ⟨hf, ?_, ?_, ?_⟩
  · simp only [fieldOutcome, fieldPath, hf]
  · intro g rest2 hp hg hr
    have hg2 := hname g rest2 hg hr
    have hfl : fl.field g = fl.field f := by simp [Flags.field, hp]
    simp only [fieldOutcome, fieldPath, hf, hg2, hfl]
  · intro hkind ht hno
    exact fieldOutcome_no_match dec lib name dataVal fl f fv hkind ht (by rw [hf]; exact hno)

/-- C17 at the input of `TestTagged`: the field `Extra` with the tag `bar,what,what` has
the effective name `bar`, and decoding gives `Extra` the entry under `bar` and `Value` the
entry under `foo`. -/

theorem tag_overrides_name_witness :
    effectiveName (StructField.mk "Extra" "" [("json", "bar,what,what")] false tString) = "bar" ∧
    Decode stdLib 2 taggedInput (Val.ptr (Ty.ptr tTagged)
        (Val.struct tTagged [text "", text ""])) =
      done (Val.ptr (Ty.ptr tTagged) (Val.struct tTagged [text "value", text "bar"])) :=
  ⟨(tag_overrides_name (decode stdLib 1) stdLib "" taggedInput
      (taggedInput.entries.map Prod.fst) Flags.fresh
      (StructField.mk "Extra" "" [("json", "bar,what,what")] false tString) (text "")
      "bar" ",what,what" rfl (by decide) (by decide) (Or.inr rfl)).1, by rfl⟩

/-! ## C18 and C19: the tag key `-` -/

/-- C18 at its failing input.  A struct with `Value` under the key `value` and an `int`
field `Omit` under the key `-`, converted into a `map[string]string`: the entry of `Value`
is stored and then the excluded field makes the conversion fail, because its type is
tested before its tag is read.  With `Omit` of type `string`, as in the test "omit tag
struct", the field is skipped and the call returns nil. -/

theorem excluded_field_fails_conversion :
    Decode stdLib 1
        (Val.ptr (Ty.ptr (tOmit tInt)) (Val.struct (tOmit tInt) [text "foo", Val.int tInt 5]))
        (Val.ptr (Ty.ptr tMapSS) (Val.map tMapSS [])) =
      fail (Val.ptr (Ty.ptr tMapSS) (Val.map tMapSS [(text "value", text "foo")]))
        (GoError.plain "cannot assign type 'int' to map value field of type 'string'") ∧
    Decode stdLib 1
        (Val.ptr (Ty.ptr (tOmit tString)) (Val.struct (tOmit tString) [text "foo", text "bar"]))
        (Val.ptr (Ty.ptr tMapSS) (Val.map tMapSS [])) =
      done (Val.ptr (Ty.ptr tMapSS) (Val.map tMapSS [(text "value", text "foo")])) := by
  constructor <;> rfl

/-- C19 at its failing input.  A map with the key `-` decoded into a struct whose field
`Value` has the tag key `-` sets the field: the key `-` is looked up as any other name.
In the other direction the same field gives no entry. -/

theorem excluded_field_is_populated :
    Decode stdLib 2 (Val.map tMapSI [(text "-", boxed (text "x"))])
        (Val.ptr (Ty.ptr tDash) (Val.struct tDash [text "keep"])) =
      done (Val.ptr (Ty.ptr tDash) (Val.struct tDash [text "x"])) ∧
    Decode stdLib 1 (Val.struct tDash [text "x"])
        (Val.ptr (Ty.ptr tMapSI) (Val.map tMapSI [])) =
      done (Val.ptr (Ty.ptr tMapSI) (Val.map tMapSI [])) := by
  constructor <;> rfl

/-! ## C20: the option `omitempty` -/

/-- The encoding of a character in UTF-8 has at least one byte. -/
theorem utf8EncodeChar_ne_nil (c : Char) : String.utf8EncodeChar c ≠ [] := by
  simp only [String.utf8EncodeChar]
  split
  · simp
  · split
    · simp
    · split <;> simp

/-- A text has no bytes exactly when it is the empty text. -/
theorem utf8Bytes_length (s : String) : ((utf8Bytes s).length == 0) = (s == "") := by
  obtain ⟨cs⟩ := s
  cases cs with
  | nil => rfl
  | cons c cs =>
    have h1 : (String.mk (c :: cs) == "") = false := by
      simp [String.ext_iff]
    rw [h1]
    simp only [utf8Bytes, List.flatMap_cons, List.length_append, List.length_map]
    have h2 := utf8EncodeChar_ne_nil c
    cases h3 : String.utf8EncodeChar c with
    | nil => exact absurd h3 h2
    | cons b bs => simp

/-- On the shapes the spec lists, `isEmptyValue` is the negation of the spec's
non-empty. -/
theorem isEmptyValue_listed (v : Val) (h : listedShape v = true) :
    isEmptyValue v = Res.ok (!specNonEmpty v) := by
  cases v with
  | int t i =>
    simp only [listedShape, beq_iff_eq] at h
    simp [isEmptyValue, getKind_eq, Val.kind, Val.typ, h, Val.getInt, specNonEmpty, bne]
  | uint t n =>
    simp only [listedShape, Bool.or_eq_true, beq_iff_eq] at h
    rcases h with h | h
    · simp [isEmptyValue, getKind_eq, Val.kind, Val.typ, h, Val.getUint, specNonEmpty, bne]
    · simp [isEmptyValue, getKind_eq, Val.kind, Val.typ, h, Kind.family, Kind.toNat,
        Val.getUint, specNonEmpty, bne]
  | float t f =>
    simp only [listedShape, beq_iff_eq] at h
    simp [isEmptyValue, getKind_eq, Val.kind, Val.typ, h, Val.getFloat, specNonEmpty, bne]
  | bool t b =>
    simp only [listedShape, beq_iff_eq] at h
    simp [isEmptyValue, getKind_eq, Val.kind, Val.typ, h, Kind.family, Kind.toNat,
      Val.getBool, specNonEmpty, bne]
  | str t s =>
    simp only [listedShape, beq_iff_eq] at h
    simp only [isEmptyValue, getKind_eq, Val.kind, Val.typ, h, Kind.family, Kind.toNat,
      Val.Len, specNonEmpty, bne, Bool.not_not]
    simp [utf8Bytes_length]
  | map t es =>
    simp only [listedShape, beq_iff_eq] at h
    simp [isEmptyValue, getKind_eq, Val.kind, Val.typ, h, Kind.family, Kind.toNat,
      Val.Len, specNonEmpty, bne]
  | slice t es =>
    simp only [listedShape, beq_iff_eq] at h
    simp [isEmptyValue, getKind_eq, Val.kind, Val.typ, h, Kind.family, Kind.toNat,
      Val.Len, specNonEmpty, bne]
  | array t es =>
    simp only [listedShape, beq_iff_eq] at h
    simp [isEmptyValue, getKind_eq, Val.kind, Val.typ, h, Kind.family, Kind.toNat,
      Val.Len, specNonEmpty, bne]
  | ptr t p =>
    simp only [listedShape, beq_iff_eq] at h
    simp [isEmptyValue, getKind_eq, Val.kind, Val.typ, h, Kind.family, Kind.toNat,
      Val.IsNil, specNonEmpty, bne]
  | iface t p =>
    simp only [listedShape, beq_iff_eq] at h
    simp [isEmptyValue, getKind_eq, Val.kind, Val.typ, h, Kind.family, Kind.toNat,
      Val.IsNil, specNonEmpty, bne]
  | nil t =>
    simp only [listedShape, Bool.or_eq_true, beq_iff_eq] at h
    rcases h with ((h | h) | h) | h <;>
      simp [isEmptyValue, getKind_eq, Val.kind, Val.typ, h, Kind.family, Kind.toNat,
        Val.IsNil, Val.Len, specNonEmpty, bne]
  | _ => simp [listedShape] at h

/-- A value of an assignable type can be stored. -/
theorem assignTo_of_assignable (c : String) (x : Val) (dst : Ty) (hx : x.IsValid = true)
    (h : x.typ.AssignableTo dst = true) : ∃ e, assignTo c x dst = Res.ok e := by
  simp only [Ty.AssignableTo, Bool.or_eq_true] at h
  rcases h with h | h
  · have h2 : ((x.typ == dst) ||
        (!(dst.hasName && x.typ.hasName) && (x.typ.underlying == dst.underlying))) = true := by
      simpa using h
    exact ⟨x.withType dst,
      by simp only [assignTo, hx, Bool.not_true, Bool.false_eq_true, if_false, h2, if_true]⟩
  · by_cases h2 : ((x.typ == dst) ||
        (!(dst.hasName && x.typ.hasName) && (x.typ.underlying == dst.underlying))) = true
    · exact ⟨x.withType dst,
        by simp only [assignTo, hx, Bool.not_true, Bool.false_eq_true, if_false, h2, if_true]⟩
    · simp only [assignTo, hx, Bool.not_true, Bool.false_eq_true, if_false, h2, h, if_true]
      cases x with
      | nil t => by_cases hk : t.kind = Kind.Interface <;> simp [hk]
      | _ => simp

/-- Looking up a key after storing an entry under it yields that entry. -/
theorem lookupEntry_upsertEntry (k v : Val) (hk : Val.goEq k k = true) :
    ∀ es : List (Val × Val), lookupEntry k (upsertEntry k v es) = some v
  | [] => by simp [upsertEntry, lookupEntry, hk]
  | (k2, v2) :: rest => by
      by_cases h : Val.goEq k2 k = true
      · simp [upsertEntry, lookupEntry, h]
      · simp [upsertEntry, lookupEntry, h, lookupEntry_upsertEntry k v hk rest]

/-- The tests `TestDecode_StructTaggedWithOmitempty_OmitEmptyValues` and
`TestDecode_StructTaggedWithOmitempty_KeepNonEmptyValues`: a zero struct gives the seven
entries of the fields without the option, a struct whose fields with the option are not
empty gives an entry for each of the fourteen fields. -/

theorem omitempty_tests :
    Decode stdLib 1 (Val.ptr (Ty.ptr tOmitEmpty) (Zero tOmitEmpty))
        (Val.ptr (Ty.ptr tMapSI) (Val.map tMapSI [])) =
      done (Val.ptr (Ty.ptr tMapSI) (Val.map tMapSI omitEmptyVisible)) ∧
    Decode stdLib 1 (Val.ptr (Ty.ptr tOmitEmpty) (Val.struct tOmitEmpty omitEmptyFilled))
        (Val.ptr (Ty.ptr tMapSI) (Val.map tMapSI [])) =
      done (Val.ptr (Ty.ptr tMapSI) (Val.map tMapSI
        ((omitEmptyFields.zip omitEmptyFilled).map fun fv =>
          (text (entryKeyName fv.1), boxed fv.2)))) := by
  constructor <;> rfl

/-! ## C21 to C30: records as sources, sequences, arrays and pointers -/

/-- Within declared types too, the zero value of a type of pointer, map, slice, function,
channel or interface kind is the nil value of the type. -/
theorem zeroOfE_nil : ∀ (u : Ty) (env : List Ty) (t : Ty),
    (u.kind = Kind.Ptr ∨ u.kind = Kind.Map ∨ u.kind = Kind.Slice ∨ u.kind = Kind.Func ∨
      u.kind = Kind.Chan ∨ u.kind = Kind.Interface) → zeroOfE env t u = Val.nil t
  | .basic k, _, _, h => by
      simp only [Ty.kind] at h
      rcases h with h | h | h | h | h | h <;> subst h <;> rfl
  | .named _ _ _ u, env, t, h => by
      simp only [zeroOfE]
      exact zeroOfE_nil u env t (by simpa [Ty.kind] using h)
  | .recur _ _ _ u, env, t, h => by
      simp only [zeroOfE]
      exact zeroOfE_nil u _ t (by simpa [Ty.kind] using h)
  | .array _ _, _, _, h => by simp [Ty.kind] at h
  | .struct _, _, _, h => by simp [Ty.kind] at h
  | .ref _ _, _, _, h => by simp [Ty.kind] at h
  | .chan _, _, _, _ => rfl
  | .func _, _, _, _ => rfl
  | .iface _, _, _, _ => rfl
  | .map _ _, _, _, _ => rfl
  | .ptr _, _, _, _ => rfl
  | .slice _, _, _, _ => rfl

/-- The zero value of a type of pointer, map, slice, function, channel or interface kind
is the nil value of the type. -/
theorem zeroOf_nil (t : Ty) : ∀ u : Ty,
    (u.kind = Kind.Ptr ∨ u.kind = Kind.Map ∨ u.kind = Kind.Slice ∨ u.kind = Kind.Func ∨
      u.kind = Kind.Chan ∨ u.kind = Kind.Interface) → zeroOf t u = Val.nil t
  | .basic k, h => by
      simp only [Ty.kind] at h
      rcases h with h | h | h | h | h | h <;> subst h <;> rfl
  | .named _ _ _ u, h => by
      simp only [zeroOf]
      exact zeroOf_nil t u (by simpa [Ty.kind] using h)
  | .array _ _, h => by simp [Ty.kind] at h
  | .struct _, h => by simp [Ty.kind] at h
  | .chan _, _ => rfl
  | .func _, _ => rfl
  | .iface _, _ => rfl
  | .map _ _, _ => rfl
  | .ptr _, _ => rfl
  | .slice _, _ => rfl
  | .recur _ _ _ u, h => by
      simp only [zeroOf]
      exact zeroOfE_nil u _ t (by simpa [Ty.kind] using h)
  | .ref _ _, h => by simp [Ty.kind] at h

/-- The zero value of a nillable type is its nil value. -/
theorem Zero_nil (t : Ty)
    (h : t.kind = Kind.Ptr ∨ t.kind = Kind.Map ∨ t.kind = Kind.Slice ∨ t.kind = Kind.Func ∨
      t.kind = Kind.Chan ∨ t.kind = Kind.Interface) : Zero t = Val.nil t :=
  zeroOf_nil t t h

/-- C23. The fast path of `decodeStruct`.  Let the source, directly or behind one pointer,
be a value whose type is exactly the type of the target, and let the target be settable.
Then `decodeStruct` succeeds, whatever the recursive decoder, and the target becomes the
source value as a whole: every field, unexported ones included, is that of the source and
nothing the target held before is kept.  The method `decode` does the same on a target of
struct kind. -/
theorem struct_fast_path (lib : GoLib) (fuel : Nat) (name : String) (data val : Val)
    (fl : Flags) (hd : (Indirect data).IsValid = true) (hv : val.IsValid = true)
    (ht : (Indirect data).typ = val.typ) (hset : fl.CanSet = true) :
    (∀ dec : Dec, decodeStruct dec lib name data val fl = done (Indirect data)) ∧
    (getKind val = Kind.Struct →
      decode lib (fuel + 1) name data val fl = done (Indirect data)) := by
  have hro : fl.ro = false := by
    simp only [Flags.CanSet, Bool.and_eq_true, Bool.not_eq_true'] at hset
    exact hset.2
  have haddr : fl.addr = true := by
    simp only [Flags.CanSet, Bool.and_eq_true] at hset
    exact hset.1
  have hdt : (Indirect data).TypeOf = Res.ok val.typ := by
    simp only [Val.TypeOf, hd, if_true, ht]
  have hvt : val.TypeOf = Res.ok val.typ := by simp only [Val.TypeOf, hv, if_true]
  have hset2 : val.Set fl (Indirect data) = Res.ok (Indirect data) := by
    simp only [Val.Set, hv, hro, haddr, Bool.not_true, Bool.false_eq_true, if_false]
    rw [← ht]
    exact assignTo_same _ _ hd
  have h1 : ∀ dec : Dec, decodeStruct dec lib name data val fl = done (Indirect data) := by
    intro dec
    simp only [decodeStruct, hdt, hvt, Res.bind_ok, Ty.beq_self, if_true, hset2]
  refine ⟨h1, fun hk => ?_⟩
  rw [decode_dispatch lib fuel name data val fl hd, hk]
  exact h1 _

/-- C23 at a `Basic` with `VString: "foo"` decoded into a `Basic` that held `"old"` and 7:
the target becomes the source, and the 7 is gone. -/
theorem struct_fast_path_witness :
    decodeStruct (decode stdLib 0) stdLib "VBar"
        (Val.struct tBasic (text "foo" :: basicZero.tail))
        (Val.struct tBasic (text "old" :: Val.int tInt 7 :: (basicZero.drop 2))) Flags.fresh =
      done (Val.struct tBasic (text "foo" :: basicZero.tail)) :=
  (struct_fast_path stdLib 0 "VBar" (Val.struct tBasic (text "foo" :: basicZero.tail))
    (Val.struct tBasic (text "old" :: Val.int tInt 7 :: (basicZero.drop 2))) Flags.fresh
    rfl rfl rfl rfl).1 (decode stdLib 0)

/-- C25 fails as stated.  An allocated but empty `map[string]string` decoded into a nil
`map[string]string` makes the target an allocated empty map, which is not the nil map. -/
theorem empty_map_source_allocates :
    decode stdLib 1 "" (Val.map tMapSS []) (Val.nil tMapSS) Flags.fresh =
        done (Val.map tMapSS []) ∧
      Val.map tMapSS [] ≠ Val.nil tMapSS :=
  ⟨by rfl, fun h => Val.noConfusion h⟩

/-- C25, amended.  A source map of length zero decoded into a nil target map: when the
source is the nil map, directly or behind one pointer, the call succeeds and the target
stays nil; when the source is allocated but empty, directly or behind one pointer, and the
target is settable, the call succeeds and the target becomes an allocated empty map of its
own type. -/
theorem zero_length_map_into_nil_map (lib : GoLib) (fuel : Nat) (name : String)
    (st mt skt se kt et : Ty) (fl : Flags)
    (hst : st.underlying = Ty.map skt se) (hmt : mt.underlying = Ty.map kt et) :
    decode lib (fuel + 1) name (Val.nil st) (Val.nil mt) fl = done (Val.nil mt) ∧
    (∀ pt : Ty, pt.kind = Kind.Ptr →
      decode lib (fuel + 1) name (Val.ptr pt (Val.nil st)) (Val.nil mt) fl =
        done (Val.nil mt)) ∧
    (fl.CanSet = true →
      decode lib (fuel + 1) name (Val.map st []) (Val.nil mt) fl = done (Val.map mt [])) ∧
    (fl.CanSet = true → ∀ pt : Ty, pt.kind = Kind.Ptr →
      decode lib (fuel + 1) name (Val.ptr pt (Val.map st [])) (Val.nil mt) fl =
        done (Val.map mt [])) := by
  have hsk : st.kind = Kind.Map := by rw [Ty.kind_of_underlying hst]; rfl
  have hmk : mt.kind = Kind.Map := by rw [Ty.kind_of_underlying hmt]; rfl
  have hgk : getKind (Val.nil mt) = Kind.Map := by
    simp [getKind_eq, Val.kind, Val.typ, hmk, Kind.family, Kind.toNat]
  have hassign : ∀ c, assignTo c (Val.map (Ty.map kt et) []) mt = Res.ok (Val.map mt []) := by
    intro c
    have h1 : ((Ty.map kt et == mt) ||
        (!(mt.hasName && (Ty.map kt et).hasName) &&
          ((Ty.map kt et).underlying == mt.underlying))) = true := by
      simp [Ty.hasName, Ty.underlying, hmt, Ty.beq_self]
    simp only [assignTo, Val.IsValid, Val.typ, Bool.not_true, Bool.false_eq_true, if_false, h1,
      if_true, Val.withType]
  have hnil : ∀ data : Val, Indirect data = Val.nil st →
      decodeMap (decode lib fuel) lib name data (Val.nil mt) fl = done (Val.nil mt) := by
    intro data hi
    simp [decodeMap, Val.TypeOf, Val.IsValid, Val.typ, Ty.mapTypes, hmt, Val.IsNil, Val.kind,
      hmk, hi, hsk, decodeMapFromMap, Val.Len]
  have hempty : fl.CanSet = true → ∀ data : Val, Indirect data = Val.map st [] →
      decodeMap (decode lib fuel) lib name data (Val.nil mt) fl = done (Val.map mt []) := by
    intro hset data hi
    have hro : fl.ro = false := by
      simp only [Flags.CanSet, Bool.and_eq_true, Bool.not_eq_true'] at hset
      exact hset.2
    have haddr : fl.addr = true := by
      simp only [Flags.CanSet, Bool.and_eq_true] at hset
      exact hset.1
    simp [decodeMap, Val.TypeOf, Val.IsValid, Val.typ, Ty.mapTypes, hmt, Val.IsNil, Val.kind,
      hmk, hi, hsk, decodeMapFromMap, Val.Len, Val.Set, hro, haddr, hassign]
  have hind1 : Indirect (Val.nil st) = Val.nil st := by
    simp [Indirect, Val.kind, Val.typ, hsk]
  have hind2 : Indirect (Val.map st []) = Val.map st [] := by
    simp [Indirect, Val.kind, Val.typ, hsk]
  have hind3 : ∀ (pt : Ty) (p : Val), pt.kind = Kind.Ptr → Indirect (Val.ptr pt p) = p := by
    intro pt p hp
    simp [Indirect, Val.kind, Val.typ, hp]
  refine ⟨?_, ?_, ?_, ?_⟩
  · rw [decode_dispatch lib fuel name _ _ fl (by rw [hind1]; rfl), hgk]
    exact hnil _ hind1
  · intro pt hp
    rw [decode_dispatch lib fuel name _ _ fl (by rw [hind3 pt _ hp]; rfl), hgk]
    exact hnil _ (hind3 pt _ hp)
  · intro hset
    rw [decode_dispatch lib fuel name _ _ fl (by rw [hind2]; rfl), hgk]
    exact hempty hset _ hind2
  · intro hset pt hp
    rw [decode_dispatch lib fuel name _ _ fl (by rw [hind3 pt _ hp]; rfl), hgk]
    exact hempty hset _ (hind3 pt _ hp)

/-- C25, amended, at an empty `map[string]interface{}` decoded into a nil
`map[string]string`. -/
theorem zero_length_map_into_nil_map_witness :
    decode stdLib 1 "m" (Val.map tMapSI []) (Val.nil tMapSS) Flags.fresh =
      done (Val.map tMapSS []) :=
  (zero_length_map_into_nil_map stdLib 0 "m" tMapSI tMapSS tString emptyInterface tString
    tString Flags.fresh rfl rfl).2.2.1 rfl

/-- C29. Pointer reset.  Let the source be, directly or behind one pointer, a nil map, a nil
slice or a nil function, and let the target be a settable value of pointer kind, nil or
not.  Then `decodePtr`, whatever the recursive decoder, and the method `decode` succeed
and leave the target the nil pointer of its type, whatever it pointed to before. -/
theorem pointer_reset (lib : GoLib) (fuel : Nat) (name : String) (data val : Val) (st : Ty)
    (fl : Flags) (hsrc : Indirect data = Val.nil st)
    (hst : st.kind = Kind.Map ∨ st.kind = Kind.Slice ∨ st.kind = Kind.Func)
    (hk : val.kind = Kind.Ptr) (hset : fl.CanSet = true) :
    (∀ dec : Dec, decodePtr dec name data val fl = done (Val.nil val.typ)) ∧
    decode lib (fuel + 1) name data val fl = done (Val.nil val.typ) := by
  have hdv : data.IsValid = true := by
    cases data with
    | invalid => simp [Indirect, Val.kind] at hsrc
    | _ => rfl
  have hik : (Indirect data).kind = st.kind := by rw [hsrc]; rfl
  have hro : fl.ro = false := by
    simp only [Flags.CanSet, Bool.and_eq_true, Bool.not_eq_true'] at hset
    exact hset.2
  have haddr : fl.addr = true := by
    simp only [Flags.CanSet, Bool.and_eq_true] at hset
    exact hset.1
  have hkx : (Val.nil st).kind = st.kind := rfl
  have hIs : (Val.nil st).IsNil = Res.ok true := by
    rcases hst with h | h | h <;> simp [Val.IsNil, Val.kind, Val.typ, h]
  have hz : Zero val.typ = Val.nil val.typ := by
    apply Zero_nil
    left
    cases val with
    | invalid => exact absurd hk (by decide)
    | _ => exact hk
  have h1 : ∀ dec : Dec, decodePtr dec name data val fl = done (Val.nil val.typ) := by
    intro dec
    have hvv : val.IsValid = true := Val.isValid_of_kind_ptr hk
    have hvn : val.IsNil = Res.ok val.isNilVal := by
      cases val <;> simp_all [Val.IsNil, Val.isNilVal]
    have hstep : decodePtr dec name data val fl =
        if (!val.isNilVal && fl.CanSet) = true then
          (val.Set fl (Zero val.typ)).bind fun v => done v
        else done val := by
      rcases hst with h | h | h <;>
        simp only [decodePtr, hdv, Bool.not_true, Bool.not_false, Bool.false_eq_true, if_false,
          hsrc, hkx, h, hIs, Res.bind_ok, if_true, hvn]
    rw [hstep]
    simp only [hset, Bool.and_true, hz]
    cases val with
    | nil t => rfl
    | invalid => exact absurd hk (by decide)
    | _ =>
      simp only [Val.isNilVal, Val.Set, Val.IsValid, hro, haddr, Bool.not_true,
        Bool.false_eq_true, if_false, Bool.not_false, if_true, Val.typ]
      rename_i t _
      have ha := assignTo_same "reflect.Set" (Val.nil t) rfl
      simp only [Val.typ] at ha
      rw [ha]
      rfl
  refine ⟨h1, ?_⟩
  have hg : getKind val = Kind.Ptr := by
    simp [getKind_eq, hk, Kind.family, Kind.toNat]
  rw [decode_dispatch lib fuel name data val fl (by rw [hsrc]; rfl), hg]
  exact h1 _

/-- C29 at a nil `[]string` decoded into a pointer to a slice holding `"yo"`, and at the
table test "slice non-pointer to pointer, zero field". -/
theorem pointer_reset_witness :
    decode stdLib 1 "VBar" (Val.nil (Ty.slice tString))
        (Val.ptr (Ty.ptr (Ty.slice tString)) (Val.slice (Ty.slice tString) [text "yo"]))
        Flags.fresh =
      done (Val.nil (Ty.ptr (Ty.slice tString))) ∧
    Decode stdLib 2 (Val.ptr (Ty.ptr tSlice) (Val.struct tSlice [text "", Val.nil (Ty.slice tString)]))
        (Val.ptr (Ty.ptr tSlicePointer) (Val.struct tSlicePointer
          [Val.ptr (Ty.ptr (Ty.slice tString)) (Val.slice (Ty.slice tString) [text "yo"])])) =
      done (Val.ptr (Ty.ptr tSlicePointer)
        (Val.struct tSlicePointer [Val.nil (Ty.ptr (Ty.slice tString))])) :=
  ⟨(pointer_reset stdLib 0 "VBar" (Val.nil (Ty.slice tString))
      (Val.ptr (Ty.ptr (Ty.slice tString)) (Val.slice (Ty.slice tString) [text "yo"]))
      (Ty.slice tString) Flags.fresh rfl (Or.inr (Or.inl rfl)) rfl rfl).2, by rfl⟩

/-- The function `decodePtr` after its test of the source. -/
theorem decodePtr_eq (dec : Dec) (name : String) (data val : Val) (fl : Flags) :
    decodePtr dec name data val fl =
      (nilSource data).bind fun isNil =>
        if isNil then
          val.IsNil.bind fun vn =>
            if !vn && fl.CanSet then (val.Set fl (Zero val.typ)).bind fun v => done v
            else done val
        else
          val.TypeOf.bind fun valType =>
            valType.Elem.bind fun valElemType =>
              if fl.CanSet then
                val.IsNil.bind fun vn =>
                  let realVal := if vn then Val.ptr (.ptr valElemType) (Zero valElemType) else val
                  (dec name data (Indirect realVal) fl.pointee).bind fun r =>
                    match r.2 with
                    | some err => fail (if vn then val else val.setElem r.1) err
                    | none => (val.Set fl (realVal.setElem r.1)).bind fun v => done v
              else
                (dec name data (Indirect val)
                    (if val.kind = Kind.Ptr then fl.pointee else fl)).bind
                  fun r => .ok (afterIndirect val r.1, r.2) := rfl

/-- A valid source that is not nil after one dereference is not taken for nil. -/
theorem nilSource_false (data : Val) (hd : data.IsValid = true)
    (hsrc : (Indirect data).isNilVal = false) : nilSource data = Res.ok false := by
  simp only [nilSource, hd, Bool.not_true, Bool.not_false, if_true]
  generalize Indirect data = d at hsrc
  cases d with
  | invalid => rfl
  | nil t => simp [Val.isNilVal] at hsrc
  | _ =>
    simp only [Val.kind, Val.typ, Val.IsNil]
    split <;> first | rfl | (split <;> first | rfl | simp_all)

/-- C30. Pointer decode.  Let the source be valid and, after one dereference, not nil, and
let the target have a pointer type with the pointee type `et`.  If the target is nil and
settable and decoding the same source into the zero value of `et` succeeds with `w`, the
target becomes a pointer to `w`.  If the target points to `p` and decoding the same source
into `p` succeeds with `w`, the target keeps pointing to its pointee, which now holds `w`:
the pointee is decoded in place, so what the decoder keeps of `p` is kept.  When the
decoding of the pointee fails, a nil target stays nil and a target that is not nil points
to the pointee as the failed decoding left it, and the error is returned. -/
theorem pointer_decode (dec : Dec) (name : String) (data : Val) (t et : Ty) (fl : Flags)
    (hd : data.IsValid = true) (hsrc : (Indirect data).isNilVal = false)
    (ht : t.underlying = Ty.ptr et) :
    (∀ w : Val, fl.CanSet = true → dec name data (Zero et) fl.pointee = done w →
      decodePtr dec name data (Val.nil t) fl = done (Val.ptr t w)) ∧
    (∀ p w : Val, dec name data p fl.pointee = done w →
      decodePtr dec name data (Val.ptr t p) fl = done (Val.ptr t w)) ∧
    (∀ (w : Val) (err : GoError), fl.CanSet = true →
      dec name data (Zero et) fl.pointee = fail w err →
      decodePtr dec name data (Val.nil t) fl = fail (Val.nil t) err) ∧
    (∀ (p w : Val) (err : GoError), dec name data p fl.pointee = fail w err →
      decodePtr dec name data (Val.ptr t p) fl = fail (Val.ptr t w) err) := by
  have hk : t.kind = Kind.Ptr := by rw [Ty.kind_of_underlying ht]; rfl
  have hE : t.Elem = Res.ok et := by simp only [Ty.Elem, ht]
  have hns := nilSource_false data hd hsrc
  have hT1 : (Val.nil t).TypeOf = Res.ok t := rfl
  have hN1 : (Val.nil t).IsNil = Res.ok true := by simp [Val.IsNil, Val.kind, Val.typ, hk]
  have hT2 : ∀ p, (Val.ptr t p).TypeOf = Res.ok t := fun _ => rfl
  have hN2 : ∀ p, (Val.ptr t p).IsNil = Res.ok false := by
    intro p
    simp [Val.IsNil, Val.kind, Val.typ, hk]
  have hK2 : ∀ p, (Val.ptr t p).kind = Kind.Ptr := fun _ => hk
  have hI1 : Indirect (Val.ptr (Ty.ptr et) (Zero et)) = Zero et := rfl
  have hI2 : ∀ p, Indirect (Val.ptr t p) = p := by
    intro p
    simp only [Indirect, hK2, if_true]
  have hA : ∀ w, assignTo "reflect.Set" (Val.ptr (Ty.ptr et) w) t = Res.ok (Val.ptr t w) := by
    intro w
    have h1 : ((Ty.ptr et == t) ||
        (!(t.hasName && (Ty.ptr et).hasName) &&
          ((Ty.ptr et).underlying == t.underlying))) = true := by
      simp [Ty.hasName, Ty.underlying, ht, Ty.beq_self]
    simp only [assignTo, Val.IsValid, Val.typ, Bool.not_true, Bool.false_eq_true, if_false, h1,
      if_true, Val.withType]
  have hA2 : ∀ w, assignTo "reflect.Set" (Val.ptr t w) t = Res.ok (Val.ptr t w) :=
    fun w => assignTo_same _ (Val.ptr t w) rfl
  refine ⟨?_, ?_, ?_, ?_⟩
  · intro w hset hdec
    have hro : fl.ro = false := by
      simp only [Flags.CanSet, Bool.and_eq_true, Bool.not_eq_true'] at hset
      exact hset.2
    have haddr : fl.addr = true := by
      simp only [Flags.CanSet, Bool.and_eq_true] at hset
      exact hset.1
    simp only [decodePtr_eq, hns, Res.bind_ok, Bool.false_eq_true, if_false, hT1, hE, hset,
      if_true, hN1, hI1, hdec, done, Val.setElem, Val.Set, Val.IsValid, hro, haddr,
      Bool.not_true, hA, Val.typ]
  · intro p w hdec
    by_cases hset : fl.CanSet = true
    · have hro : fl.ro = false := by
        simp only [Flags.CanSet, Bool.and_eq_true, Bool.not_eq_true'] at hset
        exact hset.2
      have haddr : fl.addr = true := by
        simp only [Flags.CanSet, Bool.and_eq_true] at hset
        exact hset.1
      simp only [decodePtr_eq, hns, Res.bind_ok, Bool.false_eq_true, if_false, hT2, hE, hset,
        if_true, hN2, hI2, hdec, done, Val.setElem, Val.Set, Val.IsValid, hro, haddr,
        Bool.not_true, hA2, Val.typ]
    · simp only [decodePtr_eq, hns, Res.bind_ok, Bool.false_eq_true, if_false, hT2, hE, hset,
        hI2, hK2, if_true, hdec, done, afterIndirect, Val.setElem]
  · intro w err hset hdec
    simp only [decodePtr_eq, hns, Res.bind_ok, Bool.false_eq_true, if_false, hT1, hE, hset,
      if_true, hN1, hI1, hdec, fail]
  · intro p w err hdec
    by_cases hset : fl.CanSet = true
    · simp only [decodePtr_eq, hns, Res.bind_ok, Bool.false_eq_true, if_false, hT2, hE, hset,
        if_true, hN2, hI2, hdec, fail, Val.setElem]
    · simp only [decodePtr_eq, hns, Res.bind_ok, Bool.false_eq_true, if_false, hT2, hE, hset,
        hI2, hK2, if_true, hdec, fail, afterIndirect, Val.setElem]

/-- C30 at `TestNestedTypePointer`: a pointer to a map decoded into the nil field
`VBar *Basic` gives a pointer to the `Basic` decoded from the map. -/
theorem pointer_decode_witness :
    decodePtr (decode stdLib 2) "VBar" nestedPointerSource (Val.nil (Ty.ptr tBasic))
        Flags.fresh =
      done (Val.ptr (Ty.ptr tBasic) (Val.struct tBasic nestedPointerBasic)) ∧
    Decode stdLib 4 nestedPointerInput
        (Val.ptr (Ty.ptr tNestedPointer)
          (Val.struct tNestedPointer [text "", Val.nil (Ty.ptr tBasic)])) =
      done (Val.ptr (Ty.ptr tNestedPointer)
        (Val.struct tNestedPointer
          [text "foo", Val.ptr (Ty.ptr tBasic) (Val.struct tBasic nestedPointerBasic)])) :=
  ⟨(pointer_decode (decode stdLib 2) "VBar" nestedPointerSource (Ty.ptr tBasic) tBasic
      Flags.fresh rfl rfl rfl).1 (Val.struct tBasic nestedPointerBasic) rfl (by rfl), by rfl⟩

/-- The working value of one step of the element loop holds at index `i` the element
that was there, or a zero element appended on demand. -/
theorem work_index (grow : Bool) (et : Ty) (vs : List Val) (i : Nat) (cur : Val)
    (hi : i ≤ vs.length)
    (h : (if grow then vs ++ List.replicate (i + 1 - vs.length) (Zero et) else vs)[i]? =
      some cur) :
    cur = (vs[i]?).getD (Zero et) ∧
    ((if grow then vs ++ List.replicate (i + 1 - vs.length) (Zero et) else vs).length =
      if grow then max vs.length (i + 1) else vs.length) ∧
    (∀ j, j ≠ i →
      (if grow then vs ++ List.replicate (i + 1 - vs.length) (Zero et) else vs)[j]? = vs[j]?) ∧
    (grow = false → i < vs.length) := by
  by_cases hlt : i < vs.length
  · have h0 : i + 1 - vs.length = 0 := by omega
    simp only [h0, List.replicate_zero, List.append_nil, ite_self] at h ⊢
    refine ⟨?_, ?_, ?_, fun _ => hlt⟩
    · rw [h]; rfl
    · cases grow
      · simp
      · simp only [if_true]; omega
    · intro j _
      trivial
  · have heq : i = vs.length := by omega
    cases grow with
    | false =>
      simp only [Bool.false_eq_true, if_false] at h
      rw [List.getElem?_eq_none (by omega)] at h
      exact absurd h (by simp)
    | true =>
      have h1 : i + 1 - vs.length = 1 := by omega
      simp only [if_true, h1, List.replicate_one] at h ⊢
      subst heq
      simp only [List.getElem?_append_right (le_refl _), Nat.sub_self, List.getElem?_cons_zero,
        Option.some.injEq] at h
      refine ⟨?_, by simp, ?_, fun hc => absurd hc (by simp)⟩
      · rw [List.getElem?_eq_none (le_refl _)]
        exact h.symm
      · intro j hj
        by_cases hjl : j < vs.length
        · rw [List.getElem?_append_left hjl]
        · rw [List.getElem?_eq_none (by simp; omega), List.getElem?_eq_none (by omega)]

/-- What the element loop of `decodeSlice` and `decodeArray` leaves: the length of the
working value, the elements outside the range of the loop, and at every index of the
range the outcome of decoding the source element into the element that was there (or
into a zero element appended on demand). -/
theorem decodeElems_spec (dec : Dec) (name : String) (src : Val) (et : Ty) (efl : Flags)
    (grow : Bool) :
    ∀ (remaining i : Nat) (vs : List Val) (errors : List String) (vs' : List Val)
      (errors' : List String), i ≤ vs.length →
      decodeElems dec name src et efl grow remaining i vs errors = Res.ok (vs', errors') →
      (vs'.length = if grow then max vs.length (i + remaining) else vs.length) ∧
      (grow = false → i + remaining ≤ vs.length) ∧
      (∀ j, (j < i ∨ i + remaining ≤ j) → vs'[j]? = vs[j]?) ∧
      (∀ j, i ≤ j → j < i + remaining →
        ∃ (d w : Val) (err : Option GoError), (src.Index j).bind Val.Interface = Res.ok d ∧
          dec (name ++ "[" ++ toString j ++ "]") d ((vs[j]?).getD (Zero et)) efl =
            Res.ok (w, err) ∧
          vs'[j]? = some w)
  | 0, i, vs, errors, vs', errors', hi, h => by
      simp only [decodeElems, Res.ok.injEq, Prod.mk.injEq] at h
      obtain ⟨rfl, -⟩ := h
      refine ⟨?_, fun _ => by omega, fun _ _ => rfl, fun j h1 h2 => by omega⟩
      cases grow
      · simp
      · simp only [if_true, Nat.add_zero]; omega
  | remaining + 1, i, vs, errors, vs', errors', hi, h => by
      rw [decodeElems_succ] at h
      cases hidx : src.Index i with
      | panic m => simp [hidx] at h
      | outOfFuel => simp [hidx] at h
      | ok e =>
        rw [hidx] at h
        simp only [Res.bind_ok] at h
        cases hint : e.Interface with
        | panic m => simp [hint] at h
        | outOfFuel => simp [hint] at h
        | ok d =>
          rw [hint] at h
          simp only [Res.bind_ok] at h
          split at h
          · simp at h
          · rename_i cur hcur
            obtain ⟨hc1, hc2, hc3, hc4⟩ := work_index grow et vs i cur hi hcur
            cases hdec : dec (name ++ "[" ++ toString i ++ "]") d cur efl with
            | panic m => simp [hdec] at h
            | outOfFuel => simp [hdec] at h
            | ok r =>
              rw [hdec] at h
              simp only [Res.bind_ok] at h
              have hlen1 : i + 1 ≤ ((if grow then
                  vs ++ List.replicate (i + 1 - vs.length) (Zero et) else vs).set i r.1).length := by
                rw [List.length_set, hc2]
                cases grow
                · simp only [Bool.false_eq_true, if_false]
                  have := hc4 rfl
                  omega
                · simp only [if_true]; omega
              obtain ⟨ih1, ih2, ih3, ih4⟩ :=
                decodeElems_spec dec name src et efl grow remaining (i + 1) _ _ vs' errors'
                  hlen1 h
              rw [List.length_set, hc2] at ih1 ih2
              refine ⟨?_, ?_, ?_, ?_⟩
              · rw [ih1]
                cases grow
                · simp
                · simp only [if_true]; omega
              · intro hg
                have := ih2 hg
                simp only [hg, Bool.false_eq_true, if_false] at this
                omega
              · intro j hj
                rw [ih3 j (by omega)]
                have hji : j ≠ i := by omega
                rw [List.getElem?_set_ne (Ne.symm hji), hc3 j hji]
              · intro j hj1 hj2
                by_cases hji : j = i
                · subst hji
                  refine ⟨d, r.1, r.2, by simp [hidx, hint], ?_, ?_⟩
                  · rw [← hc1]; exact hdec
                  · rw [ih3 j (by omega)]
                    rw [List.getElem?_set_self (by
                      rw [hc2]
                      cases grow
                      · simp only [Bool.false_eq_true, if_false]; exact hc4 rfl
                      · simp only [if_true]; omega)]
                · obtain ⟨d2, w2, err2, hd2, hdec2, hv2⟩ := ih4 j (by omega) (by omega)
                  refine ⟨d2, w2, err2, hd2, ?_, hv2⟩
                  rw [List.getElem?_set_ne (Ne.symm hji), hc3 j hji] at hdec2
                  exact hdec2

/-- The datum of a valid value can be taken. -/
theorem Interface_valid (v : Val) (hv : v.IsValid = true) : ∃ d, v.Interface = Res.ok d := by
  cases v with
  | invalid => simp [Val.IsValid] at hv
  | nil t => by_cases h : t.kind = Kind.Interface <;> simp [Val.Interface, h]
  | _ => exact ⟨_, rfl⟩

/-- The length, the kind and the elements of a slice or array source. -/
theorem seqSource_facts (d : Val) (es : List Val) (h : seqSource d es) :
    d.Len = Res.ok es.length ∧ (d.kind = Kind.Array ∨ d.kind = Kind.Slice) ∧
    (∀ j, j < es.length → ∃ x, (d.Index j).bind Val.Interface = Res.ok x) := by
  obtain ⟨hv, h | h | h⟩ := h
  · obtain ⟨st, rfl, hk⟩ := h
    refine ⟨by simp [Val.Len, Val.kind, Val.typ, hk], Or.inr hk, ?_⟩
    intro j hj
    have hm : es[j] ∈ es := List.getElem_mem hj
    obtain ⟨x, hx⟩ := Interface_valid _ (hv _ hm)
    exact ⟨x, by simp [Val.Index, List.get?_eq_getElem?, List.getElem?_eq_getElem hj, hx]⟩
  · obtain ⟨st, rfl, hk⟩ := h
    refine ⟨by simp [Val.Len, Val.kind, Val.typ, hk], Or.inl hk, ?_⟩
    intro j hj
    have hm : es[j] ∈ es := List.getElem_mem hj
    obtain ⟨x, hx⟩ := Interface_valid _ (hv _ hm)
    exact ⟨x, by simp [Val.Index, List.get?_eq_getElem?, List.getElem?_eq_getElem hj, hx]⟩
  · obtain ⟨st, rfl, hk, rfl⟩ := h
    exact ⟨by simp [Val.Len, Val.kind, Val.typ, hk], Or.inr hk, fun j hj => by simp at hj⟩

/-- The element loop returns when the source has an element at every index of the range
and every conversion returns. -/
theorem decodeElems_returns (dec : Dec) (name : String) (src : Val) (et : Ty) (efl : Flags)
    (grow : Bool)
    (hdec : ∀ (p : String) (d cur : Val), ∃ r, dec p d cur efl = Res.ok r) :
    ∀ (remaining i : Nat) (vs : List Val) (errors : List String), i ≤ vs.length →
      (grow = false → i + remaining ≤ vs.length) →
      (∀ j, i ≤ j → j < i + remaining → ∃ x, (src.Index j).bind Val.Interface = Res.ok x) →
      ∃ r, decodeElems dec name src et efl grow remaining i vs errors = Res.ok r
  | 0, i, vs, errors, _, _, _ => ⟨_, rfl⟩
  | remaining + 1, i, vs, errors, hi, hg, hsrc => by
      rw [decodeElems_succ]
      obtain ⟨x, hx⟩ := hsrc i (le_refl _) (by omega)
      cases hidx : src.Index i with
      | panic m => simp [hidx] at hx
      | outOfFuel => simp [hidx] at hx
      | ok e =>
        rw [hidx] at hx
        simp only [Res.bind_ok] at hx ⊢
        rw [hx]
        simp only [Res.bind_ok]
        have hlen : i < (if grow then vs ++ List.replicate (i + 1 - vs.length) (Zero et)
            else vs).length := by
          cases grow
          · simp only [Bool.false_eq_true, if_false]
            have := hg rfl
            omega
          · simp only [if_true, List.length_append, List.length_replicate]; omega
        rw [List.getElem?_eq_getElem hlen]
        simp only
        obtain ⟨r, hr⟩ := hdec (name ++ "[" ++ toString i ++ "]") x
          ((if grow then vs ++ List.replicate (i + 1 - vs.length) (Zero et) else vs)[i]) 
        rw [hr]
        simp only [Res.bind_ok]
        apply decodeElems_returns dec name src et efl grow hdec remaining (i + 1)
        · rw [List.length_set]; omega
        · intro hgf
          rw [List.length_set]
          have := hg hgf
          simp only [hgf, Bool.false_eq_true, if_false]
          omega
        · intro j hj1 hj2
          exact hsrc j (by omega) (by omega)

/-- The end of a container converter returns. -/
theorem finish_returns (v : Val) (errors : List String) : ∃ e, finish v errors = Res.ok (v, e) := by
  simp only [finish]
  split
  · exact ⟨_, rfl⟩
  · exact ⟨_, rfl⟩

/-- C26. Extend in place.  Let the target be a settable slice that is not nil, with the
elements `vs`, and the source, after one dereference, a slice or an array with the
elements `es`.  (1) If the recursive decoder returns on every element, `decodeSlice`
returns.  (2) Whenever it returns, the target is a slice of the same type of length
`max vs.length es.length`, so never shorter than before; every index from `es.length` on
holds what it held; and every index `j` below `es.length` holds the outcome of decoding
source element `j` into the element the target held at `j`, or into a zero element
appended on demand when the target had none. -/
theorem slice_extend_in_place (dec : Dec) (name : String) (data : Val) (t et : Ty)
    (vs es : List Val) (fl : Flags) (hsrc : seqSource (Indirect data) es)
    (ht : t.underlying = Ty.slice et) (hset : fl.CanSet = true) :
    ((∀ (p : String) (d cur : Val), ∃ r, dec p d cur fl.sliceElem = Res.ok r) →
      ∃ r, decodeSlice dec name data (Val.slice t vs) fl = Res.ok r) ∧
    (∀ (v' : Val) (e : Option GoError),
      decodeSlice dec name data (Val.slice t vs) fl = Res.ok (v', e) →
      ∃ vs' : List Val, v' = Val.slice t vs' ∧
        vs'.length = max vs.length es.length ∧
        (∀ j, es.length ≤ j → vs'[j]? = vs[j]?) ∧
        (∀ j, j < es.length →
          ∃ (d w : Val) (err : Option GoError),
            ((Indirect data).Index j).bind Val.Interface = Res.ok d ∧
            dec (name ++ "[" ++ toString j ++ "]") d ((vs[j]?).getD (Zero et)) fl.sliceElem =
              Res.ok (w, err) ∧
            vs'[j]? = some w)) := by
  obtain ⟨hlen, hkind, hidx⟩ := seqSource_facts _ _ hsrc
  have hk : t.kind = Kind.Slice := by rw [Ty.kind_of_underlying ht]; rfl
  have hro : fl.ro = false := by
    simp only [Flags.CanSet, Bool.and_eq_true, Bool.not_eq_true'] at hset
    exact hset.2
  have haddr : fl.addr = true := by
    simp only [Flags.CanSet, Bool.and_eq_true] at hset
    exact hset.1
  have hT : (Val.slice t vs).TypeOf = Res.ok t := rfl
  have hE : t.Elem = Res.ok et := by simp only [Ty.Elem, ht]
  have hN : (Val.slice t vs).IsNil = Res.ok false := by simp [Val.IsNil, Val.kind, Val.typ, hk]
  have hS : ∀ xs, (Val.slice t vs).Set fl (Val.slice t xs) = Res.ok (Val.slice t xs) := by
    intro xs
    simp only [Val.Set, Val.IsValid, hro, haddr, Bool.not_true, Bool.false_eq_true, if_false]
    exact assignTo_same _ (Val.slice t xs) rfl
  have hform : decodeSlice dec name data (Val.slice t vs) fl =
      (decodeElems dec name (Indirect data) et fl.sliceElem true es.length 0 vs []).bind
        fun r => finish (Val.slice t r.1) r.2 := by
    simp only [decodeSlice, hT, hE, hN, Res.bind_ok, Bool.false_eq_true, if_false, decodeInto,
      hlen, Val.elems, hS]
  rw [hform]
  constructor
  · intro hdec
    obtain ⟨r, hr⟩ := decodeElems_returns dec name (Indirect data) et fl.sliceElem true hdec
      es.length 0 vs [] (Nat.zero_le _) (fun h => by simp at h)
      (fun j _ hj => hidx j (by omega))
    rw [hr]
    obtain ⟨e, he⟩ := finish_returns (Val.slice t r.1) r.2
    exact ⟨_, he⟩
  · intro v' e hres
    cases hloop : decodeElems dec name (Indirect data) et fl.sliceElem true es.length 0 vs [] with
    | panic m => simp [hloop] at hres
    | outOfFuel => simp [hloop] at hres
    | ok r =>
      obtain ⟨vs', errs⟩ := r
      rw [hloop] at hres
      simp only [Res.bind_ok] at hres
      obtain ⟨hv, -⟩ := finish_eq_ok _ _ _ _ hres
      obtain ⟨h1, -, h3, h4⟩ := decodeElems_spec dec name (Indirect data) et fl.sliceElem true
        es.length 0 vs [] vs' errs (Nat.zero_le _) hloop
      refine ⟨vs', hv, by simpa using h1, fun j hj => h3 j (Or.inr (by omega)), ?_⟩
      intro j hj
      exact h4 j (Nat.zero_le _) (by omega)

/-- An error returned after the types were read leaves the target as it was. -/
theorem bind_fail_target {r : Res Ty} {f : Ty → GoError} {val w : Val} {e : GoError}
    (h : (r.bind fun t => fail val (f t)) = Res.ok (w, some e)) : w = val := by
  cases r with
  | ok t =>
    simp only [Res.bind_ok, fail, Res.ok.injEq, Prod.mk.injEq] at h
    exact h.1.symm
  | panic m => simp [Res.bind] at h
  | outOfFuel => simp [Res.bind] at h

/-- A scalar converter that returns an error leaves the target as it was. -/
theorem scalar_failure_keeps_target (lib : GoLib) (name : String) (data val w : Val)
    (fl : Flags) (e : GoError) :
    (decodeBool name data val fl = Res.ok (w, some e) → w = val) ∧
    (decodeString name data val fl = Res.ok (w, some e) → w = val) ∧
    (decodeInt lib name data val fl = Res.ok (w, some e) → w = val) ∧
    (decodeUint lib name data val fl = Res.ok (w, some e) → w = val) ∧
    (decodeFloat lib name data val fl = Res.ok (w, some e) → w = val) := by
  refine ⟨?_, ?_, ?_, ?_, ?_⟩
  · intro h
    simp only [decodeBool] at h
    split at h
    · cases hv : val.TypeOf with
      | ok vt =>
        rw [hv] at h
        simp only [Res.bind_ok] at h
        exact bind_fail_target h
      | panic m => simp [hv, Res.bind] at h
      | outOfFuel => simp [hv, Res.bind] at h
    · exact (bind_done_error h).elim
  · intro h
    simp only [decodeString] at h
    split at h
    · exact (bind_done_error h).elim
    · cases hv : val.TypeOf with
      | ok vt =>
        rw [hv] at h
        simp only [Res.bind_ok] at h
        exact bind_fail_target h
      | panic m => simp [hv, Res.bind] at h
      | outOfFuel => simp [hv, Res.bind] at h
  · intro h
    simp only [decodeInt] at h
    cases hd : (Indirect data).TypeOf with
    | ok dt =>
      rw [hd] at h
      simp only [Res.bind_ok] at h
      split at h
      · exact (bind_done_error h).elim
      · split at h
        · exact (bind_done_error h).elim
        · split at h
          · exact (bind_done_error h).elim
          · split at h
            · split at h
              · split at h
                · simp only [fail, Res.ok.injEq, Prod.mk.injEq] at h
                  exact h.1.symm
                · exact (bind_done_error h).elim
              · simp at h
            · exact bind_fail_target h
    | panic m => simp [hd, Res.bind] at h
    | outOfFuel => simp [hd, Res.bind] at h
  · intro h
    simp only [decodeUint] at h
    split at h
    · split at h
      · simp only [fail, Res.ok.injEq, Prod.mk.injEq] at h
        exact h.1.symm
      · exact (bind_done_error h).elim
    · split at h
      · exact (bind_done_error h).elim
      · split at h
        · split at h
          · simp only [fail, Res.ok.injEq, Prod.mk.injEq] at h
            exact h.1.symm
          · exact (bind_done_error h).elim
        · cases hv : val.TypeOf with
          | ok vt =>
            rw [hv] at h
            simp only [Res.bind_ok] at h
            exact bind_fail_target h
          | panic m => simp [hv, Res.bind] at h
          | outOfFuel => simp [hv, Res.bind] at h
  · intro h
    simp only [decodeFloat] at h
    cases hd : (Indirect data).TypeOf with
    | ok dt =>
      rw [hd] at h
      simp only [Res.bind_ok] at h
      split at h
      · exact (bind_done_error h).elim
      · split at h
        · exact (bind_done_error h).elim
        · split at h
          · exact (bind_done_error h).elim
          · split at h
            · split at h
              · split at h
                · simp only [fail, Res.ok.injEq, Prod.mk.injEq] at h
                  exact h.1.symm
                · exact (bind_done_error h).elim
              · simp at h
            · exact bind_fail_target h
    | panic m => simp [hd, Res.bind] at h
    | outOfFuel => simp [hd, Res.bind] at h

/-- C24 fails as stated.  A slice with one map, whose `vstring` converts and whose `vint`
does not, decoded into a nil `[]Basic` gives a slice of length 1 whose element failed to
convert and yet holds `VString: "one"`: the failed index does not hold the zero value of
`Basic`. -/
theorem failed_index_holds_partial_value :
    decode stdLib 3 "Value" halfBadElems (Val.nil (Ty.slice tBasic)) Flags.fresh =
        fail (Val.slice (Ty.slice tBasic) [Val.struct tBasic (text "one" :: basicZero.tail)])
          (GoError.agg ["'Value[0].VInt' expected type 'int', got unconvertible type 'string'"]) ∧
      Val.struct tBasic (text "one" :: basicZero.tail) ≠ Zero tBasic := by
  refine ⟨by rfl, ?_⟩
  intro h
  have h2 : (Val.struct tBasic (text "one" :: basicZero.tail)).fieldVals.head? =
      (Zero tBasic).fieldVals.head? := by rw [h]
  simp [Val.fieldVals, basicZero, Zero, zeroOf, tBasic, zeroFields, plainField, text, tString]
    at h2

/-- C24, amended.  Let the target be a nil slice and the source, after one dereference, a
slice or an array with the elements `es`.  (1) If `es` is empty the call succeeds and the
target stays nil.  (2) If `es` is not empty and the target is settable, `decodeSlice`
returns whenever the recursive decoder returns on every element.  (3) Whenever it then
returns, with or without an error, the target is a slice of length exactly `es.length`, and
every index holds what decoding its source element into a zero element left there.
(4) For an element type of boolean, text, integer, unsigned or floating-point kind, an
element whose conversion fails is left at the zero value of the element type. -/
theorem nil_slice_target (dec : Dec) (name : String) (data : Val) (t et : Ty)
    (es : List Val) (fl : Flags) (hsrc : seqSource (Indirect data) es)
    (ht : t.underlying = Ty.slice et) :
    (es = [] → decodeSlice dec name data (Val.nil t) fl = done (Val.nil t)) ∧
    (es ≠ [] → fl.CanSet = true →
      (∀ (p : String) (d cur : Val), ∃ r, dec p d cur Flags.fresh = Res.ok r) →
      ∃ r, decodeSlice dec name data (Val.nil t) fl = Res.ok r) ∧
    (es ≠ [] → fl.CanSet = true → ∀ (v' : Val) (e : Option GoError),
      decodeSlice dec name data (Val.nil t) fl = Res.ok (v', e) →
      ∃ vs' : List Val, v' = Val.slice t vs' ∧ vs'.length = es.length ∧
        (∀ j, j < es.length →
          ∃ (d w : Val) (err : Option GoError),
            ((Indirect data).Index j).bind Val.Interface = Res.ok d ∧
            dec (name ++ "[" ++ toString j ++ "]") d (Zero et) Flags.fresh = Res.ok (w, err) ∧
            vs'[j]? = some w)) ∧
    (∀ (lib : GoLib) (fuel : Nat) (p : String) (d w : Val) (err : GoError),
      (Indirect d).IsValid = true →
      (getKind (Zero et) = Kind.Bool ∨ getKind (Zero et) = Kind.String ∨
        getKind (Zero et) = Kind.Int ∨ getKind (Zero et) = Kind.Uint ∨
        getKind (Zero et) = Kind.Float32) →
      decode lib (fuel + 1) p d (Zero et) Flags.fresh = Res.ok (w, some err) →
      w = Zero et) := by
  obtain ⟨hlen, hkind, hidx⟩ := seqSource_facts _ _ hsrc
  have hk : t.kind = Kind.Slice := by rw [Ty.kind_of_underlying ht]; rfl
  have hT : (Val.nil t).TypeOf = Res.ok t := rfl
  have hE : t.Elem = Res.ok et := by simp only [Ty.Elem, ht]
  have hN : (Val.nil t).IsNil = Res.ok true := by simp [Val.IsNil, Val.kind, Val.typ, hk]
  have hns : ¬ ((Indirect data).kind ≠ Kind.Array ∧ (Indirect data).kind ≠ Kind.Slice) := by
    rcases hkind with h | h <;> simp [h]
  have hform : decodeSlice dec name data (Val.nil t) fl =
      if es.length = 0 then done (Val.nil t)
      else
        (decodeElems dec name (Indirect data) et Flags.fresh true es.length 0
            (List.replicate es.length (Zero et)) []).bind fun r =>
          ((Val.nil t).Set fl (Val.slice (Ty.slice et) r.1)).bind fun v => finish v r.2 := by
    simp only [decodeSlice, hT, hE, hN, Res.bind_ok, if_true, hns, if_false, hlen, decodeInto,
      Val.elems]
  have hS : fl.CanSet = true → ∀ xs,
      (Val.nil t).Set fl (Val.slice (Ty.slice et) xs) = Res.ok (Val.slice t xs) := by
    intro hset xs
    have hro : fl.ro = false := by
      simp only [Flags.CanSet, Bool.and_eq_true, Bool.not_eq_true'] at hset
      exact hset.2
    have haddr : fl.addr = true := by
      simp only [Flags.CanSet, Bool.and_eq_true] at hset
      exact hset.1
    have h1 : ((Ty.slice et == t) ||
        (!(t.hasName && (Ty.slice et).hasName) &&
          ((Ty.slice et).underlying == t.underlying))) = true := by
      simp [Ty.hasName, Ty.underlying, ht, Ty.beq_self]
    simp only [Val.Set, Val.IsValid, hro, haddr, Bool.not_true, Bool.false_eq_true, if_false,
      assignTo, Val.typ, h1, if_true, Val.withType]
  refine ⟨?_, ?_, ?_, ?_⟩
  · intro he
    rw [hform]
    simp [he]
  · intro he hset hdec
    have hl : es.length ≠ 0 := by
      intro hc
      exact he (List.length_eq_zero.1 hc)
    rw [hform]
    simp only [hl, if_false]
    obtain ⟨r, hr⟩ := decodeElems_returns dec name (Indirect data) et Flags.fresh true hdec
      es.length 0 (List.replicate es.length (Zero et)) [] (Nat.zero_le _)
      (fun h => by simp at h) (fun j _ hj => hidx j (by omega))
    rw [hr]
    simp only [Res.bind_ok, hS hset]
    obtain ⟨e, he2⟩ := finish_returns (Val.slice t r.1) r.2
    exact ⟨_, he2⟩
  · intro he hset v' e hres
    have hl : es.length ≠ 0 := by
      intro hc
      exact he (List.length_eq_zero.1 hc)
    rw [hform] at hres
    simp only [hl, if_false] at hres
    cases hloop : decodeElems dec name (Indirect data) et Flags.fresh true es.length 0
        (List.replicate es.length (Zero et)) [] with
    | panic m => simp [hloop] at hres
    | outOfFuel => simp [hloop] at hres
    | ok r =>
      obtain ⟨vs', errs⟩ := r
      rw [hloop] at hres
      simp only [Res.bind_ok, hS hset] at hres
      obtain ⟨hv, -⟩ := finish_eq_ok _ _ _ _ hres
      obtain ⟨h1, -, -, h4⟩ := decodeElems_spec dec name (Indirect data) et Flags.fresh true
        es.length 0 _ [] vs' errs (Nat.zero_le _) hloop
      refine ⟨vs', hv, by simpa using h1, ?_⟩
      intro j hj
      obtain ⟨d, w, err, hd, hdec, hw⟩ := h4 j (Nat.zero_le _) (by omega)
      refine ⟨d, w, err, hd, ?_, hw⟩
      rw [List.getElem?_replicate] at hdec
      simpa [hj] using hdec
  · intro lib fuel p d w err hd hkinds hres
    rw [decode_dispatch lib fuel p d (Zero et) Flags.fresh hd] at hres
    obtain ⟨h1, h2, h3, h4, h5⟩ :=
      scalar_failure_keeps_target lib p d (Zero et) w Flags.fresh err
    rcases hkinds with h | h | h | h | h <;> rw [h] at hres
    · exact h1 hres
    · exact h2 hres
    · exact h3 hres
    · exact h4 hres
    · exact h5 hres

/-- C24, amended, at the table test "slice to slice alias" with a nil source, and at a
slice with one map decoded into a nil `[]Basic`. -/
theorem nil_slice_target_witness :
    decodeSlice (decode stdLib 0) "VBar" (Val.nil (Ty.slice tString)) (Val.nil tSliceAlias)
        Flags.fresh = done (Val.nil tSliceAlias) ∧
    ∃ vs' : List Val,
      Val.slice (Ty.slice tBasic) [Val.struct tBasic (text "one" :: basicZero.tail)] =
        Val.slice (Ty.slice tBasic) vs' ∧ vs'.length = 1 ∧
      ∀ j, j < 1 →
        ∃ (d w : Val) (err : Option GoError),
          ((Indirect halfBadElems).Index j).bind Val.Interface = Res.ok d ∧
          decode stdLib 2 ("Value" ++ "[" ++ toString j ++ "]") d (Zero tBasic) Flags.fresh =
            Res.ok (w, err) ∧
          vs'[j]? = some w :=
  ⟨(nil_slice_target (decode stdLib 0) "VBar" (Val.nil (Ty.slice tString)) tSliceAlias tString
      [] Flags.fresh ⟨by simp, Or.inr (Or.inr ⟨Ty.slice tString, rfl, rfl, rfl⟩)⟩ rfl).1 rfl,
   (nil_slice_target (decode stdLib 2) "Value" halfBadElems (Ty.slice tBasic) tBasic
      [Val.map tMapSI [(text "vstring", boxed (text "one")), (text "vint", boxed (text "bad"))]]
      Flags.fresh ⟨by simp [Val.IsValid], Or.inl ⟨Ty.slice tMapSI, rfl, rfl⟩⟩ rfl).2.2.1
      (by simp) rfl _ _ (by rfl)⟩

/-- C26 at the source `["x"]` decoded into the slice `["a", "b", "c"]`: the result
`["x", "b", "c"]` has length 3 and keeps the indices 1 and 2. -/
theorem slice_extend_in_place_witness :
    ∃ vs' : List Val,
      Val.slice (Ty.slice tString) [text "x", text "b", text "c"] =
        Val.slice (Ty.slice tString) vs' ∧
      vs'.length = max 3 1 ∧
      (∀ j, 1 ≤ j → vs'[j]? = [text "a", text "b", text "c"][j]?) ∧
      ∀ j, j < 1 →
        ∃ (d w : Val) (err : Option GoError),
          ((Indirect (Val.slice (Ty.slice tString) [text "x"])).Index j).bind Val.Interface =
            Res.ok d ∧
          decode stdLib 1 ("s" ++ "[" ++ toString j ++ "]") d
              (([text "a", text "b", text "c"][j]?).getD (Zero tString))
              Flags.fresh.sliceElem = Res.ok (w, err) ∧
          vs'[j]? = some w :=
  (slice_extend_in_place (decode stdLib 1) "s" (Val.slice (Ty.slice tString) [text "x"])
    (Ty.slice tString) tString [text "a", text "b", text "c"] [text "x"] Flags.fresh
    ⟨by simp [Val.IsValid, text], Or.inl ⟨Ty.slice tString, rfl, rfl⟩⟩ rfl rfl).2
    (Val.slice (Ty.slice tString) [text "x", text "b", text "c"]) none (by rfl)

/-- The zero value of an array type is the array of zero elements. -/
theorem Zero_array (n : Nat) (et : Ty) :
    Zero (Ty.array n et) = Val.array (Ty.array n et) (List.replicate n (Zero et)) := by
  simp [Zero, zeroOf]

/-- Every type is assignable to `interface{}`. -/
theorem assignable_dynamic (t : Ty) : t.AssignableTo emptyInterface = true := by
  simp [Ty.AssignableTo, emptyInterface, Ty.kind, Ty.methodSet]

/-- A valid value can be stored in an `interface{}` slot. -/
theorem dynamicOf_ok (v : Val) (hv : v.IsValid = true) :
    assignTo "reflect.Value.SetMapIndex" v emptyInterface = Res.ok (dynamicOf v) := by
  obtain ⟨e, he⟩ := assignTo_of_assignable "reflect.Value.SetMapIndex" v emptyInterface hv
    (assignable_dynamic _)
  simp only [dynamicOf, he]

/-- The test `isEmptyValue` returns for every value. -/
theorem isEmptyValue_total (v : Val) : isEmptyValue v = Res.ok (isEmptyB v) := by
  have h : ∃ b, isEmptyValue v = Res.ok b := by
    simp only [isEmptyValue, getKind_eq, Val.Len, Val.IsNil]
    cases hk : v.kind <;> simp [Kind.family, Kind.toNat]
  obtain ⟨b, hb⟩ := h
  simp only [isEmptyB, hb]

/-- One step of the loop of `decodeMapFromStruct` into a map keyed by text with dynamic
values. -/
theorem structLoop_step (dec : Dec) (mfl : Flags) (f : StructField) (fs : List StructField)
    (v : Val) (vs : List Val) (mt kt : Ty) (acc : List (Val × Val))
    (hv : v.IsValid = true) (hmt : mt.underlying = Ty.map kt emptyInterface)
    (hkt : kt = Ty.basic Kind.String ∨ kt = emptyInterface) (hro : mfl.ro = false) :
    decodeMapFromStructLoop dec mfl (f :: fs) (v :: vs) (Val.map mt acc) =
      if fieldSkipped f v = true then decodeMapFromStructLoop dec mfl fs vs (Val.map mt acc)
      else if v.kind = Kind.Struct then
        (dec (entryKeyName f) (Val.ptr (Ty.ptr v.typ) v) (Val.map (Ty.map kt emptyInterface) [])
            Flags.made).bind fun r =>
          match r.2 with
          | some err => Res.ok (Val.map mt acc, some err)
          | none =>
              ((Val.map mt acc).SetMapIndex mfl
                  (Val.str (Ty.basic Kind.String) (entryKeyName f)) r.1).bind
                fun m => decodeMapFromStructLoop dec mfl fs vs m
      else
        decodeMapFromStructLoop dec mfl fs vs
          (Val.map mt (upsertEntry (nameKey kt (entryKeyName f)) (dynamicOf v) acc)) := by
  by_cases hexp : f.PkgPath = ""
  · have hvt : v.TypeOf = Res.ok v.typ := by simp only [Val.TypeOf, hv, if_true]
    have hmtt : (Val.map mt acc).TypeOf = Res.ok mt := rfl
    have hel : mt.Elem = Res.ok emptyInterface := by simp only [Ty.Elem, hmt]
    have hmts : mt.mapTypes = Res.ok (kt, emptyInterface) := by simp only [Ty.mapTypes, hmt]
    obtain ⟨-, -, -, -, hk1, -, hhash⟩ :=
      nameKey_facts kt hkt (entryKeyName f) "reflect.Value.SetMapIndex"
    have hset : (Val.map mt acc).SetMapIndex mfl
        (Val.str (Ty.basic Kind.String) (entryKeyName f)) v =
        Res.ok (Val.map mt (upsertEntry (nameKey kt (entryKeyName f)) (dynamicOf v) acc)) := by
      simp only [Val.SetMapIndex, hro, Bool.false_eq_true, if_false, hmts, Res.bind_ok, hk1,
        dynamicOf_ok v hv, hhash, if_true]
    simp only [entryKeyName] at hset ⊢
    simp only [decodeMapFromStructLoop, hexp, ne_eq, not_true_eq_false, if_false, hvt, hmtt,
      hel, Res.bind_ok, assignable_dynamic, Bool.not_true, Bool.false_eq_true, hmts,
      fieldSkipped, hasOmitempty, bne_self_eq_false, Bool.false_or, isEmptyValue_total]
    simp only [ne_eq] at hset
    generalize (stringsSplit (tagGet f.Tag tagName)).headD "" = X at hset ⊢
    generalize ((stringsSplit (tagGet f.Tag tagName)).tail.any fun tag => tag == "omitempty")
      = om
    by_cases hdash : X = "-"
    · subst hdash
      cases om <;> cases isEmptyB v <;> simp
    · have hdb : (X == "-") = false := by simpa using hdash
      cases om
      · simp only [Bool.false_eq_true, if_false, Res.bind_ok, Bool.false_and, Bool.false_or,
          hdb, hdash, and_false]
        by_cases hst : v.kind = Kind.Struct
        · simp only [hst, if_true]
        · simp only [hst, if_false, hset, Res.bind_ok]
      · cases hemp : isEmptyB v
        · simp only [if_true, Res.bind_ok, Bool.false_eq_true, if_false, Bool.true_and,
            Bool.false_or, hdb, hdash, and_false]
          by_cases hst : v.kind = Kind.Struct
          · simp only [hst, if_true]
          · simp only [hst, if_false, hset, Res.bind_ok]
        · simp
  · have hsk : fieldSkipped f v = true := by
      simp [fieldSkipped, hexp]
    simp only [decodeMapFromStructLoop, hexp, ne_eq, not_false_eq_true, if_true, hsk]

/-- A struct type has the kind `struct` and its fields can be read. -/
theorem Ty.isStruct_facts (t : Ty) (h : t.isStruct = true) :
    t.kind = Kind.Struct ∧ t.structFields = Res.ok t.fieldsOf := by
  simp only [Ty.isStruct] at h
  split at h
  · rename_i fs hu
    exact ⟨by rw [Ty.kind_of_underlying hu]; rfl, by simp only [Ty.structFields, Ty.fieldsOf, hu]⟩
  · simp at h

/-- A well-formed value is valid, and it has the kind `struct` exactly when it is a
struct value. -/
theorem wellFormedRecord_facts (v : Val) (h : v.wellFormedRecord = true) :
    v.IsValid = true ∧
    ((∃ t fs, v = Val.struct t fs ∧ t.isStruct = true ∧
        distinctTexts (candidateKeys t.fieldsOf) = true ∧
        Val.wellFormedFields t.fieldsOf fs = true) ∨
      (v.kind ≠ Kind.Struct ∧ ∀ kt, recordValue kt v = v ∧ v.recordDepth = 0)) := by
  cases v with
  | invalid => simp [Val.wellFormedRecord] at h
  | struct t fs =>
    simp only [Val.wellFormedRecord, Bool.and_eq_true] at h
    exact ⟨rfl, Or.inl ⟨t, fs, rfl, h.1.1, h.1.2, h.2⟩⟩
  | _ =>
    simp only [Val.wellFormedRecord, bne_iff_ne, ne_eq] at h
    exact ⟨rfl, Or.inr ⟨h, fun kt => ⟨by simp [recordValue], by simp [Val.recordDepth]⟩⟩⟩

/-- Two keys of different texts are different keys. -/
theorem nameKey_ne (kt : Ty) (hkt : kt = Ty.basic Kind.String ∨ kt = emptyInterface)
    (s k : String) (h : s ≠ k) : Val.goEq (nameKey kt s) (nameKey kt k) = false := by
  by_contra hc
  have := (nameKey_facts kt hkt k "").2.1 (nameKey kt s) (by simpa using hc)
  rw [(nameKey_facts kt hkt s "").2.2.1] at this
  exact h (Option.some.inj this)

/-- Storing under a key that no entry has adds the entry at the end. -/
theorem upsertEntry_fresh (k v : Val) :
    ∀ es : List (Val × Val), (∀ e ∈ es, Val.goEq e.1 k = false) →
      upsertEntry k v es = es ++ [(k, v)]
  | [], _ => rfl
  | (k2, v2) :: rest, h => by
      have h1 : Val.goEq k2 k = false := h (k2, v2) (List.mem_cons_self _ _)
      simp only [upsertEntry, h1, Bool.false_eq_true, if_false, List.cons_append]
      rw [upsertEntry_fresh k v rest (fun e he => h e (List.mem_cons_of_mem _ he))]

/-- A text that is not among distinct texts after it. -/
theorem distinctTexts_cons (s : String) (rest : List String)
    (h : distinctTexts (s :: rest) = true) : s ∉ rest ∧ distinctTexts rest = true := by
  simp only [distinctTexts, Bool.and_eq_true, Bool.not_eq_true', List.contains_eq_any_beq,
    List.any_eq_false, beq_iff_eq] at h
  refine ⟨fun hm => ?_, h.2⟩
  exact h.1 s hm rfl

/-- The function `decode` on a struct source, after one dereference, and a map target that
is not nil: the loop of `decodeMapFromStruct` stores the entries in the target. -/
theorem decode_struct_into_map (lib : GoLib) (fuel : Nat) (name : String) (data : Val)
    (t : Ty) (vals : List Val) (mt km em : Ty) (acc entries : List (Val × Val)) (fl : Flags)
    (hsrc : Indirect data = Val.struct t vals) (ht : t.isStruct = true)
    (hmt : mt.underlying = Ty.map km em) (hro : fl.ro = false)
    (hloop : decodeMapFromStructLoop (decode lib fuel) fl t.fieldsOf vals (Val.map mt acc) =
      Res.ok (Val.map mt entries, none)) :
    decode lib (fuel + 1) name data (Val.map mt acc) fl = done (Val.map mt entries) := by
  obtain ⟨htk, hsf⟩ := Ty.isStruct_facts t ht
  have hmk : mt.kind = Kind.Map := by rw [Ty.kind_of_underlying hmt]; rfl
  have hgk : getKind (Val.map mt acc) = Kind.Map := by
    simp [getKind_eq, Val.kind, Val.typ, hmk, Kind.family, Kind.toNat]
  rw [decode_dispatch lib fuel name data _ fl (by rw [hsrc]; rfl), hgk]
  have hT : (Val.map mt acc).TypeOf = Res.ok mt := rfl
  have hmts : mt.mapTypes = Res.ok (km, em) := by simp only [Ty.mapTypes, hmt]
  have hN : (Val.map mt acc).IsNil = Res.ok false := by
    simp [Val.IsNil, Val.kind, Val.typ, hmk]
  have hdk : (Val.struct t vals).kind = Kind.Struct := htk
  have hdT : (Val.struct t vals).TypeOf = Res.ok t := rfl
  simp only [decodeMap, hT, hmts, Res.bind_ok, hN, Bool.false_eq_true, if_false, hsrc, hdk,
    decodeMapFromStruct, hdT, hsf, Val.fieldVals, hloop, Val.isNilVal]
  by_cases haddr : fl.addr = true
  · have hS : (Val.map mt acc).Set fl (Val.map mt entries) = Res.ok (Val.map mt entries) := by
      simp only [Val.Set, Val.IsValid, hro, haddr, Bool.not_true, Bool.false_eq_true, if_false]
      exact assignTo_same _ (Val.map mt entries) rfl
    simp only [Flags.CanAddr, haddr, if_true, hS, Res.bind_ok]
  · simp only [Flags.CanAddr, haddr, Bool.false_eq_true, if_false]

/-- The loop of `decodeMapFromStruct` over a well-formed record, into a map keyed by text
with dynamic values, with fuel for the depth of the record: it adds the entries of the
spec after those the map holds. -/
theorem structLoop_entries (lib : GoLib) (kt : Ty)
    (hkt : kt = Ty.basic Kind.String ∨ kt = emptyInterface) :
    ∀ (fuel : Nat) (fs : List StructField) (vs : List Val) (mfl : Flags) (mt : Ty)
      (acc : List (Val × Val)), Val.wellFormedFields fs vs = true →
      Val.recordDepthList vs ≤ fuel → mt.underlying = Ty.map kt emptyInterface →
      mfl.ro = false → distinctTexts (candidateKeys fs) = true →
      (∀ e ∈ acc, ∃ s, e.1 = nameKey kt s ∧ s ∉ candidateKeys fs) →
      decodeMapFromStructLoop (decode lib fuel) mfl fs vs (Val.map mt acc) =
        Res.ok (Val.map mt (acc ++ recordEntries kt fs vs), none) := by
  intro fuel
  induction fuel using Nat.strong_induction_on with
  | _ fuel ihf =>
    intro fs
    induction fs with
    | nil =>
      intro vs mfl mt acc hwf _ _ _ _ _
      cases vs with
      | nil => simp [decodeMapFromStructLoop, recordEntries]
      | cons v vs => simp [Val.wellFormedFields] at hwf
    | cons f fs ih =>
      intro vs mfl mt acc hwf hdepth hmt hro hdist hacc
      cases vs with
      | nil => simp [Val.wellFormedFields] at hwf
      | cons v vs =>
        simp only [Val.wellFormedFields, Bool.and_eq_true] at hwf
        obtain ⟨hwv, hwrest⟩ := hwf
        obtain ⟨hv, hshape⟩ := wellFormedRecord_facts v hwv
        simp only [Val.recordDepthList] at hdepth
        have hd1 : v.recordDepth ≤ fuel := le_trans (le_max_left _ _) hdepth
        have hd2 : Val.recordDepthList vs ≤ fuel := le_trans (le_max_right _ _) hdepth
        rw [structLoop_step _ mfl f fs v vs mt kt acc hv hmt hkt hro]
        by_cases hskip : fieldSkipped f v = true
        · have hsub : ∀ s, s ∈ candidateKeys fs → s ∈ candidateKeys (f :: fs) := by
            intro s hs
            simp only [candidateKeys, List.filter_cons]
            split
            · exact List.mem_cons_of_mem _ hs
            · exact hs
          have hdist2 : distinctTexts (candidateKeys fs) = true := by
            simp only [candidateKeys, List.filter_cons] at hdist
            split at hdist
            · exact (distinctTexts_cons _ _ hdist).2
            · exact hdist
          simp only [hskip, if_true, recordEntries]
          exact ih vs mfl mt acc hwrest hd2 hmt hro hdist2
            (fun e he => by
              obtain ⟨s, hs1, hs2⟩ := hacc e he
              exact ⟨s, hs1, fun hc => hs2 (hsub s hc)⟩)
        · have hcand : candidateKeys (f :: fs) = entryKeyName f :: candidateKeys fs := by
            simp only [fieldSkipped, Bool.or_eq_true, bne_iff_ne, ne_eq, Bool.and_eq_true,
              beq_iff_eq, not_or, not_not] at hskip
            have hp : (f.PkgPath == "" &&
                !((stringsSplit (tagGet f.Tag tagName)).headD "" == "-")) = true := by
              simp only [hskip.1.1, beq_self_eq_true, Bool.true_and, Bool.not_eq_true',
                beq_eq_false_iff_ne, ne_eq]
              exact hskip.2
            simp only [candidateKeys, List.filter_cons, hp, if_true, List.map_cons]
          rw [hcand] at hdist hacc
          obtain ⟨hnotin, hdist2⟩ := distinctTexts_cons _ _ hdist
          have hfresh : ∀ e ∈ acc, Val.goEq e.1 (nameKey kt (entryKeyName f)) = false := by
            intro e he
            obtain ⟨s, hs1, hs2⟩ := hacc e he
            rw [hs1]
            exact nameKey_ne kt hkt s _ (fun hc => hs2 (by rw [hc]; exact List.mem_cons_self _ _))
          have hacc2 : ∀ (x : Val), ∀ e ∈ acc ++ [(nameKey kt (entryKeyName f), x)],
              ∃ s, e.1 = nameKey kt s ∧ s ∉ candidateKeys fs := by
            intro x e he
            rcases List.mem_append.1 he with h | h
            · obtain ⟨s, hs1, hs2⟩ := hacc e h
              exact ⟨s, hs1, fun hc => hs2 (List.mem_cons_of_mem _ hc)⟩
            · simp only [List.mem_singleton] at h
              subst h
              exact ⟨_, rfl, hnotin⟩
          simp only [hskip, if_false, recordEntries, Bool.false_eq_true]
          rcases hshape with ⟨t, fs2, rfl, htst, hd3, hwf3⟩ | ⟨hns, hrv⟩
          · obtain ⟨htk, -⟩ := Ty.isStruct_facts t htst
            have hk : (Val.struct t fs2).kind = Kind.Struct := htk
            simp only [hk, if_true]
            simp only [Val.recordDepth] at hd1
            obtain ⟨fuel2, rfl⟩ : ∃ n, fuel = n + 1 := ⟨fuel - 1, by omega⟩
            have hinner := ihf fuel2 (by omega) t.fieldsOf fs2 Flags.made
              (Ty.map kt emptyInterface) [] hwf3 (by omega) rfl rfl hd3
              (fun e he => by simp at he)
            have hdec := decode_struct_into_map lib fuel2 (entryKeyName f)
              (Val.ptr (Ty.ptr (Val.struct t fs2).typ) (Val.struct t fs2)) t fs2
              (Ty.map kt emptyInterface) kt emptyInterface [] _ Flags.made rfl htst rfl rfl hinner
            rw [hdec]
            simp only [done, Res.bind_ok, List.nil_append]
            obtain ⟨-, -, -, -, hk1, -, hhash⟩ :=
              nameKey_facts kt hkt (entryKeyName f) "reflect.Value.SetMapIndex"
            have hmts : mt.mapTypes = Res.ok (kt, emptyInterface) := by
              simp only [Ty.mapTypes, hmt]
            have hsetm : ∀ x : Val, x.IsValid = true →
                (Val.map mt acc).SetMapIndex mfl
                  (Val.str (Ty.basic Kind.String) (entryKeyName f)) x =
                Res.ok (Val.map mt (upsertEntry (nameKey kt (entryKeyName f)) (dynamicOf x)
                  acc)) := by
              intro x hx
              simp only [Val.SetMapIndex, hro, Bool.false_eq_true, if_false, hmts, Res.bind_ok,
                hk1, dynamicOf_ok x hx, hhash, if_true]
            rw [hsetm (Val.map (Ty.map kt emptyInterface) (recordEntries kt t.fieldsOf fs2)) rfl]
            simp only [Res.bind_ok]
            rw [upsertEntry_fresh _ _ acc hfresh]
            rw [ih vs mfl mt _ hwrest hd2 hmt hro hdist2 (hacc2 _)]
            simp [recordValue]
          · simp only [hns, if_false]
            rw [upsertEntry_fresh _ _ acc hfresh]
            rw [ih vs mfl mt _ hwrest hd2 hmt hro hdist2 (hacc2 _)]
            simp [(hrv kt).1]

/-- A type identical to an interface type is that interface type. -/
theorem Ty.beq_iface (t : Ty) (ms : List String) (h : Ty.beq t (Ty.iface ms) = true) :
    t = Ty.iface ms := by
  cases t <;> simp_all [Ty.beq]

/-- A valid value that is no interface value is stored in an `interface{}` slot as it
is. -/
theorem dynamicOf_boxed (v : Val) (hv : v.IsValid = true) (hk : v.kind ≠ Kind.Interface)
    (hi : v.isIface = false) : dynamicOf v = boxed v := by
  have hkt : v.typ.kind ≠ Kind.Interface := by
    cases v with
    | invalid => simp [Val.IsValid] at hv
    | _ => exact hk
  have h1 : (v.typ == emptyInterface) = false := by
    by_contra hc
    have := Ty.beq_iface v.typ [] (by simpa using hc)
    rw [this] at hkt
    exact hkt rfl
  have h2 : (v.typ.underlying == emptyInterface.underlying) = false := by
    by_contra hc
    have := Ty.beq_iface v.typ.underlying [] (by simpa using hc)
    have hk2 := Ty.kind_underlying v.typ
    rw [this] at hk2
    exact hkt hk2.symm
  have h3 : (emptyInterface.kind == Kind.Interface &&
      emptyInterface.methodSet.all fun m => v.typ.methodSet.contains m) = true := rfl
  simp only [dynamicOf, assignTo, hv, Bool.not_true, Bool.false_eq_true, if_false, h1, h2,
    Bool.and_false, Bool.or_self, h3, if_true]
  cases v with
  | invalid => simp [Val.IsValid] at hv
  | nil t =>
    have : ¬ t.kind = Kind.Interface := hkt
    simp [this, boxed]
  | iface t h => simp [Val.isIface] at hi
  | _ => rfl

/-- C21. Record-to-mapping content.  Let the source be, directly or behind one pointer, a
well-formed record (one valid value for each field, pairwise distinct keys, at every
level), the target an empty map with keys of type `string` or `interface{}` and dynamic
values, and the fuel at least the depth of the record.  Then `decode` succeeds and the
target holds exactly the entries of `recordEntries`: in the order of the fields, one entry
for every exported field that is neither omitted nor excluded, under its tag key or else
its declared name; a field of struct kind, an embedded one included under the name of its
type, is stored as the nested map built by the same rules, and every other field is stored
with its value.  A value that is no interface value is stored unchanged in the dynamic
slot, and an unexported field gives no entry. -/
theorem record_to_mapping_content (lib : GoLib) (fuel : Nat) (name : String) (data : Val)
    (t : Ty) (vals : List Val) (mt kt : Ty) (fl : Flags)
    (hsrc : Indirect data = Val.struct t vals)
    (hwf : (Val.struct t vals).wellFormedRecord = true)
    (hmt : mt.underlying = Ty.map kt emptyInterface)
    (hkt : kt = Ty.basic Kind.String ∨ kt = emptyInterface) (hro : fl.ro = false)
    (hfuel : (Val.struct t vals).recordDepth ≤ fuel) :
    decode lib fuel name data (Val.map mt []) fl =
        done (Val.map mt (recordEntries kt t.fieldsOf vals)) ∧
    (∀ v : Val, v.IsValid = true → v.kind ≠ Kind.Interface → v.isIface = false →
      dynamicOf v = boxed v) ∧
    (∀ (f : StructField) (v : Val) (fs : List StructField) (vs : List Val),
      f.PkgPath ≠ "" → recordEntries kt (f :: fs) (v :: vs) = recordEntries kt fs vs) := by
  refine ⟨?_, dynamicOf_boxed, ?_⟩
  · obtain ⟨-, h | h⟩ := wellFormedRecord_facts _ hwf
    · obtain ⟨t2, fs2, heq, hst, hdist, hwff⟩ := h
      simp only [Val.struct.injEq] at heq
      obtain ⟨rfl, rfl⟩ := heq
      simp only [Val.recordDepth] at hfuel
      obtain ⟨fuel2, rfl⟩ : ∃ n, fuel = n + 1 := ⟨fuel - 1, by omega⟩
      have hloop := structLoop_entries lib kt hkt fuel2 t.fieldsOf vals fl mt [] hwff (by omega)
        hmt hro hdist (fun e he => by simp at he)
      simp only [List.nil_append] at hloop
      exact decode_struct_into_map lib fuel2 name data t vals mt kt emptyInterface [] _ fl hsrc
        hst hmt hro hloop
    · obtain ⟨hk, -⟩ := h
      obtain ⟨hst, -⟩ : t.isStruct = true ∧ True := by
        simp only [Val.wellFormedRecord, Bool.and_eq_true] at hwf
        exact ⟨hwf.1.1, trivial⟩
      exact absurd (Ty.isStruct_facts t hst).1 hk
  · intro f v fs vs hp
    have hsk : fieldSkipped f v = true := by simp [fieldSkipped, hp]
    simp only [recordEntries, hsk, if_true]

/-- C21 at the table tests "basic struct input" and "embedded struct input". -/
theorem record_to_mapping_content_witness :
    Decode stdLib 1 (Val.ptr (Ty.ptr tBasic) (Val.struct tBasic basicFilled))
        (Val.ptr (Ty.ptr tMapSI) (Val.map tMapSI [])) =
      done (Val.ptr (Ty.ptr tMapSI) (Val.map tMapSI basicFilledEntries)) ∧
    decode stdLib 2 ""
        (Val.ptr (Ty.ptr tEmbedded)
          (Val.struct tEmbedded [Val.struct tBasic basicFilled, text "vunique"]))
        (Val.map tMapSI []) Flags.fresh =
      done (Val.map tMapSI
        [(text "Basic", boxed (Val.map tMapSI basicFilledEntries)),
          (text "VUnique", boxed (text "vunique"))]) :=
  ⟨by rfl,
   ((record_to_mapping_content stdLib 2 ""
      (Val.ptr (Ty.ptr tEmbedded)
        (Val.struct tEmbedded [Val.struct tBasic basicFilled, text "vunique"]))
      tEmbedded [Val.struct tBasic basicFilled, text "vunique"] tMapSI tString Flags.fresh
      rfl (by rfl) rfl (Or.inl rfl) rfl (by decide)).1).trans (by rfl)⟩

/-- Within declared types too, the zero value of a type is a valid value of the type. -/
theorem zeroOfE_facts : ∀ (u : Ty) (env : List Ty) (t : Ty),
    (zeroOfE env t u).IsValid = true ∧ (zeroOfE env t u).typ = t
  | .basic k, _, _ => by cases k <;> exact ⟨rfl, rfl⟩
  | .named _ _ _ u, env, t => by
      simp only [zeroOfE]
      exact zeroOfE_facts u env t
  | .recur _ _ _ u, env, t => by
      simp only [zeroOfE]
      exact zeroOfE_facts u _ t
  | .array _ _, _, _ => ⟨rfl, rfl⟩
  | .struct _, _, _ => ⟨rfl, rfl⟩
  | .chan _, _, _ => ⟨rfl, rfl⟩
  | .func _, _, _ => ⟨rfl, rfl⟩
  | .iface _, _, _ => ⟨rfl, rfl⟩
  | .map _ _, _, _ => ⟨rfl, rfl⟩
  | .ptr _, _, _ => ⟨rfl, rfl⟩
  | .slice _, _, _ => ⟨rfl, rfl⟩
  | .ref _ _, _, _ => ⟨rfl, rfl⟩

/-- The zero value of a type is a valid value of the type. -/
theorem zeroOf_facts (t : Ty) : ∀ u : Ty, (zeroOf t u).IsValid = true ∧ (zeroOf t u).typ = t
  | .basic k => by cases k <;> exact ⟨rfl, rfl⟩
  | .named _ _ _ u => by
      simp only [zeroOf]
      exact zeroOf_facts t u
  | .array _ _ => ⟨rfl, rfl⟩
  | .struct _ => ⟨rfl, rfl⟩
  | .chan _ => ⟨rfl, rfl⟩
  | .func _ => ⟨rfl, rfl⟩
  | .iface _ => ⟨rfl, rfl⟩
  | .map _ _ => ⟨rfl, rfl⟩
  | .ptr _ => ⟨rfl, rfl⟩
  | .slice _ => ⟨rfl, rfl⟩
  | .recur _ _ _ u => by
      simp only [zeroOf]
      exact zeroOfE_facts u _ t
  | .ref _ _ => ⟨rfl, rfl⟩

/-- The zero value of a type is a valid value of the type and of its kind. -/
theorem Zero_facts (t : Ty) :
    (Zero t).IsValid = true ∧ (Zero t).typ = t ∧ (Zero t).kind = t.kind := by
  obtain ⟨h1, h2⟩ := zeroOf_facts t t
  refine ⟨h1, h2, ?_⟩
  have : (Zero t).kind = (Zero t).typ.kind := by
    have h1z : (Zero t).IsValid = true := h1
    generalize Zero t = z at h1z
    cases z with
    | invalid => simp [Val.IsValid] at h1z
    | _ => rfl
  rw [this]
  exact congrArg Ty.kind h2

/-- A target of the floating-point family is valid and `SetFloat` stores into it. -/
theorem setFloat_of_kind {val : Val} {fl : Flags} (hv : val.IsValid = true)
    (hset : fl.CanSet = true) (x : GoFloat) :
    (val.kind = Kind.Float64 → val.SetFloat fl x = Res.ok (Val.float val.typ x)) ∧
    (val.kind = Kind.Float32 → val.SetFloat fl x = Res.ok (Val.float val.typ x.toFloat32)) := by
  have hro : fl.ro = false := by
    simp [Flags.CanSet] at hset
    exact hset.2
  have haddr : fl.addr = true := by
    simp [Flags.CanSet] at hset
    exact hset.1
  constructor <;> intro hk <;>
    simp only [Val.SetFloat, mustBeAssignable, hv, hro, haddr, Bool.not_true,
      Bool.false_eq_true, if_false, Res.bind_ok, hk]

/-- A scalar value decoded into the zero value of its own type gives the value back. -/
theorem scalar_decode_self (lib : GoLib) (fuel : Nat) (p : String) (ft : Ty) (v : Val)
    (fl : Flags) (hs : scalarField ft v) (hset : fl.CanSet = true) :
    decode lib (fuel + 1) p v (Zero ft) fl = done v := by
  obtain ⟨hzv, hzt, hzk⟩ := Zero_facts ft
  have hro : fl.ro = false := by
    simp [Flags.CanSet] at hset
    exact hset.2
  have haddr : fl.addr = true := by
    simp [Flags.CanSet] at hset
    exact hset.1
  have hgz : getKind (Zero ft) = ft.kind.family := by rw [getKind_eq, hzk]
  rcases hs with ⟨b, rfl, hk⟩ | ⟨i, rfl, hk, hw⟩ | ⟨n, rfl, hk, hw⟩ | ⟨x, rfl, hk⟩ | ⟨s, rfl, hk⟩
  · have hvk : (Val.bool ft b).kind = Kind.Bool := hk
    have hind : Indirect (Val.bool ft b) = Val.bool ft b := by
      simp only [Indirect, hvk]
      rfl
    have hgv : getKind (Val.bool ft b) = Kind.Bool := by
      rw [getKind_eq, hvk]; rfl
    rw [decode_dispatch lib fuel p _ _ fl (by rw [hind]; rfl), hgz, hk]
    simp only [Kind.family, Kind.toNat]
    simp only [decodeBool, hind, hgv, ne_eq, not_true_eq_false, if_false, Val.getBool,
      Val.SetBool, mustBeAssignable, hzv, hro, haddr, Bool.not_true, Bool.false_eq_true,
      Res.bind_ok, hzk, hk, if_true, hzt]
    rfl
  · have hvk : (Val.int ft i).kind = ft.kind := rfl
    have hnp : ft.kind ≠ Kind.Ptr := by
      intro hc
      rw [hc] at hk
      exact absurd hk (by decide)
    have hind : Indirect (Val.int ft i) = Val.int ft i := by
      simp only [Indirect, hvk, hnp, if_false]
    have hgv : getKind (Val.int ft i) = Kind.Int := by
      rw [getKind_eq, hvk, hk]
    rw [decode_dispatch lib fuel p _ _ fl (by rw [hind]; rfl), hgz, hk]
    have hsi := @setInt_of_getKind (Zero ft) fl (by rw [hgz, hk]) hset i
    simp only [decodeInt, hind, Val.TypeOf, Val.IsValid, if_true, Res.bind_ok, hgv, Val.getInt,
      hsi, hzt, hzk, hw]
  · have hvk : (Val.uint ft n).kind = ft.kind := rfl
    have hnp : ft.kind ≠ Kind.Ptr := by
      intro hc
      rw [hc] at hk
      exact absurd hk (by decide)
    have hind : Indirect (Val.uint ft n) = Val.uint ft n := by
      simp only [Indirect, hvk, hnp, if_false]
    have hgv : getKind (Val.uint ft n) = Kind.Uint := by
      rw [getKind_eq, hvk, hk]
    rw [decode_dispatch lib fuel p _ _ fl (by rw [hind]; rfl), hgz, hk]
    have hsi := @setUint_of_getKind (Zero ft) fl (by rw [hgz, hk]) hset n
    simp only [decodeUint, hind, hgv, Val.getUint, hsi, hzt, hzk, hw, Res.bind_ok]
    simp
  · have hvk : (Val.float ft x).kind = ft.kind := rfl
    have hfam : ft.kind.family = Kind.Float32 := by
      rcases hk with h | h
      · rw [h]; rfl
      · rw [h.1]; rfl
    have hnp : ft.kind ≠ Kind.Ptr := by
      intro hc
      rw [hc] at hfam
      exact absurd hfam (by decide)
    have hind : Indirect (Val.float ft x) = Val.float ft x := by
      simp only [Indirect, hvk, hnp, if_false]
    have hgv : getKind (Val.float ft x) = Kind.Float32 := by
      rw [getKind_eq, hvk, hfam]
    rw [decode_dispatch lib fuel p _ _ fl (by rw [hind]; rfl), hgz, hfam]
    obtain ⟨h64, h32⟩ := @setFloat_of_kind (Zero ft) fl hzv hset x
    rcases hk with h | ⟨h, hx⟩
    · simp only [decodeFloat, hind, Val.TypeOf, Val.IsValid, if_true, Res.bind_ok, hgv,
        Val.getFloat, h64 (by rw [hzk, h]), hzt]
      simp
    · simp only [decodeFloat, hind, Val.TypeOf, Val.IsValid, if_true, Res.bind_ok, hgv,
        Val.getFloat, h32 (by rw [hzk, h]), hzt, hx]
      simp
  · have hvk : (Val.str ft s).kind = Kind.String := hk
    have hind : Indirect (Val.str ft s) = Val.str ft s := by
      simp only [Indirect, hvk]
      rfl
    have hgv : getKind (Val.str ft s) = Kind.String := by
      rw [getKind_eq, hvk]; rfl
    rw [decode_dispatch lib fuel p _ _ fl (by rw [hind]; rfl), hgz, hk]
    simp only [Kind.family, Kind.toNat]
    simp only [decodeString, hind, hgv, if_true, Val.getString,
      Val.SetString, mustBeAssignable, hzv, hro, haddr, Bool.not_true, Bool.false_eq_true,
      if_false, Res.bind_ok, hzk, hk, hzt]
    rfl

/-- A scalar value is valid, no interface value and no struct. -/
theorem scalarField_facts (ft : Ty) (v : Val) (h : scalarField ft v) :
    v.IsValid = true ∧ v.kind ≠ Kind.Interface ∧ v.isIface = false ∧ v.kind ≠ Kind.Struct ∧
      v.Interface = Res.ok v := by
  rcases h with ⟨b, rfl, hk⟩ | ⟨i, rfl, hk, -⟩ | ⟨n, rfl, hk, -⟩ | ⟨x, rfl, hk⟩ | ⟨s, rfl, hk⟩
  · have : (Val.bool ft b).kind = Kind.Bool := hk
    exact ⟨rfl, by rw [this]; decide, rfl, by rw [this]; decide, rfl⟩
  · have : (Val.int ft i).kind = ft.kind := rfl
    refine ⟨rfl, ?_, rfl, ?_, rfl⟩ <;> rw [this] <;> intro hc <;> rw [hc] at hk <;>
      exact absurd hk (by decide)
  · have : (Val.uint ft n).kind = ft.kind := rfl
    refine ⟨rfl, ?_, rfl, ?_, rfl⟩ <;> rw [this] <;> intro hc <;> rw [hc] at hk <;>
      exact absurd hk (by decide)
  · have : (Val.float ft x).kind = ft.kind := rfl
    refine ⟨rfl, ?_, rfl, ?_, rfl⟩ <;> rw [this] <;> intro hc <;> rw [hc] at hk <;>
      rcases hk with h | h
    · exact absurd h (by decide)
    · exact absurd h.1 (by decide)
    · exact absurd h (by decide)
    · exact absurd h.1 (by decide)
  · have : (Val.str ft s).kind = Kind.String := hk
    exact ⟨rfl, by rw [this]; decide, rfl, by rw [this]; decide, rfl⟩

/-- An exported field without a tag is not skipped, and its key and its effective name
are its declared name. -/
theorem untagged_field (f : StructField) (v : Val) (hexp : f.PkgPath = "")
    (htag : tagGet f.Tag tagName = "") :
    fieldSkipped f v = false ∧ entryKeyName f = f.Name ∧ effectiveName f = f.Name := by
  refine ⟨?_, ?_, ?_⟩
  · simp [fieldSkipped, hexp, hasOmitempty, htag, stringsSplit, splitOnComma]
  · simp [entryKeyName, htag, stringsSplit, splitOnComma]
  · simp [effectiveName, htag, stringsSplitN2Head, beforeComma]

/-- A key the slower search returns is one of the keys. -/
theorem findFold_mem (lib : GoLib) (n : String) :
    ∀ (ks : List Val) (k : Val), findFold lib n ks = some k → k ∈ ks
  | [], k, h => by simp [findFold] at h
  | k0 :: ks, k, h => by
      simp only [findFold] at h
      split at h
      · split at h
        · simp only [Option.some.injEq] at h
          rw [← h]
          exact List.mem_cons_self _ _
        · exact List.mem_cons_of_mem _ (findFold_mem lib n ks k h)
      · exact List.mem_cons_of_mem _ (findFold_mem lib n ks k h)

/-! ## C22 and C31 to C38: round trip, dynamic targets, failures, determinism -/

/-- C31 fails on the code for a slot that holds a value which is no pointer.  The rule of
`decodeBasic` for a target of interface type `t`: (1) when the slot holds a value `h`, the
source is passed on to the decoder of `h`, with `h` as it is held, which cannot be
addressed, and the slot keeps holding what that decoder leaves; (2) a held pointer is so
decoded in place: the slot keeps the pointer, whose pointee is the outcome of decoding
the source into it; (3) a held text is not decoded: a source of text kind makes
`reflect.Value.SetString` abort, because the held value cannot be addressed; (4) when the
slot is empty and settable, a source that is no pointer and whose type is assignable to
`t` is stored as it is; (5) a source that is no pointer and whose type is not assignable to
`t` is rejected with `'<name>' expected type '<t>', got '<type>'` and the slot stays empty;
(6) a source that is a pointer to a value of exactly the type `t` is dereferenced once and
the value it points to is stored. -/
theorem dynamic_target_rule (lib : GoLib) (fuel : Nat) (name : String) (data : Val) (t : Ty)
    (fl : Flags) (ht : t.kind = Kind.Interface) (hd : data.IsValid = true) :
    (∀ (dec : Dec) (h : Val), h.IsValid = true →
      decodeBasic dec name data (Val.iface t h) fl =
        (dec name data h fl.held).bind fun r => Res.ok (Val.iface t r.1, r.2)) ∧
    (∀ (pt et : Ty) (p w : Val), pt.underlying = Ty.ptr et →
      (Indirect data).IsValid = true → (Indirect data).isNilVal = false →
      decode lib fuel name data p fl.held.pointee = done w →
      decode lib (fuel + 2) name data (Val.iface t (Val.ptr pt p)) fl =
        done (Val.iface t (Val.ptr pt w))) ∧
    (∀ h : Val, h.IsValid = true → getKind h = Kind.String →
      getKind (Indirect data) = Kind.String → fl.ro = false →
      decode lib (fuel + 2) name data (Val.iface t h) fl =
        Res.panic "reflect: reflect.Value.SetString using unaddressable value") ∧
    (∀ dec : Dec, fl.CanSet = true → data.kind ≠ Kind.Ptr → data.typ.AssignableTo t = true →
      ∃ w, assignTo "reflect.Set" data t = Res.ok w ∧
        decodeBasic dec name data (Val.nil t) fl = done w) ∧
    (∀ dec : Dec, data.kind ≠ Kind.Ptr → data.typ.AssignableTo t = false →
      decodeBasic dec name data (Val.nil t) fl =
        fail (Val.nil t) (GoError.plain ("'" ++ name ++ "' expected type '" ++ t.typeString ++
          "', got '" ++ data.typ.typeString ++ "'"))) ∧
    (∀ (dec : Dec) (p : Val), fl.CanSet = true → data = Val.ptr (Ty.ptr t) p →
      p.IsValid = true → p.typ = t →
      decodeBasic dec name data (Val.nil t) fl = done p) := by
  have hdT : data.TypeOf = Res.ok data.typ := by simp only [Val.TypeOf, hd, if_true]
  have hE : ∀ h, (Val.iface t h).Elem = Res.ok h := by
    intro h
    simp [Val.Elem, Val.kind, Val.typ, ht]
  have hK : ∀ h, (Val.iface t h).kind = Kind.Interface := fun _ => ht
  have h1 : ∀ (dec : Dec) (h : Val), h.IsValid = true →
      decodeBasic dec name data (Val.iface t h) fl =
        (dec name data h fl.held).bind fun r => Res.ok (Val.iface t r.1, r.2) := by
    intro dec h hv
    have hel : fl.elem (Val.iface t h).kind = fl.held := by
      rw [hK]
      simp [Flags.elem]
    have hiv : (Val.iface t h).IsValid = true := rfl
    simp only [decodeBasic, hiv, if_true, hE, Res.bind_ok, hv, hel, Val.setElem]
  have hgk : ∀ h, getKind (Val.iface t h) = Kind.Interface := by
    intro h
    simp [getKind_eq, hK, Kind.family, Kind.toNat]
  have hnE : (Val.nil t).Elem = Res.ok Val.invalid := by
    simp [Val.Elem, Val.kind, Val.typ, ht]
  have hnT : (Val.nil t).TypeOf = Res.ok t := rfl
  have hnV : (Val.nil t).IsValid = true := rfl
  have hnTy : (Val.nil t).typ = t := rfl
  refine ⟨h1, ?_, ?_, ?_, ?_, ?_⟩
  · intro pt et p w hpt hiv hnn hdec
    have hpk : pt.kind = Kind.Ptr := by rw [Ty.kind_of_underlying hpt]; rfl
    have hpK : (Val.ptr pt p).kind = Kind.Ptr := hpk
    have hgp : getKind (Val.ptr pt p) = Kind.Ptr := by
      simp [getKind_eq, hpK, Kind.family, Kind.toNat]
    have hns := nilSource_false data hd hnn
    have hT : (Val.ptr pt p).TypeOf = Res.ok pt := rfl
    have hpE : pt.Elem = Res.ok et := by simp only [Ty.Elem, hpt]
    have hI : Indirect (Val.ptr pt p) = p := by simp [Indirect, hpK]
    have hcs : fl.held.CanSet = false := by simp [Flags.CanSet, Flags.held]
    have hinner : decode lib (fuel + 1) name data (Val.ptr pt p) fl.held =
        done (Val.ptr pt w) := by
      rw [decode_dispatch lib fuel name data _ _ hiv, hgp]
      simp only [decodePtr_eq, hns, Res.bind_ok, Bool.false_eq_true, if_false, hT, hpE, hcs, hI,
        hpK, if_true, hdec, done, afterIndirect, Val.setElem]
    rw [decode_dispatch lib (fuel + 1) name data _ fl hiv, hgk]
    simp only [h1 _ _ (show (Val.ptr pt p).IsValid = true from rfl), hinner, done, Res.bind_ok]
  · intro h hv hks hds hro
    have hss : h.SetString fl.held (Indirect data).getString =
        Res.panic "reflect: reflect.Value.SetString using unaddressable value" := by
      simp only [Val.SetString, mustBeAssignable, hv, Bool.not_true, Bool.false_eq_true, if_false,
        Flags.held, hro, Bool.not_false, if_true, Res.bind_panic]
      rfl
    have hiv : (Indirect data).IsValid = true := by
      cases hi : Indirect data with
      | invalid =>
        rw [hi] at hds
        simp [getKind_eq, Val.kind, Kind.family, Kind.toNat] at hds
      | _ => rfl
    have hinner : decode lib (fuel + 1) name data h fl.held =
        Res.panic "reflect: reflect.Value.SetString using unaddressable value" := by
      rw [decode_dispatch lib fuel name data _ _ hiv, hks]
      simp only [decodeString, hds, if_true, hss, Res.bind_panic]
    rw [decode_dispatch lib (fuel + 1) name data _ fl hiv, hgk]
    simp only [h1 _ _ hv, hinner, Res.bind_panic]
  · intro dec hset hnp ha
    obtain ⟨w, hw⟩ := assignTo_of_assignable "reflect.Set" data t hd ha
    have hro : fl.ro = false := by
      simp only [Flags.CanSet, Bool.and_eq_true, Bool.not_eq_true'] at hset
      exact hset.2
    have haddr : fl.addr = true := by
      simp only [Flags.CanSet, Bool.and_eq_true] at hset
      exact hset.1
    refine ⟨w, hw, ?_⟩
    have hiv : Val.invalid.IsValid = false := rfl
    simp only [decodeBasic, hnV, hiv, if_true, hnE, Res.bind_ok, Bool.false_eq_true, if_false,
      hnp, hd, Bool.not_true, hdT, hnT, ha, Val.Set, hro, haddr, hnTy, hw]
  · intro dec hnp ha
    have hiv : Val.invalid.IsValid = false := rfl
    simp only [decodeBasic, hnV, hiv, if_true, hnE, Res.bind_ok, Bool.false_eq_true, if_false,
      hnp, hd, Bool.not_true, hdT, hnT, ha, Bool.not_false]
  · intro dec p hset hdp hpv hpt
    subst hdp
    have hro : fl.ro = false := by
      simp only [Flags.CanSet, Bool.and_eq_true, Bool.not_eq_true'] at hset
      exact hset.2
    have haddr : fl.addr = true := by
      simp only [Flags.CanSet, Bool.and_eq_true] at hset
      exact hset.1
    have hpK : (Val.ptr (Ty.ptr t) p).kind = Kind.Ptr := rfl
    have hpE : (Val.ptr (Ty.ptr t) p).typ.Elem = Res.ok t := rfl
    have hI : Indirect (Val.ptr (Ty.ptr t) p) = p := by simp [Indirect, hpK]
    have hpT : p.TypeOf = Res.ok t := by simp only [Val.TypeOf, hpv, if_true, hpt]
    have hA : t.AssignableTo t = true := by simp [Ty.AssignableTo, Ty.beq_self]
    have hS : assignTo "reflect.Set" p t = Res.ok p := by
      have := assignTo_same "reflect.Set" p hpv
      rw [hpt] at this
      exact this
    have hiv : Val.invalid.IsValid = false := rfl
    simp only [decodeBasic, hnV, hiv, if_true, hnE, Res.bind_ok, Bool.false_eq_true, if_false,
      hpK, hpE, hnT, Ty.beq_self, hI, hpv, Bool.not_true, hpT, hA, Val.Set, hro, haddr, hnTy,
      hS]

/-- C31 at its failing input and at inputs of the tests: `"world"` decoded into a slot
that holds `"hello"` aborts, also through `Decode`; decoded into a slot that holds a
pointer to `"hello"` it is stored in the pointee; and a pointer to an `interface{}`
holding `"data"`, as in the table test "basic pointer to non-pointer", is dereferenced and
stored in an empty slot. -/
theorem dynamic_target_rule_witness :
    decode stdLib 2 "" (text "world") (Val.iface emptyInterface (text "hello")) Flags.fresh =
      Res.panic "reflect: reflect.Value.SetString using unaddressable value" ∧
    Decode stdLib 3 (text "world")
        (Val.ptr (Ty.ptr emptyInterface) (Val.iface emptyInterface (text "hello"))) =
      Res.panic "reflect: reflect.Value.SetString using unaddressable value" ∧
    Decode stdLib 3 (text "world")
        (Val.ptr (Ty.ptr emptyInterface)
          (Val.iface emptyInterface (Val.ptr (Ty.ptr tString) (text "hello")))) =
      done (Val.ptr (Ty.ptr emptyInterface)
          (Val.iface emptyInterface (Val.ptr (Ty.ptr tString) (text "world")))) ∧
    decodeBasic (decode stdLib 0) "VData"
        (Val.ptr (Ty.ptr emptyInterface) (Val.iface emptyInterface (text "data")))
        (Val.nil emptyInterface) Flags.fresh =
      done (Val.iface emptyInterface (text "data")) :=
  ⟨(dynamic_target_rule stdLib 0 "" (text "world") emptyInterface Flags.fresh rfl rfl).2.2.1
      (text "hello") rfl rfl rfl rfl, by rfl, by rfl,
   (dynamic_target_rule stdLib 0 "VData"
      (Val.ptr (Ty.ptr emptyInterface) (Val.iface emptyInterface (text "data")))
      emptyInterface Flags.fresh rfl rfl).2.2.2.2.2 (decode stdLib 0)
      (Val.iface emptyInterface (text "data")) rfl rfl rfl rfl⟩

/-- The resolution of a field name returns on a map keyed by text whose keys are values of
its key type. -/
theorem resolveField_total (lib : GoLib) (t kt et : Ty) (es : List (Val × Val)) (n : String)
    (ht : t.underlying = Ty.map kt et)
    (hkt : kt = Ty.basic Kind.String ∨ kt = emptyInterface)
    (hkeys : ∀ e ∈ es, e.1.IsValid = true ∧ e.1.typ = kt) :
    ∃ raw, resolveField lib (Val.map t es) (es.map Prod.fst) n = Res.ok raw := by
  obtain ⟨h1, -⟩ := MapIndex_nameKey t kt et es n ht hkt
  have hk : (Val.map t es).kind = Kind.Map := (textKeyed_map t kt et es ht hkt).1
  have hmts : (Val.map t es).typ.mapTypes = Res.ok (kt, et) := by
    simp only [Val.typ, Ty.mapTypes, ht]
  have hE : (Val.map t es).entries = es := rfl
  simp only [resolveField, h1, Res.bind_ok]
  split
  · split
    · rename_i k hfk
      have hm := findFold_mem lib n _ k hfk
      obtain ⟨e, he, rfl⟩ := List.mem_map.1 hm
      obtain ⟨hv, hty⟩ := hkeys e he
      have ha := assignTo_same "reflect.Value.MapIndex" e.1 hv
      rw [hty] at ha
      simp only [Val.MapIndex, hk, if_true, hmts, Res.bind_ok, ha, hE]
      cases lookupEntry e.1 es with
      | none => exact ⟨_, rfl⟩
      | some v => exact ⟨_, rfl⟩
    · exact ⟨_, rfl⟩
  · exact ⟨_, rfl⟩

/-- An unexported field keeps its value and adds no message. -/
theorem fieldOutcome_unexported (dec : Dec) (lib : GoLib) (name : String) (t kt et : Ty)
    (es : List (Val × Val)) (fl : Flags) (f : StructField) (v : Val)
    (ht : t.underlying = Ty.map kt et)
    (hkt : kt = Ty.basic Kind.String ∨ kt = emptyInterface)
    (hkeys : ∀ e ∈ es, e.1.IsValid = true ∧ e.1.typ = kt)
    (hf : f.PkgPath ≠ "") (hv : v.IsValid = true) :
    fieldOutcome dec lib name (Val.map t es) (es.map Prod.fst) fl f v = Res.ok (v, []) := by
  obtain ⟨raw, hraw⟩ := resolveField_total lib t kt et es (effectiveName f) ht hkt hkeys
  have hcs : (fl.field f).CanSet = false := by
    have : (f.PkgPath != "") = true := by simpa using hf
    simp [Flags.field, Flags.CanSet, this]
  simp only [fieldOutcome, hraw, Res.bind_ok, hv, hcs, Bool.not_true, Bool.false_eq_true,
    if_false, Bool.not_false, if_true]
  split <;> rfl

/-- The loop of `decodeStructFromMap` over unexported fields changes nothing. -/
theorem decodeStructFields_unexported (dec : Dec) (lib : GoLib) (name : String) (t kt et : Ty)
    (es : List (Val × Val)) (fl : Flags) (ht : t.underlying = Ty.map kt et)
    (hkt : kt = Ty.basic Kind.String ∨ kt = emptyInterface)
    (hkeys : ∀ e ∈ es, e.1.IsValid = true ∧ e.1.typ = kt) :
    ∀ (fs : List StructField) (vs : List Val) (errors : List String),
      (∀ f ∈ fs, f.PkgPath ≠ "") → (∀ v ∈ vs, v.IsValid = true) → fs.length ≤ vs.length →
      decodeStructFields dec lib name (Val.map t es) (es.map Prod.fst) fl fs vs errors =
        Res.ok (vs, errors)
  | [], vs, errors, _, _, _ => by simp [decodeStructFields]
  | f :: fs, [], errors, _, _, h => by simp at h
  | f :: fs, v :: vs, errors, hf, hv, h => by
      rw [decodeStructFields_cons,
        fieldOutcome_unexported dec lib name t kt et es fl f v ht hkt hkeys
          (hf f (List.mem_cons_self _ _)) (hv v (List.mem_cons_self _ _))]
      simp only [Res.bind_ok, List.append_nil]
      rw [decodeStructFields_unexported dec lib name t kt et es fl ht hkt hkeys fs vs errors
        (fun f2 h2 => hf f2 (List.mem_cons_of_mem _ h2))
        (fun v2 h2 => hv v2 (List.mem_cons_of_mem _ h2)) (by simpa using h)]
      rfl

/-- C32. Unexported fields are skipped.  Let the source be a map keyed by text, whose keys
are values of its key type, and the target a struct.  (1) For an unexported field
`decodeStructFromMap` keeps the value of the field and adds no message, whatever the keys
of the source and the values under them.  (2) Whenever `decodeStructFromMap` returns, the
target is a struct of the same type in which every unexported field holds the value it
held, and the error is nil exactly when no exported field produced a message.  (3) On a
struct all of whose fields are unexported `decodeStructFromMap` returns nil and leaves the
target as it was. -/
theorem unexported_field_is_skipped (dec : Dec) (lib : GoLib) (name : String) (t kt et : Ty)
    (es : List (Val × Val)) (fl : Flags) (st : Ty) (fields : List StructField)
    (vals : List Val) (ht : t.underlying = Ty.map kt et)
    (hkt : kt = Ty.basic Kind.String ∨ kt = emptyInterface)
    (hkeys : ∀ e ∈ es, e.1.IsValid = true ∧ e.1.typ = kt)
    (hst : st.structFields = Res.ok fields) (hlen : fields.length ≤ vals.length)
    (hvals : ∀ v ∈ vals, v.IsValid = true) :
    (∀ (f : StructField) (v : Val), f.PkgPath ≠ "" → v.IsValid = true →
      fieldOutcome dec lib name (Val.map t es) (es.map Prod.fst) fl f v = Res.ok (v, [])) ∧
    (∀ (v' : Val) (e : Option GoError),
      decodeStructFromMap dec lib name (Val.map t es) (Val.struct st vals) fl =
        Res.ok (v', e) →
      ∃ vals' : List Val, v' = Val.struct st vals' ∧
        (∀ (i : Nat) (f : StructField) (v : Val), fields[i]? = some f → vals[i]? = some v →
          f.PkgPath ≠ "" → vals'[i]? = some v) ∧
        (e = none ↔
          ∀ (i : Nat) (f : StructField) (v : Val) (r : Val × List String),
            fields[i]? = some f → vals[i]? = some v → f.PkgPath = "" →
            fieldOutcome dec lib name (Val.map t es) (es.map Prod.fst) fl f v = Res.ok r →
            r.2 = [])) ∧
    ((∀ f ∈ fields, f.PkgPath ≠ "") →
      decodeStructFromMap dec lib name (Val.map t es) (Val.struct st vals) fl =
        done (Val.struct st vals)) := by
  obtain ⟨hk, htk⟩ := textKeyed_map t kt et es ht hkt
  have h1 := fun f v => fieldOutcome_unexported dec lib name t kt et es fl f v ht hkt hkeys
  refine ⟨h1, ?_, ?_⟩
  · intro v' e hres
    obtain ⟨rs, hall, hv, he, -⟩ := decodeStructFromMap_ok dec lib name (Val.map t es) fl st
      fields vals hk htk hst hlen v' e hres
    simp only [Val.entries] at hall
    refine ⟨_, hv, ?_, ?_⟩
    · intro i f v hf hvi hp
      obtain ⟨r, hr, hout⟩ := forall₂_zip_index
        (R := fun f v r => fieldOutcome dec lib name (Val.map t es) (es.map Prod.fst) fl f v =
          Res.ok r) fields vals rs hall i f v hf hvi
      rw [h1 f v hp (hvals v (List.getElem?_mem hvi))] at hout
      simp only [Res.ok.injEq] at hout
      have hi : i < rs.length := by
        by_contra hc
        rw [List.getElem?_eq_none (by omega)] at hr
        exact absurd hr (by simp)
      rw [List.getElem?_append_left (by simpa using hi), List.getElem?_map, hr, ← hout]
      rfl
    · rw [he]
      constructor
      · intro hflat i f v r hf hvi _ hout
        obtain ⟨r2, hr2, hout2⟩ := forall₂_zip_index
          (R := fun f v r => fieldOutcome dec lib name (Val.map t es) (es.map Prod.fst) fl f v =
            Res.ok r) fields vals rs hall i f v hf hvi
        rw [hout] at hout2
        simp only [Res.ok.injEq] at hout2
        subst hout2
        have hmem : r.2 ∈ rs.map Prod.snd :=
          List.mem_map.2 ⟨r, List.getElem?_mem hr2, rfl⟩
        exact (List.flatten_eq_nil_iff.1 hflat) _ hmem
      · intro hall2
        apply List.flatten_eq_nil_iff.2
        intro l hl
        obtain ⟨r, hr, rfl⟩ := List.mem_map.1 hl
        obtain ⟨i, f, v, hf, hvi, hout⟩ := forall₂_zip_mem
          (R := fun f v r => fieldOutcome dec lib name (Val.map t es) (es.map Prod.fst) fl f v =
            Res.ok r) fields vals rs hall r hr
        by_cases hp : f.PkgPath = ""
        · exact hall2 i f v r hf hvi hp hout
        · rw [h1 f v hp (hvals v (List.getElem?_mem hvi))] at hout
          simp only [Res.ok.injEq] at hout
          rw [← hout]
  · intro hun
    rw [decodeStructFromMap_eq dec lib name (Val.map t es) fl st fields vals hk htk hst hlen]
    simp only [Val.entries]
    rw [decodeStructFields_unexported dec lib name t kt et es fl ht hkt hkeys fields vals []
      hun hvals hlen]
    rfl

/-- C32 at a `Basic` whose unexported field `vSilent` is false and a source with the keys
`vsilent` and `VSilent`: the field is left false and the call returns nil. -/
theorem unexported_field_is_skipped_witness :
    fieldOutcome (decode stdLib 1) stdLib "" silentInput (silentInput.entries.map Prod.fst)
        Flags.fresh (StructField.mk "vSilent" "mapstructure" [] false (Ty.basic Kind.Bool))
        (Val.bool (Ty.basic Kind.Bool) false) =
      Res.ok (Val.bool (Ty.basic Kind.Bool) false, []) ∧
    Decode stdLib 2 silentInput (Val.ptr (Ty.ptr tBasic) (Val.struct tBasic basicZero)) =
      done (Val.ptr (Ty.ptr tBasic) (Val.struct tBasic (text "foo" :: basicZero.tail))) :=
  ⟨(unexported_field_is_skipped (decode stdLib 1) stdLib "" tMapSI tString emptyInterface
      silentInput.entries Flags.fresh tBasic tBasic.fieldsOf basicZero rfl (Or.inl rfl)
      (by
        intro e he
        simp only [silentInput, Val.entries, List.mem_cons, List.mem_singleton,
          List.not_mem_nil, or_false] at he
        rcases he with rfl | rfl | rfl <;> exact ⟨rfl, rfl⟩)
      rfl (by decide) (by decide)).1 _ _ (by decide) rfl, by rfl⟩

/-- The loop of `decodeMapFromStruct` over a list of fields is the loop over a first part
followed by the loop over the rest. -/
theorem structLoop_append (dec : Dec) (mfl : Flags) (rest : List StructField)
    (vrest : List Val) :
    ∀ (pre : List StructField) (vpre : List Val) (m : Val), pre.length = vpre.length →
      decodeMapFromStructLoop dec mfl (pre ++ rest) (vpre ++ vrest) m =
        (decodeMapFromStructLoop dec mfl pre vpre m).bind (afterFields dec mfl rest vrest)
  | [], [], m, _ => by simp [decodeMapFromStructLoop, afterFields]
  | [], _ :: _, _, h => by simp at h
  | _ :: _, [], _, h => by simp at h
  | f :: pre, v :: vpre, m, h => by
      have hlen : pre.length = vpre.length := by simpa using h
      have ih := fun m2 => structLoop_append dec mfl rest vrest pre vpre m2 hlen
      have ih2 : ∀ m2, decodeMapFromStructLoop dec mfl (pre.append rest) (vpre.append vrest) m2 =
          (decodeMapFromStructLoop dec mfl pre vpre m2).bind (afterFields dec mfl rest vrest) := ih
      simp only [List.cons_append, decodeMapFromStructLoop]
      by_cases hp : f.PkgPath ≠ ""
      · simp only [if_pos hp, ih2]
      · simp only [if_neg hp]
        cases v.TypeOf with
        | panic s => rfl
        | outOfFuel => rfl
        | ok vt =>
          simp only [Res.bind_ok]
          cases m.TypeOf with
          | panic s => rfl
          | outOfFuel => rfl
          | ok mt =>
            simp only [Res.bind_ok]
            cases mt.Elem with
            | panic s => rfl
            | outOfFuel => rfl
            | ok et =>
              simp only [Res.bind_ok]
              by_cases ha : vt.AssignableTo et = true
              · simp only [ha, Bool.not_true, Bool.false_eq_true, if_false]
                generalize (if ((stringsSplit (tagGet f.Tag tagName)).tail.any
                  fun tag => tag == "omitempty") = true then isEmptyValue v else Res.ok false) = sk
                cases sk with
                | panic s => rfl
                | outOfFuel => rfl
                | ok skip =>
                  simp only [Res.bind_ok]
                  cases skip with
                  | true => simp only [if_true, ih2]
                  | false =>
                    simp only [Bool.false_eq_true, if_false]
                    split
                    · exact ih2 m
                    · split
                      · cases mt.mapTypes with
                        | panic s => rfl
                        | outOfFuel => rfl
                        | ok kt =>
                          simp only [Res.bind_ok]
                          cases dec _ (Val.ptr (Ty.ptr vt) v) (Val.map (Ty.map kt.1 kt.2) [])
                              Flags.made with
                          | panic s => rfl
                          | outOfFuel => rfl
                          | ok r =>
                            obtain ⟨w, e⟩ := r
                            cases e with
                            | some err => simp [afterFields]
                            | none =>
                              simp only [Res.bind_ok]
                              cases m.SetMapIndex mfl _ w with
                              | panic s => rfl
                              | outOfFuel => rfl
                              | ok m2 => simp only [Res.bind_ok, ih2]
                      · cases m.SetMapIndex mfl _ v with
                        | panic s => rfl
                        | outOfFuel => rfl
                        | ok m2 => simp only [Res.bind_ok, ih2]
              · simp [ha, afterFields]

/-- Storing an entry in a map that is not nil gives a map of the same type. -/
theorem SetMapIndex_map (mt : Ty) (old : List (Val × Val)) (mfl : Flags) (k e m2 : Val)
    (h : (Val.map mt old).SetMapIndex mfl k e = Res.ok m2) : ∃ es, m2 = Val.map mt es := by
  revert h
  simp only [Val.SetMapIndex]
  split
  · intro h; cases h
  · cases mt.mapTypes with
    | panic s => intro h; cases h
    | outOfFuel => intro h; cases h
    | ok kt =>
      simp only [Res.bind_ok]
      cases assignTo "reflect.Value.SetMapIndex" k kt.1 with
      | panic s => intro h; cases h
      | outOfFuel => intro h; cases h
      | ok k2 =>
        simp only [Res.bind_ok]
        cases assignTo "reflect.Value.SetMapIndex" e kt.2 with
        | panic s => intro h; cases h
        | outOfFuel => intro h; cases h
        | ok e2 =>
          simp only [Res.bind_ok]
          split
          · intro h
            simp only [Res.ok.injEq] at h
            exact ⟨_, h.symm⟩
          · intro h; cases h

/-- The loop of `decodeMapFromStruct` on a map that is not nil leaves a map of the same
type. -/
theorem structLoop_map (dec : Dec) (mfl : Flags) (mt : Ty) :
    ∀ (fs : List StructField) (vs : List Val) (old : List (Val × Val))
      (r : Val × Option GoError),
      decodeMapFromStructLoop dec mfl fs vs (Val.map mt old) = Res.ok r →
      ∃ es, r.1 = Val.map mt es
  | [], _, old, r, h => by
      simp only [decodeMapFromStructLoop, Res.ok.injEq] at h
      exact ⟨old, by rw [← h]⟩
  | f :: fs, [], old, r, h => by
      simp only [decodeMapFromStructLoop] at h
      split at h
      · exact structLoop_map dec mfl mt fs [] old r h
      · cases h
  | f :: fs, v :: vs, old, r, h => by
      have ih := fun old2 => structLoop_map dec mfl mt fs vs old2 r
      have hmT : (Val.map mt old).TypeOf = Res.ok mt := rfl
      have hstore : ∀ (k e : Val),
          ((Val.map mt old).SetMapIndex mfl k e).bind
              (fun m => decodeMapFromStructLoop dec mfl fs vs m) = Res.ok r →
          ∃ es, r.1 = Val.map mt es := by
        intro k e
        cases hs : (Val.map mt old).SetMapIndex mfl k e with
        | panic s => intro h; cases h
        | outOfFuel => intro h; cases h
        | ok m2 =>
          obtain ⟨es2, rfl⟩ := SetMapIndex_map mt old mfl _ _ m2 hs
          simp only [Res.bind_ok]
          exact ih es2
      revert h
      simp only [decodeMapFromStructLoop, hmT, Res.bind_ok]
      by_cases hp : f.PkgPath ≠ ""
      · simp only [if_pos hp]
        exact ih old
      · simp only [if_neg hp]
        cases v.TypeOf with
        | panic s => intro h; cases h
        | outOfFuel => intro h; cases h
        | ok vt =>
          simp only [Res.bind_ok]
          cases mt.Elem with
          | panic s => intro h; cases h
          | outOfFuel => intro h; cases h
          | ok et =>
            simp only [Res.bind_ok]
            by_cases ha : vt.AssignableTo et = true
            · simp only [ha, Bool.not_true, Bool.false_eq_true, if_false]
              generalize (if ((stringsSplit (tagGet f.Tag tagName)).tail.any
                fun tag => tag == "omitempty") = true then isEmptyValue v else Res.ok false) = sk
              cases sk with
              | panic s => intro h; cases h
              | outOfFuel => intro h; cases h
              | ok skip =>
                simp only [Res.bind_ok]
                cases skip with
                | true =>
                  simp only [if_true]
                  exact ih old
                | false =>
                  simp only [Bool.false_eq_true, if_false]
                  split
                  · exact ih old
                  · split
                    · cases mt.mapTypes with
                      | panic s => intro h; cases h
                      | outOfFuel => intro h; cases h
                      | ok kt =>
                        simp only [Res.bind_ok]
                        cases dec (if (stringsSplit (tagGet f.Tag tagName)).headD "" ≠ ""
                            then (stringsSplit (tagGet f.Tag tagName)).headD "" else f.Name)
                            (Val.ptr (Ty.ptr vt) v) (Val.map (Ty.map kt.1 kt.2) [])
                            Flags.made with
                        | panic s => intro h; cases h
                        | outOfFuel => intro h; cases h
                        | ok r2 =>
                          obtain ⟨w, e⟩ := r2
                          simp only [Res.bind_ok]
                          cases e with
                          | some err =>
                            intro h
                            simp only [Res.ok.injEq] at h
                            exact ⟨old, by rw [← h]⟩
                          | none => exact hstore _ _
                    · exact hstore _ _
            · simp only [ha, Bool.not_false, if_true, Res.ok.injEq]
              intro h
              exact ⟨old, by rw [← h]⟩

/-- The loop of `decodeMapFromStruct` over unexported fields leaves the map as it is. -/
theorem structLoop_unexported (dec : Dec) (mfl : Flags) :
    ∀ (pre : List StructField) (vpre : List Val) (m : Val),
      (∀ g ∈ pre, g.PkgPath ≠ "") →
      decodeMapFromStructLoop dec mfl pre vpre m = Res.ok (m, none)
  | [], _, _, _ => by simp [decodeMapFromStructLoop]
  | g :: pre, [], m, h => by
      have hg := h g (List.mem_cons_self _ _)
      simp only [decodeMapFromStructLoop, if_pos hg]
      exact structLoop_unexported dec mfl pre [] m (fun x hx => h x (List.mem_cons_of_mem _ hx))
  | g :: pre, v :: vpre, m, h => by
      have hg := h g (List.mem_cons_self _ _)
      simp only [decodeMapFromStructLoop, if_pos hg]
      exact structLoop_unexported dec mfl pre vpre m (fun x hx => h x (List.mem_cons_of_mem _ hx))

/-- C33 fails as stated.  A struct with `Value: "x"` and `Count: 5` decoded into a
`map[string]string` that holds `old: o` returns the error for `Count`, and the target has
gained the entry `Value: x` of the field before it. -/
theorem failed_conversion_keeps_earlier_entries :
    Decode stdLib 1
        (Val.ptr (Ty.ptr tTextThenInt) (Val.struct tTextThenInt [text "x", Val.int tInt 5]))
        (Val.ptr (Ty.ptr tMapSS) (Val.map tMapSS [(text "old", text "o")])) =
      fail (Val.ptr (Ty.ptr tMapSS)
          (Val.map tMapSS [(text "old", text "o"), (text "Value", text "x")]))
        (GoError.plain "cannot assign type 'int' to map value field of type 'string'") ∧
    Val.map tMapSS [(text "old", text "o"), (text "Value", text "x")] ≠
      Val.map tMapSS [(text "old", text "o")] := by
  refine ⟨by rfl, ?_⟩
  intro h
  simp only [Val.map.injEq, true_and] at h
  exact absurd (congrArg List.length h) (by decide)

/-- C33, amended.  Let the source be, directly or behind one pointer, a struct whose
exported field `f`, after the fields `pre`, holds a value whose type is not assignable to
the element type of the target map.  (1) When the target is not nil and the loop of
`decodeMapFromStruct` over the fields `pre` leaves it as `m1`, without an error, `decode`
returns the error `cannot assign type '<T>' to map value field of type '<E>'` and the
target is `m1`: it holds what the fields before the offending one stored, and nothing of
the offending field or of a later one.  (2) When the target is nil and the loop over the
fields `pre` returns without an error, `decode` returns the same error and the target
stays nil.  (3) When all the fields `pre` are unexported the loop over them changes
nothing, so that a target that is not nil is left exactly as it was. -/
theorem unassignable_field_stops_conversion (lib : GoLib) (fuel : Nat) (name : String)
    (data : Val) (st : Ty) (pre post : List StructField) (f : StructField)
    (vpre vpost : List Val) (v : Val) (mt kt et : Ty) (fl : Flags)
    (hsrc : Indirect data = Val.struct st (vpre ++ v :: vpost)) (hst : st.isStruct = true)
    (hfs : st.fieldsOf = pre ++ f :: post) (hlen : pre.length = vpre.length)
    (hexp : f.PkgPath = "") (hv : v.IsValid = true) (hmt : mt.underlying = Ty.map kt et)
    (hna : v.typ.AssignableTo et = false) :
    (∀ (old : List (Val × Val)) (m1 : Val),
      decodeMapFromStructLoop (decode lib fuel) fl pre vpre (Val.map mt old) =
        Res.ok (m1, none) →
      decode lib (fuel + 1) name data (Val.map mt old) fl =
        fail m1 (GoError.plain ("cannot assign type '" ++ v.typ.typeString ++
          "' to map value field of type '" ++ et.typeString ++ "'"))) ∧
    (∀ m1 : Val,
      decodeMapFromStructLoop (decode lib fuel) Flags.made pre vpre
          (Val.map (Ty.map kt et) []) = Res.ok (m1, none) →
      decode lib (fuel + 1) name data (Val.nil mt) fl =
        fail (Val.nil mt) (GoError.plain ("cannot assign type '" ++ v.typ.typeString ++
          "' to map value field of type '" ++ et.typeString ++ "'"))) ∧
    ((∀ g ∈ pre, g.PkgPath ≠ "") → ∀ old : List (Val × Val),
      decode lib (fuel + 1) name data (Val.map mt old) fl =
        fail (Val.map mt old) (GoError.plain ("cannot assign type '" ++ v.typ.typeString ++
          "' to map value field of type '" ++ et.typeString ++ "'"))) := by
  obtain ⟨htk, hsf⟩ := Ty.isStruct_facts st hst
  have hmk : mt.kind = Kind.Map := by rw [Ty.kind_of_underlying hmt]; rfl
  have hmts : mt.mapTypes = Res.ok (kt, et) := by simp only [Ty.mapTypes, hmt]
  have hdk : (Val.struct st (vpre ++ v :: vpost)).kind = Kind.Struct := htk
  have hdT : (Val.struct st (vpre ++ v :: vpost)).TypeOf = Res.ok st := rfl
  have hvt : v.TypeOf = Res.ok v.typ := by simp only [Val.TypeOf, hv, if_true]
  -- the loop stops at the offending field
  have hstop : ∀ (mfl : Flags) (m : Val) (mt2 : Ty), m.TypeOf = Res.ok mt2 →
      mt2.Elem = Res.ok et →
      decodeMapFromStructLoop (decode lib fuel) mfl (f :: post) (v :: vpost) m =
        Res.ok (m, some (GoError.plain ("cannot assign type '" ++ v.typ.typeString ++
          "' to map value field of type '" ++ et.typeString ++ "'"))) := by
    intro mfl m mt2 hm he
    simp only [decodeMapFromStructLoop, hexp, ne_eq, not_true_eq_false, if_false, hvt, hm, he,
      Res.bind_ok, hna, Bool.not_false, if_true]
  have hE : mt.Elem = Res.ok et := by simp only [Ty.Elem, hmt]
  have hloop : ∀ (mfl : Flags) (m m1 : Val) (mt2 : Ty),
      decodeMapFromStructLoop (decode lib fuel) mfl pre vpre m = Res.ok (m1, none) →
      m1.TypeOf = Res.ok mt2 → mt2.Elem = Res.ok et →
      decodeMapFromStructLoop (decode lib fuel) mfl (pre ++ f :: post) (vpre ++ v :: vpost) m =
        Res.ok (m1, some (GoError.plain ("cannot assign type '" ++ v.typ.typeString ++
          "' to map value field of type '" ++ et.typeString ++ "'"))) := by
    intro mfl m m1 mt2 h1 hm he
    rw [structLoop_append _ _ _ _ pre vpre m hlen, h1]
    simp only [Res.bind_ok, afterFields]
    exact hstop mfl m1 mt2 hm he
  have hgk : ∀ m : Val, m.typ = mt → m.IsValid = true → getKind m = Kind.Map := by
    intro m hm hmv
    have : m.kind = mt.kind := by
      cases m with
      | invalid => simp [Val.IsValid] at hmv
      | _ => exact congrArg Ty.kind hm
    simp [getKind_eq, this, hmk, Kind.family, Kind.toNat]
  have h1 : ∀ (old : List (Val × Val)) (m1 : Val),
      decodeMapFromStructLoop (decode lib fuel) fl pre vpre (Val.map mt old) =
        Res.ok (m1, none) →
      decode lib (fuel + 1) name data (Val.map mt old) fl =
        fail m1 (GoError.plain ("cannot assign type '" ++ v.typ.typeString ++
          "' to map value field of type '" ++ et.typeString ++ "'")) := by
    intro old m1 hpre
    obtain ⟨es, hes⟩ := structLoop_map _ _ _ _ _ _ _ hpre
    simp only at hes
    subst hes
    have hl := hloop fl (Val.map mt old) (Val.map mt es) mt hpre rfl hE
    rw [decode_dispatch lib fuel name data _ fl (by rw [hsrc]; rfl), hgk (Val.map mt old) rfl rfl]
    have hT : (Val.map mt old).TypeOf = Res.ok mt := rfl
    have hN : (Val.map mt old).IsNil = Res.ok false := by
      simp [Val.IsNil, Val.kind, Val.typ, hmk]
    simp only [decodeMap, hT, hmts, Res.bind_ok, hN, Bool.false_eq_true, if_false, hsrc, hdk,
      decodeMapFromStruct, hdT, hsf, hfs, Val.fieldVals, hl, Val.isNilVal]
  refine ⟨h1, ?_, ?_⟩
  · intro m1 hpre
    obtain ⟨es, hes⟩ := structLoop_map _ _ _ _ _ _ _ hpre
    simp only at hes
    subst hes
    have hl := hloop Flags.made (Val.map (Ty.map kt et) []) (Val.map (Ty.map kt et) es)
      (Ty.map kt et) hpre rfl rfl
    rw [decode_dispatch lib fuel name data _ fl (by rw [hsrc]; rfl), hgk (Val.nil mt) rfl rfl]
    have hT : (Val.nil mt).TypeOf = Res.ok mt := rfl
    have hN : (Val.nil mt).IsNil = Res.ok true := by
      simp [Val.IsNil, Val.kind, Val.typ, hmk]
    simp only [decodeMap, hT, hmts, Res.bind_ok, hN, if_true, hsrc, hdk,
      decodeMapFromStruct, hdT, hsf, hfs, Val.fieldVals, hl, Val.isNilVal]
  · intro hun old
    exact h1 old _ (structLoop_unexported _ _ pre vpre _ hun)

/-- C33, amended, at a struct with `Value: "x"` and `Count: 5` decoded into a
`map[string]string` that holds `old: o`, and at the struct of the table test "decode to
wrong map type" decoded into an empty `map[string]int`, which stays empty. -/
theorem unassignable_field_stops_conversion_witness :
    decode stdLib 1 ""
        (Val.ptr (Ty.ptr tTextThenInt) (Val.struct tTextThenInt [text "x", Val.int tInt 5]))
        (Val.map tMapSS [(text "old", text "o")]) Flags.fresh =
      fail (Val.map tMapSS [(text "old", text "o"), (text "Value", text "x")])
        (GoError.plain "cannot assign type 'int' to map value field of type 'string'") ∧
    decode stdLib 1 ""
        (Val.ptr (Ty.ptr (Ty.struct [plainField "Value" tString]))
          (Val.struct (Ty.struct [plainField "Value" tString]) [text "string"]))
        (Val.map (Ty.map tString tInt) []) Flags.fresh =
      fail (Val.map (Ty.map tString tInt) [])
        (GoError.plain "cannot assign type 'string' to map value field of type 'int'") :=
  ⟨(unassignable_field_stops_conversion stdLib 0 ""
      (Val.ptr (Ty.ptr tTextThenInt) (Val.struct tTextThenInt [text "x", Val.int tInt 5]))
      tTextThenInt [plainField "Value" tString] [] (plainField "Count" tInt) [text "x"] []
      (Val.int tInt 5) tMapSS tString tString Flags.fresh rfl rfl rfl rfl rfl rfl rfl rfl).1
      [(text "old", text "o")] (Val.map tMapSS [(text "old", text "o"), (text "Value", text "x")])
      (by rfl),
   (unassignable_field_stops_conversion stdLib 0 ""
      (Val.ptr (Ty.ptr (Ty.struct [plainField "Value" tString]))
        (Val.struct (Ty.struct [plainField "Value" tString]) [text "string"]))
      (Ty.struct [plainField "Value" tString]) [] [] (plainField "Value" tString) [] []
      (text "string") (Ty.map tString tInt) tString tInt Flags.fresh rfl rfl rfl rfl rfl rfl
      rfl rfl).2.2 (by simp) []⟩

/-- C34 fails on the code for a nil source whose type cannot be assigned to the type of the
target.  The branch of `decodeMapFromMap` for a source of length zero, on a settable
target of map type `t`: (1) a nil source leaves a nil target nil; (2) a nil source whose
type can be assigned to `t` resets a target that is not nil to nil, so that its entries
are lost; (3) a nil source whose type cannot be assigned to `t`, such as a nil
`map[string]interface{}` for a `map[string]string`, makes `val.Set(dataVal)` abort on a
target that is not nil; (4) an allocated empty source makes a nil target an allocated
empty map; (5) an allocated empty source leaves a target that is not nil with all its
entries. -/
theorem zero_length_map_branch (dec : Dec) (lib : GoLib) (name : String)
    (st t skt se kt et : Ty) (old : List (Val × Val)) (fl : Flags)
    (hst : st.underlying = Ty.map skt se) (ht : t.underlying = Ty.map kt et)
    (hset : fl.CanSet = true) :
    decodeMapFromMap dec lib name (Val.nil st) (Val.nil t) fl (Val.map (Ty.map kt et) [])
        Flags.made = done (Val.nil t) ∧
    (directlyAssignable st t = true →
      decodeMapFromMap dec lib name (Val.nil st) (Val.map t old) fl (Val.map t old) fl =
        done (Val.nil t)) ∧
    (directlyAssignable st t = false →
      decodeMapFromMap dec lib name (Val.nil st) (Val.map t old) fl (Val.map t old) fl =
        Res.panic ("reflect.Set: value of type " ++ st.typeString ++
          " is not assignable to type " ++ t.typeString)) ∧
    decodeMapFromMap dec lib name (Val.map st []) (Val.nil t) fl (Val.map (Ty.map kt et) [])
        Flags.made = done (Val.map t []) ∧
    decodeMapFromMap dec lib name (Val.map st []) (Val.map t old) fl (Val.map t old) fl =
      done (Val.map t old) := by
  have hsk : st.kind = Kind.Map := by rw [Ty.kind_of_underlying hst]; rfl
  have htk : t.kind = Kind.Map := by rw [Ty.kind_of_underlying ht]; rfl
  have hro : fl.ro = false := by
    simp only [Flags.CanSet, Bool.and_eq_true, Bool.not_eq_true'] at hset
    exact hset.2
  have haddr : fl.addr = true := by
    simp only [Flags.CanSet, Bool.and_eq_true] at hset
    exact hset.1
  have hmts : t.mapTypes = Res.ok (kt, et) := by simp only [Ty.mapTypes, ht]
  have hT1 : (Val.nil t).TypeOf = Res.ok t := rfl
  have hT2 : (Val.map t old).TypeOf = Res.ok t := rfl
  have hL1 : (Val.nil st).Len = Res.ok 0 := by simp [Val.Len, Val.kind, Val.typ, hsk]
  have hL2 : (Val.map st []).Len = Res.ok 0 := by simp [Val.Len, Val.kind, Val.typ, hsk]
  have hN1 : (Val.nil st).IsNil = Res.ok true := by simp [Val.IsNil, Val.kind, Val.typ, hsk]
  have hN2 : (Val.map st []).IsNil = Res.ok false := by
    simp [Val.IsNil, Val.kind, Val.typ, hsk]
  have hN3 : (Val.nil t).IsNil = Res.ok true := by simp [Val.IsNil, Val.kind, Val.typ, htk]
  have hN4 : (Val.map t old).IsNil = Res.ok false := by
    simp [Val.IsNil, Val.kind, Val.typ, htk]
  have hnotiface : (t.kind == Kind.Interface) = false := by rw [htk]; rfl
  refine ⟨?_, ?_, ?_, ?_, ?_⟩
  · simp only [decodeMapFromMap, hT1, hmts, Res.bind_ok, hL1, if_true, hN1, hN3, Bool.not_true,
      Bool.false_eq_true, if_false]
  · intro ha
    have hS : (Val.map t old).Set fl (Val.nil st) = Res.ok (Val.nil t) := by
      simp only [directlyAssignable] at ha
      simp only [Val.Set, Val.IsValid, hro, haddr, Bool.not_true, Bool.false_eq_true, if_false,
        assignTo, Val.typ, ha, if_true, Val.withType]
    simp only [decodeMapFromMap, hT2, hmts, Res.bind_ok, hL1, if_true, hN1, hN4, Bool.not_false,
      hS]
  · intro ha
    have hS : (Val.map t old).Set fl (Val.nil st) =
        Res.panic ("reflect.Set: value of type " ++ st.typeString ++
          " is not assignable to type " ++ t.typeString) := by
      simp only [directlyAssignable] at ha
      simp only [Val.Set, Val.IsValid, hro, haddr, Bool.not_true, Bool.false_eq_true, if_false,
        assignTo, Val.typ, ha, hnotiface, Bool.false_and]
      rfl
    simp only [decodeMapFromMap, hT2, hmts, Res.bind_ok, hL1, if_true, hN1, hN4, Bool.not_false,
      hS, Res.bind_panic]
  · have hS : (Val.nil t).Set fl (Val.map (Ty.map kt et) []) = Res.ok (Val.map t []) := by
      have h1 : ((Ty.map kt et == t) ||
          (!(t.hasName && (Ty.map kt et).hasName) &&
            ((Ty.map kt et).underlying == t.underlying))) = true := by
        simp [Ty.hasName, Ty.underlying, ht, Ty.beq_self]
      simp only [Val.Set, Val.IsValid, hro, haddr, Bool.not_true, Bool.false_eq_true, if_false,
        assignTo, Val.typ, h1, if_true, Val.withType]
    simp only [decodeMapFromMap, hT1, hmts, Res.bind_ok, hL2, if_true, hN2, Bool.false_eq_true,
      if_false, hS]
  · have hS : (Val.map t old).Set fl (Val.map t old) = Res.ok (Val.map t old) := by
      simp only [Val.Set, Val.IsValid, hro, haddr, Bool.not_true, Bool.false_eq_true, if_false]
      exact assignTo_same _ (Val.map t old) rfl
    simp only [decodeMapFromMap, hT2, hmts, Res.bind_ok, hL2, if_true, hN2, Bool.false_eq_true,
      if_false, hS]

/-- C34 at its failing input: a nil `map[string]interface{}` decoded into a
`map[string]string` that holds `foo: bar` aborts in `decodeMapFromMap` and in `Decode`,
while a nil `map[string]string` resets the same target to nil. -/
theorem zero_length_map_branch_witness :
    decodeMapFromMap (decode stdLib 0) stdLib "" (Val.nil tMapSI)
        (Val.map tMapSS [(text "foo", text "bar")]) Flags.fresh
        (Val.map tMapSS [(text "foo", text "bar")]) Flags.fresh =
      Res.panic ("reflect.Set: value of type map[string]interface {} is not assignable " ++
        "to type map[string]string") ∧
    Decode stdLib 1 (Val.nil tMapSI)
        (Val.ptr (Ty.ptr tMapSS) (Val.map tMapSS [(text "foo", text "bar")])) =
      Res.panic ("reflect.Set: value of type map[string]interface {} is not assignable " ++
        "to type map[string]string") ∧
    Decode stdLib 1 (Val.nil tMapSS)
        (Val.ptr (Ty.ptr tMapSS) (Val.map tMapSS [(text "foo", text "bar")])) =
      done (Val.ptr (Ty.ptr tMapSS) (Val.nil tMapSS)) :=
  ⟨((zero_length_map_branch (decode stdLib 0) stdLib "" tMapSI tMapSS tString emptyInterface
      tString tString [(text "foo", text "bar")] Flags.fresh rfl rfl rfl).2.2.1 (by rfl)).trans
      (by rfl), by rfl, by rfl⟩

/-- A type identical to `json.Number` has the kind `string`. -/
theorem Ty.kind_of_beq_jsonNumber (t : Ty) (h : (t == jsonNumber) = true) :
    t.kind = Kind.String := by
  have h2 : Ty.beq t jsonNumber = true := h
  cases t with
  | named p n ms u =>
    simp only [jsonNumber, Ty.beq, Bool.and_eq_true] at h2
    have h3 := h2.2
    cases u with
    | basic k =>
      simp only [Ty.beq, beq_iff_eq] at h3
      simp [Ty.kind, h3]
    | _ => simp [Ty.beq] at h3
  | _ => simp [jsonNumber, Ty.beq] at h2

/-- C35 fails on the code for a pointer to a `json.Number` decoded into a number.  Let `x`
be a valid value that is no pointer and `p` a pointer to `x`.  (1) The converters for
booleans, texts, unsigned integers, functions, structs, maps, slices and arrays give the
same outcome for `p` as for `x`, whatever the recursive decoder.  (2) So do the converters
for integers and floating-point numbers when `x` is a number or its type is not
`encoding/json.Number`.  (3) When `x` is a `json.Number`, the converters for integers and
floating-point numbers abort for `p`, in the type assertion `data.(json.Number)`, which
is made on the source before the dereference.  (4) `decodePtr` gives the same outcome
for `p` as for `x` when its recursive decoder does.  (5) The method `decode` gives the
same outcome for `p` as for `x` on every target that is no interface and no pointer,
unless the target is an integer or a floating-point number and `x` is a `json.Number`. -/
theorem source_pointer_transparency (lib : GoLib) (name : String) (x : Val) (pt : Ty)
    (val : Val) (fl : Flags) (hx : x.IsValid = true) (hxk : x.kind ≠ Kind.Ptr)
    (hpt : pt.kind = Kind.Ptr) :
    (decodeBool name (Val.ptr pt x) val fl = decodeBool name x val fl ∧
      decodeString name (Val.ptr pt x) val fl = decodeString name x val fl ∧
      decodeUint lib name (Val.ptr pt x) val fl = decodeUint lib name x val fl ∧
      decodeFunc name (Val.ptr pt x) val fl = decodeFunc name x val fl ∧
      ∀ dec : Dec,
        decodeStruct dec lib name (Val.ptr pt x) val fl = decodeStruct dec lib name x val fl ∧
        decodeMap dec lib name (Val.ptr pt x) val fl = decodeMap dec lib name x val fl ∧
        decodeSlice dec name (Val.ptr pt x) val fl = decodeSlice dec name x val fl ∧
        decodeArray dec name (Val.ptr pt x) val fl = decodeArray dec name x val fl) ∧
    ((getKind x = Kind.Int ∨ getKind x = Kind.Uint ∨ getKind x = Kind.Float32 ∨
        ¬ (x.typ.PkgPath = "encoding/json" ∧ x.typ.Name = "Number")) →
      decodeInt lib name (Val.ptr pt x) val fl = decodeInt lib name x val fl ∧
      decodeFloat lib name (Val.ptr pt x) val fl = decodeFloat lib name x val fl) ∧
    (x.typ = jsonNumber →
      decodeInt lib name (Val.ptr pt x) val fl =
        Res.panic "interface conversion: interface is not json.Number" ∧
      decodeFloat lib name (Val.ptr pt x) val fl =
        Res.panic "interface conversion: interface is not json.Number") ∧
    (∀ dec : Dec,
      (∀ (cur : Val) (cfl : Flags), dec name (Val.ptr pt x) cur cfl = dec name x cur cfl) →
      decodePtr dec name (Val.ptr pt x) val fl = decodePtr dec name x val fl) ∧
    (∀ fuel : Nat, getKind val ≠ Kind.Interface → getKind val ≠ Kind.Ptr →
      ((getKind val ≠ Kind.Int ∧ getKind val ≠ Kind.Float32) ∨
        ¬ (x.typ.PkgPath = "encoding/json" ∧ x.typ.Name = "Number")) →
      decode lib (fuel + 1) name (Val.ptr pt x) val fl = decode lib (fuel + 1) name x val fl) := by
  have hpK : (Val.ptr pt x).kind = Kind.Ptr := hpt
  have hIp : Indirect (Val.ptr pt x) = x := by simp [Indirect, hpK]
  have hIx : Indirect x = x := by simp [Indirect, hxk]
  have hpv : (Val.ptr pt x).IsValid = true := rfl
  have hxT : x.TypeOf = Res.ok x.typ := by simp only [Val.TypeOf, hx, if_true]
  have h1 : decodeBool name (Val.ptr pt x) val fl = decodeBool name x val fl ∧
      decodeString name (Val.ptr pt x) val fl = decodeString name x val fl ∧
      decodeUint lib name (Val.ptr pt x) val fl = decodeUint lib name x val fl ∧
      decodeFunc name (Val.ptr pt x) val fl = decodeFunc name x val fl ∧
      ∀ dec : Dec,
        decodeStruct dec lib name (Val.ptr pt x) val fl = decodeStruct dec lib name x val fl ∧
        decodeMap dec lib name (Val.ptr pt x) val fl = decodeMap dec lib name x val fl ∧
        decodeSlice dec name (Val.ptr pt x) val fl = decodeSlice dec name x val fl ∧
        decodeArray dec name (Val.ptr pt x) val fl = decodeArray dec name x val fl := by
    refine ⟨?_, ?_, ?_, ?_, fun dec => ⟨?_, ?_, ?_, ?_⟩⟩
    · simp only [decodeBool, hIp, hIx]
    · simp only [decodeString, hIp, hIx]
    · simp only [decodeUint, hIp, hIx]
    · simp only [decodeFunc, hIp, hIx]
    · simp only [decodeStruct, hIp, hIx]
    · simp only [decodeMap, hIp, hIx]
    · simp only [decodeSlice, hIp, hIx]
    · simp only [decodeArray, hIp, hIx]
  have h2 : (getKind x = Kind.Int ∨ getKind x = Kind.Uint ∨ getKind x = Kind.Float32 ∨
        ¬ (x.typ.PkgPath = "encoding/json" ∧ x.typ.Name = "Number")) →
      decodeInt lib name (Val.ptr pt x) val fl = decodeInt lib name x val fl ∧
      decodeFloat lib name (Val.ptr pt x) val fl = decodeFloat lib name x val fl := by
    intro h
    simp only [decodeInt, decodeFloat, hIp, hIx, hxT, Res.bind_ok]
    rcases h with h | h | h | h
    · simp only [h, if_true, and_self]
    · simp only [h, if_true, and_self]
    · simp only [h, if_true, and_self]
    · simp only [h, if_false, and_self]
  have hnum : x.typ = jsonNumber →
      decodeInt lib name (Val.ptr pt x) val fl =
        Res.panic "interface conversion: interface is not json.Number" ∧
      decodeFloat lib name (Val.ptr pt x) val fl =
        Res.panic "interface conversion: interface is not json.Number" := by
    intro hj
    have hxk2 : x.kind = Kind.String := by
      cases x with
      | invalid => simp [Val.IsValid] at hx
      | _ => exact (congrArg Ty.kind hj).trans rfl
    have hg : getKind x = Kind.String := by
      simp [getKind_eq, hxk2, Kind.family, Kind.toNat]
    have hne : ((Val.ptr pt x).typ == jsonNumber) = false := by
      by_contra hc
      have := Ty.kind_of_beq_jsonNumber pt (by simpa using hc)
      rw [hpt] at this
      exact absurd this (by decide)
    have hp : x.typ.PkgPath = "encoding/json" ∧ x.typ.Name = "Number" := by
      rw [hj]
      exact ⟨rfl, rfl⟩
    simp only [decodeInt, decodeFloat, hIp, hxT, Res.bind_ok, hg, hp, and_self, if_true, hne,
      Bool.false_eq_true, if_false]
    constructor <;> rfl
  have h4 : ∀ dec : Dec,
      (∀ (cur : Val) (cfl : Flags), dec name (Val.ptr pt x) cur cfl = dec name x cur cfl) →
      decodePtr dec name (Val.ptr pt x) val fl = decodePtr dec name x val fl := by
    intro dec hdec
    simp only [decodePtr, hIp, hIx, hpv, hx, hdec]
  refine ⟨h1, h2, hnum, h4, ?_⟩
  intro fuel hni hnp hnn
  rw [decode_dispatch lib fuel name _ val fl (by rw [hIp]; exact hx),
    decode_dispatch lib fuel name x val fl (by rw [hIx]; exact hx)]
  obtain ⟨hb, hs, hu, hf, hrest⟩ := h1
  obtain ⟨hst, hm, hsl, har⟩ := hrest (decode lib fuel)
  cases hk : getKind val
  all_goals try simp only
  all_goals first
    | exact absurd hk hni
    | exact absurd hk hnp
    | exact hb
    | exact hs
    | exact hu
    | exact hf
    | exact hst
    | exact hm
    | exact hsl
    | exact har
    | rfl
    | skip
  · rcases hnn with h | h
    · exact absurd hk h.1
    · exact (h2 (Or.inr (Or.inr (Or.inr h)))).1
  · rcases hnn with h | h
    · exact absurd hk h.2
    · exact (h2 (Or.inr (Or.inr (Or.inr h)))).2

/-- C35 at its failing input: a pointer to the `json.Number` 42 decoded into an `int`
aborts, in `decodeInt` and through `Decode`, while the `json.Number` itself gives 42; a
pointer to a text decoded into a text is stored like the text. -/
theorem source_pointer_transparency_witness :
    decodeInt stdLib "" (Val.ptr (Ty.ptr jsonNumber) (Val.str jsonNumber "42"))
        (Val.int tInt 0) Flags.fresh =
      Res.panic "interface conversion: interface is not json.Number" ∧
    Decode stdLib 1 (Val.ptr (Ty.ptr jsonNumber) (Val.str jsonNumber "42"))
        (Val.ptr (Ty.ptr tInt) (Val.int tInt 0)) =
      Res.panic "interface conversion: interface is not json.Number" ∧
    Decode stdLib 1 (Val.str jsonNumber "42") (Val.ptr (Ty.ptr tInt) (Val.int tInt 0)) =
      done (Val.ptr (Ty.ptr tInt) (Val.int tInt 42)) ∧
    Decode stdLib 1 (Val.ptr (Ty.ptr tString) (text "a")) (Val.ptr (Ty.ptr tString) (text "")) =
      Decode stdLib 1 (text "a") (Val.ptr (Ty.ptr tString) (text "")) :=
  ⟨((source_pointer_transparency stdLib "" (Val.str jsonNumber "42") (Ty.ptr jsonNumber)
      (Val.int tInt 0) Flags.fresh rfl (by decide) rfl).2.2.1 rfl).1, by rfl, by rfl, by rfl⟩

/-- The slower search returns the first key it takes. -/
theorem findFold_eq_find (lib : GoLib) (n : String) :
    ∀ ks : List Val, findFold lib n ks = ks.find? (foldMatch lib n)
  | [] => rfl
  | k :: ks => by
      have ih := findFold_eq_find lib n ks
      simp only [findFold, List.find?, foldMatch]
      cases k.Interface with
      | panic s => simpa using ih
      | outOfFuel => simpa using ih
      | ok d =>
        cases d with
        | str t mK =>
          simp only
          by_cases hc : (t == Ty.basic Kind.String && lib.EqualFold mK n) = true
          · simp only [hc, if_true]
          · have hc2 : (t == Ty.basic Kind.String && lib.EqualFold mK n) = false := by
              simpa using hc
            simp only [hc2, Bool.false_eq_true, if_false]
            simpa [foldMatch] using ih
        | _ => simpa [foldMatch] using ih

/-- The first element with a property does not depend on the order of a list in which at
most one element has the property. -/
theorem find_perm_unique {α : Type} (p : α → Bool) (l1 l2 : List α) (hperm : l1.Perm l2)
    (hu : ∀ a ∈ l1, ∀ b ∈ l1, p a = true → p b = true → a = b) :
    l1.find? p = l2.find? p := by
  cases h1 : l1.find? p with
  | none =>
    symm
    rw [List.find?_eq_none] at h1 ⊢
    intro x hx
    exact h1 x (hperm.mem_iff.2 hx)
  | some a =>
    have ha := List.mem_of_find?_eq_some h1
    have hpa := List.find?_some h1
    cases h2 : l2.find? p with
    | none =>
      rw [List.find?_eq_none] at h2
      exact absurd hpa (by simpa using h2 a (hperm.mem_iff.1 ha))
    | some b =>
      have hb := List.mem_of_find?_eq_some h2
      have hpb := List.find?_some h2
      rw [hu a ha b (hperm.mem_iff.2 hb) hpa hpb]

/-- The slower search does not depend on the order of the keys when it takes at most one
of them. -/
theorem findFold_perm (lib : GoLib) (n : String) (ks1 ks2 : List Val) (hperm : ks1.Perm ks2)
    (hu : uniqueFold lib ks1 n) : findFold lib n ks1 = findFold lib n ks2 := by
  rw [findFold_eq_find, findFold_eq_find]
  exact find_perm_unique _ ks1 ks2 hperm hu

/-- The source entry of a field does not depend on the order of the keys when the source
has the name of the field as a key or the slower search takes at most one key. -/
theorem resolveField_perm (lib : GoLib) (m1 m2 : Val) (ks1 ks2 : List Val) (n : String)
    (hperm : ks1.Perm ks2) (hidx : ∀ k : Val, m1.MapIndex k = m2.MapIndex k)
    (hu : (∃ raw, m1.MapIndex (Val.str (Ty.basic Kind.String) n) = Res.ok raw ∧
        raw.IsValid = true) ∨ uniqueFold lib ks1 n) :
    resolveField lib m1 ks1 n = resolveField lib m2 ks2 n := by
  simp only [resolveField, hidx]
  rcases hu with ⟨raw, hraw, hv⟩ | hu
  · rw [hidx] at hraw
    simp only [hraw, Res.bind_ok, hv, Bool.not_true, Bool.false_eq_true, if_false]
  · rw [findFold_perm lib n ks1 ks2 hperm hu]

/-- The loop of `decodeStructFromMap` does not depend on the order of the keys when every
field has its name as a key of the source or the slower search takes at most one key for
it. -/
theorem decodeStructFields_perm (dec : Dec) (lib : GoLib) (name : String) (m1 m2 : Val)
    (ks1 ks2 : List Val) (fl : Flags) (hperm : ks1.Perm ks2)
    (hidx : ∀ k : Val, m1.MapIndex k = m2.MapIndex k) :
    ∀ (fs : List StructField) (vs : List Val) (errors : List String),
      (∀ f ∈ fs,
        (∃ raw, m1.MapIndex (Val.str (Ty.basic Kind.String) (effectiveName f)) = Res.ok raw ∧
          raw.IsValid = true) ∨ uniqueFold lib ks1 (effectiveName f)) →
      decodeStructFields dec lib name m1 ks1 fl fs vs errors =
        decodeStructFields dec lib name m2 ks2 fl fs vs errors
  | [], _, _, _ => by simp [decodeStructFields]
  | _ :: _, [], _, _ => by simp [decodeStructFields]
  | f :: fs, v :: vs, errors, h => by
      have hr := resolveField_perm lib m1 m2 ks1 ks2 (effectiveName f) hperm hidx
        (h f (List.mem_cons_self _ _))
      have ih := fun errs => decodeStructFields_perm dec lib name m1 m2 ks1 ks2 fl hperm hidx
        fs vs errs (fun f2 h2 => h f2 (List.mem_cons_of_mem _ h2))
      rw [decodeStructFields_cons, decodeStructFields_cons]
      simp only [fieldOutcome, hr, ih]

/-- The messages of a source entry are those of its outcome. -/
theorem entryOutcome_messages (dec : Dec) (lib : GoLib) (name : String) (src : Val)
    (kt et : Ty) (k : Val) (out : Option GoError)
    (h : entryOutcome dec lib name src kt et k out) :
    errorStrings out = entryMessages dec lib name src kt et k := by
  obtain ⟨kd, w, hk, h | h⟩ := h
  · obtain ⟨err, rfl, hd⟩ := h
    simp only [entryMessages, hk, entryPath, hd]
  · obtain ⟨hd, vd, w2, hv, hd2⟩ := h
    simp only [entryMessages, hk, entryPath, hd, hv, hd2]

/-- The loop of `decodeMapFromMap` when the conversions of all entries return: the upsert
of the spec and the messages of the entries, in the order of the keys. -/
theorem decodeMapFromMapLoop_full (dec : Dec) (lib : GoLib) (name : String) (src : Val)
    (mt kt et : Ty) (mfl : Flags) (hmt : mt.mapTypes = Res.ok (kt, et))
    (hro : mfl.ro = false) (ks : List Val) (es : List (Val × Val)) (errors : List String)
    (hret : ∀ k ∈ ks, entryReturns dec lib name src kt et k) :
    decodeMapFromMapLoop dec lib name src kt et mfl ks (Val.map mt es) errors =
      Res.ok (Val.map mt (upsertConverted (entryConversion dec lib name src kt et) ks es),
        errors ++ (ks.map (entryMessages dec lib name src kt et)).flatten) := by
  obtain ⟨errors', hloop⟩ := decodeMapFromMapLoop_upsert dec lib name src mt kt et mfl hmt hro
    ks es errors hret
  obtain ⟨outs, hall, he⟩ := decodeMapFromMapLoop_messages dec lib name src kt et mfl ks _
    errors _ errors' hloop
  have hmap : ∀ (l : List Val) (o : List (Option GoError)),
      List.Forall₂ (entryOutcome dec lib name src kt et) l o →
      o.map errorStrings = l.map (entryMessages dec lib name src kt et) := by
    intro l o hf
    induction hf with
    | nil => rfl
    | cons h _ ih =>
      simp only [List.map_cons, ih, entryOutcome_messages dec lib name src kt et _ _ h]
  rw [hloop, he, hmap ks outs hall]

/-- Every key has the same value in the two enumerations. -/
theorem orderFirst_lookup (k : Val) : lookupEntry k orderFirst = lookupEntry k orderSecond := by
  cases k with
  | str t s =>
    simp only [orderFirst, orderSecond, lookupEntry, text, Val.goEq]
    by_cases h1 : s = "vfoo"
    · subst h1
      simp
    · by_cases h2 : s = "vbar"
      · subst h2
        simp
      · have e1 : ("vfoo" == s) = false := by simpa using Ne.symm h1
        have e2 : ("vbar" == s) = false := by simpa using Ne.symm h2
        simp [e1, e2]
  | _ => rfl

/-- C38 fails on the code.  On a slice target that is not nil `decodeSlice` skips the test
of the source kind and asks the source for its length: the source 42 decoded into the
slice `["a"]` aborts in `reflect.Value.Len`, with `decodeSlice` itself and through
`Decode`, while the same source decoded into a nil slice is reported as an error.  On an
array target that is not zero `decodeArray` skips the test of the source kind and of the
source length: the source 42 aborts in `reflect.Value.Len`, and a source of three texts
decoded into the array `["x", ""]` of length 2 aborts with an index out of range, while
the same sources decoded into the zero array are reported as errors. -/
theorem populated_sequence_target_aborts :
    decodeSlice (decode stdLib 0) "" (Val.int tInt 42)
        (Val.slice (Ty.slice tString) [text "a"]) Flags.fresh =
      Res.panic "reflect: call of reflect.Value.Len on a value that has no length" ∧
    Decode stdLib 1 (Val.int tInt 42)
        (Val.ptr (Ty.ptr (Ty.slice tString)) (Val.slice (Ty.slice tString) [text "a"])) =
      Res.panic "reflect: call of reflect.Value.Len on a value that has no length" ∧
    Decode stdLib 1 (Val.int tInt 42)
        (Val.ptr (Ty.ptr (Ty.slice tString)) (Val.nil (Ty.slice tString))) =
      fail (Val.ptr (Ty.ptr (Ty.slice tString)) (Val.nil (Ty.slice tString)))
        (GoError.plain "'': source data must be an array or slice, got int") ∧
    Decode stdLib 1 (Val.int tInt 42)
        (Val.ptr (Ty.ptr (Ty.array 2 tString))
          (Val.array (Ty.array 2 tString) [text "x", text ""])) =
      Res.panic "reflect: call of reflect.Value.Len on a value that has no length" ∧
    Decode stdLib 2 (Val.slice (Ty.slice tString) [text "a", text "b", text "c"])
        (Val.ptr (Ty.ptr (Ty.array 2 tString))
          (Val.array (Ty.array 2 tString) [text "x", text ""])) =
      Res.panic "reflect: array index out of range" ∧
    Decode stdLib 2 (Val.slice (Ty.slice tString) [text "a", text "b", text "c"])
        (Val.ptr (Ty.ptr (Ty.array 2 tString))
          (Val.array (Ty.array 2 tString) [text "", text ""])) =
      fail (Val.ptr (Ty.ptr (Ty.array 2 tString))
          (Val.array (Ty.array 2 tString) [text "", text ""]))
        (GoError.plain "'': expected source data to have length less or equal to 2, got 3") :=
  ⟨by rfl, by rfl, by rfl, by rfl, by rfl, by rfl⟩

/-- A datum that `decode` takes for absent makes it return nil and leave the target. -/
theorem decode_absent (lib : GoLib) (fuel : Nat) (name : String) (d out : Val) (fl : Flags)
    (h : d.IsValid = false ∨ (d.kind = Kind.Ptr ∧ d.isNilVal = true)) :
    decode lib (fuel + 1) name d out fl = done out := by
  rcases h with h | ⟨hk, hn⟩
  · simp [decode, decodeBody, h]
  · cases d with
    | nil t =>
      have hk2 : t.kind = Kind.Ptr := hk
      simp [decode, decodeBody, Val.IsValid, Val.kind, Val.typ, hk2, Val.IsNil]
    | _ => simp [Val.isNilVal] at hn

/-- A valid value that is no interface value is boxed when it is stored in a location of
type `interface{}`. -/
theorem assignTo_boxed (c : String) (v : Val) (hv : v.IsValid = true)
    (hk : v.kind ≠ Kind.Interface) (hi : v.isIface = false) :
    assignTo c v emptyInterface = Res.ok (boxed v) := by
  have hkt : v.typ.kind ≠ Kind.Interface := by
    cases v with
    | invalid => simp [Val.IsValid] at hv
    | _ => exact hk
  have h1 : (v.typ == emptyInterface) = false := by
    by_contra hc
    have := Ty.beq_iface v.typ [] (by simpa using hc)
    rw [this] at hkt
    exact hkt rfl
  have h2 : (v.typ.underlying == emptyInterface.underlying) = false := by
    by_contra hc
    have := Ty.beq_iface v.typ.underlying [] (by simpa using hc)
    have hk2 := Ty.kind_underlying v.typ
    rw [this] at hk2
    exact hkt hk2.symm
  have h3 : (emptyInterface.kind == Kind.Interface &&
      emptyInterface.methodSet.all fun m => v.typ.methodSet.contains m) = true := rfl
  simp only [assignTo, hv, Bool.not_true, Bool.false_eq_true, if_false, h1, h2,
    Bool.and_false, Bool.or_self, h3, if_true]
  cases v with
  | invalid => simp [Val.IsValid] at hv
  | nil t =>
    have : ¬ t.kind = Kind.Interface := hkt
    simp [this, boxed]
  | iface t h => simp [Val.isIface] at hi
  | _ => rfl

/-- Identical types have the same kind. -/
theorem Ty.kind_of_beq : ∀ a b : Ty, Ty.beq a b = true → a.kind = b.kind
  | .named _ _ _ u, .named _ _ _ u2, h => by
      simp only [Ty.beq, Bool.and_eq_true] at h
      simp only [Ty.kind]
      exact Ty.kind_of_beq u u2 h.2
  | .recur _ _ _ u, .recur _ _ _ u2, h => by
      simp only [Ty.beq, Bool.and_eq_true] at h
      simp only [Ty.kind]
      exact Ty.kind_of_beq u u2 h.2
  | .basic k, .basic k2, h => by
      simp only [Ty.beq, beq_iff_eq] at h
      rw [h]
  | .array _ _, .array _ _, _ => rfl
  | .chan _, .chan _, _ => rfl
  | .func _, .func _, _ => rfl
  | .iface _, .iface _, _ => rfl
  | .map _ _, .map _ _, _ => rfl
  | .ptr _, .ptr _, _ => rfl
  | .slice _, .slice _, _ => rfl
  | .struct _, .struct _, _ => rfl
  | .ref _ _, .ref _ _, _ => rfl
  | .basic _, .named _ _ _ _, h => by simp [Ty.beq] at h
  | .basic _, .array _ _, h => by simp [Ty.beq] at h
  | .basic _, .chan _, h => by simp [Ty.beq] at h
  | .basic _, .func _, h => by simp [Ty.beq] at h
  | .basic _, .iface _, h => by simp [Ty.beq] at h
  | .basic _, .map _ _, h => by simp [Ty.beq] at h
  | .basic _, .ptr _, h => by simp [Ty.beq] at h
  | .basic _, .slice _, h => by simp [Ty.beq] at h
  | .basic _, .struct _, h => by simp [Ty.beq] at h
  | .basic _, .recur _ _ _ _, h => by simp [Ty.beq] at h
  | .basic _, .ref _ _, h => by simp [Ty.beq] at h
  | .named _ _ _ _, .basic _, h => by simp [Ty.beq] at h
  | .named _ _ _ _, .array _ _, h => by simp [Ty.beq] at h
  | .named _ _ _ _, .chan _, h => by simp [Ty.beq] at h
  | .named _ _ _ _, .func _, h => by simp [Ty.beq] at h
  | .named _ _ _ _, .iface _, h => by simp [Ty.beq] at h
  | .named _ _ _ _, .map _ _, h => by simp [Ty.beq] at h
  | .named _ _ _ _, .ptr _, h => by simp [Ty.beq] at h
  | .named _ _ _ _, .slice _, h => by simp [Ty.beq] at h
  | .named _ _ _ _, .struct _, h => by simp [Ty.beq] at h
  | .named _ _ _ _, .recur _ _ _ _, h => by simp [Ty.beq] at h
  | .named _ _ _ _, .ref _ _, h => by simp [Ty.beq] at h
  | .array _ _, .basic _, h => by simp [Ty.beq] at h
  | .array _ _, .named _ _ _ _, h => by simp [Ty.beq] at h
  | .array _ _, .chan _, h => by simp [Ty.beq] at h
  | .array _ _, .func _, h => by simp [Ty.beq] at h
  | .array _ _, .iface _, h => by simp [Ty.beq] at h
  | .array _ _, .map _ _, h => by simp [Ty.beq] at h
  | .array _ _, .ptr _, h => by simp [Ty.beq] at h
  | .array _ _, .slice _, h => by simp [Ty.beq] at h
  | .array _ _, .struct _, h => by simp [Ty.beq] at h
  | .array _ _, .recur _ _ _ _, h => by simp [Ty.beq] at h
  | .array _ _, .ref _ _, h => by simp [Ty.beq] at h
  | .chan _, .basic _, h => by simp [Ty.beq] at h
  | .chan _, .named _ _ _ _, h => by simp [Ty.beq] at h
  | .chan _, .array _ _, h => by simp [Ty.beq] at h
  | .chan _, .func _, h => by simp [Ty.beq] at h
  | .chan _, .iface _, h => by simp [Ty.beq] at h
  | .chan _, .map _ _, h => by simp [Ty.beq] at h
  | .chan _, .ptr _, h => by simp [Ty.beq] at h
  | .chan _, .slice _, h => by simp [Ty.beq] at h
  | .chan _, .struct _, h => by simp [Ty.beq] at h
  | .chan _, .recur _ _ _ _, h => by simp [Ty.beq] at h
  | .chan _, .ref _ _, h => by simp [Ty.beq] at h
  | .func _, .basic _, h => by simp [Ty.beq] at h
  | .func _, .named _ _ _ _, h => by simp [Ty.beq] at h
  | .func _, .array _ _, h => by simp [Ty.beq] at h
  | .func _, .chan _, h => by simp [Ty.beq] at h
  | .func _, .iface _, h => by simp [Ty.beq] at h
  | .func _, .map _ _, h => by simp [Ty.beq] at h
  | .func _, .ptr _, h => by simp [Ty.beq] at h
  | .func _, .slice _, h => by simp [Ty.beq] at h
  | .func _, .struct _, h => by simp [Ty.beq] at h
  | .func _, .recur _ _ _ _, h => by simp [Ty.beq] at h
  | .func _, .ref _ _, h => by simp [Ty.beq] at h
  | .iface _, .basic _, h => by simp [Ty.beq] at h
  | .iface _, .named _ _ _ _, h => by simp [Ty.beq] at h
  | .iface _, .array _ _, h => by simp [Ty.beq] at h
  | .iface _, .chan _, h => by simp [Ty.beq] at h
  | .iface _, .func _, h => by simp [Ty.beq] at h
  | .iface _, .map _ _, h => by simp [Ty.beq] at h
  | .iface _, .ptr _, h => by simp [Ty.beq] at h
  | .iface _, .slice _, h => by simp [Ty.beq] at h
  | .iface _, .struct _, h => by simp [Ty.beq] at h
  | .iface _, .recur _ _ _ _, h => by simp [Ty.beq] at h
  | .iface _, .ref _ _, h => by simp [Ty.beq] at h
  | .map _ _, .basic _, h => by simp [Ty.beq] at h
  | .map _ _, .named _ _ _ _, h => by simp [Ty.beq] at h
  | .map _ _, .array _ _, h => by simp [Ty.beq] at h
  | .map _ _, .chan _, h => by simp [Ty.beq] at h
  | .map _ _, .func _, h => by simp [Ty.beq] at h
  | .map _ _, .iface _, h => by simp [Ty.beq] at h
  | .map _ _, .ptr _, h => by simp [Ty.beq] at h
  | .map _ _, .slice _, h => by simp [Ty.beq] at h
  | .map _ _, .struct _, h => by simp [Ty.beq] at h
  | .map _ _, .recur _ _ _ _, h => by simp [Ty.beq] at h
  | .map _ _, .ref _ _, h => by simp [Ty.beq] at h
  | .ptr _, .basic _, h => by simp [Ty.beq] at h
  | .ptr _, .named _ _ _ _, h => by simp [Ty.beq] at h
  | .ptr _, .array _ _, h => by simp [Ty.beq] at h
  | .ptr _, .chan _, h => by simp [Ty.beq] at h
  | .ptr _, .func _, h => by simp [Ty.beq] at h
  | .ptr _, .iface _, h => by simp [Ty.beq] at h
  | .ptr _, .map _ _, h => by simp [Ty.beq] at h
  | .ptr _, .slice _, h => by simp [Ty.beq] at h
  | .ptr _, .struct _, h => by simp [Ty.beq] at h
  | .ptr _, .recur _ _ _ _, h => by simp [Ty.beq] at h
  | .ptr _, .ref _ _, h => by simp [Ty.beq] at h
  | .slice _, .basic _, h => by simp [Ty.beq] at h
  | .slice _, .named _ _ _ _, h => by simp [Ty.beq] at h
  | .slice _, .array _ _, h => by simp [Ty.beq] at h
  | .slice _, .chan _, h => by simp [Ty.beq] at h
  | .slice _, .func _, h => by simp [Ty.beq] at h
  | .slice _, .iface _, h => by simp [Ty.beq] at h
  | .slice _, .map _ _, h => by simp [Ty.beq] at h
  | .slice _, .ptr _, h => by simp [Ty.beq] at h
  | .slice _, .struct _, h => by simp [Ty.beq] at h
  | .slice _, .recur _ _ _ _, h => by simp [Ty.beq] at h
  | .slice _, .ref _ _, h => by simp [Ty.beq] at h
  | .struct _, .basic _, h => by simp [Ty.beq] at h
  | .struct _, .named _ _ _ _, h => by simp [Ty.beq] at h
  | .struct _, .array _ _, h => by simp [Ty.beq] at h
  | .struct _, .chan _, h => by simp [Ty.beq] at h
  | .struct _, .func _, h => by simp [Ty.beq] at h
  | .struct _, .iface _, h => by simp [Ty.beq] at h
  | .struct _, .map _ _, h => by simp [Ty.beq] at h
  | .struct _, .ptr _, h => by simp [Ty.beq] at h
  | .struct _, .slice _, h => by simp [Ty.beq] at h
  | .struct _, .recur _ _ _ _, h => by simp [Ty.beq] at h
  | .struct _, .ref _ _, h => by simp [Ty.beq] at h
  | .recur _ _ _ _, .basic _, h => by simp [Ty.beq] at h
  | .recur _ _ _ _, .named _ _ _ _, h => by simp [Ty.beq] at h
  | .recur _ _ _ _, .array _ _, h => by simp [Ty.beq] at h
  | .recur _ _ _ _, .chan _, h => by simp [Ty.beq] at h
  | .recur _ _ _ _, .func _, h => by simp [Ty.beq] at h
  | .recur _ _ _ _, .iface _, h => by simp [Ty.beq] at h
  | .recur _ _ _ _, .map _ _, h => by simp [Ty.beq] at h
  | .recur _ _ _ _, .ptr _, h => by simp [Ty.beq] at h
  | .recur _ _ _ _, .slice _, h => by simp [Ty.beq] at h
  | .recur _ _ _ _, .struct _, h => by simp [Ty.beq] at h
  | .recur _ _ _ _, .ref _ _, h => by simp [Ty.beq] at h
  | .ref _ _, .basic _, h => by simp [Ty.beq] at h
  | .ref _ _, .named _ _ _ _, h => by simp [Ty.beq] at h
  | .ref _ _, .array _ _, h => by simp [Ty.beq] at h
  | .ref _ _, .chan _, h => by simp [Ty.beq] at h
  | .ref _ _, .func _, h => by simp [Ty.beq] at h
  | .ref _ _, .iface _, h => by simp [Ty.beq] at h
  | .ref _ _, .map _ _, h => by simp [Ty.beq] at h
  | .ref _ _, .ptr _, h => by simp [Ty.beq] at h
  | .ref _ _, .slice _, h => by simp [Ty.beq] at h
  | .ref _ _, .struct _, h => by simp [Ty.beq] at h
  | .ref _ _, .recur _ _ _ _, h => by simp [Ty.beq] at h

/-- The zero values of the fields are as many as the fields. -/
theorem zeroFields_length : ∀ fs : List StructField, (zeroFields fs).length = fs.length
  | [] => rfl
  | .mk _ _ _ _ _ :: fs => by simp [zeroFields, zeroFields_length fs]

/-! ## C4, C9, C20, C27, C28, C39: maps, messages, omitempty and arrays -/

/-- C27. A source that is, after one pointer dereference, neither a slice nor an array is
rejected by `decodeSlice` on a nil slice target and by `decodeArray` on an array target
that equals the zero value of its comparable type: the call fails with the message
`'<name>': source data must be an array or slice, got <kind>`, which names the path and the
kind of the source, and the target is unchanged.  On an array target whose type is not
comparable (an array of slices, of maps, or of structs that hold one) `decodeArray` does
not reach the check of the source: its test whether the target equals the zero value
panics with `runtime error: comparing uncomparable type <type>`, whatever the source
is. -/
theorem sequence_source_kind_check (dec : Dec) (name : String) (data : Val) (fl : Flags)
    (hs1 : (Indirect data).kind ≠ Kind.Array) (hs2 : (Indirect data).kind ≠ Kind.Slice) :
    (∀ (t et : Ty), t.underlying = Ty.slice et →
      decodeSlice dec name data (Val.nil t) fl =
        fail (Val.nil t) (GoError.plain ("'" ++ name ++
          "': source data must be an array or slice, got " ++
          kindString (Indirect data).kind))) ∧
    (∀ (t et : Ty) (n : Nat) (val : Val), t.underlying = Ty.array n et → val.IsValid = true →
      val.typ = t → fl.ro = false → t.comparable = true → Val.goEq val (Zero t) = true →
      decodeArray dec name data val fl =
        fail val (GoError.plain ("'" ++ name ++
          "': source data must be an array or slice, got " ++
          kindString (Indirect data).kind))) ∧
    (∀ (t et : Ty) (n : Nat) (val : Val), t.underlying = Ty.array n et → val.IsValid = true →
      val.typ = t → fl.ro = false → t.comparable = false →
      decodeArray dec name data val fl =
        Res.panic ("runtime error: comparing uncomparable type " ++ t.typeString)) := by
  refine ⟨?_, ?_, ?_⟩
  · intro t et ht
    have hk : t.kind = Kind.Slice := by rw [Ty.kind_of_underlying ht]; rfl
    have hT : (Val.nil t).TypeOf = Res.ok t := rfl
    have hE : t.Elem = Res.ok et := by simp only [Ty.Elem, ht]
    have hN : (Val.nil t).IsNil = Res.ok true := by
      simp [Val.IsNil, Val.kind, Val.typ, hk]
    simp only [decodeSlice, hT, hE, hN, Res.bind_ok, if_true, ne_eq, hs1, hs2,
      not_false_eq_true, and_self]
  · intro t et n val ht hv hvt hro hcmp hz
    have hvt2 : val.TypeOf = Res.ok t := by simp only [Val.TypeOf, hv, if_true, hvt]
    have hE : t.Elem = Res.ok et := by simp only [Ty.Elem, ht]
    have hL : t.Len = Res.ok n := by simp only [Ty.Len, ht]
    simp only [decodeArray, hvt2, hE, hL, Res.bind_ok, hro, Bool.false_eq_true, if_false, hcmp,
      Bool.not_true, hz, if_true, ne_eq, hs1, hs2, not_false_eq_true, and_self]
  · intro t et n val ht hv hvt hro hcmp
    have hvt2 : val.TypeOf = Res.ok t := by simp only [Val.TypeOf, hv, if_true, hvt]
    have hE : t.Elem = Res.ok et := by simp only [Ty.Elem, ht]
    have hL : t.Len = Res.ok n := by simp only [Ty.Len, ht]
    simp only [decodeArray, hvt2, hE, hL, Res.bind_ok, hro, Bool.false_eq_true, if_false, hcmp,
      Bool.not_false, if_true]

/-- C27 at the source 42: `decodeSlice` and `decodeArray` reject it, `Decode` on the
inputs of `TestInvalidSlice` and `TestInvalidArray` reports the message for `VBar`, and
`decodeArray` on the zero value of `[1][]string` panics. -/
theorem sequence_source_kind_check_witness :
    decodeSlice (decode stdLib 0) "VBar" (Val.int tInt 42) (Val.nil (Ty.slice tString))
        Flags.fresh =
      fail (Val.nil (Ty.slice tString))
        (GoError.plain "'VBar': source data must be an array or slice, got int") ∧
    decodeArray (decode stdLib 0) "VBar" (Val.int tInt 42)
        (Val.array (Ty.array 2 tString) [text "", text ""]) Flags.fresh =
      fail (Val.array (Ty.array 2 tString) [text "", text ""])
        (GoError.plain "'VBar': source data must be an array or slice, got int") ∧
    Decode stdLib 2 invalidSeqInput
        (Val.ptr (Ty.ptr tSlice) (Val.struct tSlice [text "", Val.nil (Ty.slice tString)])) =
      fail (Val.ptr (Ty.ptr tSlice) (Val.struct tSlice [text "foo", Val.nil (Ty.slice tString)]))
        (GoError.agg ["'VBar': source data must be an array or slice, got int"]) ∧
    Decode stdLib 2 invalidSeqInput
        (Val.ptr (Ty.ptr tArray)
          (Val.struct tArray [text "", Val.array (Ty.array 2 tString) [text "", text ""]])) =
      fail (Val.ptr (Ty.ptr tArray)
          (Val.struct tArray [text "foo", Val.array (Ty.array 2 tString) [text "", text ""]]))
        (GoError.agg ["'VBar': source data must be an array or slice, got int"]) ∧
    decodeArray (decode stdLib 0) "VBar" (Val.int tInt 42) uncomparableArray Flags.fresh =
      Res.panic "runtime error: comparing uncomparable type [1][]string" :=
  ⟨(sequence_source_kind_check (decode stdLib 0) "VBar" (Val.int tInt 42) Flags.fresh
      (by decide) (by decide)).1 (Ty.slice tString) tString rfl,
   (sequence_source_kind_check (decode stdLib 0) "VBar" (Val.int tInt 42) Flags.fresh
      (by decide) (by decide)).2.1 (Ty.array 2 tString) tString 2
      (Val.array (Ty.array 2 tString) [text "", text ""]) rfl rfl rfl rfl rfl rfl,
   by rfl, by rfl,
   ((sequence_source_kind_check (decode stdLib 0) "VBar" (Val.int tInt 42) Flags.fresh
      (by decide) (by decide)).2.2 (Ty.array 1 (Ty.slice tString)) (Ty.slice tString) 1
      uncomparableArray rfl rfl rfl rfl rfl).trans (by rfl)⟩

/-- C28. Fixed arrays.  Let the target be a settable array with length `n` that equals the
zero value of its type, and the source, after one dereference, a slice or an array with
the elements `es`.  When the type of the target is comparable: (1) If `es.length > n` the call fails with the message
`'<name>': expected source data to have length less or equal to <n>, got <L>` and the
target is unchanged, so still zero.  (2) If `es.length ≤ n`, `decodeArray` returns whenever
the recursive decoder returns on every element.  (3) Whenever it then returns, the target
is an array of its type with `n` elements in which every index from `es.length` on holds
the zero value of the element type and every index `j` below `es.length` holds the outcome
of decoding source element `j` into a zero element.  When the type of the target is not
comparable (an array of slices, of maps, or of structs that hold one), `decodeArray`
panics in its test whether the target equals the zero value, with
`runtime error: comparing uncomparable type <type>`, for a source of any length. -/
theorem fixed_array_decode (dec : Dec) (name : String) (data val : Val) (t et : Ty) (n : Nat)
    (es : List Val) (fl : Flags) (hsrc : seqSource (Indirect data) es)
    (ht : t.underlying = Ty.array n et) (hv : val.IsValid = true) (hvt : val.typ = t)
    (hz : Val.goEq val (Zero t) = true) (hset : fl.CanSet = true) :
    (t.comparable = true →
    (n < es.length →
      decodeArray dec name data val fl =
        fail val (GoError.plain ("'" ++ name ++
          "': expected source data to have length less or equal to " ++ toString n ++
          ", got " ++ toString es.length))) ∧
    (es.length ≤ n →
      (∀ (p : String) (d cur : Val), ∃ r, dec p d cur Flags.fresh = Res.ok r) →
      ∃ r, decodeArray dec name data val fl = Res.ok r) ∧
    (es.length ≤ n → ∀ (v' : Val) (e : Option GoError),
      decodeArray dec name data val fl = Res.ok (v', e) →
      ∃ vs' : List Val, v' = Val.array t vs' ∧ vs'.length = n ∧
        (∀ j, es.length ≤ j → j < n → vs'[j]? = some (Zero et)) ∧
        (∀ j, j < es.length →
          ∃ (d w : Val) (err : Option GoError),
            ((Indirect data).Index j).bind Val.Interface = Res.ok d ∧
            dec (name ++ "[" ++ toString j ++ "]") d (Zero et) Flags.fresh = Res.ok (w, err) ∧
            vs'[j]? = some w))) ∧
    (t.comparable = false →
      decodeArray dec name data val fl =
        Res.panic ("runtime error: comparing uncomparable type " ++ t.typeString)) := by
  obtain ⟨hlen, hkind, hidx⟩ := seqSource_facts _ _ hsrc
  have hro : fl.ro = false := by
    simp only [Flags.CanSet, Bool.and_eq_true, Bool.not_eq_true'] at hset
    exact hset.2
  have haddr : fl.addr = true := by
    simp only [Flags.CanSet, Bool.and_eq_true] at hset
    exact hset.1
  have hT : val.TypeOf = Res.ok t := by simp only [Val.TypeOf, hv, if_true, hvt]
  have hE : t.Elem = Res.ok et := by simp only [Ty.Elem, ht]
  have hL : t.Len = Res.ok n := by simp only [Ty.Len, ht]
  have hns : ¬ ((Indirect data).kind ≠ Kind.Array ∧ (Indirect data).kind ≠ Kind.Slice) := by
    rcases hkind with h | h <;> simp [h]
  have hS : ∀ xs, val.Set fl (Val.array (Ty.array n et) xs) = Res.ok (Val.array t xs) := by
    intro xs
    have h1 : ((Ty.array n et == t) ||
        (!(t.hasName && (Ty.array n et).hasName) &&
          ((Ty.array n et).underlying == t.underlying))) = true := by
      simp [Ty.hasName, Ty.underlying, ht, Ty.beq_self]
    have ha : assignTo "reflect.Set" (Val.array (Ty.array n et) xs) t =
        Res.ok (Val.array t xs) := by
      simp only [assignTo, Val.IsValid, Val.typ, Bool.not_true, Bool.false_eq_true, if_false,
        h1, if_true, Val.withType]
    simp only [Val.Set, hv, hro, haddr, Bool.not_true, Bool.false_eq_true, if_false, hvt, ha]
  refine ⟨fun hcmp => ?_, fun hcmp => by
    simp only [decodeArray, hT, hE, hL, Res.bind_ok, hro, Bool.false_eq_true, if_false, hcmp,
      Bool.not_false, if_true]⟩
  have hform : decodeArray dec name data val fl =
      if es.length > n then
        fail val (GoError.plain ("'" ++ name ++
          "': expected source data to have length less or equal to " ++ toString n ++
          ", got " ++ toString es.length))
      else
        (decodeElems dec name (Indirect data) et Flags.fresh false es.length 0
            (List.replicate n (Zero et)) []).bind fun r => finish (Val.array t r.1) r.2 := by
    simp only [decodeArray, hT, hE, hL, Res.bind_ok, hro, Bool.false_eq_true, if_false, hcmp,
      Bool.not_true, hz, if_true, hns, hlen, decodeInto, Zero_array, Val.elems, hS]
  rw [hform]
  refine ⟨?_, ?_, ?_⟩
  · intro h
    simp only [gt_iff_lt, h, if_true]
  · intro hle hdec
    have hng : ¬ es.length > n := by omega
    simp only [hng, if_false]
    obtain ⟨r, hr⟩ := decodeElems_returns dec name (Indirect data) et Flags.fresh false hdec
      es.length 0 (List.replicate n (Zero et)) [] (Nat.zero_le _)
      (fun _ => by simp; omega) (fun j _ hj => hidx j (by omega))
    rw [hr]
    obtain ⟨e, he2⟩ := finish_returns (Val.array t r.1) r.2
    exact ⟨_, he2⟩
  · intro hle v' e hres
    have hng : ¬ es.length > n := by omega
    simp only [hng, if_false] at hres
    cases hloop : decodeElems dec name (Indirect data) et Flags.fresh false es.length 0
        (List.replicate n (Zero et)) [] with
    | panic m => simp [hloop] at hres
    | outOfFuel => simp [hloop] at hres
    | ok r =>
      obtain ⟨vs', errs⟩ := r
      rw [hloop] at hres
      simp only [Res.bind_ok] at hres
      obtain ⟨hv2, -⟩ := finish_eq_ok _ _ _ _ hres
      obtain ⟨h1, -, h3, h4⟩ := decodeElems_spec dec name (Indirect data) et Flags.fresh false
        es.length 0 _ [] vs' errs (Nat.zero_le _) hloop
      refine ⟨vs', hv2, by simpa using h1, ?_, ?_⟩
      · intro j hj1 hj2
        rw [h3 j (Or.inr (by omega)), List.getElem?_replicate]
        simp [hj2]
      · intro j hj
        obtain ⟨d, w, err, hd, hdec, hw⟩ := h4 j (Nat.zero_le _) (by omega)
        refine ⟨d, w, err, hd, ?_, hw⟩
        rw [List.getElem?_replicate] at hdec
        have hjn : j < n := by omega
        simpa [hjn] using hdec

/-- C28 at a source of three texts and an array of length 2, which overflows, and at
`TestArray`, where both elements are stored, and at the zero value of `[1][]string`
with a source of one element, where `decodeArray` panics. -/
theorem fixed_array_decode_witness :
    decodeArray (decode stdLib 0) "VBar"
        (Val.slice (Ty.slice tString) [text "a", text "b", text "c"])
        (Val.array (Ty.array 2 tString) [text "", text ""]) Flags.fresh =
      fail (Val.array (Ty.array 2 tString) [text "", text ""])
        (GoError.plain "'VBar': expected source data to have length less or equal to 2, got 3") ∧
    Decode stdLib 3 arrayInput
        (Val.ptr (Ty.ptr tArray)
          (Val.struct tArray [text "", Val.array (Ty.array 2 tString) [text "", text ""]])) =
      done (Val.ptr (Ty.ptr tArray)
        (Val.struct tArray
          [text "foo", Val.array (Ty.array 2 tString) [text "foo", text "bar"]])) ∧
    decodeArray (decode stdLib 0) "VBar"
        (Val.slice (Ty.slice (Ty.slice tString)) [Val.nil (Ty.slice tString)])
        uncomparableArray Flags.fresh =
      Res.panic "runtime error: comparing uncomparable type [1][]string" :=
  ⟨((fixed_array_decode (decode stdLib 0) "VBar"
      (Val.slice (Ty.slice tString) [text "a", text "b", text "c"])
      (Val.array (Ty.array 2 tString) [text "", text ""]) (Ty.array 2 tString) tString 2
      [text "a", text "b", text "c"] Flags.fresh
      ⟨by simp [Val.IsValid, text], Or.inl ⟨Ty.slice tString, rfl, rfl⟩⟩ rfl rfl rfl rfl
      rfl).1 rfl).1 (by decide), by rfl,
   ((fixed_array_decode (decode stdLib 0) "VBar"
      (Val.slice (Ty.slice (Ty.slice tString)) [Val.nil (Ty.slice tString)])
      uncomparableArray (Ty.array 1 (Ty.slice tString)) (Ty.slice tString) 1
      [Val.nil (Ty.slice tString)] Flags.fresh
      ⟨by simp [Val.IsValid], Or.inl ⟨Ty.slice (Ty.slice tString), rfl, rfl⟩⟩ rfl rfl rfl
      (by rfl) rfl).2 rfl).trans (by rfl)⟩

/-- C9. One message for each leaf failure, for a source that is a map keyed by text or a
struct converted into one.
(1) Whenever `decodeStructFromMap` returns on a map keyed by text, its error is nil when
no field produced a message and otherwise the aggregate of the messages of the fields, in
field order, none dropped and none merged.
(2) The loop of `decodeSlice` and `decodeArray` collects the messages of the indices in
index order, and (3) the loop of `decodeMapFromMap` those of the entries in key order.
(4) An error contributes one message when it is a leaf error and all of its messages when
it is an aggregate, so nested failures are flattened into the same list.
(5) The input `name: 123, age: "bad value", emails: [1, 2, 3]` decoded into a zero
`Person` yields the aggregate of exactly five messages: for `Name`, `Age`, `Emails[0]`,
`Emails[1]` and `Emails[2]`.
(6) A struct source of another type than the target is first converted by
`decodeMapFromStruct` into a fresh `map[string]interface{}`: an error of that conversion
is returned as it is, and otherwise `decodeStruct` is `decodeStructFromMap` on the
converted map, which is keyed by text, so that (1) applies to it.
(7) A valid source that is, after one dereference, neither a map nor a struct fails with
the single plain error `'<name>' expected a map, got '<kind>'`, and a map whose keys are
neither texts nor dynamic values with the plain error
`'<name>' needs a map with string keys, has '<kind>' keys`; neither is an aggregate. -/
theorem one_message_per_leaf_failure (dec : Dec) (lib : GoLib) (name : String)
    (dataVal : Val) (fl : Flags) (st : Ty) (fields : List StructField) (vals : List Val)
    (hk : dataVal.kind = Kind.Map) (ht : textKeyed dataVal.typ)
    (hst : st.structFields = Res.ok fields) (hlen : fields.length ≤ vals.length) :
    (∀ (v' : Val) (e : Option GoError),
      decodeStructFromMap dec lib name dataVal (Val.struct st vals) fl = Res.ok (v', e) →
      ∃ rs : List (Val × List String),
        List.Forall₂ (fun fv r => fieldOutcome dec lib name dataVal
          (dataVal.entries.map Prod.fst) fl fv.1 fv.2 = Res.ok r) (fields.zip vals) rs ∧
        ((e = none ∧ (rs.map Prod.snd).flatten = []) ∨
          (e = some (GoError.agg (rs.map Prod.snd).flatten) ∧
            (rs.map Prod.snd).flatten ≠ []))) ∧
    (∀ (src : Val) (et : Ty) (efl : Flags) (grow : Bool) (n : Nat) (work vs' : List Val)
      (errors' : List String),
      decodeElems dec name src et efl grow n 0 work [] = Res.ok (vs', errors') →
      ∃ outs : List (Option GoError),
        List.Forall₂ (indexOutcome dec name src efl) (List.range' 0 n) outs ∧
        errors' = (outs.map errorStrings).flatten) ∧
    (∀ (src : Val) (kt et : Ty) (mfl : Flags) (ks : List Val) (valMap m' : Val)
      (errors' : List String),
      decodeMapFromMapLoop dec lib name src kt et mfl ks valMap [] = Res.ok (m', errors') →
      ∃ outs : List (Option GoError),
        List.Forall₂ (entryOutcome dec lib name src kt et) ks outs ∧
        errors' = (outs.map errorStrings).flatten) ∧
    ((∀ m : String, errorStrings (some (GoError.plain m)) = [m]) ∧
      (∀ ms : List String, errorStrings (some (GoError.agg ms)) = ms) ∧
      errorStrings none = []) ∧
    (Decode stdLib 3 personErrInput (Val.ptr (Ty.ptr tPerson) (Zero tPerson)) =
        fail (Val.ptr (Ty.ptr tPerson) (Val.struct tPerson
          [text "", Val.int tInt 0, Val.slice (Ty.slice tString) [text "", text "", text ""],
            Val.nil tMapSS])) (GoError.agg personErrMessages) ∧
      personErrMessages.length = 5) ∧
    (∀ (data val : Val), (Indirect data).IsValid = true → val.IsValid = true →
      (Indirect data).kind = Kind.Struct → ((Indirect data).typ == val.typ) = false →
      ∀ r : Val × Option GoError,
        decodeMapFromStruct dec name (Indirect data) (Val.map tMapSI []) Flags.fresh
          (Val.map tMapSI []) Flags.fresh = Res.ok r →
        (∀ err, r.2 = some err → decodeStruct dec lib name data val fl = fail val err) ∧
        (r.2 = none →
          r.1.kind = Kind.Map ∧ textKeyed r.1.typ ∧
          decodeStruct dec lib name data val fl = decodeStructFromMap dec lib name r.1 val fl)) ∧
    ((∀ (data val : Val), (Indirect data).IsValid = true → val.IsValid = true →
        (Indirect data).kind ≠ Kind.Map → (Indirect data).kind ≠ Kind.Struct →
        ((Indirect data).typ == val.typ) = false →
        decodeStruct dec lib name data val fl =
          fail val (GoError.plain ("'" ++ name ++ "' expected a map, got '" ++
            kindString (Indirect data).kind ++ "'"))) ∧
      (∀ (src val : Val) (kt et : Ty), src.IsValid = true → src.typ.mapTypes = Res.ok (kt, et) →
        kt.kind ≠ Kind.String → kt.kind ≠ Kind.Interface →
        decodeStructFromMap dec lib name src val fl =
          fail val (GoError.plain ("'" ++ name ++ "' needs a map with string keys, has '" ++
            kindString kt.kind ++ "' keys")))) := by
  refine ⟨?_, ?_, ?_, ⟨?_, ?_, rfl⟩, ⟨rfl, rfl⟩, ?_, ?_, ?_⟩
  · intro v' e hres
    obtain ⟨rs, hall, -, he, -⟩ := decodeStructFromMap_ok dec lib name dataVal fl st fields
      vals hk ht hst hlen v' e hres
    refine ⟨rs, hall, ?_⟩
    rw [decodeStructFromMap_eq dec lib name dataVal fl st fields vals hk ht hst hlen] at hres
    cases hloop : decodeStructFields dec lib name dataVal (dataVal.entries.map Prod.fst) fl
        fields vals [] with
    | panic m => simp [hloop] at hres
    | outOfFuel => simp [hloop] at hres
    | ok r =>
      obtain ⟨vs', errs'⟩ := r
      obtain ⟨rs2, hall2, -, he2⟩ :=
        (decodeStructFields_iff dec lib name dataVal _ fl fields vals [] vs' errs' hlen).1 hloop
      have hrs : rs2 = rs := by
        have hu : ∀ (l : List (StructField × Val)) (a b : List (Val × List String)),
            List.Forall₂ (fun fv r => fieldOutcome dec lib name dataVal
              (dataVal.entries.map Prod.fst) fl fv.1 fv.2 = Res.ok r) l a →
            List.Forall₂ (fun fv r => fieldOutcome dec lib name dataVal
              (dataVal.entries.map Prod.fst) fl fv.1 fv.2 = Res.ok r) l b → a = b := by
          intro l
          induction l with
          | nil =>
            intro a b ha hb
            simp at ha hb
            rw [ha, hb]
          | cons x l ih =>
            intro a b ha hb
            cases a with
            | nil => simp at ha
            | cons a0 a =>
              cases b with
              | nil => simp at hb
              | cons b0 b =>
                simp only [List.forall₂_cons] at ha hb
                have h0 : a0 = b0 := by
                  have := ha.1.symm.trans hb.1
                  simpa using this
                rw [h0, ih a b ha.2 hb.2]
        exact hu _ _ _ hall2 hall
      subst hrs
      simp only [List.nil_append] at he2
      rw [hloop] at hres
      simp only [Res.bind_ok, finish] at hres
      split at hres
      · rename_i hpos
        simp only [fail, Res.ok.injEq, Prod.mk.injEq] at hres
        right
        refine ⟨by rw [← hres.2, he2], ?_⟩
        intro hc
        rw [he2, hc] at hpos
        simp at hpos
      · left
        simp only [done, Res.ok.injEq, Prod.mk.injEq] at hres
        exact ⟨hres.2.symm, he.1 hres.2.symm⟩
  · intro src et efl grow n work vs' errors' h
    obtain ⟨outs, hall, he⟩ := decodeElems_messages dec name src et efl grow n 0 work [] vs'
      errors' h
    exact ⟨outs, hall, by simpa using he⟩
  · intro src kt et mfl ks valMap m' errors' h
    obtain ⟨outs, hall, he⟩ := decodeMapFromMapLoop_messages dec lib name src kt et mfl ks
      valMap [] m' errors' h
    exact ⟨outs, hall, by simpa using he⟩
  · intro m
    rfl
  · intro ms
    simp [errorStrings, appendErrors]
  · intro data val hdv hvv hks hne r hr
    have hdt : (Indirect data).TypeOf = Res.ok (Indirect data).typ := by
      simp only [Val.TypeOf, hdv, if_true]
    have hvt : val.TypeOf = Res.ok val.typ := by simp only [Val.TypeOf, hvv, if_true]
    have hds : decodeStruct dec lib name data val fl =
        (decodeMapFromStruct dec name (Indirect data) (Val.map tMapSI []) Flags.fresh
          (Val.map tMapSI []) Flags.fresh).bind fun r =>
          match r.2 with
          | some err => fail val err
          | none => decodeStructFromMap dec lib name r.1 val fl := by
      simp only [decodeStruct, hdt, hvt, Res.bind_ok, hne, Bool.false_eq_true, if_false, hks]
      rfl
    rw [hds, hr]
    simp only [Res.bind_ok]
    refine ⟨fun err he => by simp only [he], fun hnone => ?_⟩
    have hshape : ∃ es, r.1 = Val.map tMapSI es := by
      simp only [decodeMapFromStruct, hdt, Res.bind_ok] at hr
      cases hsf : (Indirect data).typ.structFields with
      | panic m => simp [hsf] at hr
      | outOfFuel => simp [hsf] at hr
      | ok fs =>
        simp only [hsf, Res.bind_ok] at hr
        cases hloop : decodeMapFromStructLoop dec Flags.fresh fs (Indirect data).fieldVals
            (Val.map tMapSI []) with
        | panic m => simp [hloop] at hr
        | outOfFuel => simp [hloop] at hr
        | ok r0 =>
          obtain ⟨es, hes⟩ := structLoop_map dec Flags.fresh tMapSI fs _ [] r0 hloop
          simp only [hloop, Res.bind_ok] at hr
          cases h2 : r0.2 with
          | some err =>
            simp only [h2, fail, Res.ok.injEq] at hr
            rw [← hr] at hnone
            cases hnone
          | none =>
            have hset : (Val.map tMapSI []).Set Flags.fresh r0.1 = Res.ok (Val.map tMapSI es) := by
              rw [hes]
              have hsame := assignTo_same "reflect.Set" (Val.map tMapSI es) rfl
              simp only [Val.typ] at hsame
              simp only [Val.Set, Val.IsValid, Flags.fresh, Bool.not_true, Bool.false_eq_true,
                if_false, Val.typ, hsame]
            have hset2 : (Val.map tMapSI []).Set { addr := true, ro := false } r0.1 =
                Res.ok (Val.map tMapSI es) := hset
            simp only [h2, Flags.CanAddr, Flags.fresh, if_true, hset2, Res.bind_ok, done,
              Res.ok.injEq] at hr
            exact ⟨es, by rw [← hr]⟩
    obtain ⟨es, hes⟩ := hshape
    refine ⟨by rw [hes]; rfl, ⟨emptyInterface, by rw [hes]; exact Or.inl rfl⟩, ?_⟩
    simp only [hnone]
  · intro data val hdv hvv hk1 hk2 hne
    have hdt : (Indirect data).TypeOf = Res.ok (Indirect data).typ := by
      simp only [Val.TypeOf, hdv, if_true]
    have hvt : val.TypeOf = Res.ok val.typ := by simp only [Val.TypeOf, hvv, if_true]
    simp only [decodeStruct, hdt, hvt, Res.bind_ok, hne, Bool.false_eq_true, if_false]
  · intro src val kt et hsv hmt h1 h2
    have hst : src.TypeOf = Res.ok src.typ := by simp only [Val.TypeOf, hsv, if_true]
    simp only [decodeStructFromMap, hst, hmt, Res.bind_ok, ne_eq, h1, h2, not_false_eq_true,
      and_self, if_true]

/-- C9 at the input of `ExampleDecode_errors`: the error of `decodeStructFromMap` is the
aggregate of the messages of the four fields of `Person`.  A `Slice` struct as the source
is decoded through the map of its two fields, and the source `42` gives the plain
error. -/
theorem one_message_per_leaf_failure_witness :
    (personErrInput.kind = Kind.Map ∧ textKeyed personErrInput.typ ∧
      tPerson.structFields = Res.ok personFields ∧ personFields.length ≤ personZero.length) ∧
    decodeStruct (decode stdLib 2) stdLib ""
        (Val.struct tSlice [text "foo", Val.nil (Ty.slice tString)]) (Zero tPerson)
        Flags.fresh =
      decodeStructFromMap (decode stdLib 2) stdLib ""
        (Val.map tMapSI [(text "VFoo", boxed (text "foo")),
          (text "VBar", boxed (Val.nil (Ty.slice tString)))]) (Zero tPerson) Flags.fresh ∧
    decodeStruct (decode stdLib 2) stdLib "" (Val.int tInt 42) (Zero tPerson) Flags.fresh =
      fail (Zero tPerson) (GoError.plain "'' expected a map, got 'int'") ∧
    ∃ rs : List (Val × List String),
      List.Forall₂ (fun fv r => fieldOutcome (decode stdLib 2) stdLib "" personErrInput
        (personErrInput.entries.map Prod.fst) Flags.fresh fv.1 fv.2 = Res.ok r)
        (personFields.zip personZero) rs ∧
      ((some (GoError.agg personErrMessages) = none ∧ (rs.map Prod.snd).flatten = []) ∨
        (some (GoError.agg personErrMessages) = some (GoError.agg (rs.map Prod.snd).flatten) ∧
          (rs.map Prod.snd).flatten ≠ [])) :=
  ⟨⟨rfl, ⟨emptyInterface, Or.inl rfl⟩, rfl, by decide⟩,
    (((one_message_per_leaf_failure (decode stdLib 2) stdLib "" personErrInput Flags.fresh
      tPerson personFields personZero rfl ⟨emptyInterface, Or.inl rfl⟩ rfl
      (by decide)).2.2.2.2.2.1
      (Val.struct tSlice [text "foo", Val.nil (Ty.slice tString)]) (Zero tPerson) rfl rfl rfl
      (by rfl)
      (Val.map tMapSI [(text "VFoo", boxed (text "foo")),
        (text "VBar", boxed (Val.nil (Ty.slice tString)))], none) (by rfl)).2 rfl).2.2,
    ((one_message_per_leaf_failure (decode stdLib 2) stdLib "" personErrInput Flags.fresh
      tPerson personFields personZero rfl ⟨emptyInterface, Or.inl rfl⟩ rfl
      (by decide)).2.2.2.2.2.2.1 (Val.int tInt 42) (Zero tPerson) rfl rfl (by decide)
      (by decide) (by rfl)).trans (by rfl),
    (one_message_per_leaf_failure (decode stdLib 2) stdLib "" personErrInput Flags.fresh tPerson
      personFields personZero rfl ⟨emptyInterface, Or.inl rfl⟩ rfl (by decide)).1
      (Val.struct tPerson personAfterErrors) (some (GoError.agg personErrMessages)) rfl⟩

/-- C9 fails as stated.  The source `42` decoded into a zero `Person`, and a map with
integer keys decoded into it, fail with a single plain error that is no aggregate and
holds no entry for any field. -/
theorem scalar_source_record_error_is_plain :
    Decode stdLib 2 (Val.int tInt 42) (Val.ptr (Ty.ptr tPerson) (Zero tPerson)) =
        fail (Val.ptr (Ty.ptr tPerson) (Zero tPerson))
          (GoError.plain "'' expected a map, got 'int'") ∧
    Decode stdLib 2 (Val.map (Ty.map tInt tString) [(Val.int tInt 1, text "a")])
        (Val.ptr (Ty.ptr tPerson) (Zero tPerson)) =
        fail (Val.ptr (Ty.ptr tPerson) (Zero tPerson))
          (GoError.plain "'' needs a map with string keys, has 'int' keys") := by
  constructor <;> rfl

/-- C4. Merge and upsert for mappings.  Let the source be a map with at least one entry,
the target a settable map of type `t` with key type `kt` and element type `et`, and let
the conversions of all source entries return.  Let the keys of the source and the
converted keys hold no pointer and no channel: Go compares those by their address, which
the values here do not carry, so that only on the other keys the lookup of the embedding
is that of Go (the keys the target held before may be of any shape).  Then `decodeMapFromMap` returns, and
(1) a target that is not nil holds its previous contents into which every source entry
whose key and value both convert is stored under its converted key, an entry that fails
being left out without stopping the rest; (2) a nil target holds the same upsert of the
empty map; (3) every previous entry whose key no converted key equals is still there. -/
theorem map_merge_upsert (dec : Dec) (lib : GoLib) (name : String) (st t kt et : Ty)
    (es old : List (Val × Val)) (fl : Flags) (hst : st.kind = Kind.Map) (hes : es ≠ [])
    (ht : t.underlying = Ty.map kt et) (hset : fl.CanSet = true)
    (hret : ∀ en ∈ es, entryReturns dec lib name (Val.map st es) kt et en.1)
    (hsk : ∀ en ∈ es, en.1.identityFree = true)
    (hck : ∀ k ∈ es.map Prod.fst, ∀ ckv : Val × Val,
      entryConversion dec lib name (Val.map st es) kt et k = some ckv →
      ckv.1.identityFree = true) :
    (∃ msgs : List String,
      decodeMapFromMap dec lib name (Val.map st es) (Val.map t old) fl (Val.map t old) fl =
        finish (Val.map t (upsertConverted
          (entryConversion dec lib name (Val.map st es) kt et) (es.map Prod.fst) old)) msgs) ∧
    (∃ msgs : List String,
      decodeMapFromMap dec lib name (Val.map st es) (Val.nil t) fl
          (Val.map (Ty.map kt et) []) Flags.made =
        finish (Val.map t (upsertConverted
          (entryConversion dec lib name (Val.map st es) kt et) (es.map Prod.fst) [])) msgs) ∧
    (∀ en ∈ old,
      (∀ k ∈ es.map Prod.fst, ∀ ckv : Val × Val,
        entryConversion dec lib name (Val.map st es) kt et k = some ckv →
        Val.goEq en.1 ckv.1 = false) →
      en ∈ upsertConverted (entryConversion dec lib name (Val.map st es) kt et)
        (es.map Prod.fst) old) := by
  have _ := hsk
  have _ := hck
  have hro : fl.ro = false := by
    simp [Flags.CanSet] at hset
    exact hset.2
  have haddr : fl.addr = true := by
    simp [Flags.CanSet] at hset
    exact hset.1
  have hmt : t.mapTypes = Res.ok (kt, et) := by simp [Ty.mapTypes, ht]
  have hmt2 : (Ty.map kt et).mapTypes = Res.ok (kt, et) := rfl
  have hlen : es.length ≠ 0 := by
    intro hc
    exact hes (List.length_eq_zero.1 hc)
  have hkeys : ∀ k ∈ es.map Prod.fst, entryReturns dec lib name (Val.map st es) kt et k := by
    intro k hk
    obtain ⟨en, he, rfl⟩ := List.mem_map.1 hk
    exact hret en he
  refine ⟨?_, ?_, ?_⟩
  · obtain ⟨errors', hloop⟩ := decodeMapFromMapLoop_upsert dec lib name (Val.map st es) t kt et
      fl hmt hro (es.map Prod.fst) old [] hkeys
    refine ⟨errors', ?_⟩
    simp only [decodeMapFromMap, Val.TypeOf, Val.IsValid, if_true, Val.typ, Res.bind_ok, hmt,
      Val.Len, Val.kind, hst, hlen, if_false, Val.MapKeys, Val.entries, hloop, Val.Set, hro,
      haddr, Bool.not_true, Bool.false_eq_true]
    have hsame := assignTo_same "reflect.Set" (Val.map t (upsertConverted
      (entryConversion dec lib name (Val.map st es) kt et) (es.map Prod.fst) old)) rfl
    simp only [Val.typ] at hsame
    rw [hsame]
    rfl
  · obtain ⟨errors', hloop⟩ := decodeMapFromMapLoop_upsert dec lib name (Val.map st es)
      (Ty.map kt et) kt et Flags.made hmt2 rfl (es.map Prod.fst) [] [] hkeys
    refine ⟨errors', ?_⟩
    simp only [decodeMapFromMap, Val.TypeOf, Val.IsValid, if_true, Val.typ, Res.bind_ok, hmt,
      Val.Len, Val.kind, hst, hlen, if_false, Val.MapKeys, Val.entries, hloop, Val.Set, hro,
      haddr, Bool.not_true, Bool.false_eq_true]
    simp [assignTo, Val.IsValid, Val.typ, Ty.hasName, Ty.underlying, ht, Val.withType]
  · intro en hen hne
    exact mem_upsertConverted _ en _ old hen hne

/-- C4 at the input of `TestMapMerge`: `foo: foo, bar: bar` decoded into a
`map[string]string` holding `hello: world`. -/
theorem map_merge_upsert_witness :
    (tMapII.kind = Kind.Map ∧ mapMergeEntries ≠ [] ∧ tMapSS.underlying = Ty.map tString tString ∧
      Flags.fresh.CanSet = true ∧
      (∀ en ∈ mapMergeEntries,
        entryReturns (decode stdLib 2) stdLib "VOther" (Val.map tMapII mapMergeEntries) tString
          tString en.1) ∧
      (∀ en ∈ mapMergeEntries, en.1.identityFree = true) ∧
      ∀ k ∈ mapMergeEntries.map Prod.fst, ∀ ckv : Val × Val,
        entryConversion (decode stdLib 2) stdLib "VOther" (Val.map tMapII mapMergeEntries)
          tString tString k = some ckv → ckv.1.identityFree = true) ∧
    (∃ msgs : List String,
      decodeMapFromMap (decode stdLib 2) stdLib "VOther" (Val.map tMapII mapMergeEntries)
          (Val.map tMapSS [(text "hello", text "world")]) Flags.fresh
          (Val.map tMapSS [(text "hello", text "world")]) Flags.fresh =
        finish (Val.map tMapSS (upsertConverted
          (entryConversion (decode stdLib 2) stdLib "VOther" (Val.map tMapII mapMergeEntries)
            tString tString) (mapMergeEntries.map Prod.fst) [(text "hello", text "world")]))
          msgs) ∧
    upsertConverted
        (entryConversion (decode stdLib 2) stdLib "VOther" (Val.map tMapII mapMergeEntries)
          tString tString) (mapMergeEntries.map Prod.fst) [(text "hello", text "world")] =
      [(text "hello", text "world"), (text "foo", text "foo"), (text "bar", text "bar")] := by
  have hret : ∀ en ∈ mapMergeEntries,
      entryReturns (decode stdLib 2) stdLib "VOther" (Val.map tMapII mapMergeEntries) tString
        tString en.1 := by
    intro en hen
    simp only [mapMergeEntries, List.mem_cons, List.mem_singleton, List.not_mem_nil,
      or_false] at hen
    rcases hen with rfl | rfl
    · exact ⟨text "foo", (text "foo", none), rfl, rfl,
        fun _ => ⟨rfl, rfl, rfl, text "foo", (text "foo", none), rfl, rfl, fun _ => ⟨rfl, rfl⟩⟩⟩
    · exact ⟨text "bar", (text "bar", none), rfl, rfl,
        fun _ => ⟨rfl, rfl, rfl, text "bar", (text "bar", none), rfl, rfl, fun _ => ⟨rfl, rfl⟩⟩⟩
  have hsk : ∀ en ∈ mapMergeEntries, en.1.identityFree = true := by
    intro en hen
    simp only [mapMergeEntries, List.mem_cons, List.mem_singleton, List.not_mem_nil,
      or_false] at hen
    rcases hen with rfl | rfl <;> rfl
  have hck : ∀ k ∈ mapMergeEntries.map Prod.fst, ∀ ckv : Val × Val,
      entryConversion (decode stdLib 2) stdLib "VOther" (Val.map tMapII mapMergeEntries)
        tString tString k = some ckv → ckv.1.identityFree = true := by
    intro k hk ckv h
    simp only [mapMergeEntries, List.map_cons, List.map_nil, List.mem_cons, List.mem_singleton,
      List.not_mem_nil, or_false] at hk
    rcases hk with rfl | rfl
    · have hc : entryConversion (decode stdLib 2) stdLib "VOther"
          (Val.map tMapII mapMergeEntries) tString tString (boxed (text "foo")) =
          some (text "foo", text "foo") := rfl
      rw [hc] at h
      cases h
      rfl
    · have hc : entryConversion (decode stdLib 2) stdLib "VOther"
          (Val.map tMapII mapMergeEntries) tString tString (boxed (text "bar")) =
          some (text "bar", text "bar") := rfl
      rw [hc] at h
      cases h
      rfl
  exact ⟨⟨rfl, by simp [mapMergeEntries], rfl, rfl, hret, hsk, hck⟩,
    (map_merge_upsert (decode stdLib 2) stdLib "VOther" tMapII tMapSS tString tString
      mapMergeEntries [(text "hello", text "world")] Flags.fresh rfl (by simp [mapMergeEntries])
      rfl rfl hret hsk hck).1, rfl⟩

/-- C39. A source entry whose value is absent is not skipped by the loop of
`decodeMapFromMap`.  Let the key `k` of the source convert to `ck`, a hashable value of the
key type of the target, let `k` and `ck` hold no pointer and no channel (Go compares
those by their address, which the values here do not carry, so that only on the other
keys the lookup of the embedding is that of Go), and let the value under `k` be absent: the nil `interface{}` or a
nil pointer.  Then the conversion of the value returns nil and leaves the fresh zero value
of the element type, the entry converts to `ck` with that zero value, and the loop stores
the zero value under `ck` in the target before it goes on with the other keys: an entry
whose key equals `ck` keeps its place and has its value replaced by the zero value,
otherwise the entry is added.  Afterwards the value under `ck` is the zero value. -/
theorem nil_entry_stores_zero (lib : GoLib) (fuel : Nat) (name : String) (src : Val)
    (mt kt et : Ty) (mfl : Flags) (k kd ck ev vd : Val) (ks : List Val)
    (es : List (Val × Val)) (errors : List String)
    (hmt : mt.mapTypes = Res.ok (kt, et)) (hro : mfl.ro = false)
    (hk : k.Interface = Res.ok kd)
    (hkey : decode lib (fuel + 1) (entryPath lib name k) kd (Zero kt) Flags.fresh = done ck)
    (hck : ck.IsValid = true ∧ ck.typ = kt ∧ ck.hashable = true ∧ Val.goEq ck ck = true)
    (hfree : k.identityFree = true ∧ ck.identityFree = true)
    (hv : src.MapIndex k = Res.ok ev) (hvd : ev.Interface = Res.ok vd)
    (hnil : vd.IsValid = false ∨ (vd.kind = Kind.Ptr ∧ vd.isNilVal = true)) :
    decode lib (fuel + 1) (entryPath lib name k) vd (Zero et) Flags.fresh = done (Zero et) ∧
    entryConversion (decode lib (fuel + 1)) lib name src kt et k = some (ck, Zero et) ∧
    decodeMapFromMapLoop (decode lib (fuel + 1)) lib name src kt et mfl (k :: ks)
        (Val.map mt es) errors =
      decodeMapFromMapLoop (decode lib (fuel + 1)) lib name src kt et mfl ks
        (Val.map mt (upsertEntry ck (Zero et) es)) errors ∧
    lookupEntry ck (upsertEntry ck (Zero et) es) = some (Zero et) := by
  have _ := hfree
  have hz := decode_absent lib fuel (entryPath lib name k) vd (Zero et) Flags.fresh hnil
  obtain ⟨hzv, hzt, -⟩ := Zero_facts et
  have hset := SetMapIndex_typed mt kt et es mfl ck (Zero et) hmt hro hck.1 hck.2.1 hck.2.2.1
    hzv hzt
  refine ⟨hz, ?_, ?_, lookupEntry_upsertEntry ck (Zero et) hck.2.2.2 es⟩
  · simp only [entryConversion, hk, hkey, done, hv, Res.bind_ok, hvd]
    simp only [done] at hz
    simp only [hz]
  · simp only [entryPath] at hkey hz
    simp only [decodeMapFromMapLoop, hk, Res.bind_ok, hkey, done, hv, hvd]
    simp only [done] at hz
    simp only [hz, Res.bind_ok, hset]

/-- C39 at a source whose entry `a` is the nil `interface{}`, decoded into a
`map[string]string` that holds `a: x` and `b: y`: the value under `a` becomes the empty
text, and `b` is kept. -/
theorem nil_entry_stores_zero_witness :
    lookupEntry (text "a") (upsertEntry (text "a") (Zero tString)
        [(text "a", text "x"), (text "b", text "y")]) = some (Zero tString) ∧
    Decode stdLib 2 nilEntryInput
        (Val.ptr (Ty.ptr tMapSS) (Val.map tMapSS [(text "a", text "x"), (text "b", text "y")])) =
      done (Val.ptr (Ty.ptr tMapSS)
        (Val.map tMapSS [(text "a", text ""), (text "b", text "y"), (text "c", text "z")])) :=
  ⟨(nil_entry_stores_zero stdLib 0 "" nilEntryInput tMapSS tString tString Flags.fresh
      (text "a") (text "a") (text "a") (Val.nil emptyInterface) Val.invalid [text "c"]
      [(text "a", text "x"), (text "b", text "y")] [] rfl rfl rfl (by rfl)
      ⟨rfl, rfl, by rfl, by rfl⟩ ⟨rfl, rfl⟩ (by rfl) rfl (Or.inl rfl)).2.2.2, by rfl⟩

/-- A field may give an entry exactly when it is exported and not excluded, and such a
field is skipped exactly when it carries `omitempty` and its value is empty. -/
theorem fieldSkipped_facts (g : StructField) (w : Val) :
    ((g.PkgPath == "" && !((stringsSplit (tagGet g.Tag tagName)).headD "" == "-")) = true ↔
      (g.PkgPath = "" ∧ (stringsSplit (tagGet g.Tag tagName)).headD "" ≠ "-")) ∧
    (g.PkgPath = "" → (stringsSplit (tagGet g.Tag tagName)).headD "" ≠ "-" →
      fieldSkipped g w = (hasOmitempty g && isEmptyB w)) ∧
    (fieldSkipped g w = false →
      g.PkgPath = "" ∧ (stringsSplit (tagGet g.Tag tagName)).headD "" ≠ "-") := by
  refine ⟨by simp, ?_, ?_⟩
  · intro h1 h2
    have h3 : ((stringsSplit (tagGet g.Tag tagName)).headD "" == "-") = false :=
      beq_eq_false_iff_ne.2 h2
    simp only [fieldSkipped, h1, h3, Bool.or_false, bne_self_eq_false, Bool.false_or]
  · intro h
    simp only [fieldSkipped, Bool.or_eq_false_iff, bne_eq_false_iff_eq,
      beq_eq_false_iff_ne] at h
    exact ⟨h.1.1, h.2⟩

/-- A key that no field of the list may give has no entry among the entries of the
record. -/
theorem recordEntries_absent (kt : Ty) (hkt : kt = Ty.basic Kind.String ∨ kt = emptyInterface)
    (s : String) :
    ∀ (fs : List StructField) (vs : List Val), s ∉ candidateKeys fs →
      lookupEntry (nameKey kt s) (recordEntries kt fs vs) = none
  | [], _, _ => by simp [recordEntries, lookupEntry]
  | _ :: _, [], _ => by simp [recordEntries, lookupEntry]
  | g :: fs, w :: vs, h => by
      have hrest : s ∉ candidateKeys fs := by
        intro hc
        apply h
        simp only [candidateKeys, List.filter_cons]
        split
        · exact List.mem_cons_of_mem _ hc
        · exact hc
      have ih := recordEntries_absent kt hkt s fs vs hrest
      rw [recordEntries]
      by_cases hsk : fieldSkipped g w = true
      · simp only [hsk, if_true, ih]
      · have hcand : (g.PkgPath == "" &&
            !((stringsSplit (tagGet g.Tag tagName)).headD "" == "-")) = true :=
          (fieldSkipped_facts g w).1.2
            ((fieldSkipped_facts g w).2.2 (by simpa using hsk))
        have hne : entryKeyName g ≠ s := by
          intro hc
          apply h
          simp only [candidateKeys, List.filter_cons, hcand, if_true, List.map_cons, hc]
          exact List.mem_cons_self _ _
        simp only [hsk, Bool.false_eq_true, if_false, lookupEntry,
          nameKey_ne kt hkt (entryKeyName g) s hne, ih]

/-- The entry of a field among the entries of a record with pairwise distinct keys: an
exported field that is not excluded has no entry when it carries the option `omitempty`
and its value is empty for `isEmptyValue`, and otherwise the entry of its value under its
key. -/
theorem recordEntries_lookup (kt : Ty) (hkt : kt = Ty.basic Kind.String ∨ kt = emptyInterface) :
    ∀ (fs : List StructField) (vs : List Val) (j : Nat) (f : StructField) (v : Val),
      distinctTexts (candidateKeys fs) = true → fs[j]? = some f → vs[j]? = some v →
      f.PkgPath = "" → (stringsSplit (tagGet f.Tag tagName)).headD "" ≠ "-" →
      lookupEntry (nameKey kt (entryKeyName f)) (recordEntries kt fs vs) =
        if (hasOmitempty f && isEmptyB v) = true then none
        else some (dynamicOf (recordValue kt v))
  | [], _, _, _, _, _, hf, _, _, _ => by simp at hf
  | _ :: _, [], _, _, _, _, _, hv, _, _ => by simp at hv
  | g :: fs, w :: vs, 0, f, v, hd, hf, hv, hexp, hkey => by
      simp only [List.getElem?_cons_zero, Option.some.injEq] at hf hv
      subst hf
      subst hv
      have hcand : (g.PkgPath == "" &&
          !((stringsSplit (tagGet g.Tag tagName)).headD "" == "-")) = true :=
        (fieldSkipped_facts g w).1.2 ⟨hexp, hkey⟩
      have hd2 : entryKeyName g ∉ candidateKeys fs := by
        simp only [candidateKeys, List.filter_cons, hcand, if_true, List.map_cons,
          distinctTexts, Bool.and_eq_true, Bool.not_eq_true', List.contains_eq_any_beq,
          List.any_eq_false, beq_iff_eq] at hd
        intro hc
        exact hd.1 _ hc rfl
      have hskip : fieldSkipped g w = (hasOmitempty g && isEmptyB w) :=
        (fieldSkipped_facts g w).2.1 hexp hkey
      rw [recordEntries, hskip]
      by_cases ho : (hasOmitempty g && isEmptyB w) = true
      · simp only [ho, if_true]
        exact recordEntries_absent kt hkt _ fs vs hd2
      · simp only [ho, Bool.false_eq_true, if_false, lookupEntry,
          (nameKey_facts kt hkt (entryKeyName g) "").1, if_true]
  | g :: fs, w :: vs, j + 1, f, v, hd, hf, hv, hexp, hkey => by
      simp only [List.getElem?_cons_succ] at hf hv
      have hfc : entryKeyName f ∈ candidateKeys fs := by
        simp only [candidateKeys, List.mem_map, List.mem_filter]
        obtain ⟨hj, hfj⟩ := List.getElem?_eq_some.1 hf
        exact ⟨f, ⟨hfj ▸ List.getElem_mem hj, (fieldSkipped_facts f v).1.2 ⟨hexp, hkey⟩⟩, rfl⟩
      have hd2 : distinctTexts (candidateKeys fs) = true := by
        simp only [candidateKeys, List.filter_cons] at hd
        split at hd
        · simp only [List.map_cons, distinctTexts, Bool.and_eq_true] at hd
          exact hd.2
        · exact hd
      have ih := recordEntries_lookup kt hkt fs vs j f v hd2 hf hv hexp hkey
      rw [recordEntries]
      by_cases hsk : fieldSkipped g w = true
      · simp only [hsk, if_true, ih]
      · have hcand : (g.PkgPath == "" &&
            !((stringsSplit (tagGet g.Tag tagName)).headD "" == "-")) = true :=
          (fieldSkipped_facts g w).1.2
            ((fieldSkipped_facts g w).2.2 (by simpa using hsk))
        have hne : entryKeyName g ≠ entryKeyName f := by
          intro hc
          simp only [candidateKeys, List.filter_cons, hcand, if_true, List.map_cons,
            distinctTexts, Bool.and_eq_true, Bool.not_eq_true', List.contains_eq_any_beq,
            List.any_eq_false, beq_iff_eq] at hd
          simp only [candidateKeys] at hfc
          exact hd.1 _ hfc hc
        simp only [hsk, Bool.false_eq_true, if_false, lookupEntry,
          nameKey_ne kt hkt (entryKeyName g) (entryKeyName f) hne, ih]

/-- Every value of a well-formed list of field values is well formed. -/
theorem wellFormedFields_mem :
    ∀ (fs : List StructField) (vs : List Val), Val.wellFormedFields fs vs = true →
      ∀ v ∈ vs, v.wellFormedRecord = true
  | [], [], _, v, hv => by simp at hv
  | [], _ :: _, h, _, _ => by simp [Val.wellFormedFields] at h
  | _ :: _, [], h, _, _ => by simp [Val.wellFormedFields] at h
  | _ :: fs, w :: vs, h, v, hv => by
      simp only [Val.wellFormedFields, Bool.and_eq_true] at h
      rcases List.mem_cons.1 hv with rfl | hv2
      · exact h.1
      · exact wellFormedFields_mem fs vs h.2 v hv2

/-- One step of the loop of `decodeMapFromStruct` and the option `omitempty`.  Let `f` be an exported field of the source struct whose
tag key is not `-`, with a valid value `v` that is no struct and whose type is assignable
to the element type of the target map, a map keyed by text that may be written.  Then `v`
can be stored as some `e`, and one step of the loop of `decodeMapFromStruct` does this:
(1) with the option and an empty value (of the shapes the spec lists: zero number, false,
text, map, slice or array of length zero, nil pointer or dynamic value) the map is left
as it was;
(2) with the option and a value that is not empty the entry `e` is stored under the key
of the field;
(3) without the option the entry is stored whatever the value is;
(4) after the store the map holds `e` under that key. -/
theorem omitempty_step (dec : Dec) (mfl : Flags) (f : StructField) (fs : List StructField)
    (v : Val) (vs : List Val) (mt kt et : Ty) (es : List (Val × Val))
    (hexp : f.PkgPath = "") (hv : v.IsValid = true)
    (hmt : mt.underlying = Ty.map kt et)
    (hkt : kt = Ty.basic Kind.String ∨ kt = emptyInterface) (hro : mfl.ro = false)
    (hassign : v.typ.AssignableTo et = true)
    (hkey : (stringsSplit (tagGet f.Tag tagName)).headD "" ≠ "-")
    (hns : v.kind ≠ Kind.Struct) :
    (∃ e : Val, assignTo "reflect.Value.SetMapIndex" v et = Res.ok e ∧
      (hasOmitempty f = true → listedShape v = true → specNonEmpty v = false →
        decodeMapFromStructLoop dec mfl (f :: fs) (v :: vs) (Val.map mt es) =
          decodeMapFromStructLoop dec mfl fs vs (Val.map mt es)) ∧
      (hasOmitempty f = true → listedShape v = true → specNonEmpty v = true →
        decodeMapFromStructLoop dec mfl (f :: fs) (v :: vs) (Val.map mt es) =
          decodeMapFromStructLoop dec mfl fs vs
            (Val.map mt (upsertEntry (nameKey kt (entryKeyName f)) e es))) ∧
      (hasOmitempty f = false →
        decodeMapFromStructLoop dec mfl (f :: fs) (v :: vs) (Val.map mt es) =
          decodeMapFromStructLoop dec mfl fs vs
            (Val.map mt (upsertEntry (nameKey kt (entryKeyName f)) e es))) ∧
      lookupEntry (nameKey kt (entryKeyName f))
        (upsertEntry (nameKey kt (entryKeyName f)) e es) = some e) := by
  obtain ⟨e, he⟩ := assignTo_of_assignable "reflect.Value.SetMapIndex" v et hv hassign
  obtain ⟨hrefl, -, -, -, hk1, -, hhash⟩ :=
    nameKey_facts kt hkt (entryKeyName f) "reflect.Value.SetMapIndex"
  have hset : (Val.map mt es).SetMapIndex mfl
      (Val.str (Ty.basic Kind.String) (entryKeyName f)) v =
      Res.ok (Val.map mt (upsertEntry (nameKey kt (entryKeyName f)) e es)) := by
    simp [Val.SetMapIndex, hro, Ty.mapTypes, hmt, hk1, he, hhash]
  have hkey2 : ¬ ((stringsSplit (tagGet f.Tag tagName)).headD "" ≠ "" ∧
      (stringsSplit (tagGet f.Tag tagName)).headD "" = "-") := fun h => hkey h.2
  have hstep : ∀ skip : Bool,
      ((if hasOmitempty f = true then isEmptyValue v else Res.ok false) = Res.ok skip) →
      decodeMapFromStructLoop dec mfl (f :: fs) (v :: vs) (Val.map mt es) =
        if skip then decodeMapFromStructLoop dec mfl fs vs (Val.map mt es)
        else decodeMapFromStructLoop dec mfl fs vs
          (Val.map mt (upsertEntry (nameKey kt (entryKeyName f)) e es)) := by
    intro skip hskip
    simp only [hasOmitempty] at hskip
    have hvt : v.TypeOf = Res.ok v.typ := by simp only [Val.TypeOf, hv, if_true]
    have hmtt : (Val.map mt es).TypeOf = Res.ok mt := rfl
    have hel : mt.Elem = Res.ok et := by simp only [Ty.Elem, hmt]
    have hset2 := hset
    simp only [entryKeyName] at hset2
    simp only [decodeMapFromStructLoop, hexp, ne_eq, not_true_eq_false, if_false, hvt, hmtt,
      hel, Res.bind_ok, hassign, Bool.not_true, Bool.false_eq_true, hskip, hns]
    cases skip with
    | true => simp only [if_true]
    | false =>
      simp only [ne_eq] at hkey2 hset2
      simp only [Bool.false_eq_true, if_false, hkey2, hset2, Res.bind_ok, entryKeyName, ne_eq]
  refine ⟨e, he, ?_, ?_, ?_, lookupEntry_upsertEntry _ _ hrefl es⟩
  · intro ho hl hn
    have := hstep true (by simp [ho, isEmptyValue_listed v hl, hn])
    simpa using this
  · intro ho hl hn
    have := hstep false (by simp [ho, isEmptyValue_listed v hl, hn])
    simpa using this
  · intro ho
    have := hstep false (by simp [ho])
    simpa using this

/-- C20. The option `omitempty`, for a record converted into a mapping keyed by text with
dynamic values.
(1) Let the source be, after one dereference, a well-formed record (a struct value with
one valid value for each field and pairwise distinct keys), the target an empty map that
may be written, and the fuel at least the depth of the record.  Then `decode` returns nil
and the map holds the entries `recordEntries` of the record, and for every exported field
`f` whose tag key is not `-`, with the value `v`:
(a) without the option the map holds the entry of `v` under the key of `f`, whatever `v`
is; (b) with the option and a value that is not empty (a number that is not zero, true, a
text, map, slice or array of length not zero, a pointer or dynamic value that is not nil)
the map holds that entry; (c) with the option and an empty value of these shapes the map
holds no entry under the key of `f`; (d) with the option and a struct value, which is
never empty, the map holds the entry.
(2) One step of the loop of `decodeMapFromStruct`, for a map with any element type to
which the type of the value can be assigned and any previous contents: the step leaves the
map as it was in case (c) and stores the entry under the key of the field in the cases
(a) and (b), after which the map holds it under that key. -/
theorem omitempty_rule (lib : GoLib) (kt : Ty)
    (hkt : kt = Ty.basic Kind.String ∨ kt = emptyInterface) :
    (∀ (fuel : Nat) (name : String) (data : Val) (t : Ty) (vals : List Val) (mt : Ty)
      (fl : Flags), Indirect data = Val.struct t vals →
      (Val.struct t vals).wellFormedRecord = true → mt.underlying = Ty.map kt emptyInterface →
      fl.ro = false → (Val.struct t vals).recordDepth ≤ fuel →
      decode lib fuel name data (Val.map mt []) fl =
        done (Val.map mt (recordEntries kt t.fieldsOf vals)) ∧
      ∀ (j : Nat) (f : StructField) (v : Val), t.fieldsOf[j]? = some f → vals[j]? = some v →
        f.PkgPath = "" → (stringsSplit (tagGet f.Tag tagName)).headD "" ≠ "-" →
        (hasOmitempty f = false →
          lookupEntry (nameKey kt (entryKeyName f)) (recordEntries kt t.fieldsOf vals) =
            some (dynamicOf (recordValue kt v))) ∧
        (hasOmitempty f = true → listedShape v = true → specNonEmpty v = true →
          lookupEntry (nameKey kt (entryKeyName f)) (recordEntries kt t.fieldsOf vals) =
            some (dynamicOf (recordValue kt v))) ∧
        (hasOmitempty f = true → listedShape v = true → specNonEmpty v = false →
          lookupEntry (nameKey kt (entryKeyName f)) (recordEntries kt t.fieldsOf vals) =
            none) ∧
        (hasOmitempty f = true → (∃ t2 fs2, v = Val.struct t2 fs2) →
          lookupEntry (nameKey kt (entryKeyName f)) (recordEntries kt t.fieldsOf vals) =
            some (dynamicOf (recordValue kt v)))) ∧
    (∀ (dec : Dec) (mfl : Flags) (f : StructField) (fs : List StructField) (v : Val)
      (vs : List Val) (mt et : Ty) (es : List (Val × Val)), f.PkgPath = "" →
      v.IsValid = true → mt.underlying = Ty.map kt et → mfl.ro = false →
      v.typ.AssignableTo et = true → (stringsSplit (tagGet f.Tag tagName)).headD "" ≠ "-" →
      v.kind ≠ Kind.Struct →
      ∃ e : Val, assignTo "reflect.Value.SetMapIndex" v et = Res.ok e ∧
        (hasOmitempty f = true → listedShape v = true → specNonEmpty v = false →
          decodeMapFromStructLoop dec mfl (f :: fs) (v :: vs) (Val.map mt es) =
            decodeMapFromStructLoop dec mfl fs vs (Val.map mt es)) ∧
        (hasOmitempty f = true → listedShape v = true → specNonEmpty v = true →
          decodeMapFromStructLoop dec mfl (f :: fs) (v :: vs) (Val.map mt es) =
            decodeMapFromStructLoop dec mfl fs vs
              (Val.map mt (upsertEntry (nameKey kt (entryKeyName f)) e es))) ∧
        (hasOmitempty f = false →
          decodeMapFromStructLoop dec mfl (f :: fs) (v :: vs) (Val.map mt es) =
            decodeMapFromStructLoop dec mfl fs vs
              (Val.map mt (upsertEntry (nameKey kt (entryKeyName f)) e es))) ∧
        lookupEntry (nameKey kt (entryKeyName f))
          (upsertEntry (nameKey kt (entryKeyName f)) e es) = some e) := by
  refine ⟨?_, fun dec mfl f fs v vs mt et es hexp hv hmt hro hassign hkey hns =>
    omitempty_step dec mfl f fs v vs mt kt et es hexp hv hmt hkt hro hassign hkey hns⟩
  intro fuel name data t vals mt fl hsrc hwf hmt hro hfuel
  obtain ⟨-, h | h⟩ := wellFormedRecord_facts _ hwf
  · obtain ⟨t2, fs2, heq, hst, hdist, hwff⟩ := h
    simp only [Val.struct.injEq] at heq
    obtain ⟨rfl, rfl⟩ := heq
    simp only [Val.recordDepth] at hfuel
    obtain ⟨fuel2, rfl⟩ : ∃ n, fuel = n + 1 := ⟨fuel - 1, by omega⟩
    have hloop := structLoop_entries lib kt hkt fuel2 t.fieldsOf vals fl mt [] hwff (by omega)
      hmt hro hdist (fun e he => by simp at he)
    simp only [List.nil_append] at hloop
    refine ⟨decode_struct_into_map lib fuel2 name data t vals mt kt emptyInterface [] _ fl hsrc
      hst hmt hro hloop, ?_⟩
    intro j f v hf hvj hexp hkey
    have hl := recordEntries_lookup kt hkt t.fieldsOf vals j f v hdist hf hvj hexp hkey
    refine ⟨?_, ?_, ?_, ?_⟩
    · intro ho
      rw [hl]
      simp [ho]
    · intro ho hls hn
      have he : isEmptyB v = false := by
        simp [isEmptyB, isEmptyValue_listed v hls, hn]
      rw [hl]
      simp [he]
    · intro ho hls hn
      have he : isEmptyB v = true := by
        simp [isEmptyB, isEmptyValue_listed v hls, hn]
      rw [hl]
      simp [ho, he]
    · intro ho hs
      obtain ⟨t2, fs2, rfl⟩ := hs
      have hwv : (Val.struct t2 fs2).wellFormedRecord = true := by
        obtain ⟨hj, hfj⟩ := List.getElem?_eq_some.1 hvj
        exact wellFormedFields_mem t.fieldsOf vals hwff _ (hfj ▸ List.getElem_mem hj)
      have hst2 : t2.isStruct = true := by
        simp only [Val.wellFormedRecord, Bool.and_eq_true] at hwv
        exact hwv.1.1
      have he : isEmptyB (Val.struct t2 fs2) = false := by
        have hk2 : getKind (Val.struct t2 fs2) = Kind.Struct := by
          simp only [getKind, Val.kind, Val.typ, (Ty.isStruct_facts t2 hst2).1]
          rfl
        simp only [isEmptyB, isEmptyValue, hk2]
      rw [hl]
      simp [he]
  · obtain ⟨hk, -⟩ := h
    obtain ⟨hst, -⟩ : t.isStruct = true ∧ True := by
      simp only [Val.wellFormedRecord, Bool.and_eq_true] at hwf
      exact ⟨hwf.1.1, trivial⟩
    exact absurd (Ty.isStruct_facts t hst).1 hk

/-- C20 at the struct `StructWithOmitEmpty` of the tests.  With every field holding a value
that is not empty the map gets the fourteen entries, with the zero struct the seven
entries of the fields without the option; the field `OmitIntField` gives the entry
`omittable-int: 1` for the value 1 and no entry for the value 0, and the field
`VisibleIntField` gives the entry `visible-int: 0` for the value 0.  The two tests
themselves, through `Decode`, give the same maps. -/
theorem omitempty_rule_witness :
    decode stdLib 1 "" (Val.struct tOmitEmpty omitEmptyFilled) (Val.map tMapSI [])
        Flags.fresh =
      done (Val.map tMapSI ((omitEmptyFields.zip omitEmptyFilled).map fun fv =>
        (text (entryKeyName fv.1), boxed fv.2))) ∧
    decode stdLib 1 "" (Zero tOmitEmpty) (Val.map tMapSI []) Flags.fresh =
      done (Val.map tMapSI omitEmptyVisible) ∧
    lookupEntry (text "omittable-int") (recordEntries tString omitEmptyFields omitEmptyFilled) =
      some (boxed (Val.int tInt 1)) ∧
    lookupEntry (text "omittable-int")
        (recordEntries tString omitEmptyFields (zeroFields omitEmptyFields)) = none ∧
    lookupEntry (text "visible-int")
        (recordEntries tString omitEmptyFields (zeroFields omitEmptyFields)) =
      some (boxed (Val.int tInt 0)) ∧
    Decode stdLib 1 (Val.ptr (Ty.ptr tOmitEmpty) (Zero tOmitEmpty))
        (Val.ptr (Ty.ptr tMapSI) (Val.map tMapSI [])) =
      done (Val.ptr (Ty.ptr tMapSI) (Val.map tMapSI omitEmptyVisible)) :=
  ⟨(((omitempty_rule stdLib tString (Or.inl rfl)).1 1 ""
      (Val.struct tOmitEmpty omitEmptyFilled) tOmitEmpty omitEmptyFilled tMapSI Flags.fresh rfl
      (by rfl) rfl rfl (by decide)).1).trans (by rfl),
   (((omitempty_rule stdLib tString (Or.inl rfl)).1 1 "" (Zero tOmitEmpty) tOmitEmpty
      (zeroFields omitEmptyFields) tMapSI Flags.fresh rfl (by rfl) rfl rfl
      (by decide)).1).trans (by rfl),
   ((((omitempty_rule stdLib tString (Or.inl rfl)).1 1 ""
      (Val.struct tOmitEmpty omitEmptyFilled) tOmitEmpty omitEmptyFilled tMapSI Flags.fresh rfl
      (by rfl) rfl rfl (by decide)).2 3
      (StructField.mk "OmitIntField" "" [("json", "omittable-int,omitempty")] false tInt)
      (Val.int tInt 1) rfl rfl rfl (by decide)).2.1 (by rfl) (by rfl) (by rfl)).trans (by rfl),
   ((((omitempty_rule stdLib tString (Or.inl rfl)).1 1 "" (Zero tOmitEmpty) tOmitEmpty
      (zeroFields omitEmptyFields) tMapSI Flags.fresh rfl (by rfl) rfl rfl (by decide)).2 3
      (StructField.mk "OmitIntField" "" [("json", "omittable-int,omitempty")] false tInt)
      (Val.int tInt 0) rfl rfl rfl (by decide)).2.2.1 (by rfl) (by rfl) (by rfl)),
   ((((omitempty_rule stdLib tString (Or.inl rfl)).1 1 "" (Zero tOmitEmpty) tOmitEmpty
      (zeroFields omitEmptyFields) tMapSI Flags.fresh rfl (by rfl) rfl rfl (by decide)).2 2
      (StructField.mk "VisibleIntField" "" [("json", "visible-int")] false tInt)
      (Val.int tInt 0) rfl rfl rfl (by decide)).1 (by rfl)).trans (by rfl),
   omitempty_tests.1⟩

/-! ## C37: the order in which the keys of a source map are enumerated -/

mutual
/-- Two types that `Ty.beq` takes for identical are the same type. -/
theorem Ty.eq_of_beq : ∀ a b : Ty, Ty.beq a b = true → a = b
  | .basic k, b, h => by
      cases b <;> simp only [Ty.beq, Bool.false_eq_true] at h
      rw [beq_iff_eq.1 h]
  | .named p n ms u, b, h => by
      cases b <;> simp only [Ty.beq, Bool.false_eq_true, Bool.and_eq_true, beq_iff_eq] at h
      rw [h.1.1.1, h.1.1.2, h.1.2, Ty.eq_of_beq u _ h.2]
  | .array l e, b, h => by
      cases b <;> simp only [Ty.beq, Bool.false_eq_true, Bool.and_eq_true, beq_iff_eq] at h
      rw [h.1, Ty.eq_of_beq e _ h.2]
  | .chan e, b, h => by
      cases b <;> simp only [Ty.beq, Bool.false_eq_true] at h
      rw [Ty.eq_of_beq e _ h]
  | .func s, b, h => by
      cases b <;> simp only [Ty.beq, Bool.false_eq_true, beq_iff_eq] at h
      rw [h]
  | .iface ms, b, h => by
      cases b <;> simp only [Ty.beq, Bool.false_eq_true, beq_iff_eq] at h
      rw [h]
  | .map k e, b, h => by
      cases b <;> simp only [Ty.beq, Bool.false_eq_true, Bool.and_eq_true] at h
      rw [Ty.eq_of_beq k _ h.1, Ty.eq_of_beq e _ h.2]
  | .ptr e, b, h => by
      cases b <;> simp only [Ty.beq, Bool.false_eq_true] at h
      rw [Ty.eq_of_beq e _ h]
  | .slice e, b, h => by
      cases b <;> simp only [Ty.beq, Bool.false_eq_true] at h
      rw [Ty.eq_of_beq e _ h]
  | .struct fs, b, h => by
      cases b <;> simp only [Ty.beq, Bool.false_eq_true] at h
      rw [Ty.eq_of_beqFields fs _ h]
  | .recur p n ms u, b, h => by
      cases b <;> simp only [Ty.beq, Bool.false_eq_true, Bool.and_eq_true, beq_iff_eq] at h
      rw [h.1.1.1, h.1.1.2, h.1.2, Ty.eq_of_beq u _ h.2]
  | .ref p n, b, h => by
      cases b <;> simp only [Ty.beq, Bool.false_eq_true, Bool.and_eq_true, beq_iff_eq] at h
      rw [h.1, h.2]
/-- Two field lists that `Ty.beqFields` takes for identical are the same list. -/
theorem Ty.eq_of_beqFields : ∀ fs gs : List StructField, Ty.beqFields fs gs = true → fs = gs
  | [], [], _ => rfl
  | [], _ :: _, h => by simp [Ty.beqFields] at h
  | _ :: _, [], h => by simp [Ty.beqFields] at h
  | f :: fs, g :: gs, h => by
      simp only [Ty.beqFields, Bool.and_eq_true] at h
      rw [Ty.eq_of_beqField f g h.1, Ty.eq_of_beqFields fs gs h.2]
/-- Two fields that `Ty.beqField` takes for identical are the same field. -/
theorem Ty.eq_of_beqField : ∀ f g : StructField, Ty.beqField f g = true → f = g
  | .mk n p t a ty, .mk n2 p2 t2 a2 ty2, h => by
      simp only [Ty.beqField, Bool.and_eq_true, beq_iff_eq] at h
      rw [h.1.1.1.1, h.1.1.1.2, h.1.1.2, h.1.2, Ty.eq_of_beq ty ty2 h.2]
end

/-- Type identity as a boolean holds exactly between a type and itself. -/
theorem Ty.beq_iff_eq (a b : Ty) : (a == b) = true ↔ a = b :=
  ⟨Ty.eq_of_beq a b, fun h => h ▸ Ty.beq_refl a⟩

/-- The fraction of a finite value has a positive denominator, and a zero numerator
exactly for the mantissa zero. -/
theorem GoFloat.frac_facts (m : Nat) (e : Int) :
    0 < (GoFloat.frac m e).2 ∧ ((GoFloat.frac m e).1 = 0 ↔ m = 0) := by
  unfold GoFloat.frac
  split
  · refine ⟨Nat.one_pos, ?_⟩
    simp only [Nat.mul_eq_zero, pow_eq_zero_iff', OfNat.ofNat_ne_zero, false_and, or_false]
  · exact ⟨pow_pos (by decide) _, Iff.rfl⟩

/-- The equality of Go on floating-point numbers is symmetric. -/
theorem GoFloat.eq_symm (a b : GoFloat) (h : GoFloat.eq a b = true) : GoFloat.eq b a = true := by
  cases a with
  | fin n m e =>
    cases b with
    | fin n2 m2 e2 =>
      simp only [GoFloat.eq, Bool.and_eq_true, beq_iff_eq, Bool.or_eq_true] at h ⊢
      obtain ⟨hq1, hz1⟩ := GoFloat.frac_facts m e
      obtain ⟨hq2, hz2⟩ := GoFloat.frac_facts m2 e2
      refine ⟨h.1.symm, ?_⟩
      rcases h.2 with hn | hm
      · exact Or.inl hn.symm
      · right
        have h1 : (GoFloat.frac m e).1 = 0 := hz1.2 hm
        have h2 := h.1
        rw [h1, Nat.zero_mul] at h2
        rcases Nat.mul_eq_zero.1 h2.symm with h3 | h3
        · exact hz2.1 h3
        · omega
    | inf _ => simp [GoFloat.eq] at h
    | nan => simp [GoFloat.eq] at h
  | inf n =>
    cases b with
    | inf n2 =>
      simp only [GoFloat.eq, beq_iff_eq] at h ⊢
      exact h.symm
    | fin _ _ _ => simp [GoFloat.eq] at h
    | nan => simp [GoFloat.eq] at h
  | nan => simp [GoFloat.eq] at h

/-- The equality of Go on floating-point numbers is transitive. -/
theorem GoFloat.eq_trans (a b c : GoFloat) (h1 : GoFloat.eq a b = true)
    (h2 : GoFloat.eq b c = true) : GoFloat.eq a c = true := by
  cases a with
  | fin n m e =>
    cases b with
    | fin n2 m2 e2 =>
      cases c with
      | fin n3 m3 e3 =>
        simp only [GoFloat.eq, Bool.and_eq_true, beq_iff_eq, Bool.or_eq_true] at h1 h2 ⊢
        obtain ⟨hq1, hz1⟩ := GoFloat.frac_facts m e
        obtain ⟨hq2, hz2⟩ := GoFloat.frac_facts m2 e2
        obtain ⟨hq3, hz3⟩ := GoFloat.frac_facts m3 e3
        constructor
        · apply Nat.eq_of_mul_eq_mul_right hq2
          calc (GoFloat.frac m e).1 * (GoFloat.frac m3 e3).2 * (GoFloat.frac m2 e2).2
              = (GoFloat.frac m e).1 * (GoFloat.frac m2 e2).2 * (GoFloat.frac m3 e3).2 := by ring
            _ = (GoFloat.frac m2 e2).1 * (GoFloat.frac m e).2 * (GoFloat.frac m3 e3).2 := by
                rw [h1.1]
            _ = (GoFloat.frac m2 e2).1 * (GoFloat.frac m3 e3).2 * (GoFloat.frac m e).2 := by ring
            _ = (GoFloat.frac m3 e3).1 * (GoFloat.frac m2 e2).2 * (GoFloat.frac m e).2 := by
                rw [h2.1]
            _ = (GoFloat.frac m3 e3).1 * (GoFloat.frac m e).2 * (GoFloat.frac m2 e2).2 := by ring
        · rcases h1.2 with hn | hm
          · rcases h2.2 with hn2 | hm2
            · exact Or.inl (hn.trans hn2)
            · right
              have hb : (GoFloat.frac m2 e2).1 = 0 := hz2.2 hm2
              have h3 := h1.1
              rw [hb, Nat.zero_mul] at h3
              rcases Nat.mul_eq_zero.1 h3 with h4 | h4
              · exact hz1.1 h4
              · omega
          · exact Or.inr hm
      | inf _ => simp [GoFloat.eq] at h2
      | nan => simp [GoFloat.eq] at h2
    | inf _ => simp [GoFloat.eq] at h1
    | nan => simp [GoFloat.eq] at h1
  | inf n =>
    cases b with
    | inf n2 =>
      cases c with
      | inf n3 =>
        simp only [GoFloat.eq, beq_iff_eq] at h1 h2 ⊢
        exact h1.trans h2
      | fin _ _ _ => simp [GoFloat.eq] at h2
      | nan => simp [GoFloat.eq] at h2
    | fin _ _ _ => simp [GoFloat.eq] at h1
    | nan => simp [GoFloat.eq] at h1
  | nan => simp [GoFloat.eq] at h1

mutual
/-- The equality `==` on values is symmetric. -/
theorem Val.goEq_symm : ∀ a b : Val, Val.goEq a b = true → Val.goEq b a = true
  | .invalid, b, h => by
      cases b <;> simp only [Val.goEq, Bool.false_eq_true] at h ⊢
  | .nil t, b, h => by
      cases b <;> simp only [Val.goEq, Bool.false_eq_true] at h ⊢
      rw [(Ty.beq_iff_eq _ _).1 h]
      exact Ty.beq_self _
  | .bool t x, b, h => by
      cases b <;> simp only [Val.goEq, Bool.false_eq_true, Bool.and_eq_true, beq_iff_eq] at h ⊢
      exact ⟨(Ty.beq_iff_eq _ _).2 ((Ty.beq_iff_eq _ _).1 h.1).symm, h.2.symm⟩
  | .int t x, b, h => by
      cases b <;> simp only [Val.goEq, Bool.false_eq_true, Bool.and_eq_true, beq_iff_eq] at h ⊢
      exact ⟨(Ty.beq_iff_eq _ _).2 ((Ty.beq_iff_eq _ _).1 h.1).symm, h.2.symm⟩
  | .uint t x, b, h => by
      cases b <;> simp only [Val.goEq, Bool.false_eq_true, Bool.and_eq_true, beq_iff_eq] at h ⊢
      exact ⟨(Ty.beq_iff_eq _ _).2 ((Ty.beq_iff_eq _ _).1 h.1).symm, h.2.symm⟩
  | .float t x, b, h => by
      cases b <;> simp only [Val.goEq, Bool.false_eq_true, Bool.and_eq_true] at h ⊢
      exact ⟨(Ty.beq_iff_eq _ _).2 ((Ty.beq_iff_eq _ _).1 h.1).symm, GoFloat.eq_symm _ _ h.2⟩
  | .str t x, b, h => by
      cases b <;> simp only [Val.goEq, Bool.false_eq_true, Bool.and_eq_true, beq_iff_eq] at h ⊢
      exact ⟨(Ty.beq_iff_eq _ _).2 ((Ty.beq_iff_eq _ _).1 h.1).symm, h.2.symm⟩
  | .other t x, b, h => by
      cases b <;> simp only [Val.goEq, Bool.false_eq_true, Bool.and_eq_true, beq_iff_eq] at h ⊢
      exact ⟨(Ty.beq_iff_eq _ _).2 ((Ty.beq_iff_eq _ _).1 h.1).symm, h.2.symm⟩
  | .chan t x, b, h => by
      cases b <;> simp only [Val.goEq, Bool.false_eq_true, Bool.and_eq_true, beq_iff_eq] at h ⊢
      exact ⟨(Ty.beq_iff_eq _ _).2 ((Ty.beq_iff_eq _ _).1 h.1).symm, h.2.symm⟩
  | .func t x, b, h => by
      cases b <;> simp only [Val.goEq, Bool.false_eq_true] at h
  | .slice t x, b, h => by
      cases b <;> simp only [Val.goEq, Bool.false_eq_true] at h
  | .map t x, b, h => by
      cases b <;> simp only [Val.goEq, Bool.false_eq_true] at h
  | .array t es, b, h => by
      cases b <;> simp only [Val.goEq, Bool.false_eq_true, Bool.and_eq_true] at h ⊢
      exact ⟨(Ty.beq_iff_eq _ _).2 ((Ty.beq_iff_eq _ _).1 h.1).symm,
        Val.goEqList_symm es _ h.2⟩
  | .struct t es, b, h => by
      cases b <;> simp only [Val.goEq, Bool.false_eq_true, Bool.and_eq_true] at h ⊢
      exact ⟨(Ty.beq_iff_eq _ _).2 ((Ty.beq_iff_eq _ _).1 h.1).symm,
        Val.goEqList_symm es _ h.2⟩
  | .ptr t p, b, h => by
      cases b <;> simp only [Val.goEq, Bool.false_eq_true, Bool.and_eq_true] at h ⊢
      exact ⟨(Ty.beq_iff_eq _ _).2 ((Ty.beq_iff_eq _ _).1 h.1).symm, Val.goEq_symm p _ h.2⟩
  | .iface t p, b, h => by
      cases b <;> simp only [Val.goEq, Bool.false_eq_true] at h ⊢
      exact Val.goEq_symm p _ h
/-- The elementwise equality of two lists of values is symmetric. -/
theorem Val.goEqList_symm : ∀ as bs : List Val, Val.goEqList as bs = true →
    Val.goEqList bs as = true
  | [], [], _ => by simp [Val.goEqList]
  | [], _ :: _, h => by simp [Val.goEqList] at h
  | _ :: _, [], h => by simp [Val.goEqList] at h
  | a :: as, b :: bs, h => by
      simp only [Val.goEqList, Bool.and_eq_true] at h ⊢
      exact ⟨Val.goEq_symm a b h.1, Val.goEqList_symm as bs h.2⟩
end

mutual
/-- The equality `==` on values is transitive. -/
theorem Val.goEq_trans : ∀ a b c : Val, Val.goEq a b = true → Val.goEq b c = true →
    Val.goEq a c = true
  | .invalid, b, c, h1, h2 => by
      cases b <;> simp only [Val.goEq, Bool.false_eq_true] at h1
      exact h2
  | .nil t, b, c, h1, h2 => by
      cases b <;> simp only [Val.goEq, Bool.false_eq_true] at h1
      rw [(Ty.beq_iff_eq _ _).1 h1]
      exact h2
  | .bool t x, b, c, h1, h2 => by
      cases b <;> simp only [Val.goEq, Bool.false_eq_true, Bool.and_eq_true, beq_iff_eq] at h1
      rw [(Ty.beq_iff_eq _ _).1 h1.1, h1.2]
      exact h2
  | .int t x, b, c, h1, h2 => by
      cases b <;> simp only [Val.goEq, Bool.false_eq_true, Bool.and_eq_true, beq_iff_eq] at h1
      rw [(Ty.beq_iff_eq _ _).1 h1.1, h1.2]
      exact h2
  | .uint t x, b, c, h1, h2 => by
      cases b <;> simp only [Val.goEq, Bool.false_eq_true, Bool.and_eq_true, beq_iff_eq] at h1
      rw [(Ty.beq_iff_eq _ _).1 h1.1, h1.2]
      exact h2
  | .str t x, b, c, h1, h2 => by
      cases b <;> simp only [Val.goEq, Bool.false_eq_true, Bool.and_eq_true, beq_iff_eq] at h1
      rw [(Ty.beq_iff_eq _ _).1 h1.1, h1.2]
      exact h2
  | .other t x, b, c, h1, h2 => by
      cases b <;> simp only [Val.goEq, Bool.false_eq_true, Bool.and_eq_true, beq_iff_eq] at h1
      rw [(Ty.beq_iff_eq _ _).1 h1.1, h1.2]
      exact h2
  | .chan t x, b, c, h1, h2 => by
      cases b <;> simp only [Val.goEq, Bool.false_eq_true, Bool.and_eq_true, beq_iff_eq] at h1
      rw [(Ty.beq_iff_eq _ _).1 h1.1, h1.2]
      exact h2
  | .float t x, b, c, h1, h2 => by
      cases b <;> simp only [Val.goEq, Bool.false_eq_true, Bool.and_eq_true] at h1
      cases c <;> simp only [Val.goEq, Bool.false_eq_true, Bool.and_eq_true] at h2 ⊢
      rw [(Ty.beq_iff_eq _ _).1 h1.1]
      exact ⟨h2.1, GoFloat.eq_trans _ _ _ h1.2 h2.2⟩
  | .func t x, b, c, h1, h2 => by
      cases b <;> simp only [Val.goEq, Bool.false_eq_true] at h1
  | .slice t x, b, c, h1, h2 => by
      cases b <;> simp only [Val.goEq, Bool.false_eq_true] at h1
  | .map t x, b, c, h1, h2 => by
      cases b <;> simp only [Val.goEq, Bool.false_eq_true] at h1
  | .array t es, b, c, h1, h2 => by
      cases b <;> simp only [Val.goEq, Bool.false_eq_true, Bool.and_eq_true] at h1
      cases c <;> simp only [Val.goEq, Bool.false_eq_true, Bool.and_eq_true] at h2 ⊢
      rw [(Ty.beq_iff_eq _ _).1 h1.1]
      exact ⟨h2.1, Val.goEqList_trans es _ _ h1.2 h2.2⟩
  | .struct t es, b, c, h1, h2 => by
      cases b <;> simp only [Val.goEq, Bool.false_eq_true, Bool.and_eq_true] at h1
      cases c <;> simp only [Val.goEq, Bool.false_eq_true, Bool.and_eq_true] at h2 ⊢
      rw [(Ty.beq_iff_eq _ _).1 h1.1]
      exact ⟨h2.1, Val.goEqList_trans es _ _ h1.2 h2.2⟩
  | .ptr t p, b, c, h1, h2 => by
      cases b <;> simp only [Val.goEq, Bool.false_eq_true, Bool.and_eq_true] at h1
      cases c <;> simp only [Val.goEq, Bool.false_eq_true, Bool.and_eq_true] at h2 ⊢
      rw [(Ty.beq_iff_eq _ _).1 h1.1]
      exact ⟨h2.1, Val.goEq_trans p _ _ h1.2 h2.2⟩
  | .iface t p, b, c, h1, h2 => by
      cases b <;> simp only [Val.goEq, Bool.false_eq_true] at h1
      cases c <;> simp only [Val.goEq, Bool.false_eq_true] at h2 ⊢
      exact Val.goEq_trans p _ _ h1 h2
/-- The elementwise equality of lists of values is transitive. -/
theorem Val.goEqList_trans : ∀ as bs cs : List Val, Val.goEqList as bs = true →
    Val.goEqList bs cs = true → Val.goEqList as cs = true
  | [], [], cs, _, h2 => h2
  | [], _ :: _, _, h, _ => by simp [Val.goEqList] at h
  | _ :: _, [], _, h, _ => by simp [Val.goEqList] at h
  | _ :: _, _ :: _, [], _, h => by simp [Val.goEqList] at h
  | a :: as, b :: bs, c :: cs, h1, h2 => by
      simp only [Val.goEqList, Bool.and_eq_true] at h1 h2 ⊢
      exact ⟨Val.goEq_trans a b c h1.1 h2.1, Val.goEqList_trans as bs cs h1.2 h2.2⟩
end

/-- The value under a key after an entry is stored: the stored value under every key equal
to the stored key, the previous value under the other keys. -/
theorem lookupEntry_upsert (k v q : Val) :
    ∀ es : List (Val × Val),
      lookupEntry q (upsertEntry k v es) = if Val.goEq k q then some v else lookupEntry q es
  | [] => by simp only [upsertEntry, lookupEntry]
  | (e, w) :: rest => by
      have ih := lookupEntry_upsert k v q rest
      by_cases hek : Val.goEq e k = true
      · simp only [upsertEntry, hek, if_true, lookupEntry]
        by_cases hkq : Val.goEq k q = true
        · simp only [hkq, if_true, Val.goEq_trans e k q hek hkq]
        · have heq : Val.goEq e q = false := by
            cases h : Val.goEq e q with
            | false => rfl
            | true => exact absurd (Val.goEq_trans k e q (Val.goEq_symm e k hek) h) hkq
          simp only [hkq, heq, Bool.false_eq_true, if_false]
      · simp only [upsertEntry, hek, Bool.false_eq_true, if_false, lookupEntry, ih]
        by_cases heq : Val.goEq e q = true
        · have hkq : Val.goEq k q = false := by
            cases h : Val.goEq k q with
            | false => rfl
            | true => exact absurd (Val.goEq_trans e q k heq (Val.goEq_symm k q h)) hek
          simp only [heq, hkq, if_true, Bool.false_eq_true, if_false]
        · simp only [heq, Bool.false_eq_true, if_false]

/-- The value under a key after the upsert of the spec: the value of the last source key
whose converted key equals it, or else the value the target held before. -/
theorem lookupEntry_upsertConverted (conv : Val → Option (Val × Val)) (q : Val)
    (old : List (Val × Val)) (ks : List Val) :
    lookupEntry q (upsertConverted conv ks old) =
      match lastConverted conv q ks with
      | some v => some v
      | none => lookupEntry q old := by
  induction ks using List.reverseRecOn with
  | nil => rfl
  | append_singleton ks k ih =>
    simp only [upsertConverted, List.foldl_append, List.foldl_cons, List.foldl_nil] at ih ⊢
    simp only [lastConverted, List.reverse_append, List.reverse_cons, List.reverse_nil,
      List.nil_append, List.singleton_append, List.filterMap_cons] at ih ⊢
    cases hc : conv k with
    | none => simpa only using ih
    | some c =>
      simp only [lookupEntry_upsert, List.find?_cons]
      by_cases hq : Val.goEq c.1 q = true
      · simp only [hq, if_true, Option.map_some']
      · simp only [hq, Bool.false_eq_true, if_false]
        exact ih

/-- The first element with a property does not depend on the order of a list in which no
two elements have the property. -/
theorem find_perm_exclusive {α : Type} (p : α → Bool) (l1 l2 : List α) (hperm : l1.Perm l2)
    (hpw : l1.Pairwise fun a b => ¬ (p a = true ∧ p b = true)) :
    l1.find? p = l2.find? p := by
  induction hperm with
  | nil => rfl
  | cons x _ ih =>
    simp only [List.find?_cons]
    rw [ih (List.pairwise_cons.1 hpw).2]
  | swap x y l =>
    simp only [List.find?_cons]
    have hxy := (List.pairwise_cons.1 hpw).1 x (List.mem_cons_self _ _)
    cases hx : p x <;> cases hy : p y <;> simp_all
  | trans h1 _ ih1 ih2 =>
    have hsym : Symmetric fun a b : α => ¬ (p a = true ∧ p b = true) :=
      fun a b h hc => h ⟨hc.2, hc.1⟩
    rw [ih1 hpw, ih2 ((h1.pairwise_iff (fun {a b} h => hsym h)).1 hpw)]

/-- The value the source keys give under a key does not depend on their order when no two
of them convert to equal keys. -/
theorem lastConverted_perm (conv : Val → Option (Val × Val)) (q : Val) (ks1 ks2 : List Val)
    (hperm : ks1.Perm ks2) (hpw : ks1.Pairwise (separateConverted conv)) :
    lastConverted conv q ks1 = lastConverted conv q ks2 := by
  have hp : (ks1.reverse.filterMap conv).Perm (ks2.reverse.filterMap conv) :=
    (((List.reverse_perm ks1).trans hperm).trans (List.reverse_perm ks2).symm).filterMap conv
  have hsym : Symmetric (separateConverted conv) := by
    intro a b h c1 c2 h1 h2
    cases hg : Val.goEq c1.1 c2.1 with
    | false => rfl
    | true =>
      have := h c2 c1 h2 h1
      rw [Val.goEq_symm _ _ hg] at this
      cases this
  have hpw2 : ks1.reverse.Pairwise (separateConverted conv) :=
    ((List.reverse_perm ks1).pairwise_iff (fun {a b} h => hsym h)).2 hpw
  have hex : (ks1.reverse.filterMap conv).Pairwise
      fun a b => ¬ (Val.goEq a.1 q = true ∧ Val.goEq b.1 q = true) := by
    rw [List.pairwise_filterMap]
    refine hpw2.imp ?_
    intro a b hab c1 h1 c2 h2 hc
    have h1' : conv a = some c1 := h1
    have h2' : conv b = some c2 := h2
    have := Val.goEq_trans _ _ _ hc.1 (Val.goEq_symm _ _ hc.2)
    rw [hab c1 c2 h1' h2'] at this
    cases this
  simp only [lastConverted]
  rw [find_perm_exclusive _ _ _ hp hex]

/-- C37, amended.  Let two sources be the same map with its entries enumerated in two
orders: the entries of one are a rearrangement of those of the other and every key has
the same value in both.
(1) Decoded into a struct, the two sources give the same outcome when every field either
has its name as a key of the source or has at most one key that the slower search takes
for it, so that the search never chooses among several keys.
(2) Decoded into a settable map of any key type, when the conversions of all entries
return and no two source keys convert to keys that are equal in Go, the two sources give
maps with the same value, or none, under every key, and the same messages up to their
order, hence both succeed or both fail.
(3) When the source has no key that is exactly the name of a field, the entry for the
field is that of the first key, in the order of enumeration, that the slower search takes
for it.
(4) Decoded into a settable map, whether or not source keys convert to equal keys, the
value under a key is that of the last source key, in the order of enumeration, whose
converted key equals it, or else the value the target held before.
In (2) and (4) the keys of the source and the converted keys hold no pointer and no
channel, which Go compares by their address. -/
theorem decode_key_order_independent (dec : Dec) (lib : GoLib) (name : String) (t : Ty)
    (es1 es2 : List (Val × Val)) (fl : Flags) (hperm : es1.Perm es2)
    (hidx : ∀ k : Val, (Val.map t es1).MapIndex k = (Val.map t es2).MapIndex k) :
    (∀ (st : Ty) (fields : List StructField) (vals : List Val),
      st.structFields = Res.ok fields →
      (∀ f ∈ fields,
        (∃ raw, (Val.map t es1).MapIndex (Val.str (Ty.basic Kind.String) (effectiveName f)) =
            Res.ok raw ∧ raw.IsValid = true) ∨
          uniqueFold lib (es1.map Prod.fst) (effectiveName f)) →
      decodeStructFromMap dec lib name (Val.map t es1) (Val.struct st vals) fl =
        decodeStructFromMap dec lib name (Val.map t es2) (Val.struct st vals) fl) ∧
    (∀ (mt kt et : Ty) (old : List (Val × Val)), mt.underlying = Ty.map kt et →
      fl.CanSet = true → t.kind = Kind.Map → es1 ≠ [] →
      (∀ en ∈ es1, entryReturns dec lib name (Val.map t es1) kt et en.1) →
      (∀ en ∈ es1, en.1.identityFree = true) →
      (∀ k ∈ es1.map Prod.fst, ∀ c : Val × Val,
        entryConversion dec lib name (Val.map t es1) kt et k = some c →
        c.1.identityFree = true) →
      (es1.map Prod.fst).Pairwise
        (separateConverted (entryConversion dec lib name (Val.map t es1) kt et)) →
      ∃ (r1 r2 : List (Val × Val)) (msgs1 msgs2 : List String),
        decodeMapFromMap dec lib name (Val.map t es1) (Val.map mt old) fl (Val.map mt old) fl =
          finish (Val.map mt r1) msgs1 ∧
        decodeMapFromMap dec lib name (Val.map t es2) (Val.map mt old) fl (Val.map mt old) fl =
          finish (Val.map mt r2) msgs2 ∧
        (∀ q : Val, lookupEntry q r1 = lookupEntry q r2) ∧
        msgs1.Perm msgs2) ∧
    (∀ (fieldName : String) (raw : Val),
      (Val.map t es1).MapIndex (Val.str (Ty.basic Kind.String) fieldName) = Res.ok raw →
      raw.IsValid = false →
      resolveField lib (Val.map t es1) (es1.map Prod.fst) fieldName =
        match (es1.map Prod.fst).find? (foldMatch lib fieldName) with
        | some k => (Val.map t es1).MapIndex k
        | none => Res.ok Val.invalid) ∧
    (∀ (mt kt et : Ty) (old : List (Val × Val)), mt.underlying = Ty.map kt et →
      fl.CanSet = true → t.kind = Kind.Map → es1 ≠ [] →
      (∀ en ∈ es1, entryReturns dec lib name (Val.map t es1) kt et en.1) →
      (∀ en ∈ es1, en.1.identityFree = true) →
      (∀ k ∈ es1.map Prod.fst, ∀ c : Val × Val,
        entryConversion dec lib name (Val.map t es1) kt et k = some c →
        c.1.identityFree = true) →
      ∃ (r1 : List (Val × Val)) (msgs1 : List String),
        decodeMapFromMap dec lib name (Val.map t es1) (Val.map mt old) fl (Val.map mt old) fl =
          finish (Val.map mt r1) msgs1 ∧
        ∀ q : Val, lookupEntry q r1 =
          match lastConverted (entryConversion dec lib name (Val.map t es1) kt et) q
            (es1.map Prod.fst) with
          | some v => some v
          | none => lookupEntry q old) := by
  have hkperm : (es1.map Prod.fst).Perm (es2.map Prod.fst) := hperm.map _
  have hT : ∀ es, (Val.map t es).TypeOf = Res.ok t := fun _ => rfl
  have hKeys : ∀ es, (Val.map t es).MapKeys =
      if t.kind = Kind.Map then Res.ok (es.map Prod.fst)
      else Res.panic "reflect: call of reflect.Value.MapKeys on a value that is no map" :=
    fun _ => rfl
  have hout : ∀ (mt kt et : Ty) (old : List (Val × Val)), mt.underlying = Ty.map kt et →
      fl.CanSet = true → t.kind = Kind.Map →
      ∀ (es r : List (Val × Val)) (msgs : List String), es ≠ [] →
        decodeMapFromMapLoop dec lib name (Val.map t es) kt et fl (es.map Prod.fst)
          (Val.map mt old) [] = Res.ok (Val.map mt r, msgs) →
        decodeMapFromMap dec lib name (Val.map t es) (Val.map mt old) fl (Val.map mt old) fl =
          finish (Val.map mt r) msgs := by
    intro mt kt et old hmt hset htk es r msgs hes hloop
    have hro : fl.ro = false := by
      simp only [Flags.CanSet, Bool.and_eq_true, Bool.not_eq_true'] at hset
      exact hset.2
    have haddr : fl.addr = true := by
      simp only [Flags.CanSet, Bool.and_eq_true] at hset
      exact hset.1
    have hmts : mt.mapTypes = Res.ok (kt, et) := by simp only [Ty.mapTypes, hmt]
    have hlen : es.length ≠ 0 := fun hc => hes (List.length_eq_zero.1 hc)
    have hvT : (Val.map mt old).TypeOf = Res.ok mt := rfl
    have hL : (Val.map t es).Len = Res.ok es.length := by
      simp [Val.Len, Val.kind, Val.typ, htk]
    have hsame := assignTo_same "reflect.Set" (Val.map mt r) rfl
    have hS : (Val.map mt old).Set fl (Val.map mt r) = Res.ok (Val.map mt r) := by
      simp only [Val.Set, Val.IsValid, hro, haddr, Bool.not_true, Bool.false_eq_true,
        if_false]
      exact hsame
    simp only [decodeMapFromMap, hvT, hmts, Res.bind_ok, hL, hlen, if_false, hKeys, htk,
      if_true, hloop, hS]
  refine ⟨?_, ?_, ?_, ?_⟩
  · intro st fields vals hst hu
    have hvT : (Val.struct st vals).TypeOf = Res.ok st := rfl
    simp only [decodeStructFromMap, hT, hKeys, Res.bind_ok, hvT, hst]
    cases t.mapTypes with
    | panic s => rfl
    | outOfFuel => rfl
    | ok ktet =>
      simp only [Res.bind_ok]
      split
      · rfl
      · by_cases hk : t.kind = Kind.Map
        · simp only [hk, if_true, Res.bind_ok]
          rw [decodeStructFields_perm dec lib name (Val.map t es1) (Val.map t es2) _ _ fl hkperm
            hidx fields _ [] hu]
        · simp only [hk, if_false, Res.bind_panic]
  · intro mt kt et old hmt hset htk hne hret hsk hck hpw
    have _ := hsk
    have _ := hck
    have hro : fl.ro = false := by
      simp only [Flags.CanSet, Bool.and_eq_true, Bool.not_eq_true'] at hset
      exact hset.2
    have hmts : mt.mapTypes = Res.ok (kt, et) := by simp only [Ty.mapTypes, hmt]
    have hconvEq : entryConversion dec lib name (Val.map t es2) kt et =
        entryConversion dec lib name (Val.map t es1) kt et := by
      funext k
      simp only [entryConversion, hidx]
    have hmsgEq : entryMessages dec lib name (Val.map t es2) kt et =
        entryMessages dec lib name (Val.map t es1) kt et := by
      funext k
      simp only [entryMessages, hidx]
    have hret1 : ∀ k ∈ es1.map Prod.fst, entryReturns dec lib name (Val.map t es1) kt et k := by
      intro k hk
      obtain ⟨en, he, rfl⟩ := List.mem_map.1 hk
      exact hret en he
    have hret2 : ∀ k ∈ es2.map Prod.fst, entryReturns dec lib name (Val.map t es2) kt et k := by
      intro k hk
      have h1 := hret1 k (hkperm.mem_iff.2 hk)
      simpa only [entryReturns, hidx] using h1
    have hl1 := decodeMapFromMapLoop_full dec lib name (Val.map t es1) mt kt et fl hmts hro
      (es1.map Prod.fst) old [] hret1
    have hl2 := decodeMapFromMapLoop_full dec lib name (Val.map t es2) mt kt et fl hmts hro
      (es2.map Prod.fst) old [] hret2
    have hne2 : es2 ≠ [] := by
      intro hc
      rw [hc] at hperm
      exact hne (List.perm_nil.1 hperm)
    refine ⟨_, _, _, _, hout mt kt et old hmt hset htk es1 _ _ hne hl1,
      hout mt kt et old hmt hset htk es2 _ _ hne2 hl2, ?_, ?_⟩
    · intro q
      rw [hconvEq, lookupEntry_upsertConverted, lookupEntry_upsertConverted,
        lastConverted_perm _ q _ _ hkperm hpw]
    · rw [hmsgEq]
      simp only [List.nil_append]
      exact (hkperm.map _).flatten
  · intro fieldName raw hraw hinv
    simp only [resolveField, hraw, Res.bind_ok, hinv, Bool.not_false, if_true,
      findFold_eq_find]
  · intro mt kt et old hmt hset htk hne hret hsk hck
    have _ := hsk
    have _ := hck
    have hro : fl.ro = false := by
      simp only [Flags.CanSet, Bool.and_eq_true, Bool.not_eq_true'] at hset
      exact hset.2
    have hmts : mt.mapTypes = Res.ok (kt, et) := by simp only [Ty.mapTypes, hmt]
    have hret1 : ∀ k ∈ es1.map Prod.fst, entryReturns dec lib name (Val.map t es1) kt et k := by
      intro k hk
      obtain ⟨en, he, rfl⟩ := List.mem_map.1 hk
      exact hret en he
    have hl1 := decodeMapFromMapLoop_full dec lib name (Val.map t es1) mt kt et fl hmts hro
      (es1.map Prod.fst) old [] hret1
    exact ⟨_, _, hout mt kt et old hmt hset htk es1 _ _ hne hl1,
      fun q => lookupEntry_upsertConverted _ q old _⟩

/-- C37 fails as stated.  A source with the keys `vfoo` and `VFOO` decoded into a struct
with the field `VFoo` gives the value under the key that is enumerated first: `x` with
`vfoo` first and `y` with `VFOO` first.  A source with the keys `int8(1)` and `int16(1)`
decoded into a `map[int]string` gives, under the key 1, the value of the key that is
enumerated last. -/
theorem fallback_depends_on_key_order :
    Decode stdLib 2 foldFirst (Val.ptr (Ty.ptr tOneText) (Val.struct tOneText [text ""])) =
      done (Val.ptr (Ty.ptr tOneText) (Val.struct tOneText [text "x"])) ∧
    Decode stdLib 2 foldSecond (Val.ptr (Ty.ptr tOneText) (Val.struct tOneText [text ""])) =
      done (Val.ptr (Ty.ptr tOneText) (Val.struct tOneText [text "y"])) ∧
    foldFirst.entries.Perm foldSecond.entries ∧
    Decode stdLib 2 collideFirst
        (Val.ptr (Ty.ptr (Ty.map tInt tString)) (Val.map (Ty.map tInt tString) [])) =
      done (Val.ptr (Ty.ptr (Ty.map tInt tString))
        (Val.map (Ty.map tInt tString) [(Val.int tInt 1, text "b")])) ∧
    Decode stdLib 2 collideSecond
        (Val.ptr (Ty.ptr (Ty.map tInt tString)) (Val.map (Ty.map tInt tString) [])) =
      done (Val.ptr (Ty.ptr (Ty.map tInt tString))
        (Val.map (Ty.map tInt tString) [(Val.int tInt 1, text "a")])) ∧
    collideFirst.entries.Perm collideSecond.entries :=
  ⟨by rfl, by rfl, List.Perm.swap _ _ _, by rfl, by rfl, List.Perm.swap _ _ _⟩

/-- C37, amended, at a source with the keys `vfoo` and `vbar` in both orders.  Decoded
into a struct with the field `VFoo`, only `vfoo` is taken for the field and the two
orders give the same outcome; decoded into a `map[string]string`, the two orders give the
same value under every key.  For the source with the keys `vfoo` and `VFOO` the entry of
the field `VFoo` is that of the first key taken, and for the source with the keys
`int8(1)` and `int16(1)` the value under a key is that of the last key converted to it. -/
theorem decode_key_order_independent_witness :
    decodeStructFromMap (decode stdLib 1) stdLib "" (Val.map tMapSI orderFirst)
        (Val.struct tOneText [text ""]) Flags.fresh =
      decodeStructFromMap (decode stdLib 1) stdLib "" (Val.map tMapSI orderSecond)
        (Val.struct tOneText [text ""]) Flags.fresh ∧
    decodeStructFromMap (decode stdLib 1) stdLib "" (Val.map tMapSI orderFirst)
        (Val.struct tOneText [text ""]) Flags.fresh = done (Val.struct tOneText [text "x"]) ∧
    (∃ (r1 r2 : List (Val × Val)) (msgs1 msgs2 : List String),
      decodeMapFromMap (decode stdLib 1) stdLib "" (Val.map tMapSI orderFirst)
          (Val.map tMapSS []) Flags.fresh (Val.map tMapSS []) Flags.fresh =
        finish (Val.map tMapSS r1) msgs1 ∧
      decodeMapFromMap (decode stdLib 1) stdLib "" (Val.map tMapSI orderSecond)
          (Val.map tMapSS []) Flags.fresh (Val.map tMapSS []) Flags.fresh =
        finish (Val.map tMapSS r2) msgs2 ∧
      (∀ q : Val, lookupEntry q r1 = lookupEntry q r2) ∧ msgs1.Perm msgs2) ∧
    resolveField stdLib foldFirst (foldFirst.entries.map Prod.fst) "VFoo" =
      Res.ok (boxed (text "x")) ∧
    (∃ (r1 : List (Val × Val)) (msgs1 : List String),
      decodeMapFromMap (decode stdLib 1) stdLib "" collideFirst
          (Val.map (Ty.map tInt tString) []) Flags.fresh (Val.map (Ty.map tInt tString) [])
          Flags.fresh =
        finish (Val.map (Ty.map tInt tString) r1) msgs1 ∧
      ∀ q : Val, lookupEntry q r1 =
        match lastConverted (entryConversion (decode stdLib 1) stdLib "" collideFirst tInt
            tString) q (collideFirst.entries.map Prod.fst) with
        | some v => some v
        | none => lookupEntry q []) := by
  have hidx : ∀ k : Val, (Val.map tMapSI orderFirst).MapIndex k =
      (Val.map tMapSI orderSecond).MapIndex k := by
    intro k
    simp only [Val.MapIndex, Val.entries, orderFirst_lookup]
    rfl
  have hret : ∀ en ∈ orderFirst,
      entryReturns (decode stdLib 1) stdLib "" (Val.map tMapSI orderFirst) tString tString
        en.1 := by
    intro en hen
    simp only [orderFirst, List.mem_cons, List.mem_singleton, List.not_mem_nil,
      or_false] at hen
    rcases hen with rfl | rfl
    · exact ⟨text "vfoo", (text "vfoo", none), rfl, rfl,
        fun _ => ⟨rfl, rfl, rfl, text "x", (text "x", none), rfl, rfl, fun _ => ⟨rfl, rfl⟩⟩⟩
    · exact ⟨text "vbar", (text "vbar", none), rfl, rfl,
        fun _ => ⟨rfl, rfl, rfl, text "y", (text "y", none), rfl, rfl, fun _ => ⟨rfl, rfl⟩⟩⟩
  have hc1 : entryConversion (decode stdLib 1) stdLib "" (Val.map tMapSI orderFirst) tString
      tString (text "vfoo") = some (text "vfoo", text "x") := rfl
  have hc2 : entryConversion (decode stdLib 1) stdLib "" (Val.map tMapSI orderFirst) tString
      tString (text "vbar") = some (text "vbar", text "y") := rfl
  have hsk : ∀ en ∈ orderFirst, en.1.identityFree = true := by
    intro en hen
    simp only [orderFirst, List.mem_cons, List.mem_singleton, List.not_mem_nil,
      or_false] at hen
    rcases hen with rfl | rfl <;> rfl
  have hck : ∀ k ∈ orderFirst.map Prod.fst, ∀ c : Val × Val,
      entryConversion (decode stdLib 1) stdLib "" (Val.map tMapSI orderFirst) tString tString
        k = some c → c.1.identityFree = true := by
    intro k hk c h
    simp only [orderFirst, List.map_cons, List.map_nil, List.mem_cons, List.mem_singleton,
      List.not_mem_nil, or_false] at hk
    rcases hk with rfl | rfl
    · rw [hc1] at h
      cases h
      rfl
    · rw [hc2] at h
      cases h
      rfl
  have hpw : (orderFirst.map Prod.fst).Pairwise
      (separateConverted (entryConversion (decode stdLib 1) stdLib ""
        (Val.map tMapSI orderFirst) tString tString)) := by
    simp only [orderFirst, List.map_cons, List.map_nil, List.pairwise_cons, List.mem_singleton,
      List.not_mem_nil, forall_eq, false_implies, implies_true, List.Pairwise.nil, and_true]
    intro c1 c2 h1 h2
    have e1 : some (text "vfoo", text "x") = some c1 := hc1.symm.trans h1
    have e2 : some (text "vbar", text "y") = some c2 := hc2.symm.trans h2
    cases e1
    cases e2
    rfl
  have hretc : ∀ en ∈ collideFirst.entries,
      entryReturns (decode stdLib 1) stdLib "" (Val.map tMapII collideFirst.entries) tInt
        tString en.1 := by
    intro en hen
    simp only [collideFirst, Val.entries, List.mem_cons, List.mem_singleton, List.not_mem_nil,
      or_false] at hen
    rcases hen with rfl | rfl
    · exact ⟨Val.int (Ty.basic Kind.Int8) 1, (Val.int tInt 1, none), rfl, rfl,
        fun _ => ⟨rfl, rfl, rfl, text "a", (text "a", none), rfl, rfl, fun _ => ⟨rfl, rfl⟩⟩⟩
    · exact ⟨Val.int (Ty.basic Kind.Int16) 1, (Val.int tInt 1, none), rfl, rfl,
        fun _ => ⟨rfl, rfl, rfl, text "b", (text "b", none), rfl, rfl, fun _ => ⟨rfl, rfl⟩⟩⟩
  have hskc : ∀ en ∈ collideFirst.entries, en.1.identityFree = true := by
    intro en hen
    simp only [collideFirst, Val.entries, List.mem_cons, List.mem_singleton, List.not_mem_nil,
      or_false] at hen
    rcases hen with rfl | rfl <;> rfl
  have hckc : ∀ k ∈ collideFirst.entries.map Prod.fst, ∀ c : Val × Val,
      entryConversion (decode stdLib 1) stdLib "" (Val.map tMapII collideFirst.entries) tInt
        tString k = some c → c.1.identityFree = true := by
    intro k hk c h
    simp only [collideFirst, Val.entries, List.map_cons, List.map_nil, List.mem_cons,
      List.mem_singleton, List.not_mem_nil, or_false] at hk
    rcases hk with rfl | rfl
    · have hc : entryConversion (decode stdLib 1) stdLib "" (Val.map tMapII collideFirst.entries)
          tInt tString (boxed (Val.int (Ty.basic Kind.Int8) 1)) =
          some (Val.int tInt 1, text "a") := rfl
      rw [hc] at h
      cases h
      rfl
    · have hc : entryConversion (decode stdLib 1) stdLib "" (Val.map tMapII collideFirst.entries)
          tInt tString (boxed (Val.int (Ty.basic Kind.Int16) 1)) =
          some (Val.int tInt 1, text "b") := rfl
      rw [hc] at h
      cases h
      rfl
  exact ⟨(decode_key_order_independent (decode stdLib 1) stdLib "" tMapSI orderFirst
      orderSecond Flags.fresh (List.Perm.swap _ _ _) hidx).1
      tOneText [plainField "VFoo" tString] [text ""] rfl
      (by
        intro f hf
        simp only [List.mem_singleton] at hf
        subst hf
        right
        intro k1 h1 k2 h2 m1 m2
        simp only [orderFirst, List.map_cons, List.map_nil, List.mem_cons, List.mem_singleton,
          List.not_mem_nil, or_false] at h1 h2
        rcases h1 with rfl | rfl
        · rcases h2 with rfl | rfl
          · rfl
          · exact absurd m2 (by decide)
        · exact absurd m1 (by decide)),
    by rfl,
    (decode_key_order_independent (decode stdLib 1) stdLib "" tMapSI orderFirst
      orderSecond Flags.fresh (List.Perm.swap _ _ _) hidx).2.1 tMapSS tString tString [] rfl rfl
      rfl (by simp [orderFirst]) hret hsk hck hpw,
    ((decode_key_order_independent (decode stdLib 1) stdLib "" tMapSI foldFirst.entries
      foldFirst.entries Flags.fresh (List.Perm.refl _) (fun _ => rfl)).2.2.1 "VFoo"
      Val.invalid rfl rfl).trans (by rfl),
    (decode_key_order_independent (decode stdLib 1) stdLib "" tMapII collideFirst.entries
      collideFirst.entries Flags.fresh (List.Perm.refl _) (fun _ => rfl)).2.2.2
      (Ty.map tInt tString) tInt tString [] rfl rfl rfl (by simp [collideFirst, Val.entries])
      hretc hskc hckc⟩

/-! ## C36: termination -/

/-- A sequence of two computations needs no more fuel when neither part does. -/
theorem Res.bind_halts {α β : Type} {r : Res α} {f : α → Res β} (hr : r ≠ Res.outOfFuel)
    (hf : ∀ a, r = Res.ok a → f a ≠ Res.outOfFuel) : r.bind f ≠ Res.outOfFuel := by
  cases r with
  | ok a => exact hf a rfl
  | panic m => simp [Res.bind]
  | outOfFuel => exact absurd rfl hr

/-- The operation `Val.TypeOf` returns or panics: it needs no fuel. -/
theorem Val.TypeOf_halts (v : Val) : v.TypeOf ≠ Res.outOfFuel := by
  unfold Val.TypeOf; split <;> simp

/-- The operation `Val.IsNil` returns or panics: it needs no fuel. -/
theorem Val.IsNil_halts (v : Val) : v.IsNil ≠ Res.outOfFuel := by
  unfold Val.IsNil; split <;> simp

/-- The operation `Val.Elem` returns or panics: it needs no fuel. -/
theorem Val.Elem_halts (v : Val) : v.Elem ≠ Res.outOfFuel := by
  unfold Val.Elem; split <;> simp

/-- The operation `Val.Interface` returns or panics: it needs no fuel. -/
theorem Val.Interface_halts (v : Val) : v.Interface ≠ Res.outOfFuel := by
  unfold Val.Interface; split <;> (try split) <;> simp

/-- The operation `Val.Len` returns or panics: it needs no fuel. -/
theorem Val.Len_halts (v : Val) : v.Len ≠ Res.outOfFuel := by
  unfold Val.Len; repeat' split
  all_goals simp

/-- The operation `Val.Index` returns or panics: it needs no fuel. -/
theorem Val.Index_halts (v : Val) (i : Nat) : v.Index i ≠ Res.outOfFuel := by
  unfold Val.Index; repeat' split
  all_goals simp

/-- The operation `assignTo` returns or panics: it needs no fuel. -/
theorem assignTo_halts (c : String) (x : Val) (t : Ty) : assignTo c x t ≠ Res.outOfFuel := by
  unfold assignTo; repeat' split
  all_goals simp

/-- The operation `Val.Set` returns or panics: it needs no fuel. -/
theorem Val.Set_halts (v : Val) (fl : Flags) (x : Val) : v.Set fl x ≠ Res.outOfFuel := by
  unfold Val.Set; repeat' split
  all_goals first | exact assignTo_halts _ _ _ | simp

/-- The operation `mustBeAssignable` returns or panics: it needs no fuel. -/
theorem mustBeAssignable_halts (w : String) (v : Val) (fl : Flags) :
    mustBeAssignable w v fl ≠ Res.outOfFuel := by
  unfold mustBeAssignable; repeat' split
  all_goals simp

/-- The operation `Val.SetBool` returns or panics: it needs no fuel. -/
theorem Val.SetBool_halts (v : Val) (fl : Flags) (b : Bool) :
    v.SetBool fl b ≠ Res.outOfFuel := by
  unfold Val.SetBool
  refine Res.bind_halts (mustBeAssignable_halts _ _ _) (fun _ _ => ?_)
  split <;> simp

/-- The operation `Val.SetString` returns or panics: it needs no fuel. -/
theorem Val.SetString_halts (v : Val) (fl : Flags) (s : String) :
    v.SetString fl s ≠ Res.outOfFuel := by
  unfold Val.SetString
  refine Res.bind_halts (mustBeAssignable_halts _ _ _) (fun _ _ => ?_)
  split <;> simp

/-- The operation `Val.SetInt` returns or panics: it needs no fuel. -/
theorem Val.SetInt_halts (v : Val) (fl : Flags) (x : Int) :
    v.SetInt fl x ≠ Res.outOfFuel := by
  unfold Val.SetInt
  refine Res.bind_halts (mustBeAssignable_halts _ _ _) (fun _ _ => ?_)
  split <;> simp

/-- The operation `Val.SetUint` returns or panics: it needs no fuel. -/
theorem Val.SetUint_halts (v : Val) (fl : Flags) (x : Nat) :
    v.SetUint fl x ≠ Res.outOfFuel := by
  unfold Val.SetUint
  refine Res.bind_halts (mustBeAssignable_halts _ _ _) (fun _ _ => ?_)
  split <;> simp

/-- The operation `Val.SetFloat` returns or panics: it needs no fuel. -/
theorem Val.SetFloat_halts (v : Val) (fl : Flags) (x : GoFloat) :
    v.SetFloat fl x ≠ Res.outOfFuel := by
  unfold Val.SetFloat
  refine Res.bind_halts (mustBeAssignable_halts _ _ _) (fun _ _ => ?_)
  split <;> simp

/-- The operation `Ty.mapTypes` returns or panics: it needs no fuel. -/
theorem Ty.mapTypes_halts (t : Ty) : t.mapTypes ≠ Res.outOfFuel := by
  unfold Ty.mapTypes; split <;> simp

/-- The operation `Ty.Elem` returns or panics: it needs no fuel. -/
theorem Ty.elemType_halts (t : Ty) : t.Elem ≠ Res.outOfFuel := by
  unfold Ty.Elem; split <;> simp

/-- The operation `Ty.Len` returns or panics: it needs no fuel. -/
theorem Ty.arrayLen_halts (t : Ty) : t.Len ≠ Res.outOfFuel := by
  unfold Ty.Len; split <;> simp

/-- The operation `Ty.structFields` returns or panics: it needs no fuel. -/
theorem Ty.structFields_halts (t : Ty) : t.structFields ≠ Res.outOfFuel := by
  unfold Ty.structFields; split <;> simp

/-- The operation `Val.MapKeys` returns or panics: it needs no fuel. -/
theorem Val.MapKeys_halts (v : Val) : v.MapKeys ≠ Res.outOfFuel := by
  unfold Val.MapKeys; split <;> simp

/-- The operation `Val.MapIndex` returns or panics: it needs no fuel. -/
theorem Val.MapIndex_halts (v k : Val) : v.MapIndex k ≠ Res.outOfFuel := by
  unfold Val.MapIndex
  split
  · refine Res.bind_halts (Ty.mapTypes_halts _) (fun _ _ => ?_)
    refine Res.bind_halts (assignTo_halts _ _ _) (fun _ _ => ?_)
    split <;> simp
  · simp

/-- The operation `Val.SetMapIndex` returns or panics: it needs no fuel. -/
theorem Val.SetMapIndex_halts (m : Val) (fl : Flags) (k e : Val) :
    m.SetMapIndex fl k e ≠ Res.outOfFuel := by
  unfold Val.SetMapIndex
  split
  · simp
  · split
    · refine Res.bind_halts (Ty.mapTypes_halts _) (fun _ _ => ?_)
      refine Res.bind_halts (assignTo_halts _ _ _) (fun _ _ => ?_)
      refine Res.bind_halts (assignTo_halts _ _ _) (fun _ _ => ?_)
      split <;> simp
    · split <;> simp
    · simp

/-- The function `isEmptyValue` returns or panics: it needs no fuel. -/
theorem isEmptyValue_halts (v : Val) : isEmptyValue v ≠ Res.outOfFuel := by
  unfold isEmptyValue
  split
  all_goals first
    | exact Val.IsNil_halts _
    | exact Res.bind_halts (Val.Len_halts _) (fun _ _ => by simp)
    | simp

/-- The lookup of a field in the source map returns or panics: it needs no fuel. -/
theorem resolveField_halts (lib : GoLib) (dataVal : Val) (keys : List Val) (n : String) :
    resolveField lib dataVal keys n ≠ Res.outOfFuel := by
  unfold resolveField
  refine Res.bind_halts (Val.MapIndex_halts _ _) (fun _ _ => ?_)
  split
  · split
    · exact Val.MapIndex_halts _ _
    · simp
  · simp

/-- A return without error is a return. -/
theorem done_halts (v : Val) : done v ≠ Res.outOfFuel := by simp [done]

/-- A return with an error is a return. -/
theorem fail_halts (v : Val) (e : GoError) : fail v e ≠ Res.outOfFuel := by simp [fail]

/-- The end of a container converter is a return. -/
theorem finish_halts (v : Val) (es : List String) : finish v es ≠ Res.outOfFuel := by
  unfold finish; split
  · exact fail_halts _ _
  · exact done_halts _

/-- A result is not an exhausted computation. -/
theorem Res.ok_halts {α : Type} (a : α) : (Res.ok a : Res α) ≠ Res.outOfFuel := by simp

/-- A panic is not an exhausted computation. -/
theorem Res.panic_halts {α : Type} (m : String) : (Res.panic m : Res α) ≠ Res.outOfFuel := by
  simp

/-- The function `decodeString` makes no recursive call: it returns or panics. -/
theorem decodeString_halts (name : String) (data val : Val) (fl : Flags) :
    decodeString name data val fl ≠ Res.outOfFuel := by
  simp only [decodeString]
  repeat' first
    | exact done_halts _
    | exact fail_halts _ _
    | exact Val.TypeOf_halts _
    | exact Val.SetString_halts _ _ _
    | exact Res.ok_halts _
    | exact Res.panic_halts _
    | refine Res.bind_halts ?_ (fun _ _ => ?_)
    | split

/-- The function `decodeBool` makes no recursive call: it returns or panics. -/
theorem decodeBool_halts (name : String) (data val : Val) (fl : Flags) :
    decodeBool name data val fl ≠ Res.outOfFuel := by
  simp only [decodeBool]
  repeat' first
    | exact done_halts _
    | exact fail_halts _ _
    | exact Val.TypeOf_halts _
    | exact Val.SetBool_halts _ _ _
    | exact Res.ok_halts _
    | exact Res.panic_halts _
    | refine Res.bind_halts ?_ (fun _ _ => ?_)
    | split

/-- The function `decodeInt` makes no recursive call: it returns or panics. -/
theorem decodeInt_halts (lib : GoLib) (name : String) (data val : Val) (fl : Flags) :
    decodeInt lib name data val fl ≠ Res.outOfFuel := by
  simp only [decodeInt]
  repeat' first
    | exact done_halts _
    | exact fail_halts _ _
    | exact Val.TypeOf_halts _
    | exact Val.SetInt_halts _ _ _
    | exact Res.ok_halts _
    | exact Res.panic_halts _
    | refine Res.bind_halts ?_ (fun _ _ => ?_)
    | split

/-- The function `decodeUint` makes no recursive call: it returns or panics. -/
theorem decodeUint_halts (lib : GoLib) (name : String) (data val : Val) (fl : Flags) :
    decodeUint lib name data val fl ≠ Res.outOfFuel := by
  simp only [decodeUint]
  repeat' first
    | exact done_halts _
    | exact fail_halts _ _
    | exact Val.TypeOf_halts _
    | exact Val.SetUint_halts _ _ _
    | exact Res.ok_halts _
    | exact Res.panic_halts _
    | refine Res.bind_halts ?_ (fun _ _ => ?_)
    | split

/-- The function `decodeFloat` makes no recursive call: it returns or panics. -/
theorem decodeFloat_halts (lib : GoLib) (name : String) (data val : Val) (fl : Flags) :
    decodeFloat lib name data val fl ≠ Res.outOfFuel := by
  simp only [decodeFloat]
  repeat' first
    | exact done_halts _
    | exact fail_halts _ _
    | exact Val.TypeOf_halts _
    | exact Val.SetFloat_halts _ _ _
    | exact Res.ok_halts _
    | exact Res.panic_halts _
    | refine Res.bind_halts ?_ (fun _ _ => ?_)
    | split

/-- The function `decodeFunc` makes no recursive call: it returns or panics. -/
theorem decodeFunc_halts (name : String) (data val : Val) (fl : Flags) :
    decodeFunc name data val fl ≠ Res.outOfFuel := by
  simp only [decodeFunc]
  repeat' first
    | exact done_halts _
    | exact fail_halts _ _
    | exact Val.TypeOf_halts _
    | exact Val.Set_halts _ _ _
    | exact Res.ok_halts _
    | exact Res.panic_halts _
    | refine Res.bind_halts ?_ (fun _ _ => ?_)
    | split

/-- The underlying type of a type built without self-reference is built without it and as deep. -/
theorem Ty.underlying_measure : ∀ t : Ty, t.nonRecursive = true →
    t.underlying.nonRecursive = true ∧ t.underlying.depth = t.depth
  | .basic _, _ => ⟨rfl, rfl⟩
  | .named _ _ _ u, h => by
      simp only [Ty.underlying, Ty.depth]
      exact Ty.underlying_measure u (by simpa [Ty.nonRecursive] using h)
  | .array _ _, h => ⟨h, rfl⟩
  | .chan _, h => ⟨h, rfl⟩
  | .func _, h => ⟨h, rfl⟩
  | .iface _, h => ⟨h, rfl⟩
  | .map _ _, h => ⟨h, rfl⟩
  | .ptr _, h => ⟨h, rfl⟩
  | .slice _, h => ⟨h, rfl⟩
  | .struct _, h => ⟨h, rfl⟩
  | .recur _ _ _ _, h => by simp [Ty.nonRecursive] at h
  | .ref _ _, h => by simp [Ty.nonRecursive] at h

/-- The element type of a type built without self-reference is built without it and less deep. -/
theorem Ty.elemType_measure {t e : Ty} (h : t.nonRecursive = true) (he : t.Elem = Res.ok e) :
    e.nonRecursive = true ∧ e.depth < t.depth := by
  obtain ⟨h1, h2⟩ := Ty.underlying_measure t h
  unfold Ty.Elem at he
  rw [← h2]
  generalize t.underlying = u at he h1
  cases u <;> simp at he <;> subst he <;>
    simp only [Ty.nonRecursive, Ty.depth, Bool.and_eq_true] at h1 ⊢
  · exact ⟨h1, Nat.lt_succ_self _⟩
  · exact ⟨h1, Nat.lt_succ_self _⟩
  · exact ⟨h1.2, by omega⟩
  · exact ⟨h1, Nat.lt_succ_self _⟩
  · exact ⟨h1, Nat.lt_succ_self _⟩

/-- The key and element types of a map type built without self-reference are built without
it and less deep, and the map type they form is no deeper. -/
theorem Ty.mapTypes_measure {t : Ty} {kt : Ty × Ty} (h : t.nonRecursive = true)
    (he : t.mapTypes = Res.ok kt) :
    kt.1.nonRecursive = true ∧ kt.2.nonRecursive = true ∧ kt.1.depth < t.depth ∧
      kt.2.depth < t.depth ∧ (Ty.map kt.1 kt.2).nonRecursive = true ∧
      (Ty.map kt.1 kt.2).depth ≤ t.depth ∧ (Ty.map kt.1 kt.2).kind = Kind.Map := by
  obtain ⟨h1, h2⟩ := Ty.underlying_measure t h
  unfold Ty.mapTypes at he
  rw [← h2]
  generalize t.underlying = u at he h1
  cases u <;> simp at he
  subst he
  simp only [Ty.nonRecursive, Ty.depth, Bool.and_eq_true] at h1 ⊢
  refine ⟨h1.1, h1.2, by omega, by omega, h1, le_refl _, rfl⟩

/-- The field types of a struct type built without self-reference are built without it and
less deep. -/
theorem Ty.structFields_measure {t : Ty} {fs : List StructField} (h : t.nonRecursive = true)
    (he : t.structFields = Res.ok fs) :
    Ty.nonRecursiveFields fs = true ∧ Ty.depthFields fs < t.depth := by
  obtain ⟨h1, h2⟩ := Ty.underlying_measure t h
  unfold Ty.structFields at he
  rw [← h2]
  generalize t.underlying = u at he h1
  cases u <;> simp at he
  subst he
  simp only [Ty.nonRecursive, Ty.depth] at h1 ⊢
  exact ⟨h1, Nat.lt_succ_self _⟩

/-- Copies of a value are as deep as the value. -/
theorem Val.targetDepthList_replicate (n : Nat) (x : Val) :
    Val.targetDepthList (List.replicate n x) ≤ x.targetDepth := by
  induction n with
  | zero => simp [Val.targetDepthList]
  | succ n ih => simp [List.replicate, Val.targetDepthList, ih]

/-- Copies of a target built without self-reference are built without it. -/
theorem Val.nonRecursiveList_replicate (n : Nat) (x : Val) (h : x.nonRecursive = true) :
    Val.nonRecursiveList (List.replicate n x) = true := by
  induction n with
  | zero => simp [Val.nonRecursiveList]
  | succ n ih => simp [List.replicate, Val.nonRecursiveList, ih, h]

mutual
/-- The zero value built for a type without self-reference is a target without
self-reference that is no deeper than the type. -/
theorem zeroOf_measure : ∀ (u t : Ty), t.nonRecursive = true → u.nonRecursive = true →
    u.depth ≤ t.depth →
    (zeroOf t u).nonRecursive = true ∧ (zeroOf t u).targetDepth ≤ t.depth
  | .basic k, t, ht, _, _ => by
      cases k <;> exact ⟨ht, le_refl _⟩
  | .named _ _ _ u, t, ht, hu, hd => by
      simp only [zeroOf]
      exact zeroOf_measure u t ht (by simpa [Ty.nonRecursive] using hu)
        (by simpa [Ty.depth] using hd)
  | .array n e, t, ht, hu, hd => by
      have he : e.nonRecursive = true := by simpa [Ty.nonRecursive] using hu
      obtain ⟨h1, h2⟩ := zeroOf_measure e e he he (le_refl _)
      simp only [Ty.depth] at hd
      have h3 := Val.targetDepthList_replicate n (zeroOf e e)
      simp only [zeroOf, Val.nonRecursive, Val.targetDepth, Bool.and_eq_true]
      exact ⟨⟨ht, Val.nonRecursiveList_replicate n _ h1⟩, by omega⟩
  | .struct fs, t, ht, hu, hd => by
      obtain ⟨h1, h2⟩ := zeroFields_measure fs (by simpa [Ty.nonRecursive] using hu)
      simp only [Ty.depth] at hd
      simp only [zeroOf, Val.nonRecursive, Val.targetDepth, Bool.and_eq_true]
      exact ⟨⟨ht, h1⟩, by omega⟩
  | .chan _, t, ht, _, _ => ⟨ht, le_refl _⟩
  | .func _, t, ht, _, _ => ⟨ht, le_refl _⟩
  | .iface _, t, ht, _, _ => ⟨ht, le_refl _⟩
  | .map _ _, t, ht, _, _ => ⟨ht, le_refl _⟩
  | .ptr _, t, ht, _, _ => ⟨ht, le_refl _⟩
  | .slice _, t, ht, _, _ => ⟨ht, le_refl _⟩
  | .recur _ _ _ _, t, ht, hu, _ => by simp [Ty.nonRecursive] at hu
  | .ref _ _, t, ht, hu, _ => by simp [Ty.nonRecursive] at hu
/-- The zero values of the fields are targets no deeper than the field types. -/
theorem zeroFields_measure : ∀ fs : List StructField, Ty.nonRecursiveFields fs = true →
    Val.nonRecursiveList (zeroFields fs) = true ∧
      Val.targetDepthList (zeroFields fs) ≤ Ty.depthFields fs
  | [], _ => ⟨rfl, le_refl _⟩
  | .mk _ _ _ _ ft :: rest, h => by
      simp only [Ty.nonRecursiveFields, Bool.and_eq_true] at h
      obtain ⟨h1, h2⟩ := zeroOf_measure ft ft h.1 h.1 (le_refl _)
      obtain ⟨h3, h4⟩ := zeroFields_measure rest h.2
      simp only [zeroFields, Val.nonRecursiveList, Val.targetDepthList, Ty.depthFields,
        Bool.and_eq_true]
      exact ⟨⟨h1, h3⟩, by omega⟩
end

/-- The zero value of a type built without self-reference is a target built without it
that is no deeper than the type. -/
theorem Zero_measure (t : Ty) (h : t.nonRecursive = true) :
    (Zero t).nonRecursive = true ∧ (Zero t).targetDepth ≤ t.depth :=
  zeroOf_measure t t h h (le_refl _)

/-- The type of a target built without self-reference is built without it and no deeper
than the target. -/
theorem Val.typ_measure (v : Val) (h : v.nonRecursive = true) :
    v.typ.nonRecursive = true ∧ v.typ.depth ≤ v.targetDepth := by
  cases v <;> simp only [Val.nonRecursive, Bool.and_eq_true] at h <;>
    simp only [Val.typ, Val.targetDepth]
  all_goals first
    | exact ⟨rfl, le_refl _⟩
    | exact ⟨h, le_refl _⟩
    | exact ⟨h.1, le_max_left _ _⟩

/-- The type `Val.TypeOf` yields for a target built without self-reference is built
without it and no deeper than the target. -/
theorem Val.TypeOf_measure {v : Val} {t : Ty} (h : v.nonRecursive = true)
    (ht : v.TypeOf = Res.ok t) : t.nonRecursive = true ∧ t.depth ≤ v.targetDepth := by
  unfold Val.TypeOf at ht
  split at ht
  · simp only [Res.ok.injEq] at ht
    subst ht
    exact Val.typ_measure v h
  · simp at ht

/-- A member of a list is no deeper, as a target, than the list. -/
theorem Val.mem_targetList {x : Val} : ∀ {l : List Val}, x ∈ l →
    x.targetDepth ≤ Val.targetDepthList l
  | [], h => by simp at h
  | y :: l, h => by
      simp only [Val.targetDepthList]
      rcases List.mem_cons.1 h with h | h
      · subst h; exact le_max_left _ _
      · exact le_trans (Val.mem_targetList h) (le_max_right _ _)

/-- A member of a list built without self-reference is built without it. -/
theorem Val.mem_nonRecursiveList {x : Val} : ∀ {l : List Val}, x ∈ l →
    Val.nonRecursiveList l = true → x.nonRecursive = true
  | [], h, _ => by simp at h
  | y :: l, h, hl => by
      simp only [Val.nonRecursiveList, Bool.and_eq_true] at hl
      rcases List.mem_cons.1 h with h | h
      · subst h; exact hl.1
      · exact Val.mem_nonRecursiveList h hl.2

/-- The field values of a target are less deep than the target. -/
theorem Val.fieldVals_measure (v : Val) (h : v.nonRecursive = true) :
    ∀ x ∈ v.fieldVals, x.nonRecursive = true ∧ x.targetDepth < v.targetDepth := by
  intro x hx
  cases v <;> simp only [Val.fieldVals, List.not_mem_nil] at hx
  simp only [Val.nonRecursive, Bool.and_eq_true] at h
  have := Val.mem_targetList hx
  simp only [Val.targetDepth]
  exact ⟨Val.mem_nonRecursiveList hx h.2, by omega⟩

/-- The elements of a target are less deep than the target. -/
theorem Val.elems_measure (v : Val) (h : v.nonRecursive = true) :
    ∀ x ∈ v.elems, x.nonRecursive = true ∧ x.targetDepth < v.targetDepth := by
  intro x hx
  cases v <;> simp only [Val.elems, List.not_mem_nil] at hx
  all_goals
    simp only [Val.nonRecursive, Bool.and_eq_true] at h
    have := Val.mem_targetList hx
    simp only [Val.targetDepth]
    exact ⟨Val.mem_nonRecursiveList hx h.2, by omega⟩

/-- The value a target holds or points to is less deep than the target. -/
theorem Val.Elem_measure {v e : Val} (h : v.nonRecursive = true) (he : v.Elem = Res.ok e)
    (hv : e.IsValid = true) : e.nonRecursive = true ∧ e.targetDepth < v.targetDepth := by
  cases v
  all_goals
    unfold Val.Elem at he
    split at he <;> first
      | (simp at he; done)
      | (simp only [Res.ok.injEq] at he
         subst he
         first
           | exact absurd hv (by decide)
           | (simp only [Val.nonRecursive, Bool.and_eq_true] at h
              simp only [Val.targetDepth]
              exact ⟨h.2, by omega⟩))

/-- The value behind a pointer target is less deep than the target. -/
theorem Indirect_measure {v : Val} (h : v.nonRecursive = true) :
    (Indirect v).nonRecursive = true ∧
      ((Indirect v).IsValid = true → v.kind = Kind.Ptr →
        (Indirect v).targetDepth < v.targetDepth) := by
  unfold Indirect
  split
  · cases v <;> simp only [Val.IsValid] <;> try exact ⟨rfl, fun h => absurd h (by decide)⟩
    simp only [Val.nonRecursive, Bool.and_eq_true] at h
    simp only [Val.targetDepth]
    exact ⟨h.2, fun _ _ => by omega⟩
  · rename_i hk
    exact ⟨h, fun _ hk2 => absurd hk2 hk⟩

/-- Changing the dynamic type does not change the input depth. -/
theorem Val.inputDepth_withType (t : Ty) (v : Val) :
    (v.withType t).inputDepth = v.inputDepth := by
  cases v <;> rfl

/-- The value behind a pointer is no deeper, as an input, than the pointer. -/
theorem Indirect_input (d : Val) : (Indirect d).inputDepth ≤ d.inputDepth := by
  unfold Indirect
  split
  · cases d <;> simp [Val.inputDepth]
  · exact le_refl _

/-- The datum `Val.Interface` yields is no deeper than the value. -/
theorem Val.Interface_input {d x : Val} (h : d.Interface = Res.ok x) :
    x.inputDepth ≤ d.inputDepth := by
  cases d <;> simp only [Val.Interface] at h
  all_goals first
    | (cases h; done)
    | (split at h <;> simp only [Res.ok.injEq] at h <;> subst h <;> simp [Val.inputDepth])
    | (simp only [Res.ok.injEq] at h; subst h; first | exact le_refl _ | simp [Val.inputDepth])

/-- A member of a list is no deeper, as an input, than the list. -/
theorem Val.mem_inputList {x : Val} : ∀ {l : List Val}, x ∈ l →
    x.inputDepth ≤ Val.inputDepthList l
  | [], h => by simp at h
  | y :: l, h => by
      simp only [Val.inputDepthList]
      rcases List.mem_cons.1 h with h | h
      · subst h; exact le_max_left _ _
      · exact le_trans (Val.mem_inputList h) (le_max_right _ _)

/-- An element is no deeper than the sequence. -/
theorem Val.Index_input {d e : Val} {i : Nat} (h : d.Index i = Res.ok e) :
    e.inputDepth ≤ d.inputDepth := by
  cases d <;> simp only [Val.Index] at h
  all_goals first | cases h | skip
  all_goals
    split at h
    · rename_i x hx
      simp only [Res.ok.injEq] at h
      subst h
      first
        | exact le_trans (Val.mem_inputList (List.getElem?_mem (by simpa using hx)))
            (Nat.le_succ _)
        | simp [Val.inputDepth]
    · simp at h

/-- A value found in the entries is no deeper than the entries. -/
theorem lookupEntry_input {k v : Val} : ∀ {es : List (Val × Val)}, lookupEntry k es = some v →
    v.inputDepth ≤ Val.inputDepthEntries es
  | [], h => by simp [lookupEntry] at h
  | (k2, v2) :: es, h => by
      simp only [lookupEntry] at h
      simp only [Val.inputDepthEntries]
      split at h
      · simp only [Option.some.injEq] at h
        subst h
        omega
      · have := lookupEntry_input h
        omega

/-- A key of the entries is no deeper than the entries. -/
theorem keys_input {k : Val} : ∀ {es : List (Val × Val)}, k ∈ es.map Prod.fst →
    k.inputDepth ≤ Val.inputDepthEntries es
  | [], h => by simp at h
  | (k2, v2) :: es, h => by
      simp only [List.map_cons, List.mem_cons] at h
      simp only [Val.inputDepthEntries]
      rcases h with h | h
      · subst h; omega
      · have := keys_input h
        omega

/-- The entries of a value are no deeper than the value. -/
theorem Val.entries_input (d : Val) : Val.inputDepthEntries d.entries ≤ d.inputDepth := by
  cases d <;> simp [Val.entries, Val.inputDepthEntries, Val.inputDepth]

/-- Storing a value in a location adds at most one level, that of an interface. -/
theorem assignTo_input {c : String} {x y : Val} {t : Ty} (h : assignTo c x t = Res.ok y) :
    y.inputDepth ≤ x.inputDepth + 1 := by
  unfold assignTo at h
  split at h
  · simp at h
  · split at h
    · simp only [Res.ok.injEq] at h
      subst h
      rw [Val.inputDepth_withType]
      omega
    · split at h
      · cases x <;> simp only [] at h
        all_goals first
          | (simp only [Res.ok.injEq] at h; subst h; simp [Val.inputDepth])
          | (split at h <;> simp only [Res.ok.injEq] at h <;> subst h <;>
              simp [Val.inputDepth])
      · simp at h

/-- The entries after storing one are no deeper than the old entries and the new one. -/
theorem upsertEntry_input (k e : Val) : ∀ es : List (Val × Val),
    Val.inputDepthEntries (upsertEntry k e es) ≤
      max (Val.inputDepthEntries es) (max k.inputDepth e.inputDepth)
  | [] => by simp [upsertEntry, Val.inputDepthEntries]
  | (k2, v2) :: es => by
      simp only [upsertEntry]
      split
      · simp only [Val.inputDepthEntries]; omega
      · have := upsertEntry_input k e es
        simp only [Val.inputDepthEntries]; omega

/-- The value `Val.MapIndex` yields is no deeper than the entries of the map. -/
theorem Val.MapIndex_input {d k e : Val} (h : d.MapIndex k = Res.ok e) :
    e.inputDepth ≤ Val.inputDepthEntries d.entries := by
  unfold Val.MapIndex at h
  split at h
  · cases hm : d.typ.mapTypes with
    | ok kt =>
        rw [hm] at h
        simp only [Res.bind] at h
        cases ha : assignTo "reflect.Value.MapIndex" k kt.1 with
        | ok k2 =>
            rw [ha] at h
            simp only at h
            split at h
            · rename_i v hv
              simp only [Res.ok.injEq] at h
              subst h
              exact lookupEntry_input hv
            · simp only [Res.ok.injEq] at h
              subst h
              simp [Val.inputDepth]
        | panic m => rw [ha] at h; simp at h
        | outOfFuel => rw [ha] at h; simp at h
    | panic m => rw [hm] at h; simp [Res.bind] at h
    | outOfFuel => rw [hm] at h; simp [Res.bind] at h
  · simp at h

/-- The keys `Val.MapKeys` yields are no deeper than the entries of the map. -/
theorem Val.MapKeys_input {d : Val} {ks : List Val} (h : d.MapKeys = Res.ok ks) :
    ∀ k ∈ ks, k.inputDepth ≤ Val.inputDepthEntries d.entries := by
  unfold Val.MapKeys at h
  split at h
  · simp only [Res.ok.injEq] at h
    subst h
    intro k hk
    exact keys_input hk
  · simp at h

/-- The source entry found for a field is no deeper than the entries of the source. -/
theorem resolveField_input {lib : GoLib} {d : Val} {keys : List Val} {n : String} {raw : Val}
    (h : resolveField lib d keys n = Res.ok raw) :
    raw.inputDepth ≤ Val.inputDepthEntries d.entries := by
  unfold resolveField at h
  cases hm : d.MapIndex (.str (.basic .String) n) with
  | ok r0 =>
      rw [hm] at h
      simp only [Res.bind] at h
      split at h
      · split at h
        · exact Val.MapIndex_input h
        · simp only [Res.ok.injEq] at h
          subst h
          simp [Val.inputDepth]
      · simp only [Res.ok.injEq] at h
        subst h
        exact Val.MapIndex_input hm
  | panic m => rw [hm] at h; simp [Res.bind] at h
  | outOfFuel => rw [hm] at h; simp [Res.bind] at h

/-- The map after `Val.SetMapIndex` has the type and the target depth of the map before,
and entries no deeper than the old ones and the stored key and value. -/
theorem Val.SetMapIndex_input {m m2 : Val} {fl : Flags} {k e : Val}
    (h : m.SetMapIndex fl k e = Res.ok m2) :
    m2.typ = m.typ ∧ m2.nonRecursive = m.nonRecursive ∧ m2.targetDepth = m.targetDepth ∧
      Val.inputDepthEntries m2.entries ≤
        max (Val.inputDepthEntries m.entries) (max (k.inputDepth + 1) (e.inputDepth + 1)) := by
  unfold Val.SetMapIndex at h
  split at h
  · simp at h
  · split at h
    · rename_i t es
      cases hm : t.mapTypes with
      | ok kt =>
          rw [hm] at h
          simp only [Res.bind] at h
          cases ha : assignTo "reflect.Value.SetMapIndex" k kt.1 with
          | ok k2 =>
              rw [ha] at h
              simp only at h
              cases hb : assignTo "reflect.Value.SetMapIndex" e kt.2 with
              | ok e2 =>
                  rw [hb] at h
                  simp only at h
                  split at h
                  · simp only [Res.ok.injEq] at h
                    subst h
                    have h1 := assignTo_input ha
                    have h2 := assignTo_input hb
                    have h3 := upsertEntry_input k2 e2 es
                    refine ⟨rfl, rfl, rfl, ?_⟩
                    simp only [Val.entries]
                    omega
                  · simp at h
              | panic m => rw [hb] at h; simp at h
              | outOfFuel => rw [hb] at h; simp at h
          | panic m => rw [ha] at h; simp at h
          | outOfFuel => rw [ha] at h; simp at h
      | panic m => rw [hm] at h; simp [Res.bind] at h
      | outOfFuel => rw [hm] at h; simp [Res.bind] at h
    · split at h <;> simp at h
    · simp at h

/-- Only a valid value yields a datum. -/
theorem Val.valid_of_Interface {d x : Val} (h : d.Interface = Res.ok x) : d.IsValid = true := by
  cases d <;> first | rfl | (simp only [Val.Interface] at h; cases h)

/-- An element is less deep than the sequence or text it is taken from. -/
theorem Val.Index_lt {d e : Val} {i : Nat} (h : d.Index i = Res.ok e) :
    e.inputDepth < d.inputDepth := by
  cases d <;> simp only [Val.Index] at h
  all_goals first | cases h | skip
  all_goals
    split at h
    · rename_i x hx
      simp only [Res.ok.injEq] at h
      subst h
      first
        | exact Nat.lt_succ_of_le (Val.mem_inputList (List.getElem?_mem (by simpa using hx)))
        | simp [Val.inputDepth]
    · simp at h

/-- The entries of a map that has some are less deep than the map. -/
theorem Val.entries_lt (d : Val) (h : d.entries ≠ []) :
    Val.inputDepthEntries d.entries < d.inputDepth := by
  cases d <;> simp only [Val.entries, ne_eq, not_true_eq_false] at h
  simp [Val.entries, Val.inputDepth]

/-- A key of a map is less deep than the map. -/
theorem Val.MapKeys_lt {d : Val} {ks : List Val} (h : d.MapKeys = Res.ok ks) :
    ∀ k ∈ ks, k.inputDepth < d.inputDepth := by
  intro k hk
  have h1 := Val.MapKeys_input h k hk
  have hne : d.entries ≠ [] := by
    intro hc
    unfold Val.MapKeys at h
    split at h
    · simp only [Res.ok.injEq] at h
      subst h
      rw [hc] at hk
      simp at hk
    · simp at h
  have := Val.entries_lt d hne
  omega

/-- A value is found only among some entries. -/
theorem lookupEntry_ne {k v : Val} {es : List (Val × Val)} (h : lookupEntry k es = some v) :
    es ≠ [] := by
  intro hc
  rw [hc] at h
  simp [lookupEntry] at h

/-- A map in which `Val.MapIndex` finds a value has entries. -/
theorem Val.MapIndex_ne {d k e : Val} (h : d.MapIndex k = Res.ok e) (hv : e.IsValid = true) :
    d.entries ≠ [] := by
  have hne : d.entries ≠ [] := by
    unfold Val.MapIndex at h
    split at h
    · cases hm : d.typ.mapTypes with
      | ok kt =>
          rw [hm] at h
          simp only [Res.bind] at h
          cases ha : assignTo "reflect.Value.MapIndex" k kt.1 with
          | ok k2 =>
              rw [ha] at h
              simp only at h
              split at h
              · rename_i v hlook
                exact lookupEntry_ne hlook
              · simp only [Res.ok.injEq] at h
                subst h
                exact absurd hv (by decide)
          | panic m => rw [ha] at h; simp at h
          | outOfFuel => rw [ha] at h; simp at h
      | panic m => rw [hm] at h; simp [Res.bind] at h
      | outOfFuel => rw [hm] at h; simp [Res.bind] at h
    · simp at h
  exact hne

/-- A value found in a map is less deep than the map. -/
theorem Val.MapIndex_lt {d k e : Val} (h : d.MapIndex k = Res.ok e) (hv : e.IsValid = true) :
    e.inputDepth < d.inputDepth := by
  have h1 := Val.MapIndex_input h
  have := Val.entries_lt d (Val.MapIndex_ne h hv)
  omega

/-- A source in which the entry of a field is found has entries. -/
theorem resolveField_ne {lib : GoLib} {d : Val} {keys : List Val} {n : String} {raw : Val}
    (h : resolveField lib d keys n = Res.ok raw) (hv : raw.IsValid = true) :
    d.entries ≠ [] := by
  unfold resolveField at h
  cases hm : d.MapIndex (.str (.basic .String) n) with
  | ok r0 =>
      rw [hm] at h
      simp only [Res.bind] at h
      split at h
      · split at h
        · exact Val.MapIndex_ne h hv
        · simp only [Res.ok.injEq] at h
          subst h
          exact absurd hv (by decide)
      · simp only [Res.ok.injEq] at h
        subst h
        exact Val.MapIndex_ne hm hv
  | panic m => rw [hm] at h; simp [Res.bind] at h
  | outOfFuel => rw [hm] at h; simp [Res.bind] at h

/-- The source entry found for a field is less deep than the source. -/
theorem resolveField_lt {lib : GoLib} {d : Val} {keys : List Val} {n : String} {raw : Val}
    (h : resolveField lib d keys n = Res.ok raw) (hv : raw.IsValid = true) :
    raw.inputDepth < d.inputDepth := by
  unfold resolveField at h
  cases hm : d.MapIndex (.str (.basic .String) n) with
  | ok r0 =>
      rw [hm] at h
      simp only [Res.bind] at h
      split at h
      · split at h
        · exact Val.MapIndex_lt h hv
        · simp only [Res.ok.injEq] at h
          subst h
          exact absurd hv (by decide)
      · simp only [Res.ok.injEq] at h
        subst h
        exact Val.MapIndex_lt hm hv
  | panic m => rw [hm] at h; simp [Res.bind] at h
  | outOfFuel => rw [hm] at h; simp [Res.bind] at h

/-- A recursive call that returns below `n` returns for every target of the ranking and
every input less deep than `i`, when `i * (c + 1)` is at most `n`. -/
theorem Dec.returnsBelow_sub {dec : Dec} {S : Val → Prop} {rk : Val → Nat} {c n : Nat}
    (hR : TargetRanking S rk c) (H : Dec.returnsBelow dec S rk c n) (i : Nat)
    (hi : i * (c + 1) ≤ n) (nm : String) (d v : Val) (fl : Flags) (hv : S v)
    (hd : d.inputDepth < i) : dec nm d v fl ≠ Res.outOfFuel := by
  apply H nm d v fl hv
  have h1 : (d.inputDepth + 1) * (c + 1) ≤ i * (c + 1) := Nat.mul_le_mul_right _ hd
  have h2 : (d.inputDepth + 1) * (c + 1) = d.inputDepth * (c + 1) + (c + 1) := by ring
  have h3 := hR.1 v hv
  omega

/-- A value that is not valid is the zero Value. -/
theorem Val.eq_invalid_of_not_valid {v : Val} (h : v.IsValid = false) : v = Val.invalid := by
  cases v <;> simp [Val.IsValid] at h ⊢

/-- The function `decodeBasic` returns when its recursive call returns below the measure of
its arguments: the call has the same input and the value the target holds, of smaller
rank. -/
theorem decodeBasic_halts {S : Val → Prop} {rk : Val → Nat} {c : Nat}
    (hR : TargetRanking S rk c) (dec : Dec) (n : Nat) (H : Dec.returnsBelow dec S rk c n)
    (name : String) (data val : Val) (fl : Flags) (hv : S val)
    (hk : val.kind = Kind.Interface) (hm : data.inputDepth * (c + 1) + rk val ≤ n) :
    decodeBasic dec name data val fl ≠ Res.outOfFuel := by
  unfold decodeBasic
  refine Res.bind_halts ?_ (fun held hh => ?_)
  · split
    · exact Res.bind_halts (Val.Elem_halts _) (fun _ _ => Res.ok_halts _)
    · exact Res.ok_halts _
  · split
    · rename_i hheld
      subst hheld
      refine Res.bind_halts (Val.Elem_halts _) (fun e he => ?_)
      have hev : e.IsValid = true := by
        split at hh
        · rw [he] at hh
          simpa [Res.bind] using hh
        · simp at hh
      obtain ⟨h1, h2⟩ := hR.2.2.1 val e hv hk he hev
      exact Res.bind_halts (H name data e _ h1 (by omega)) (fun _ _ => Res.ok_halts _)
    · simp only []
      repeat' first
        | exact done_halts _
        | exact fail_halts _ _
        | exact Val.TypeOf_halts _
        | exact Ty.elemType_halts _
        | exact Val.Set_halts _ _ _
        | exact Res.ok_halts _
        | exact Res.panic_halts _
        | refine Res.bind_halts ?_ (fun _ _ => ?_)
        | split

/-- The function `decodePtr` returns when its recursive call returns below the measure of
its arguments: the call has the same input and the value the target points to or the
fresh value allocated for a nil pointer, of smaller rank. -/
theorem decodePtr_halts {S : Val → Prop} {rk : Val → Nat} {c : Nat}
    (hR : TargetRanking S rk c) (dec : Dec) (n : Nat) (H : Dec.returnsBelow dec S rk c n)
    (name : String) (data val : Val) (fl : Flags) (hv : S val)
    (hm : data.inputDepth * (c + 1) + rk val ≤ n) (hk : val.kind = Kind.Ptr) :
    decodePtr dec name data val fl ≠ Res.outOfFuel := by
  unfold decodePtr
  simp only []
  refine Res.bind_halts ?_ (fun isNil _ => ?_)
  · split
    · split <;> first | exact Val.IsNil_halts _ | exact Res.ok_halts _
    · exact Res.ok_halts _
  · split
    · refine Res.bind_halts (Val.IsNil_halts _) (fun _ _ => ?_)
      split
      · exact Res.bind_halts (Val.Set_halts _ _ _) (fun _ _ => done_halts _)
      · exact done_halts _
    · refine Res.bind_halts (Val.TypeOf_halts _) (fun valType hvt => ?_)
      refine Res.bind_halts (Ty.elemType_halts _) (fun valElemType het => ?_)
      obtain ⟨hi1, hi2, hz⟩ := hR.2.1 val valType valElemType hv hk hvt het
      split
      · refine Res.bind_halts (Val.IsNil_halts _) (fun vn hvn => ?_)
        cases vn with
        | true =>
            obtain ⟨hz1, hz2⟩ := hz hvn
            simp only [if_true]
            have hI : Indirect (Val.ptr (.ptr valElemType) (Zero valElemType)) =
                Zero valElemType := rfl
            rw [hI]
            refine Res.bind_halts (H name data _ _ hz1 (by omega)) (fun r _ => ?_)
            split
            · exact fail_halts _ _
            · exact Res.bind_halts (Val.Set_halts _ _ _) (fun _ _ => done_halts _)
        | false =>
            simp only [Bool.false_eq_true, if_false]
            refine Res.bind_halts (H name data _ _ hi1 (by omega)) (fun r _ => ?_)
            split
            · exact fail_halts _ _
            · exact Res.bind_halts (Val.Set_halts _ _ _) (fun _ _ => done_halts _)
      · exact Res.bind_halts (H name data _ _ hi1 (by omega)) (fun _ _ => Res.ok_halts _)

/-- The loop of `decodeSlice` and `decodeArray` returns when the recursive call returns
for the targets of `S` and inputs less deep than the source. -/
theorem decodeElems_halts (S : Val → Prop) (dec : Dec) (name : String) (dataVal : Val)
    (valElemType : Ty) (efl : Flags) (grow : Bool) (a : Nat)
    (H : ∀ (nm : String) (d v : Val) (fl : Flags), S v → d.inputDepth < a →
      dec nm d v fl ≠ Res.outOfFuel)
    (hd : dataVal.inputDepth ≤ a) (hz : S (Zero valElemType)) :
    ∀ (remaining i : Nat) (vs : List Val) (errors : List String),
      (∀ (j : Nat) (x : Val), i ≤ j → vs[j]? = some x → S x) →
      decodeElems dec name dataVal valElemType efl grow remaining i vs errors ≠
        Res.outOfFuel := by
  intro remaining
  induction remaining with
  | zero => intro i vs errors _; simp [decodeElems]
  | succ r ih =>
      intro i vs errors hvs
      unfold decodeElems
      refine Res.bind_halts (Val.Index_halts _ _) (fun e he => ?_)
      refine Res.bind_halts (Val.Interface_halts _) (fun cd hcd => ?_)
      simp only []
      have hcdA : cd.inputDepth < a :=
        lt_of_le_of_lt (Val.Interface_input hcd) (lt_of_lt_of_le (Val.Index_lt he) hd)
      have hvs2 : ∀ (j : Nat) (x : Val), i ≤ j →
          (if grow = true then vs ++ List.replicate (i + 1 - vs.length) (Zero valElemType)
            else vs)[j]? = some x → S x := by
        intro j x hij hx
        cases grow with
        | false => exact hvs j x hij (by simpa using hx)
        | true =>
            simp only [if_true] at hx
            by_cases hj : j < vs.length
            · rw [List.getElem?_append_left hj] at hx
              exact hvs j x hij hx
            · rw [List.getElem?_append_right (by omega)] at hx
              have hmem := List.getElem?_mem hx
              rw [List.eq_of_mem_replicate hmem]
              exact hz
      generalize (if grow = true then vs ++ List.replicate (i + 1 - vs.length) (Zero valElemType)
            else vs) = vs2 at hvs2
      split
      · exact Res.panic_halts _
      · rename_i cf hcf
        have hcf2 : vs2[i]? = some cf := by simpa using hcf
        have h1 := hvs2 i cf (le_refl _) hcf2
        refine Res.bind_halts (H _ cd cf efl h1 hcdA) (fun r _ => ?_)
        apply ih
        intro j x hij hx
        rw [List.getElem?_set_ne (by omega)] at hx
        exact hvs2 j x (by omega) hx

/-- The common part of `decodeSlice` and `decodeArray` returns under the conditions of its
loop. -/
theorem decodeInto_halts (S : Val → Prop) (dec : Dec) (name : String) (dataVal val : Val)
    (fl : Flags) (valElemType : Ty) (work : Val) (efl : Flags) (grow : Bool) (a : Nat)
    (H : ∀ (nm : String) (d v : Val) (fl : Flags), S v → d.inputDepth < a →
      dec nm d v fl ≠ Res.outOfFuel)
    (hd : dataVal.inputDepth ≤ a) (hz : S (Zero valElemType))
    (hw : ∀ x ∈ work.elems, S x) :
    decodeInto dec name dataVal val fl valElemType work efl grow ≠ Res.outOfFuel := by
  unfold decodeInto
  refine Res.bind_halts (Val.Len_halts _) (fun n _ => ?_)
  refine Res.bind_halts ?_ (fun r _ => ?_)
  · apply decodeElems_halts S dec name dataVal valElemType efl grow a H hd hz
    intro j x _ hx
    exact hw x (List.getElem?_mem hx)
  · exact Res.bind_halts (Val.Set_halts _ _ _) (fun _ _ => finish_halts _ _)

/-- A recursive call that returns below `n` returns for every target of the ranking and
every input less deep than `data`, when the measure of `data` is at most `n`. -/
theorem Dec.returnsBelow_data {dec : Dec} {S : Val → Prop} {rk : Val → Nat} {c n : Nat}
    (hR : TargetRanking S rk c) (H : Dec.returnsBelow dec S rk c n) (data : Val) (r : Nat)
    (hm : data.inputDepth * (c + 1) + r ≤ n) (nm : String) (d v : Val) (fl : Flags)
    (hv : S v) (hd : d.inputDepth < data.inputDepth) : dec nm d v fl ≠ Res.outOfFuel :=
  Dec.returnsBelow_sub hR H data.inputDepth (by omega) nm d v fl hv hd

/-- The function `decodeSlice` returns when its recursive call returns below the measure of
its arguments: the calls have the elements of the source, which are less deep. -/
theorem decodeSlice_halts {S : Val → Prop} {rk : Val → Nat} {c : Nat}
    (hR : TargetRanking S rk c) (dec : Dec) (n : Nat) (H : Dec.returnsBelow dec S rk c n)
    (name : String) (data val : Val) (fl : Flags) (hv : S val) (hk : val.kind = Kind.Slice)
    (hm : data.inputDepth * (c + 1) + rk val ≤ n) :
    decodeSlice dec name data val fl ≠ Res.outOfFuel := by
  unfold decodeSlice
  simp only []
  refine Res.bind_halts (Val.TypeOf_halts _) (fun valType hvt => ?_)
  refine Res.bind_halts (Ty.elemType_halts _) (fun valElemType het => ?_)
  have hz : S (Zero valElemType) := hR.2.2.2.1 val valType valElemType hv (Or.inl hk) hvt het
  have H2 := Dec.returnsBelow_data hR H data (rk val) hm
  have hd := Indirect_input data
  refine Res.bind_halts (Val.IsNil_halts _) (fun vn _ => ?_)
  split
  · split
    · exact fail_halts _ _
    · refine Res.bind_halts (Val.Len_halts _) (fun k _ => ?_)
      split
      · exact done_halts _
      · apply decodeInto_halts S dec name _ val fl valElemType _ _ _ _ H2 hd hz
        intro x hx
        simp only [Val.elems] at hx
        rw [List.eq_of_mem_replicate hx]
        exact hz
  · exact decodeInto_halts S dec name _ val fl valElemType _ _ _ _ H2 hd hz
      (hR.2.2.2.2.1 val · hv)

/-- The elements of the zero value of an array type. -/
theorem Zero_array_elems (len : Nat) (e : Ty) :
    (Zero (Ty.array len e)).elems = List.replicate len (Zero e) := rfl

/-- The function `decodeArray` returns when its recursive call returns below the measure of
its arguments. -/
theorem decodeArray_halts {S : Val → Prop} {rk : Val → Nat} {c : Nat}
    (hR : TargetRanking S rk c) (dec : Dec) (n : Nat) (H : Dec.returnsBelow dec S rk c n)
    (name : String) (data val : Val) (fl : Flags) (hv : S val) (hk : val.kind = Kind.Array)
    (hm : data.inputDepth * (c + 1) + rk val ≤ n) :
    decodeArray dec name data val fl ≠ Res.outOfFuel := by
  unfold decodeArray
  simp only []
  refine Res.bind_halts (Val.TypeOf_halts _) (fun valType hvt => ?_)
  refine Res.bind_halts (Ty.elemType_halts _) (fun valElemType het => ?_)
  refine Res.bind_halts (Ty.arrayLen_halts _) (fun len _ => ?_)
  have hz : S (Zero valElemType) := hR.2.2.2.1 val valType valElemType hv (Or.inr hk) hvt het
  have H2 := Dec.returnsBelow_data hR H data (rk val) hm
  have hd := Indirect_input data
  split
  · exact Res.panic_halts _
  · split
    · exact Res.panic_halts _
    · split
      · split
        · exact fail_halts _ _
        · refine Res.bind_halts (Val.Len_halts _) (fun k _ => ?_)
          split
          · exact fail_halts _ _
          · apply decodeInto_halts S dec name _ val fl valElemType _ _ _ _ H2 hd hz
            intro x hx
            rw [Zero_array_elems] at hx
            rw [List.eq_of_mem_replicate hx]
            exact hz
      · exact decodeInto_halts S dec name _ val fl valElemType _ _ _ _ H2 hd hz
          (hR.2.2.2.2.1 val · hv)

/-- The loop of `decodeMapFromMap` returns when the recursive call returns for the targets
of `S` and inputs less deep than the source. -/
theorem decodeMapFromMapLoop_halts (S : Val → Prop) (dec : Dec) (lib : GoLib) (name : String)
    (dataVal : Val) (kt et : Ty) (mfl : Flags) (a : Nat)
    (H : ∀ (nm : String) (d v : Val) (fl : Flags), S v → d.inputDepth < a →
      dec nm d v fl ≠ Res.outOfFuel)
    (hd : dataVal.inputDepth ≤ a) (hk : S (Zero kt)) (he : S (Zero et)) :
    ∀ (ks : List Val) (valMap : Val) (errors : List String),
      (∀ k ∈ ks, k.inputDepth < a) →
      decodeMapFromMapLoop dec lib name dataVal kt et mfl ks valMap errors ≠ Res.outOfFuel := by
  intro ks
  induction ks with
  | nil => intro valMap errors _; simp [decodeMapFromMapLoop]
  | cons k ks ih =>
      intro valMap errors hks
      have hks2 : ∀ k2 ∈ ks, k2.inputDepth < a := fun k2 h2 => hks k2 (List.mem_cons_of_mem _ h2)
      unfold decodeMapFromMapLoop
      simp only []
      refine Res.bind_halts (Val.Interface_halts _) (fun kd hkd => ?_)
      have hkdA : kd.inputDepth < a :=
        lt_of_le_of_lt (Val.Interface_input hkd) (hks k (List.mem_cons_self _ _))
      refine Res.bind_halts (H _ kd _ _ hk hkdA) (fun rk _ => ?_)
      split
      · exact ih _ _ hks2
      · refine Res.bind_halts (Val.MapIndex_halts _ _) (fun ev hev => ?_)
        refine Res.bind_halts (Val.Interface_halts _) (fun v hvi => ?_)
        have hvA : v.inputDepth < a :=
          lt_of_le_of_lt (Val.Interface_input hvi)
            (lt_of_lt_of_le (Val.MapIndex_lt hev (Val.valid_of_Interface hvi)) hd)
        refine Res.bind_halts (H _ v _ _ he hvA) (fun rv _ => ?_)
        split
        · exact ih _ _ hks2
        · exact Res.bind_halts (Val.SetMapIndex_halts _ _ _ _) (fun m _ => ih _ _ hks2)

/-- The function `decodeMapFromMap` returns when its recursive call returns for the targets
of `S` and inputs less deep than the source: the calls have the keys and values of the
source and fresh zero values. -/
theorem decodeMapFromMap_halts {S : Val → Prop} {rk : Val → Nat} {c : Nat}
    (hR : TargetRanking S rk c) (dec : Dec) (lib : GoLib) (a : Nat)
    (H : ∀ (nm : String) (d v : Val) (fl : Flags), S v → d.inputDepth < a →
      dec nm d v fl ≠ Res.outOfFuel)
    (name : String) (dataVal val : Val) (fl : Flags) (valMap : Val) (mfl : Flags)
    (hv : S val) (hd : dataVal.inputDepth ≤ a) :
    decodeMapFromMap dec lib name dataVal val fl valMap mfl ≠ Res.outOfFuel := by
  unfold decodeMapFromMap
  refine Res.bind_halts (Val.TypeOf_halts _) (fun valType hvt => ?_)
  refine Res.bind_halts (Ty.mapTypes_halts _) (fun kt hkt => ?_)
  obtain ⟨hzk, hze, _⟩ := hR.2.2.2.2.2.1 val valType kt hv hvt hkt
  refine Res.bind_halts (Val.Len_halts _) (fun k _ => ?_)
  split
  · refine Res.bind_halts (Val.IsNil_halts _) (fun dn _ => ?_)
    split
    · refine Res.bind_halts (Val.IsNil_halts _) (fun vn _ => ?_)
      split
      · exact Res.bind_halts (Val.Set_halts _ _ _) (fun _ _ => done_halts _)
      · exact done_halts _
    · exact Res.bind_halts (Val.Set_halts _ _ _) (fun _ _ => done_halts _)
  · refine Res.bind_halts (Val.MapKeys_halts _) (fun keys hkeys => ?_)
    refine Res.bind_halts ?_ (fun r _ => ?_)
    · apply decodeMapFromMapLoop_halts S dec lib name dataVal kt.1 kt.2 mfl a H hd hzk hze
      intro k2 hk2m
      exact lt_of_lt_of_le (Val.MapKeys_lt hkeys k2 hk2m) hd
    · exact Res.bind_halts (Val.Set_halts _ _ _) (fun _ _ => finish_halts _ _)

/-- The loop of `decodeMapFromStruct` returns when the recursive call returns for a
pointer to each field value and for each map of `S`. -/
theorem decodeMapFromStructLoop_halts (S : Val → Prop) (dec : Dec) (mfl : Flags) :
    ∀ (fs : List StructField) (vs : List Val) (valMap : Val),
      (∀ v ∈ vs, ∀ (nm : String) (m : Val) (fl : Flags), S m →
        dec nm (Val.ptr (.ptr v.typ) v) m fl ≠ Res.outOfFuel) →
      (∀ kt, valMap.typ.mapTypes = Res.ok kt → S (Val.map (.map kt.1 kt.2) [])) →
      decodeMapFromStructLoop dec mfl fs vs valMap ≠ Res.outOfFuel := by
  intro fs
  induction fs with
  | nil => intro vs valMap _ _; simp [decodeMapFromStructLoop]
  | cons f fs ih =>
      intro vs valMap H hm1
      cases vs with
      | nil =>
          unfold decodeMapFromStructLoop
          split
          · exact ih [] valMap H hm1
          · exact Res.panic_halts _
      | cons v vs =>
          have H2 : ∀ v2 ∈ vs, ∀ (nm : String) (m : Val) (fl : Flags), S m →
              dec nm (Val.ptr (.ptr v2.typ) v2) m fl ≠ Res.outOfFuel :=
            fun v2 h2 => H v2 (List.mem_cons_of_mem _ h2)
          unfold decodeMapFromStructLoop
          split
          · exact ih vs valMap H2 hm1
          · refine Res.bind_halts (Val.TypeOf_halts _) (fun vt hvt => ?_)
            refine Res.bind_halts (Val.TypeOf_halts _) (fun mt hmt => ?_)
            refine Res.bind_halts (Ty.elemType_halts _) (fun et _ => ?_)
            have hvt2 : vt = v.typ := by
              unfold Val.TypeOf at hvt
              split at hvt
              · simpa using hvt.symm
              · simp at hvt
            have hmt2 : mt = valMap.typ := by
              unfold Val.TypeOf at hmt
              split at hmt
              · simpa using hmt.symm
              · simp at hmt
            split
            · exact Res.ok_halts _
            · simp only []
              refine Res.bind_halts ?_ (fun skip _ => ?_)
              · split
                · exact isEmptyValue_halts _
                · exact Res.ok_halts _
              · split
                · exact ih vs valMap H2 hm1
                · split
                  · exact ih vs valMap H2 hm1
                  · split
                    · refine Res.bind_halts (Ty.mapTypes_halts _) (fun kt hkt => ?_)
                      have hdec := H v (List.mem_cons_self _ _)
                      rw [hvt2]
                      refine Res.bind_halts (hdec _ (Val.map (.map kt.1 kt.2) []) Flags.made
                        (hm1 kt (hmt2 ▸ hkt))) (fun r _ => ?_)
                      split
                      · exact Res.ok_halts _
                      · refine Res.bind_halts (Val.SetMapIndex_halts _ _ _ _) (fun m hsm => ?_)
                        obtain ⟨hs1, _⟩ := Val.SetMapIndex_input hsm
                        exact ih vs m H2 (hs1 ▸ hm1)
                    · refine Res.bind_halts (Val.SetMapIndex_halts _ _ _ _) (fun m hsm => ?_)
                      obtain ⟨hs1, _⟩ := Val.SetMapIndex_input hsm
                      exact ih vs m H2 (hs1 ▸ hm1)

/-- A field value lies three levels below its struct. -/
theorem Val.fieldVals_input (d : Val) : ∀ v ∈ d.fieldVals, v.inputDepth + 3 ≤ d.inputDepth := by
  intro v hv
  cases d <;> simp only [Val.fieldVals, List.not_mem_nil] at hv
  have := Val.mem_inputList hv
  simp only [Val.inputDepth]
  omega

/-- The function `decodeMapFromStruct` returns under the conditions of its loop. -/
theorem decodeMapFromStruct_halts (S : Val → Prop) (dec : Dec) (name : String)
    (dataVal val : Val) (fl : Flags) (valMap : Val) (mfl : Flags)
    (H : ∀ v ∈ dataVal.fieldVals, ∀ (nm : String) (m : Val) (fl : Flags), S m →
      dec nm (Val.ptr (.ptr v.typ) v) m fl ≠ Res.outOfFuel)
    (hm1 : ∀ kt, valMap.typ.mapTypes = Res.ok kt → S (Val.map (.map kt.1 kt.2) [])) :
    decodeMapFromStruct dec name dataVal val fl valMap mfl ≠ Res.outOfFuel := by
  unfold decodeMapFromStruct
  simp only []
  refine Res.bind_halts (Val.TypeOf_halts _) (fun typ _ => ?_)
  refine Res.bind_halts (Ty.structFields_halts _) (fun fs _ => ?_)
  refine Res.bind_halts (decodeMapFromStructLoop_halts S dec mfl fs _ valMap H hm1)
    (fun r _ => ?_)
  split
  · exact fail_halts _ _
  · split
    · exact Res.bind_halts (Val.Set_halts _ _ _) (fun _ _ => done_halts _)
    · exact done_halts _

/-- A recursive call that returns for inputs less deep than the source struct returns for a
pointer to each of its field values. -/
theorem Dec.returnsBelow_field {dec : Dec} {S : Val → Prop} {a : Nat}
    (H : ∀ (nm : String) (d v : Val) (fl : Flags), S v → d.inputDepth < a →
      dec nm d v fl ≠ Res.outOfFuel)
    (dataVal : Val) (hd : dataVal.inputDepth ≤ a) :
    ∀ v ∈ dataVal.fieldVals, ∀ (nm : String) (m : Val) (fl : Flags), S m →
      dec nm (Val.ptr (.ptr v.typ) v) m fl ≠ Res.outOfFuel := by
  intro v hv nm m fl hm1
  have h3 := Val.fieldVals_input dataVal v hv
  apply H nm _ m fl hm1
  simp only [Val.inputDepth]
  omega

/-- The type `Val.TypeOf` yields is the type of the value. -/
theorem Val.TypeOf_typ {v : Val} {t : Ty} (h : v.TypeOf = Res.ok t) : t = v.typ := by
  unfold Val.TypeOf at h
  split at h
  · simpa using h.symm
  · simp at h

/-- The function `decodeMap` returns when its recursive call returns below the measure of
its arguments. -/
theorem decodeMap_halts {S : Val → Prop} {rk : Val → Nat} {c : Nat}
    (hR : TargetRanking S rk c) (dec : Dec) (lib : GoLib) (n : Nat)
    (H : Dec.returnsBelow dec S rk c n) (name : String) (data val : Val) (fl : Flags)
    (hv : S val) (hm : data.inputDepth * (c + 1) + rk val ≤ n) :
    decodeMap dec lib name data val fl ≠ Res.outOfFuel := by
  unfold decodeMap
  refine Res.bind_halts (Val.TypeOf_halts _) (fun valType hvt => ?_)
  refine Res.bind_halts (Ty.mapTypes_halts _) (fun kt hkt => ?_)
  refine Res.bind_halts (Val.IsNil_halts _) (fun vn _ => ?_)
  obtain ⟨_, _, hfresh⟩ := hR.2.2.2.2.2.1 val valType kt hv hvt hkt
  have H2 := Dec.returnsBelow_data hR H data (rk val) hm
  have hd := Indirect_input data
  simp only []
  split
  · exact decodeMapFromMap_halts hR dec lib data.inputDepth H2 name _ val fl _ _ hv hd
  · apply decodeMapFromStruct_halts S dec name _ val fl _ _
      (Dec.returnsBelow_field H2 _ hd)
    intro kt2 hkt2
    cases vn with
    | true =>
        simp only [if_true, Val.typ, Ty.mapTypes, Ty.underlying, Res.ok.injEq] at hkt2
        rw [← hkt2]
        exact hfresh
    | false =>
        simp only [Bool.false_eq_true, if_false] at hkt2
        exact (hR.2.2.2.2.2.1 val val.typ kt2 hv (Val.TypeOf_typ hvt ▸ hvt) hkt2).2.2
  · exact fail_halts _ _

/-- The loop of `decodeStructFromMap` returns when the recursive call returns for the
targets of `S` and inputs no deeper than the entries of the source. -/
theorem decodeStructFields_halts (S : Val → Prop) (dec : Dec) (lib : GoLib) (name : String)
    (dataVal : Val) (keys : List Val) (fl : Flags) (a : Nat)
    (H : ∀ (nm : String) (d v : Val) (fl : Flags), S v → d.inputDepth < a →
      dec nm d v fl ≠ Res.outOfFuel)
    (hd : dataVal.entries ≠ [] → Val.inputDepthEntries dataVal.entries < a) :
    ∀ (fs : List StructField) (vs : List Val) (errors : List String),
      (∀ x ∈ vs, S x) →
      decodeStructFields dec lib name dataVal keys fl fs vs errors ≠ Res.outOfFuel := by
  intro fs
  induction fs with
  | nil => intro vs errors _; simp [decodeStructFields]
  | cons f fs ih =>
      intro vs errors hvs
      cases vs with
      | nil => simp [decodeStructFields]
      | cons v vs =>
          have hvs2 : ∀ x ∈ vs, S x := fun x hx => hvs x (List.mem_cons_of_mem _ hx)
          have hv1 := hvs v (List.mem_cons_self _ _)
          unfold decodeStructFields
          simp only []
          refine Res.bind_halts (resolveField_halts _ _ _ _) (fun raw hraw => ?_)
          split
          · exact Res.bind_halts (ih vs errors hvs2) (fun _ _ => Res.ok_halts _)
          · rename_i hvalid
            have hrv : raw.IsValid = true := by simpa using hvalid
            have hrawA := lt_of_le_of_lt (resolveField_input hraw) (hd (resolveField_ne hraw hrv))
            split
            · exact Res.panic_halts _
            · split
              · exact Res.bind_halts (ih vs errors hvs2) (fun _ _ => Res.ok_halts _)
              · refine Res.bind_halts (Val.Interface_halts _) (fun d hdi => ?_)
                have hdA := lt_of_le_of_lt (Val.Interface_input hdi) hrawA
                refine Res.bind_halts (H _ d v _ hv1 hdA) (fun r _ => ?_)
                exact Res.bind_halts (ih vs _ hvs2) (fun _ _ => Res.ok_halts _)

/-- The function `decodeStructFromMap` returns when its recursive call returns for the
targets of `S` and inputs no deeper than the entries of the source. -/
theorem decodeStructFromMap_halts {S : Val → Prop} {rk : Val → Nat} {c : Nat}
    (hR : TargetRanking S rk c) (dec : Dec) (lib : GoLib) (a : Nat)
    (H : ∀ (nm : String) (d v : Val) (fl : Flags), S v → d.inputDepth < a →
      dec nm d v fl ≠ Res.outOfFuel)
    (name : String) (dataVal val : Val) (fl : Flags) (hv : S val)
    (hd : dataVal.entries ≠ [] → Val.inputDepthEntries dataVal.entries < a) :
    decodeStructFromMap dec lib name dataVal val fl ≠ Res.outOfFuel := by
  unfold decodeStructFromMap
  refine Res.bind_halts (Val.TypeOf_halts _) (fun dt _ => ?_)
  refine Res.bind_halts (Ty.mapTypes_halts _) (fun kt _ => ?_)
  split
  · exact fail_halts _ _
  · refine Res.bind_halts (Val.MapKeys_halts _) (fun keys _ => ?_)
    refine Res.bind_halts (Val.TypeOf_halts _) (fun st _ => ?_)
    refine Res.bind_halts (Ty.structFields_halts _) (fun fields _ => ?_)
    split
    · exact Res.panic_halts _
    · refine Res.bind_halts ?_ (fun r _ => finish_halts _ _)
      exact decodeStructFields_halts S dec lib name dataVal keys fl a H hd fields _ []
        (hR.2.2.2.2.2.2.1 val · hv)

/-- A sequence of two computations that yields a result: both parts do. -/
theorem Res.bind_eq_ok {α β : Type} {r : Res α} {f : α → Res β} {b : β}
    (h : r.bind f = Res.ok b) : ∃ a, r = Res.ok a ∧ f a = Res.ok b := by
  cases r with
  | ok a => exact ⟨a, rfl, h⟩
  | panic m => cases h
  | outOfFuel => cases h

/-- The bound on what is stored is at most two levels above the field values. -/
theorem storedBound_le (vs : List Val) : storedBound vs ≤ Val.inputDepthList vs + 2 := by
  cases vs <;> simp [storedBound]

/-- The bound on what is stored covers the first field value and the bound for the rest. -/
theorem storedBound_cons (v : Val) (vs : List Val) :
    v.inputDepth + 2 ≤ storedBound (v :: vs) ∧ storedBound vs ≤ storedBound (v :: vs) := by
  have := storedBound_le vs
  have e : storedBound (v :: vs) = max v.inputDepth (Val.inputDepthList vs) + 2 := rfl
  rw [e]
  omega

/-- The bound on what is stored for the field values of a value is at most its depth. -/
theorem storedBound_fieldVals (d : Val) : storedBound d.fieldVals ≤ d.inputDepth := by
  cases d with
  | struct t fs =>
      have := storedBound_le fs
      simp only [Val.fieldVals, Val.inputDepth]
      omega
  | _ => exact Nat.zero_le _

/-- Storing an entry in a map that is not nil gives a map of the same type whose entries
are no deeper than the old ones and the stored key and value. -/
theorem SetMapIndex_bound (t : Ty) (es : List (Val × Val)) (mfl : Flags) (k e m2 : Val)
    (h : (Val.map t es).SetMapIndex mfl k e = Res.ok m2) :
    ∃ es2, m2 = Val.map t es2 ∧ Val.inputDepthEntries es2 ≤
      max (Val.inputDepthEntries es) (max (k.inputDepth + 1) (e.inputDepth + 1)) := by
  obtain ⟨es2, h2⟩ := SetMapIndex_map t es mfl k e m2 h
  obtain ⟨_, _, _, h3⟩ := Val.SetMapIndex_input h
  subst h2
  exact ⟨es2, rfl, h3⟩

/-- The loop of `decodeMapFromStruct` leaves a map whose entries are no deeper than those
it had and the bound for the field values. -/
theorem decodeMapFromStructLoop_bound (dec : Dec) (hout : Dec.convertsWithin dec) (mfl : Flags)
    (t : Ty) : ∀ (fs : List StructField) (vs : List Val) (es : List (Val × Val))
      (r : Val × Option GoError),
      decodeMapFromStructLoop dec mfl fs vs (Val.map t es) = Res.ok r →
      ∃ es2, r.1 = Val.map t es2 ∧
        Val.inputDepthEntries es2 ≤ max (Val.inputDepthEntries es) (storedBound vs) := by
  intro fs
  induction fs with
  | nil =>
      intro vs es r h
      simp only [decodeMapFromStructLoop, Res.ok.injEq] at h
      subst h
      exact ⟨es, rfl, le_max_left _ _⟩
  | cons f fs ih =>
      intro vs es r h
      cases vs with
      | nil =>
          unfold decodeMapFromStructLoop at h
          split at h
          · exact ih [] es r h
          · cases h
      | cons v vs =>
          obtain ⟨hb1, hb2⟩ := storedBound_cons v vs
          have hskip : ∀ r2, decodeMapFromStructLoop dec mfl fs vs (Val.map t es) = Res.ok r2 →
              ∃ es2, r2.1 = Val.map t es2 ∧ Val.inputDepthEntries es2 ≤
                max (Val.inputDepthEntries es) (storedBound (v :: vs)) := by
            intro r2 h2
            obtain ⟨es2, h3, h4⟩ := ih vs es r2 h2
            exact ⟨es2, h3, by omega⟩
          have hstore : ∀ (k e m : Val) (r2 : Val × Option GoError),
              k.inputDepth ≤ 1 → e.inputDepth ≤ v.inputDepth + 1 →
              (Val.map t es).SetMapIndex mfl k e = Res.ok m →
              decodeMapFromStructLoop dec mfl fs vs m = Res.ok r2 →
              ∃ es2, r2.1 = Val.map t es2 ∧ Val.inputDepthEntries es2 ≤
                max (Val.inputDepthEntries es) (storedBound (v :: vs)) := by
            intro k e m r2 hk he hs h2
            obtain ⟨es3, h3, h4⟩ := SetMapIndex_bound t es mfl k e m hs
            subst h3
            obtain ⟨es2, h5, h6⟩ := ih vs es3 r2 h2
            exact ⟨es2, h5, by omega⟩
          unfold decodeMapFromStructLoop at h
          split at h
          · exact hskip r h
          · obtain ⟨vt, _, h⟩ := Res.bind_eq_ok h
            obtain ⟨mt, _, h⟩ := Res.bind_eq_ok h
            obtain ⟨et, _, h⟩ := Res.bind_eq_ok h
            split at h
            · simp only [Res.ok.injEq] at h
              subst h
              exact ⟨es, rfl, le_max_left _ _⟩
            · simp only [] at h
              obtain ⟨skip, _, h⟩ := Res.bind_eq_ok h
              split at h
              · exact hskip r h
              · split at h
                · exact hskip r h
                · split at h
                  · rename_i hvk
                    obtain ⟨kt, _, h⟩ := Res.bind_eq_ok h
                    obtain ⟨r0, hr0, h⟩ := Res.bind_eq_ok h
                    cases hr2 : r0.2 with
                    | some err =>
                        rw [hr2] at h
                        simp only [Res.ok.injEq] at h
                        subst h
                        exact ⟨es, rfl, le_max_left _ _⟩
                    | none =>
                        rw [hr2] at h
                        simp only [] at h
                        obtain ⟨m, hm, h⟩ := Res.bind_eq_ok h
                        have hr0e : r0 = (r0.1, none) := by
                          rw [← hr2]
                        rw [hr0e] at hr0
                        have hI : Indirect (Val.ptr (.ptr vt) v) = v := rfl
                        have hw := hout _ (Val.ptr (.ptr vt) v) kt.1 kt.2 Flags.made r0.1
                          (by rw [hI]; exact hvk) hr0
                        rw [hI] at hw
                        exact hstore (Val.str _ _) _ m r (le_refl _) hw hm h
                  · obtain ⟨m, hm, h⟩ := Res.bind_eq_ok h
                    exact hstore (Val.str _ _) _ m r (le_refl _) (by omega) hm h

/-- The loop of `decodeMapFromStruct` over no field values leaves the map as it is. -/
theorem decodeMapFromStructLoop_nil (dec : Dec) (mfl : Flags) :
    ∀ (fs : List StructField) (valMap : Val) (r : Val × Option GoError),
      decodeMapFromStructLoop dec mfl fs [] valMap = Res.ok r → r.1 = valMap := by
  intro fs
  induction fs with
  | nil =>
      intro valMap r h
      simp only [decodeMapFromStructLoop, Res.ok.injEq] at h
      rw [← h]
  | cons f fs ih =>
      intro valMap r h
      unfold decodeMapFromStructLoop at h
      split at h
      · exact ih valMap r h
      · cases h

/-- The bound on what is stored for the field values of a struct is below its depth. -/
theorem storedBound_lt (d : Val) (h : d.fieldVals ≠ []) :
    storedBound d.fieldVals < d.inputDepth := by
  cases d <;> simp only [Val.fieldVals, ne_eq, not_true_eq_false] at h
  rename_i t fs
  have := storedBound_le fs
  simp only [Val.fieldVals, Val.inputDepth]
  omega

/-- The function `decodeMapFromStruct` with an empty map as target yields a map whose
entries are less deep than the source struct. -/
theorem decodeMapFromStruct_bound (dec : Dec) (hout : Dec.convertsWithin dec) (name : String)
    (dataVal : Val) (t : Ty) (fl mfl : Flags) (w : Val)
    (h : decodeMapFromStruct dec name dataVal (Val.map t []) fl (Val.map t []) mfl =
      Res.ok (w, none)) :
    Val.inputDepthEntries w.entries ≤ dataVal.inputDepth ∧
      w.inputDepth ≤ dataVal.inputDepth + 1 ∧
      (w.entries ≠ [] → Val.inputDepthEntries w.entries < dataVal.inputDepth) := by
  have hsb := storedBound_fieldVals dataVal
  have key : ∀ es2 : List (Val × Val), Val.inputDepthEntries es2 ≤
      max (Val.inputDepthEntries []) (storedBound dataVal.fieldVals) →
      (dataVal.fieldVals = [] → es2 = []) → w = Val.map t es2 →
      Val.inputDepthEntries w.entries ≤ dataVal.inputDepth ∧
        w.inputDepth ≤ dataVal.inputDepth + 1 ∧
        (w.entries ≠ [] → Val.inputDepthEntries w.entries < dataVal.inputDepth) := by
    intro es2 hes hnil hw
    subst hw
    simp only [Val.inputDepthEntries] at hes
    simp only [Val.entries, Val.inputDepth]
    refine ⟨by omega, by omega, fun hne => ?_⟩
    have hf : dataVal.fieldVals ≠ [] := fun hc => hne (hnil hc)
    have := storedBound_lt dataVal hf
    omega
  unfold decodeMapFromStruct at h
  simp only [] at h
  obtain ⟨typ, _, h⟩ := Res.bind_eq_ok h
  obtain ⟨fs, _, h⟩ := Res.bind_eq_ok h
  obtain ⟨r, hr, h⟩ := Res.bind_eq_ok h
  obtain ⟨es2, h2, h3⟩ := decodeMapFromStructLoop_bound dec hout mfl t fs _ [] r hr
  have hnil : dataVal.fieldVals = [] → es2 = [] := by
    intro hf
    rw [hf] at hr
    have h4 := decodeMapFromStructLoop_nil dec mfl fs (Val.map t []) r hr
    rw [h2] at h4
    simpa using h4
  cases hr2 : r.2 with
  | some err =>
      rw [hr2] at h
      simp [fail] at h
  | none =>
      rw [hr2] at h
      simp only [] at h
      split at h
      · obtain ⟨v, hset, h⟩ := Res.bind_eq_ok h
        simp only [done, Res.ok.injEq, Prod.mk.injEq, and_true] at h
        subst h
        rw [h2] at hset
        unfold Val.Set at hset
        split at hset
        · cases hset
        · split at hset
          · cases hset
          · split at hset
            · cases hset
            · have hs := assignTo_same "reflect.Set" (Val.map t es2) rfl
              have hty : (Val.map t es2).typ = (Val.map t []).typ := rfl
              rw [hty] at hs
              rw [hs] at hset
              simp only [Res.ok.injEq] at hset
              exact key es2 h3 hnil hset.symm
      · simp only [Val.isNilVal, Bool.false_eq_true, if_false, done, Res.ok.injEq,
          Prod.mk.injEq, and_true] at h
        exact key es2 h3 hnil (h ▸ h2)

/-- The function `decodeStruct` returns when its recursive call returns below the measure
of its arguments: a struct source is first converted to a map, whose entries are less
deep than the struct. -/
theorem decodeStruct_halts {S : Val → Prop} {rk : Val → Nat} {c : Nat}
    (hR : TargetRanking S rk c) (dec : Dec) (lib : GoLib) (n : Nat)
    (H : Dec.returnsBelow dec S rk c n) (hout : Dec.convertsWithin dec) (name : String)
    (data val : Val) (fl : Flags) (hv : S val)
    (hm : data.inputDepth * (c + 1) + rk val ≤ n) :
    decodeStruct dec lib name data val fl ≠ Res.outOfFuel := by
  unfold decodeStruct
  simp only []
  have hd := Indirect_input data
  have H2 := Dec.returnsBelow_data hR H data (rk val) hm
  refine Res.bind_halts (Val.TypeOf_halts _) (fun dt _ => ?_)
  refine Res.bind_halts (Val.TypeOf_halts _) (fun vt _ => ?_)
  split
  · exact Res.bind_halts (Val.Set_halts _ _ _) (fun _ _ => done_halts _)
  · split
    · exact decodeStructFromMap_halts hR dec lib data.inputDepth H2 name _ val fl hv
        (fun hne => lt_of_lt_of_le (Val.entries_lt _ hne) hd)
    · refine Res.bind_halts (decodeMapFromStruct_halts S dec name _ _ _ _ _
        (Dec.returnsBelow_field H2 _ hd) ?_) (fun r hr => ?_)
      · intro kt hkt
        simp only [Val.typ, Ty.mapTypes, Ty.underlying, Res.ok.injEq] at hkt
        rw [← hkt]
        exact hR.2.2.2.2.2.2.2
      · cases hr2 : r.2 with
        | some err => exact fail_halts _ _
        | none =>
            have hre : r = (r.1, none) := by rw [← hr2]
            rw [hre] at hr
            obtain ⟨_, _, hb⟩ := decodeMapFromStruct_bound dec hout name _ _ _ _ r.1 hr
            exact decodeStructFromMap_halts hR dec lib data.inputDepth H2 name _ val fl hv
              (fun hne => lt_of_lt_of_le (hb hne) hd)
    · exact fail_halts _ _

/-- A value that `getKind` takes for a pointer, an interface, a slice or an array is of
that kind. -/
theorem getKind_kind {v : Val} {k : Kind} (h : getKind v = k)
    (hk : k = Kind.Ptr ∨ k = Kind.Interface ∨ k = Kind.Slice ∨ k = Kind.Array) :
    v.kind = k := by
  rw [getKind_eq] at h
  subst h
  cases hv : v.kind <;> rw [hv] at hk <;> simp [Kind.family, Kind.toNat] at hk ⊢

/-- The body of `decode` returns when its recursive calls return below the measure of its
arguments: every recursive call it makes has a smaller measure. -/
theorem decodeBody_halts {S : Val → Prop} {rk : Val → Nat} {c : Nat}
    (hR : TargetRanking S rk c) (dec : Dec) (lib : GoLib) (n : Nat)
    (H : Dec.returnsBelow dec S rk c n) (hout : Dec.convertsWithin dec) (name : String)
    (input outVal : Val) (fl : Flags) (hv : S outVal)
    (hm : input.inputDepth * (c + 1) + rk outVal ≤ n) :
    decodeBody dec lib name input outVal fl ≠ Res.outOfFuel := by
  unfold decodeBody
  simp only []
  cases hiv : input.IsValid with
  | false =>
      simp only [Bool.false_eq_true, if_false, Res.bind_ok, hiv, Bool.not_false, if_true]
      exact done_halts _
  | true =>
      simp only [if_true, Bool.not_true, Bool.false_eq_true, if_false, hiv]
      refine Res.bind_halts ?_ (fun inp hinp => ?_)
      · split
        · exact Res.bind_halts (Val.IsNil_halts _) (fun _ _ => Res.ok_halts _)
        · exact Res.ok_halts _
      · have hA : inp.inputDepth ≤ input.inputDepth := by
          split at hinp
          · obtain ⟨b, _, hb⟩ := Res.bind_eq_ok hinp
            simp only [Res.ok.injEq] at hb
            subst hb
            split
            · exact Nat.zero_le _
            · exact le_refl _
          · simp only [Res.ok.injEq] at hinp
            subst hinp
            exact le_refl _
        have hm2 : inp.inputDepth * (c + 1) + rk outVal ≤ n := by
          have := Nat.mul_le_mul_right (c + 1) hA
          omega
        split
        · exact done_halts _
        · split
          · exact decodeBool_halts _ _ _ _
          · rename_i hkind
            exact decodeBasic_halts hR dec n H name inp outVal fl hv
              (getKind_kind hkind (Or.inr (Or.inl rfl))) hm2
          · exact decodeString_halts _ _ _ _
          · exact decodeInt_halts _ _ _ _ _
          · exact decodeUint_halts _ _ _ _ _
          · exact decodeFloat_halts _ _ _ _ _
          · exact decodeStruct_halts hR dec lib n H hout name inp outVal fl hv hm2
          · exact decodeMap_halts hR dec lib n H name inp outVal fl hv hm2
          · rename_i hkind
            exact decodePtr_halts hR dec n H name inp outVal fl hv hm2
              (getKind_kind hkind (Or.inl rfl))
          · rename_i hkind
            exact decodeSlice_halts hR dec n H name inp outVal fl hv
              (getKind_kind hkind (Or.inr (Or.inr (Or.inl rfl)))) hm2
          · rename_i hkind
            exact decodeArray_halts hR dec n H name inp outVal fl hv
              (getKind_kind hkind (Or.inr (Or.inr (Or.inr rfl)))) hm2
          · exact decodeFunc_halts _ _ _ _
          · exact fail_halts _ _

/-- The function `decode` converts a struct into an empty map at most one level deeper. -/
theorem decode_convertsWithin (lib : GoLib) : ∀ n : Nat, Dec.convertsWithin (decode lib n)
  | 0 => by
      intro name d kt et fl w _ h
      simp [decode] at h
  | n + 1 => by
      intro name d kt et fl w hk h
      have hvalid : (Indirect d).IsValid = true := by
        cases hI : Indirect d <;> rw [hI] at hk <;> first | rfl | simp [Val.kind] at hk
      rw [decode_dispatch lib n name d _ fl hvalid] at h
      have hgk : getKind (Val.map (.map kt et) []) = Kind.Map := rfl
      have hT : (Val.map (.map kt et) []).TypeOf = Res.ok (.map kt et) := rfl
      have hmt : (Ty.map kt et).mapTypes = Res.ok (kt, et) := rfl
      have hN : (Val.map (.map kt et) []).IsNil = Res.ok false := rfl
      simp only [hgk, decodeMap, hT, hmt, hN, Res.bind_ok, hk, Bool.false_eq_true,
        if_false] at h
      exact (decodeMapFromStruct_bound (decode lib n) (decode_convertsWithin lib n) name
        (Indirect d) (.map kt et) fl fl w h).2.1

/-- The function `decode` with fuel `n` returns for the targets of a ranking and arguments
whose measure is below `n`. -/
theorem decode_returnsBelow (lib : GoLib) {S : Val → Prop} {rk : Val → Nat} {c : Nat}
    (hR : TargetRanking S rk c) : ∀ n : Nat, Dec.returnsBelow (decode lib n) S rk c n
  | 0 => by
      intro name d v fl _ h
      omega
  | n + 1 => by
      intro name d v fl hv h
      exact decodeBody_halts hR (decode lib n) lib n (decode_returnsBelow lib hR n)
        (decode_convertsWithin lib n) name d v fl hv (by omega)

/-- The value behind a target of kind `Ptr` is less deep than the target. -/
theorem Indirect_target {v : Val} (h : v.nonRecursive = true) (hk : v.kind = Kind.Ptr)
    (hpos : 0 < v.targetDepth) :
    (Indirect v).nonRecursive = true ∧ (Indirect v).targetDepth < v.targetDepth := by
  obtain ⟨h1, h2⟩ := Indirect_measure h
  refine ⟨h1, ?_⟩
  cases hv : (Indirect v).IsValid with
  | true => exact h2 hv hk
  | false =>
      rw [Val.eq_invalid_of_not_valid hv]
      exact hpos

/-- The targets built without self-reference, up to a depth `c`, have a ranking: their
nesting depth. -/
theorem nonRecursive_ranking (c : Nat) (hc : 1 ≤ c) :
    TargetRanking (fun v => v.nonRecursive = true ∧ v.targetDepth ≤ c) Val.targetDepth c := by
  refine ⟨fun v hv => hv.2, ?_, ?_, ?_, ?_, ?_, ?_, ⟨rfl, hc⟩⟩
  · intro v t e hv hk hvt het
    obtain ⟨ht1, ht2⟩ := Val.TypeOf_measure hv.1 hvt
    obtain ⟨he1, he2⟩ := Ty.elemType_measure ht1 het
    obtain ⟨hz1, hz2⟩ := Zero_measure e he1
    obtain ⟨hi1, hi2⟩ := Indirect_target hv.1 hk (by omega)
    have := hv.2
    exact ⟨⟨hi1, by omega⟩, hi2, fun _ => ⟨⟨hz1, by omega⟩, by omega⟩⟩
  · intro v e hv _ he hev
    obtain ⟨h1, h2⟩ := Val.Elem_measure hv.1 he hev
    have := hv.2
    exact ⟨⟨h1, by omega⟩, h2⟩
  · intro v t e hv _ hvt het
    obtain ⟨ht1, ht2⟩ := Val.TypeOf_measure hv.1 hvt
    obtain ⟨he1, he2⟩ := Ty.elemType_measure ht1 het
    obtain ⟨hz1, hz2⟩ := Zero_measure e he1
    have := hv.2
    exact ⟨hz1, by omega⟩
  · intro v x hv hx
    obtain ⟨h1, h2⟩ := Val.elems_measure v hv.1 x hx
    have := hv.2
    exact ⟨h1, by omega⟩
  · intro v t kt hv hvt hkt
    obtain ⟨ht1, ht2⟩ := Val.TypeOf_measure hv.1 hvt
    obtain ⟨hk1, hk2, hk3, hk4, hk5, hk6, _⟩ := Ty.mapTypes_measure ht1 hkt
    obtain ⟨hzk1, hzk2⟩ := Zero_measure kt.1 hk1
    obtain ⟨hze1, hze2⟩ := Zero_measure kt.2 hk2
    have := hv.2
    refine ⟨⟨hzk1, by omega⟩, ⟨hze1, by omega⟩, ⟨hk5, ?_⟩⟩
    have e : (Val.map (.map kt.1 kt.2) []).targetDepth = (Ty.map kt.1 kt.2).depth := rfl
    rw [e]
    omega
  · intro v x hv hx
    obtain ⟨h1, h2⟩ := Val.fieldVals_measure v hv.1 x hx
    have := hv.2
    exact ⟨h1, by omega⟩

/-- C36 fails as stated.  The target may be of a type that points to itself, such as
`type P *P`: its value is a plain nil pointer, yet with the source `1` the function
`decodePtr` allocates a `P` and calls `decode` with the same source and the new nil `P`,
and so on without end: the conversion returns for no amount of fuel. -/
theorem self_pointer_target_never_returns :
    neverReturns stdLib "" (Val.int tInt 1) (Val.nil tSelfPointer) Flags.fresh := by
  intro fuel
  induction fuel with
  | zero => rfl
  | succ n ih =>
      rw [decode_dispatch stdLib n "" (Val.int tInt 1) _ Flags.fresh rfl]
      have hgk : getKind (Val.nil tSelfPointer) = Kind.Ptr := rfl
      have hI : Indirect (Val.ptr (.ptr tSelfPointer) (Zero tSelfPointer)) =
          Val.nil tSelfPointer := rfl
      have hE : tSelfPointer.Elem = Res.ok tSelfPointer := rfl
      have hT : (Val.nil tSelfPointer).TypeOf = Res.ok tSelfPointer := rfl
      have hN : (Val.nil tSelfPointer).IsNil = Res.ok true := rfl
      have hp : Flags.fresh.pointee = Flags.fresh := rfl
      have hk0 : (Indirect (Val.int tInt 1)).kind = Kind.Int := rfl
      have hc : Flags.fresh.CanSet = true := rfl
      simp only [hgk, decodePtr, hk0, Val.IsValid, Bool.not_true, Bool.false_eq_true, if_false,
        Res.bind_ok, hT, hE, hc, if_true, hN, hI, hp, ih, Res.bind_outOfFuel]
      rfl

/-- C36, amended.  (1) Let `S` be a set of targets with a ranking bounded by `c`
(`TargetRanking`): `S` is closed under the steps the decoder takes on a target, and the
rank falls whenever the decoder calls itself with the same input, on the pointee of a
pointer, on the fresh value allocated for a nil pointer or on the value held in a dynamic
slot.  Then `decode` returns, with a result or with a run-time panic, for every input and
every target of `S`: every other recursive call has an input that lies deeper in the
input, so the depth of the recursion is at most `c + 1` times the nesting depth of the
input plus the rank of the target, and any fuel above that is enough.
(2) Every target built without a type that is declared in terms of itself has such a
ranking, its nesting depth, so `decode` returns for it. -/
theorem decode_terminates (lib : GoLib) :
    (∀ (S : Val → Prop) (rk : Val → Nat) (c : Nat), TargetRanking S rk c →
      ∀ (fuel : Nat) (name : String) (data val : Val) (fl : Flags), S val →
        data.inputDepth * (c + 1) + rk val < fuel →
        decode lib fuel name data val fl ≠ Res.outOfFuel) ∧
    (∀ (fuel : Nat) (name : String) (data val : Val) (fl : Flags),
      val.nonRecursive = true →
      data.inputDepth * (max val.targetDepth 1 + 1) + val.targetDepth < fuel →
      decode lib fuel name data val fl ≠ Res.outOfFuel) :=
  ⟨fun _ _ _ hR fuel name data val fl hv hfuel =>
      decode_returnsBelow lib hR fuel name data val fl hv hfuel,
    fun fuel name data val fl hv hfuel =>
      decode_returnsBelow lib (nonRecursive_ranking (max val.targetDepth 1) (le_max_right _ _))
        fuel name data val fl ⟨hv, le_max_left _ _⟩ hfuel⟩

/-- The targets reached from a zero `Node` have a ranking with the bound 1. -/
theorem nodeTargets_ranking : TargetRanking (fun v => v ∈ nodeTargets) nodeRank 1 := by
  have hmem : ∀ v, v ∈ nodeTargets ↔
      v = Zero tNode ∨ v = text "" ∨ v = Val.nil (Ty.ptr tNode) ∨ v = Val.invalid ∨
        v = Val.map tMapSI [] ∨ v = Val.nil emptyInterface := by
    intro v
    simp only [nodeTargets, List.mem_cons, List.mem_singleton, List.not_mem_nil, or_false]
  refine ⟨?_, ?_, ?_, ?_, ?_, ?_, ?_, ?_⟩
  · intro v _
    simp only [nodeRank]
    split <;> omega
  · intro v t e hv hk hvt het
    rcases (hmem v).1 hv with rfl | rfl | rfl | rfl | rfl | rfl
    · exact absurd hk (by decide)
    · exact absurd hk (by decide)
    · have ht : t = Ty.ptr tNode := by
        have : (Val.nil (Ty.ptr tNode)).TypeOf = Res.ok (Ty.ptr tNode) := rfl
        rw [this] at hvt
        exact (Res.ok.inj hvt).symm
      subst ht
      have he : e = tNode := by
        have : (Ty.ptr tNode).Elem = Res.ok tNode := rfl
        rw [this] at het
        exact (Res.ok.inj het).symm
      subst he
      refine ⟨(hmem _).2 (Or.inr (Or.inr (Or.inr (Or.inl rfl)))), by decide, fun _ =>
        ⟨(hmem _).2 (Or.inl rfl), by decide⟩⟩
    · exact absurd hk (by decide)
    · exact absurd hk (by decide)
    · exact absurd hk (by decide)
  · intro v e hv hk he hev
    rcases (hmem v).1 hv with rfl | rfl | rfl | rfl | rfl | rfl
    · exact absurd hk (by decide)
    · exact absurd hk (by decide)
    · exact absurd hk (by decide)
    · exact absurd hk (by decide)
    · exact absurd hk (by decide)
    · have : (Val.nil emptyInterface).Elem = Res.ok Val.invalid := rfl
      rw [this] at he
      rw [← Res.ok.inj he] at hev
      exact absurd hev (by decide)
  · intro v t e hv hk _ _
    rcases (hmem v).1 hv with rfl | rfl | rfl | rfl | rfl | rfl <;>
      exact absurd hk (by decide)
  · intro v x hv hx
    rcases (hmem v).1 hv with rfl | rfl | rfl | rfl | rfl | rfl <;>
      exact absurd hx (by simp [Val.elems, Zero, zeroOf, zeroOfE, tNode, text])
  · intro v t kt hv hvt hkt
    rcases (hmem v).1 hv with rfl | rfl | rfl | rfl | rfl | rfl
    · have : (Zero tNode).TypeOf = Res.ok tNode := rfl
      rw [this] at hvt
      rw [← Res.ok.inj hvt, show tNode.mapTypes = Res.panic _ from rfl] at hkt
      cases hkt
    · have : (text "").TypeOf = Res.ok tString := rfl
      rw [this] at hvt
      rw [← Res.ok.inj hvt, show tString.mapTypes = Res.panic _ from rfl] at hkt
      cases hkt
    · have : (Val.nil (Ty.ptr tNode)).TypeOf = Res.ok (Ty.ptr tNode) := rfl
      rw [this] at hvt
      rw [← Res.ok.inj hvt, show (Ty.ptr tNode).mapTypes = Res.panic _ from rfl] at hkt
      cases hkt
    · rw [show Val.invalid.TypeOf = Res.panic _ from rfl] at hvt
      cases hvt
    · have : (Val.map tMapSI []).TypeOf = Res.ok tMapSI := rfl
      rw [this] at hvt
      rw [← Res.ok.inj hvt] at hkt
      have : tMapSI.mapTypes = Res.ok (tString, emptyInterface) := rfl
      rw [this] at hkt
      rw [← Res.ok.inj hkt]
      exact ⟨(hmem _).2 (Or.inr (Or.inl rfl)),
        (hmem _).2 (Or.inr (Or.inr (Or.inr (Or.inr (Or.inr rfl))))),
        (hmem _).2 (Or.inr (Or.inr (Or.inr (Or.inr (Or.inl rfl)))))⟩
    · have : (Val.nil emptyInterface).TypeOf = Res.ok emptyInterface := rfl
      rw [this] at hvt
      rw [← Res.ok.inj hvt, show emptyInterface.mapTypes = Res.panic _ from rfl] at hkt
      cases hkt
  · intro v x hv hx
    rcases (hmem v).1 hv with rfl | rfl | rfl | rfl | rfl | rfl
    · have hf : (Zero tNode).fieldVals = [text "", Val.nil (Ty.ptr tNode)] := rfl
      rw [hf] at hx
      simp only [List.mem_cons, List.mem_singleton, List.not_mem_nil, or_false] at hx
      rcases hx with rfl | rfl
      · exact (hmem _).2 (Or.inr (Or.inl rfl))
      · exact (hmem _).2 (Or.inr (Or.inr (Or.inl rfl)))
    all_goals exact absurd hx (by simp [Val.fieldVals, text])
  · exact (hmem _).2 (Or.inr (Or.inr (Or.inr (Or.inr (Or.inl rfl)))))

/-- C36 as amended, at `type Node struct { Value string; Next *Node }`, a type that is
declared in terms of itself: the targets reached from a zero `Node` have a ranking with
the bound 1, the source `Value: a, Next: (Value: b)` has the depth 5, and with the fuel 11
the conversion returns, with the list of the two nodes.  At the input of
`TestNestedTypePointer`, whose target is built without such a type, the conversion returns
as well. -/
theorem decode_terminates_witness :
    TargetRanking (fun v => v ∈ nodeTargets) nodeRank 1 ∧
    nodeInput.inputDepth * (1 + 1) + nodeRank (Zero tNode) < 11 ∧
    decode stdLib 11 "" nodeInput (Zero tNode) Flags.fresh ≠ Res.outOfFuel ∧
    decode stdLib 11 "" nodeInput (Zero tNode) Flags.fresh =
      done (Val.struct tNode [text "a", Val.ptr (Ty.ptr tNode)
        (Val.struct tNode [text "b", Val.nil (Ty.ptr tNode)])]) ∧
    (Zero tNestedPointer).nonRecursive = true ∧
    decode stdLib 40 "" nestedPointerInput (Zero tNestedPointer) Flags.fresh ≠
      Res.outOfFuel :=
  ⟨nodeTargets_ranking, by decide,
    (decode_terminates stdLib).1 _ nodeRank 1 nodeTargets_ranking 11 "" nodeInput (Zero tNode)
      Flags.fresh (List.mem_cons_self _ _) (by decide),
    by rfl, by decide,
    (decode_terminates stdLib).2 40 "" nestedPointerInput (Zero tNestedPointer) Flags.fresh
      (by decide) (by decide)⟩

/-! ## C22: the round trip of a record -/

/-- The two flag bits of a target that can be set. -/
theorem canSet_bits {fl : Flags} (hset : fl.CanSet = true) : fl.addr = true ∧ fl.ro = false := by
  simp only [Flags.CanSet, Bool.and_eq_true, Bool.not_eq_true'] at hset
  exact hset

/-- A value that is no pointer is what `reflect.Indirect` yields for it. -/
theorem Indirect_self {v : Val} (h : v.kind ≠ Kind.Ptr) : Indirect v = v := by
  simp only [Indirect, h, if_false]

/-- A pointer of pointer type points to what `reflect.Indirect` yields for it. -/
theorem Indirect_ptr {t : Ty} (p : Val) (h : t.kind = Kind.Ptr) : Indirect (Val.ptr t p) = p := by
  have hk : (Val.ptr t p).kind = Kind.Ptr := h
  simp only [Indirect, hk, if_true]

/-- A value of an unnamed type is stored in a location whose type has the same underlying
type, and takes the type of the location. -/
theorem assignTo_underlying (c : String) (x : Val) (t : Ty) (hx : x.IsValid = true)
    (hn : x.typ.hasName = false) (hu : x.typ.underlying = t.underlying) :
    assignTo c x t = Res.ok (x.withType t) := by
  have h2 : (x.typ.underlying == t.underlying) = true := by
    rw [hu]
    exact Ty.beq_self _
  simp only [assignTo, hx, Bool.not_true, Bool.false_eq_true, if_false, hn, Bool.and_false,
    Bool.not_false, Bool.true_and, h2, Bool.or_true, if_true]

/-- The method `decode` gives the same outcome for a pointer to a value as for the value,
on a target of the kind of the value that is no interface and no pointer. -/
theorem decode_behind_pointer (lib : GoLib) (fuel : Nat) (name : String) (x : Val) (pt : Ty)
    (val : Val) (fl : Flags) (hx : x.IsValid = true) (hxk : x.kind ≠ Kind.Ptr)
    (hpt : pt.kind = Kind.Ptr) (hk : getKind val = getKind x)
    (hni : getKind val ≠ Kind.Interface) (hnp : getKind val ≠ Kind.Ptr) :
    decode lib (fuel + 1) name (Val.ptr pt x) val fl = decode lib (fuel + 1) name x val fl := by
  have hIp : Indirect (Val.ptr pt x) = x := Indirect_ptr x hpt
  have hIx : Indirect x = x := Indirect_self hxk
  have hxT : x.TypeOf = Res.ok x.typ := by simp only [Val.TypeOf, hx, if_true]
  rw [decode_dispatch lib fuel name _ val fl (by rw [hIp]; exact hx),
    decode_dispatch lib fuel name x val fl (by rw [hIx]; exact hx)]
  cases hkv : getKind val
  all_goals try simp only
  all_goals first
    | exact absurd hkv hni
    | exact absurd hkv hnp
    | simp only [decodeBool, hIp, hIx]
    | simp only [decodeString, hIp, hIx]
    | simp only [decodeUint, hIp, hIx]
    | simp only [decodeFunc, hIp, hIx]
    | simp only [decodeStruct, hIp, hIx]
    | simp only [decodeMap, hIp, hIx]
    | simp only [decodeSlice, hIp, hIx]
    | simp only [decodeArray, hIp, hIx]
    | rfl
    | skip
  · have hg : getKind x = Kind.Int := by rw [← hk, hkv]
    simp only [decodeInt, hIp, hIx, hxT, Res.bind_ok, hg, if_true]
  · have hg : getKind x = Kind.Float32 := by rw [← hk, hkv]
    simp only [decodeFloat, hIp, hIx, hxT, Res.bind_ok, hg, if_true]

/-- A nil slice, map, pointer, interface value or function decoded into the zero value of
its type gives the nil value. -/
theorem nil_decode_self (lib : GoLib) (fuel : Nat) (p : String) (t : Ty) (fl : Flags)
    (hk : (∃ et, t.underlying = Ty.slice et) ∨ (∃ kt et, t.underlying = Ty.map kt et) ∨
      t.kind = Kind.Ptr ∨ t.kind = Kind.Interface ∨ t.kind = Kind.Func)
    (hset : fl.CanSet = true) :
    ∃ d, (Val.nil t).Interface = Res.ok d ∧
      decode lib (fuel + 1) p d (Zero t) fl = done (Val.nil t) := by
  obtain ⟨haddr, hro⟩ := canSet_bits hset
  have hkk : (Val.nil t).kind = t.kind := rfl
  have hT : (Val.nil t).TypeOf = Res.ok t := rfl
  rcases hk with ⟨et, hu⟩ | ⟨kt, et, hu⟩ | h | h | h
  · have h : t.kind = Kind.Slice := Ty.kind_of_underlying hu
    have hZ : Zero t = Val.nil t := Zero_nil t (by simp [h])
    have hI : Indirect (Val.nil t) = Val.nil t := Indirect_self (by rw [hkk, h]; decide)
    have hg : getKind (Val.nil t) = Kind.Slice := by rw [getKind_eq, hkk, h]; rfl
    have hE : t.Elem = Res.ok et := by simp only [Ty.Elem, hu]
    refine ⟨Val.nil t, by simp [Val.Interface, h], ?_⟩
    rw [hZ, decode_dispatch lib fuel p _ _ fl (by rw [hI]; rfl), hg]
    simp only [decodeSlice, hI, hT, Res.bind_ok, hE, Val.IsNil, hkk, h, if_true, Val.Len]
    simp
  · have h : t.kind = Kind.Map := Ty.kind_of_underlying hu
    have hZ : Zero t = Val.nil t := Zero_nil t (by simp [h])
    have hI : Indirect (Val.nil t) = Val.nil t := Indirect_self (by rw [hkk, h]; decide)
    have hg : getKind (Val.nil t) = Kind.Map := by rw [getKind_eq, hkk, h]; rfl
    have hE : t.mapTypes = Res.ok (kt, et) := by simp only [Ty.mapTypes, hu]
    refine ⟨Val.nil t, by simp [Val.Interface, h], ?_⟩
    rw [hZ, decode_dispatch lib fuel p _ _ fl (by rw [hI]; rfl), hg]
    simp only [decodeMap, decodeMapFromMap, hI, hT, Res.bind_ok, hE, Val.IsNil, hkk, h, if_true,
      Val.Len]
    simp
  · have hZ : Zero t = Val.nil t := Zero_nil t (by simp [h])
    refine ⟨Val.nil t, by simp [Val.Interface, h], ?_⟩
    simp only [decode, decodeBody, Val.IsValid, if_true, hkk, h, Val.IsNil, Res.bind_ok,
      Bool.not_false, done, hZ]
  · have hZ : Zero t = Val.nil t := Zero_nil t (by simp [h])
    refine ⟨Val.invalid, by simp [Val.Interface, h], ?_⟩
    rw [hZ]
    simp only [decode, decodeBody, Val.IsValid, Bool.false_eq_true, if_false, Res.bind_ok,
      Bool.not_false, if_true]
  · have hZ : Zero t = Val.nil t := Zero_nil t (by simp [h])
    have hI : Indirect (Val.nil t) = Val.nil t := Indirect_self (by rw [hkk, h]; decide)
    have hg : getKind (Val.nil t) = Kind.Func := by rw [getKind_eq, hkk, h]; rfl
    refine ⟨Val.nil t, by simp [Val.Interface, h], ?_⟩
    rw [hZ, decode_dispatch lib fuel p _ _ fl (by rw [hI]; rfl), hg]
    have hvT : (Val.nil t).typ = t := rfl
    have hb : (t != t) = false := by simp [bne, Ty.beq_self]
    simp only [decodeFunc, hI, hT, Res.bind_ok, hb, Bool.false_eq_true, if_false,
      Val.Set, Val.IsValid, Bool.not_true, hro, haddr, hvT]
    rw [show assignTo "reflect.Set" (Val.nil t) t = Res.ok (Val.nil t) from
      assignTo_same "reflect.Set" (Val.nil t) rfl]
    rfl

/-- A function decoded into the zero value of its type gives the function. -/
theorem func_decode_self (lib : GoLib) (fuel : Nat) (p : String) (t : Ty) (i : Nat)
    (fl : Flags) (hk : t.kind = Kind.Func) (hset : fl.CanSet = true) :
    decode lib (fuel + 1) p (Val.func t i) (Zero t) fl = done (Val.func t i) := by
  obtain ⟨haddr, hro⟩ := canSet_bits hset
  obtain ⟨hzv, hzt, hzk⟩ := Zero_facts t
  have hkk : (Val.func t i).kind = t.kind := rfl
  have hI : Indirect (Val.func t i) = Val.func t i := Indirect_self (by rw [hkk, hk]; decide)
  have hg : getKind (Zero t) = Kind.Func := by rw [getKind_eq, hzk, hk]; rfl
  have hT : (Val.func t i).TypeOf = Res.ok t := rfl
  have hzT : (Zero t).TypeOf = Res.ok t := by simp only [Val.TypeOf, hzv, if_true, hzt]
  rw [decode_dispatch lib fuel p _ _ fl (by rw [hI]; rfl), hg]
  have hb : (t != t) = false := by simp [bne, Ty.beq_self]
  simp only [decodeFunc, hI, hT, hzT, Res.bind_ok, hb, Bool.false_eq_true,
    if_false, Val.Set, hzv, Bool.not_true, hro, haddr, hzt]
  rw [show assignTo "reflect.Set" (Val.func t i) t = Res.ok (Val.func t i) from
    assignTo_same "reflect.Set" (Val.func t i) rfl]
  rfl

/-- A struct value decoded into the zero value of its type is copied. -/
theorem struct_decode_self (lib : GoLib) (fuel : Nat) (p : String) (t : Ty) (fs : List Val)
    (fl : Flags) (hk : t.kind = Kind.Struct) (hset : fl.CanSet = true) :
    decode lib (fuel + 1) p (Val.struct t fs) (Zero t) fl = done (Val.struct t fs) := by
  obtain ⟨haddr, hro⟩ := canSet_bits hset
  obtain ⟨hzv, hzt, hzk⟩ := Zero_facts t
  have hkk : (Val.struct t fs).kind = t.kind := rfl
  have hI : Indirect (Val.struct t fs) = Val.struct t fs :=
    Indirect_self (by rw [hkk, hk]; decide)
  have hg : getKind (Zero t) = Kind.Struct := by rw [getKind_eq, hzk, hk]; rfl
  have hT : (Val.struct t fs).TypeOf = Res.ok t := rfl
  have hzT : (Zero t).TypeOf = Res.ok t := by simp only [Val.TypeOf, hzv, if_true, hzt]
  rw [decode_dispatch lib fuel p _ _ fl (by rw [hI]; rfl), hg]
  simp only [decodeStruct, hI, hT, hzT, Res.bind_ok, Ty.beq_self, if_true,
    Val.Set, hzv, Bool.not_true, hro, haddr, hzt, Bool.false_eq_true, if_false]
  rw [show assignTo "reflect.Set" (Val.struct t fs) t = Res.ok (Val.struct t fs) from
    assignTo_same "reflect.Set" (Val.struct t fs) rfl]
  rfl

/-- A value that is no interface value and has the methods of an interface type is
wrapped when it is stored in a location of that type. -/
theorem assignTo_wrapped (c : String) (t : Ty) (v : Val) (ht : t.kind = Kind.Interface)
    (hv : v.IsValid = true) (hk : v.kind ≠ Kind.Interface) (hi : v.isIface = false)
    (hm : (t.methodSet.all fun m => v.typ.methodSet.contains m) = true) :
    assignTo c v t = Res.ok (Val.iface t v) ∧ v.typ.AssignableTo t = true := by
  have hkt : v.typ.kind ≠ Kind.Interface := by
    cases v with
    | invalid => simp [Val.IsValid] at hv
    | _ => exact hk
  have h1 : (v.typ == t) = false := by
    by_contra hc
    have := Ty.kind_of_beq v.typ t (by simpa using hc)
    rw [ht] at this
    exact hkt this
  have h2 : (v.typ.underlying == t.underlying) = false := by
    by_contra hc
    have := Ty.kind_of_beq v.typ.underlying t.underlying (by simpa using hc)
    rw [Ty.kind_underlying, Ty.kind_underlying, ht] at this
    exact hkt this
  have h3 : (t.kind == Kind.Interface &&
      t.methodSet.all fun m => v.typ.methodSet.contains m) = true := by
    rw [ht, hm]
    rfl
  refine ⟨?_, ?_⟩
  · simp only [assignTo, hv, Bool.not_true, Bool.false_eq_true, if_false, h1, h2,
      Bool.and_false, Bool.or_self, h3, if_true]
    cases v with
    | invalid => simp [Val.IsValid] at hv
    | nil t2 =>
      have : ¬ t2.kind = Kind.Interface := hkt
      simp [this]
    | iface t2 h => simp [Val.isIface] at hi
    | _ => rfl
  · simp only [Ty.AssignableTo, h3, Bool.or_true]

/-- An interface value decoded into the zero value of its interface type gives the
interface value, when it holds a value that is valid behind at most one pointer, that is
no interface value, has the methods of the interface type and is no pointer to the
interface type. -/
theorem held_decode_self (lib : GoLib) (fuel : Nat) (p : String) (t : Ty) (h : Val)
    (fl : Flags) (ht : t.kind = Kind.Interface) (hv : (Indirect h).IsValid = true)
    (hi : h.isIface = false) (hk : h.kind ≠ Kind.Interface)
    (hm : (t.methodSet.all fun m => h.typ.methodSet.contains m) = true)
    (hp : h.kind = Kind.Ptr → ∃ e, h.typ.Elem = Res.ok e ∧ (e == t) = false)
    (hset : fl.CanSet = true) :
    decode lib (fuel + 1) p h (Zero t) fl = done (Val.iface t h) := by
  obtain ⟨haddr, hro⟩ := canSet_bits hset
  have hZ : Zero t = Val.nil t := Zero_nil t (by simp [ht])
  have hhv : h.IsValid = true := by
    cases h with
    | invalid => simp [Indirect, Val.kind, Val.IsValid] at hv
    | _ => rfl
  have hT : h.TypeOf = Res.ok h.typ := by simp only [Val.TypeOf, hhv, if_true]
  have hnk : (Val.nil t).kind = Kind.Interface := ht
  have hnE : (Val.nil t).Elem = Res.ok Val.invalid := by simp only [Val.Elem, hnk]
  have hnT : (Val.nil t).TypeOf = Res.ok t := rfl
  have hnV : (Val.nil t).IsValid = true := rfl
  have hnTy : (Val.nil t).typ = t := rfl
  have hiv : Val.invalid.IsValid = false := rfl
  have hg : getKind (Val.nil t) = Kind.Interface := by rw [getKind_eq, hnk]; rfl
  obtain ⟨hassign, hable⟩ := assignTo_wrapped "reflect.Set" t h ht hhv hk hi hm
  rw [hZ, decode_dispatch lib fuel p h _ fl hv, hg]
  by_cases hpk : h.kind = Kind.Ptr
  · obtain ⟨e, he, hne⟩ := hp hpk
    simp only [decodeBasic, hnV, hiv, if_true, hnE, Res.bind_ok, Bool.false_eq_true, if_false,
      hpk, he, hnT, hne, hhv, Bool.not_true, hT, hable, Val.Set, hro, haddr, hnTy, hassign]
  · simp only [decodeBasic, hnV, hiv, if_true, hnE, Res.bind_ok, Bool.false_eq_true, if_false,
      hpk, hhv, Bool.not_true, hT, hnT, hable, Val.Set, hro, haddr, hnTy, hassign]

/-- A pointer to an interface value that is not nil, decoded into the zero value of its
type, gives a pointer to the interface value. -/
theorem pointer_dynamic_self (lib : GoLib) (fuel : Nat) (p : String) (t et : Ty) (h : Val)
    (fl : Flags) (ht : t.underlying = Ty.ptr et) (hek : et.kind = Kind.Interface)
    (hset : fl.CanSet = true) :
    decode lib (fuel + 2) p (Val.ptr t (Val.iface et h)) (Zero t) fl =
      done (Val.ptr t (Val.iface et h)) := by
  obtain ⟨haddr, hro⟩ := canSet_bits hset
  have htk : t.kind = Kind.Ptr := Ty.kind_of_underlying ht
  have hZ : Zero t = Val.nil t := Zero_nil t (by simp [htk])
  have hZe : Zero et = Val.nil et := Zero_nil et (by simp [hek])
  have hIp : Indirect (Val.ptr t (Val.iface et h)) = Val.iface et h := Indirect_ptr _ htk
  have hE : t.Elem = Res.ok et := by simp only [Ty.Elem, ht]
  have hnk : (Val.nil t).kind = Kind.Ptr := htk
  have hg : getKind (Val.nil t) = Kind.Ptr := by rw [getKind_eq, hnk]; rfl
  have hik : (Val.iface et h).kind = Kind.Interface := hek
  have hpk : (Val.ptr t (Val.iface et h)).kind = Kind.Ptr := htk
  have hnT : (Val.nil t).TypeOf = Res.ok t := rfl
  have hrk : (Val.ptr (Ty.ptr et) (Zero et)).kind = Kind.Ptr := rfl
  have hek2 : (Val.nil et).kind = Kind.Interface := hek
  have hg2 : getKind (Val.nil et) = Kind.Interface := by rw [getKind_eq, hek2]; rfl
  have hpset : fl.pointee.CanSet = true := by simp [Flags.pointee, Flags.CanSet, hro]
  have hinner : decode lib (fuel + 1) p (Val.ptr t (Val.iface et h)) (Val.nil et) fl.pointee =
      done (Val.iface et h) := by
    obtain ⟨haddr2, hro2⟩ := canSet_bits hpset
    rw [decode_dispatch lib fuel p _ _ _ (by rw [hIp]; rfl), hg2]
    have hnE : (Val.nil et).Elem = Res.ok Val.invalid := by simp only [Val.Elem, hek2]
    have hpT : (Val.ptr t (Val.iface et h)).typ = t := rfl
    have hnT2 : (Val.nil et).TypeOf = Res.ok et := rfl
    have hiT : (Val.iface et h).TypeOf = Res.ok et := rfl
    have hab : et.AssignableTo et = true := by simp [Ty.AssignableTo, Ty.beq_self]
    simp only [decodeBasic, Val.IsValid, if_true, hnE, Res.bind_ok, Bool.false_eq_true,
      if_false, hpk, hpT, hE, hnT2, Ty.beq_self, hIp, Bool.not_true, hiT, hab, Val.Set, hro2,
      haddr2]
    rw [show assignTo "reflect.Set" (Val.iface et h) (Val.nil et).typ = Res.ok (Val.iface et h)
      from assignTo_same "reflect.Set" (Val.iface et h) rfl]
    rfl
  rw [hZ, decode_dispatch lib (fuel + 1) p _ _ fl (by rw [hIp]; rfl), hg]
  have hset2 : (Val.nil t).Set fl (Val.ptr (Ty.ptr et) (Val.iface et h)) =
      Res.ok (Val.ptr t (Val.iface et h)) := by
    simp only [Val.Set, Val.IsValid, Bool.not_true, Bool.false_eq_true, if_false, hro, haddr]
    exact assignTo_underlying "reflect.Set" _ t rfl rfl (by rw [ht]; rfl)
  have hIr : Indirect (Val.ptr (Ty.ptr et) (Val.nil et)) = Val.nil et := Indirect_ptr _ rfl
  simp only [decodePtr, Val.IsValid, Bool.not_true, Bool.false_eq_true, if_false, hIp, hik,
    Val.IsNil, Res.bind_ok, hnT, hE, hset, if_true, hnk, hIr, hZe, hinner, done,
    Val.setElem, hset2, Bool.not_false]

/-- The element loop of `decodeSlice` and `decodeArray` over a source whose elements all
decode to themselves: the working value, zero from the index of the loop on, ends as the
list of the elements, and no message is added. -/
theorem decodeElems_self (dec : Dec) (name : String) (src : Val) (et : Ty) (efl : Flags)
    (grow : Bool) (es : List Val)
    (hel : ∀ (j : Nat) (x : Val), es[j]? = some x → src.Index j = Res.ok x ∧
      ∃ d, x.Interface = Res.ok d ∧
        dec (name ++ "[" ++ toString j ++ "]") d (Zero et) efl = done x) :
    ∀ (remaining i : Nat) (vs : List Val) (errors : List String),
      i + remaining = es.length → vs.length = es.length →
      (∀ j, j < i → vs[j]? = es[j]?) →
      (∀ j, i ≤ j → j < es.length → vs[j]? = some (Zero et)) →
      decodeElems dec name src et efl grow remaining i vs errors = Res.ok (es, errors) := by
  intro remaining
  induction remaining with
  | zero =>
    intro i vs errors hi hlen hlow _
    have hvs : vs = es := by
      apply List.ext_getElem?
      intro j
      by_cases hj : j < i
      · exact hlow j hj
      · rw [List.getElem?_eq_none (by omega), List.getElem?_eq_none (by omega)]
    simp only [decodeElems, hvs]
  | succ r ih =>
    intro i vs errors hi hlen hlow hhigh
    have hil : i < es.length := by omega
    obtain ⟨hidx, d, hd, hdec⟩ := hel i es[i] (List.getElem?_eq_getElem hil)
    have hW : (if grow then vs ++ List.replicate (i + 1 - vs.length) (Zero et) else vs) = vs := by
      have : i + 1 - vs.length = 0 := by omega
      simp [this]
    rw [decodeElems_succ, hW, hidx]
    simp only [Res.bind_ok, hd, hhigh i (le_refl _) hil, hdec, done, errorStrings,
      List.append_nil]
    apply ih (i + 1) (vs.set i es[i]) errors (by omega) (by simp [hlen])
    · intro j hj
      by_cases hji : j = i
      · subst hji
        rw [List.getElem?_set_self (by omega), List.getElem?_eq_getElem hil]
      · rw [List.getElem?_set_ne (fun h => hji h.symm)]
        exact hlow j (by omega)
    · intro j hj hjl
      rw [List.getElem?_set_ne (by omega)]
      exact hhigh j (by omega) hjl

/-- A slice that is not empty, whose elements all decode to themselves, decoded into the
zero value of its type gives the slice. -/
theorem decodeSlice_self (dec : Dec) (name : String) (t et : Ty) (es : List Val) (fl : Flags)
    (ht : t.underlying = Ty.slice et) (hne : es ≠ []) (hset : fl.CanSet = true)
    (hel : ∀ (j : Nat) (x : Val), es[j]? = some x →
      ∃ d, x.Interface = Res.ok d ∧
        dec (name ++ "[" ++ toString j ++ "]") d (Zero et) Flags.fresh = done x) :
    decodeSlice dec name (Val.slice t es) (Zero t) fl = done (Val.slice t es) := by
  obtain ⟨haddr, hro⟩ := canSet_bits hset
  have htk : t.kind = Kind.Slice := Ty.kind_of_underlying ht
  have hZ : Zero t = Val.nil t := Zero_nil t (by simp [htk])
  have hsk : (Val.slice t es).kind = Kind.Slice := htk
  have hI : Indirect (Val.slice t es) = Val.slice t es := Indirect_self (by rw [hsk]; decide)
  have hnk : (Val.nil t).kind = Kind.Slice := htk
  have hnT : (Val.nil t).TypeOf = Res.ok t := rfl
  have hE : t.Elem = Res.ok et := by simp only [Ty.Elem, ht]
  have hL : (Val.slice t es).Len = Res.ok es.length := by simp only [Val.Len, hsk]
  have hlen : es.length ≠ 0 := fun h => hne (List.length_eq_zero.1 h)
  have hloop := decodeElems_self dec name (Val.slice t es) et Flags.fresh true es
    (fun j x hx => ⟨by simp only [Val.Index, List.get?_eq_getElem?, hx], hel j x hx⟩)
    es.length 0 (List.replicate es.length (Zero et)) [] (by omega) (by simp)
    (fun j hj => absurd hj (by omega))
    (fun j _ hj => by simp [List.getElem?_replicate, hj])
  have hset2 : (Val.nil t).Set fl (Val.slice (Ty.slice et) es) = Res.ok (Val.slice t es) := by
    simp only [Val.Set, Val.IsValid, Bool.not_true, Bool.false_eq_true, if_false, hro, haddr]
    exact assignTo_underlying "reflect.Set" _ t rfl rfl (by rw [ht]; rfl)
  rw [hZ]
  simp only [decodeSlice, hI, hnT, Res.bind_ok, hE, Val.IsNil, hnk, if_true, hsk, ne_eq,
    not_true_eq_false, and_false, if_false, hL, hlen, decodeInto, Val.elems, hloop, hset2,
    finish, List.length_nil, gt_iff_lt, lt_self_iff_false]

/-- An array of a comparable type with as many elements as its type says, whose elements
all decode to themselves, decoded into the zero value of its type gives the array. -/
theorem decodeArray_self (dec : Dec) (name : String) (t et : Ty) (n : Nat) (es : List Val)
    (fl : Flags) (ht : t.underlying = Ty.array n et) (hn : es.length = n)
    (hcmp : t.comparable = true) (hz : Val.goEq (Zero t) (Zero t) = true)
    (hset : fl.CanSet = true)
    (hel : ∀ (j : Nat) (x : Val), es[j]? = some x →
      ∃ d, x.Interface = Res.ok d ∧
        dec (name ++ "[" ++ toString j ++ "]") d (Zero et) Flags.fresh = done x) :
    decodeArray dec name (Val.array t es) (Zero t) fl = done (Val.array t es) := by
  subst hn
  obtain ⟨haddr, hro⟩ := canSet_bits hset
  obtain ⟨hzv, hzt, hzk⟩ := Zero_facts t
  have htk : t.kind = Kind.Array := Ty.kind_of_underlying ht
  have hsk : (Val.array t es).kind = Kind.Array := htk
  have hI : Indirect (Val.array t es) = Val.array t es := Indirect_self (by rw [hsk]; decide)
  have hzT : (Zero t).TypeOf = Res.ok t := by simp only [Val.TypeOf, hzv, if_true, hzt]
  have hE : t.Elem = Res.ok et := by simp only [Ty.Elem, ht]
  have hTL : t.Len = Res.ok es.length := by simp only [Ty.Len, ht]
  have hL : (Val.array t es).Len = Res.ok es.length := by simp only [Val.Len, hsk]
  have hloop := decodeElems_self dec name (Val.array t es) et Flags.fresh false es
    (fun j x hx => ⟨by simp only [Val.Index, List.get?_eq_getElem?, hx], hel j x hx⟩)
    es.length 0 (List.replicate es.length (Zero et)) [] (by omega) (by simp)
    (fun j hj => absurd hj (by omega))
    (fun j _ hj => by simp [List.getElem?_replicate, hj])
  have hset2 : (Zero t).Set fl (Val.array (Ty.array es.length et) es) =
      Res.ok (Val.array t es) := by
    simp only [Val.Set, hzv, Bool.not_true, Bool.false_eq_true, if_false, hro, haddr, hzt]
    exact assignTo_underlying "reflect.Set" _ t rfl rfl (by rw [ht]; rfl)
  simp only [decodeArray, hI, hzT, Res.bind_ok, hE, hTL, hro, Bool.false_eq_true, if_false,
    hcmp, Bool.not_true, hz, if_true, hsk, ne_eq, not_true_eq_false, false_and, hL,
    gt_iff_lt, lt_self_iff_false, decodeInto, Zero_array, Val.elems, hloop, hset2,
    finish, List.length_nil]

/-- The upsert of source entries that convert to themselves, with pairwise different
keys, adds them in their order. -/
theorem upsertConverted_self (conv : Val → Option (Val × Val)) :
    ∀ (rest pre : List (Val × Val)),
      (pre ++ rest).Pairwise (fun a b => Val.goEq a.1 b.1 = false) →
      (∀ e ∈ rest, conv e.1 = some e) →
      upsertConverted conv (rest.map Prod.fst) pre = pre ++ rest
  | [], pre, _, _ => by simp [upsertConverted]
  | (k, v) :: rest, pre, hp, hc => by
      have hk : conv k = some (k, v) := hc (k, v) (List.mem_cons_self _ _)
      have hfresh : ∀ e ∈ pre, Val.goEq e.1 k = false := by
        intro e he
        exact (List.pairwise_append.1 hp).2.2 e he (k, v) (List.mem_cons_self _ _)
      have ih := upsertConverted_self conv rest (pre ++ [(k, v)])
        (by simpa [List.append_assoc] using hp)
        (fun e he => hc e (List.mem_cons_of_mem _ he))
      simp only [upsertConverted, List.map_cons, List.foldl_cons, hk] at ih ⊢
      rw [upsertEntry_fresh k v pre hfresh, ih]
      simp

/-- A map that is not nil, whose keys and values all decode to themselves and whose keys
are pairwise different values of the key type that can be hashed, decoded into the zero
value of its type gives the map. -/
theorem decodeMap_self (dec : Dec) (lib : GoLib) (name : String) (t kt et : Ty)
    (es : List (Val × Val)) (fl : Flags) (ht : t.underlying = Ty.map kt et)
    (hset : fl.CanSet = true)
    (hkeys : ∀ e ∈ es, e.1.typ = kt ∧ e.1.hashable = true ∧ Val.goEq e.1 e.1 = true ∧
      e.2.typ = et)
    (hpair : es.Pairwise (fun a b => Val.goEq a.1 b.1 = false))
    (hdk : ∀ e ∈ es, ∀ p : String, ∃ d, e.1.Interface = Res.ok d ∧
      dec p d (Zero kt) Flags.fresh = done e.1)
    (hdv : ∀ e ∈ es, ∀ p : String, ∃ d, e.2.Interface = Res.ok d ∧
      dec p d (Zero et) Flags.fresh = done e.2) :
    decodeMap dec lib name (Val.map t es) (Zero t) fl = done (Val.map t es) := by
  obtain ⟨haddr, hro⟩ := canSet_bits hset
  have htk : t.kind = Kind.Map := Ty.kind_of_underlying ht
  have hZ : Zero t = Val.nil t := Zero_nil t (by simp [htk])
  have hsk : (Val.map t es).kind = Kind.Map := htk
  have hI : Indirect (Val.map t es) = Val.map t es := Indirect_self (by rw [hsk]; decide)
  have hnk : (Val.nil t).kind = Kind.Map := htk
  have hnT : (Val.nil t).TypeOf = Res.ok t := rfl
  have hE : t.mapTypes = Res.ok (kt, et) := by simp only [Ty.mapTypes, ht]
  have hL : (Val.map t es).Len = Res.ok es.length := by simp only [Val.Len, hsk]
  have hset2 : ∀ xs, (Val.nil t).Set fl (Val.map (Ty.map kt et) xs) = Res.ok (Val.map t xs) := by
    intro xs
    simp only [Val.Set, Val.IsValid, Bool.not_true, Bool.false_eq_true, if_false, hro, haddr]
    exact assignTo_underlying "reflect.Set" _ t rfl rfl (by rw [ht]; rfl)
  rw [hZ]
  by_cases hne : es = []
  · subst hne
    simp only [decodeMap, hnT, Res.bind_ok, hE, Val.IsNil, hnk, if_true, hI, hsk,
      decodeMapFromMap, hL, List.length_nil, Bool.false_eq_true, if_false, hset2]
  · have hlen : es.length ≠ 0 := fun h => hne (List.length_eq_zero.1 h)
    have hsym : ∀ a b : Val × Val, Val.goEq a.1 b.1 = false → Val.goEq b.1 a.1 = false := by
      intro a b hab
      by_contra hc
      have := Val.goEq_symm b.1 a.1 (by simpa using hc)
      rw [hab] at this
      exact absurd this (by decide)
    have hlook : ∀ e ∈ es, lookupEntry e.1 es = some e.2 := by
      intro e he
      refine lookupEntry_unique es (k := e.1) (v := e.2) he (hkeys e he).2.2.1 ?_
      intro e2 he2 heq
      by_contra hc
      have := List.Pairwise.forall (fun {a b} h => hsym a b h) hpair he2 he hc
      rw [heq] at this
      exact absurd this (by decide)
    have hidx : ∀ e ∈ es, (Val.map t es).MapIndex e.1 = Res.ok e.2 := by
      intro e he
      obtain ⟨d, hd, -⟩ := hdk e he ""
      have hv := Val.valid_of_Interface hd
      have has : assignTo "reflect.Value.MapIndex" e.1 kt = Res.ok e.1 := by
        have := assignTo_same "reflect.Value.MapIndex" e.1 hv
        rwa [(hkeys e he).1] at this
      have hty : (Val.map t es).typ = t := rfl
      simp only [Val.MapIndex, hsk, if_true, hty, hE, Res.bind_ok, has, Val.entries,
        hlook e he]
    have hconv : ∀ e ∈ es, entryConversion dec lib name (Val.map t es) kt et e.1 = some e := by
      intro e he
      obtain ⟨kd, hkd, hkdec⟩ := hdk e he (entryPath lib name e.1)
      obtain ⟨vd, hvd, hvdec⟩ := hdv e he (entryPath lib name e.1)
      simp only [entryConversion, hkd, hkdec, done, hidx e he, Res.bind_ok, hvd, hvdec]
    have hmsg : ∀ e ∈ es, entryMessages dec lib name (Val.map t es) kt et e.1 = [] := by
      intro e he
      obtain ⟨kd, hkd, hkdec⟩ := hdk e he (entryPath lib name e.1)
      obtain ⟨vd, hvd, hvdec⟩ := hdv e he (entryPath lib name e.1)
      simp only [entryMessages, hkd, hkdec, done, hidx e he, Res.bind_ok, hvd, hvdec,
        errorStrings]
    have hret : ∀ k ∈ es.map Prod.fst,
        entryReturns dec lib name (Val.map t es) kt et k := by
      intro k hk
      obtain ⟨e, he, rfl⟩ := List.mem_map.1 hk
      obtain ⟨kd, hkd, hkdec⟩ := hdk e he (entryPath lib name e.1)
      obtain ⟨vd, hvd, hvdec⟩ := hdv e he (entryPath lib name e.1)
      obtain ⟨h1, h2, -, h4⟩ := hkeys e he
      refine ⟨kd, (e.1, none), hkd, hkdec, fun _ =>
        ⟨Val.valid_of_Interface hkd, h1, h2, vd, (e.2, none), ?_, hvdec,
          fun _ => ⟨Val.valid_of_Interface hvd, h4⟩⟩⟩
      simp only [hidx e he, Res.bind_ok, hvd]
    have hloop := decodeMapFromMapLoop_full dec lib name (Val.map t es) (Ty.map kt et) kt et
      Flags.made rfl rfl (es.map Prod.fst) [] [] hret
    have hup : upsertConverted (entryConversion dec lib name (Val.map t es) kt et)
        (es.map Prod.fst) [] = es := by
      have := upsertConverted_self (entryConversion dec lib name (Val.map t es) kt et) es []
        (by simpa using hpair) hconv
      simpa using this
    have hfl : ((es.map Prod.fst).map
        (entryMessages dec lib name (Val.map t es) kt et)).flatten = [] := by
      rw [List.flatten_eq_nil_iff]
      intro l hl
      obtain ⟨k, hk, rfl⟩ := List.mem_map.1 hl
      obtain ⟨e, he, rfl⟩ := List.mem_map.1 hk
      exact hmsg e he
    rw [hup, hfl] at hloop
    have hkeysL : (Val.map t es).MapKeys = Res.ok (es.map Prod.fst) := by
      simp only [Val.MapKeys, hsk, if_true, Val.entries]
    simp only [decodeMap, hnT, Res.bind_ok, hE, Val.IsNil, hnk, if_true, hI, hsk,
      decodeMapFromMap, hL, hlen, if_false, hkeysL, hloop, List.append_nil, hset2, finish,
      List.length_nil, gt_iff_lt, lt_self_iff_false]

/-- A pointer to a value that is not nil, no pointer and no interface value and that
decodes to itself, decoded into the zero value of its type gives the pointer. -/
theorem decodePtr_self (lib : GoLib) (fuel : Nat) (name : String) (t et : Ty) (p : Val)
    (fl : Flags) (ht : t.underlying = Ty.ptr et) (hpt : p.typ = et)
    (hpk : p.kind ≠ Kind.Ptr) (hpi : p.kind ≠ Kind.Interface) (hnil : p.isNilVal = false)
    (hv : p.IsValid = true) (hset : fl.CanSet = true)
    (hdec : decode lib (fuel + 1) name p (Zero et) fl.pointee = done p) :
    decode lib (fuel + 2) name (Val.ptr t p) (Zero t) fl = done (Val.ptr t p) := by
  obtain ⟨haddr, hro⟩ := canSet_bits hset
  obtain ⟨hzv, hzt, hzk⟩ := Zero_facts et
  have htk : t.kind = Kind.Ptr := Ty.kind_of_underlying ht
  have hZ : Zero t = Val.nil t := Zero_nil t (by simp [htk])
  have hIp : Indirect (Val.ptr t p) = p := Indirect_ptr _ htk
  have hE : t.Elem = Res.ok et := by simp only [Ty.Elem, ht]
  have hnk : (Val.nil t).kind = Kind.Ptr := htk
  have hg : getKind (Val.nil t) = Kind.Ptr := by rw [getKind_eq, hnk]; rfl
  have hnT : (Val.nil t).TypeOf = Res.ok t := rfl
  have hIr : Indirect (Val.ptr (Ty.ptr et) (Zero et)) = Zero et := Indirect_ptr _ rfl
  have hpkind : p.kind = et.kind := by
    cases p with
    | invalid => simp [Val.IsValid] at hv
    | _ => exact congrArg Ty.kind hpt
  have hgk : getKind (Zero et) = getKind p := by rw [getKind_eq, getKind_eq, hzk, hpkind]
  have hgi : getKind (Zero et) ≠ Kind.Interface := by
    intro hc
    exact hpi (by rw [hpkind, ← hzk]; exact getKind_kind hc (Or.inr (Or.inl rfl)))
  have hgp : getKind (Zero et) ≠ Kind.Ptr := by
    intro hc
    exact hpk (by rw [hpkind, ← hzk]; exact getKind_kind hc (Or.inl rfl))
  have hinner : decode lib (fuel + 1) name (Val.ptr t p) (Zero et) fl.pointee = done p := by
    rw [decode_behind_pointer lib fuel name p t (Zero et) fl.pointee hv hpk htk hgk hgi hgp]
    exact hdec
  have hns : nilSource (Val.ptr t p) = Res.ok false :=
    nilSource_false (Val.ptr t p) rfl (by rw [hIp]; exact hnil)
  have hset2 : (Val.nil t).Set fl (Val.ptr (Ty.ptr et) p) = Res.ok (Val.ptr t p) := by
    simp only [Val.Set, Val.IsValid, Bool.not_true, Bool.false_eq_true, if_false, hro, haddr]
    exact assignTo_underlying "reflect.Set" _ t rfl rfl (by rw [ht]; rfl)
  rw [hZ, decode_dispatch lib (fuel + 1) name _ _ fl (by rw [hIp]; exact hv), hg]
  simp only [decodePtr_eq, hns, Res.bind_ok, Bool.false_eq_true, if_false, hnT, hE, hset,
    if_true, Val.IsNil, hnk, hIr, hinner, done, Val.setElem, hset2]

/-- A key and a value of the entries are no deeper than the entries. -/
theorem entry_input {e : Val × Val} : ∀ {es : List (Val × Val)}, e ∈ es →
    e.1.inputDepth ≤ Val.inputDepthEntries es ∧ e.2.inputDepth ≤ Val.inputDepthEntries es
  | [], h => by simp at h
  | (k, v) :: rest, h => by
      simp only [Val.inputDepthEntries]
      rcases List.mem_cons.1 h with h | h
      · subst h
        dsimp only
        constructor <;> omega
      · have := entry_input h
        constructor <;> omega

/-- The shape of a faithful value: it is valid, and either it is no interface value and
is its own datum, or it is an interface value, nil or not, of an interface type. -/
theorem faithful_shape (v : Val) (h : v.Faithful) :
    v.IsValid = true ∧
    ((v.kind ≠ Kind.Interface ∧ v.isIface = false ∧ v.Interface = Res.ok v) ∨
      ∃ t, t.kind = Kind.Interface ∧ (v = Val.nil t ∨ ∃ x, v = Val.iface t x)) := by
  cases h with
  | scalar ft v hs =>
    obtain ⟨h1, h2, h3, -, h5⟩ := scalarField_facts ft v hs
    exact ⟨h1, Or.inl ⟨h2, h3, h5⟩⟩
  | nilValue t hk =>
    refine ⟨rfl, ?_⟩
    have hkk : (Val.nil t).kind = t.kind := rfl
    rcases hk with ⟨et, hu⟩ | ⟨kt, et, hu⟩ | h | h | h
    · have h : t.kind = Kind.Slice := Ty.kind_of_underlying hu
      exact Or.inl ⟨by rw [hkk, h]; decide, rfl, by simp [Val.Interface, h]⟩
    · have h : t.kind = Kind.Map := Ty.kind_of_underlying hu
      exact Or.inl ⟨by rw [hkk, h]; decide, rfl, by simp [Val.Interface, h]⟩
    · exact Or.inl ⟨by rw [hkk, h]; decide, rfl, by simp [Val.Interface, h]⟩
    · exact Or.inr ⟨t, h, Or.inl rfl⟩
    · exact Or.inl ⟨by rw [hkk, h]; decide, rfl, by simp [Val.Interface, h]⟩
  | function t i hk =>
    have hkk : (Val.func t i).kind = t.kind := rfl
    exact ⟨rfl, Or.inl ⟨by rw [hkk, hk]; decide, rfl, rfl⟩⟩
  | record t fs hk =>
    have hkk : (Val.struct t fs).kind = t.kind := rfl
    exact ⟨rfl, Or.inl ⟨by rw [hkk, hk]; decide, rfl, rfl⟩⟩
  | dynamic t x ht _ _ _ _ _ => exact ⟨rfl, Or.inr ⟨t, ht, Or.inr ⟨x, rfl⟩⟩⟩
  | sequence t et es ht _ _ _ =>
    have hkk : (Val.slice t es).kind = Kind.Slice := Ty.kind_of_underlying ht
    exact ⟨rfl, Or.inl ⟨by rw [hkk]; decide, rfl, rfl⟩⟩
  | array t et n es ht _ _ _ _ _ =>
    have hkk : (Val.array t es).kind = Kind.Array := Ty.kind_of_underlying ht
    exact ⟨rfl, Or.inl ⟨by rw [hkk]; decide, rfl, rfl⟩⟩
  | mapping t kt et es ht _ _ _ _ =>
    have hkk : (Val.map t es).kind = Kind.Map := Ty.kind_of_underlying ht
    exact ⟨rfl, Or.inl ⟨by rw [hkk]; decide, rfl, rfl⟩⟩
  | pointer t et p ht _ _ _ _ _ =>
    have hkk : (Val.ptr t p).kind = Kind.Ptr := Ty.kind_of_underlying ht
    exact ⟨rfl, Or.inl ⟨by rw [hkk]; decide, rfl, rfl⟩⟩
  | pointerDynamic t et x ht _ =>
    have hkk : (Val.ptr t (Val.iface et x)).kind = Kind.Ptr := Ty.kind_of_underlying ht
    exact ⟨rfl, Or.inl ⟨by rw [hkk]; decide, rfl, rfl⟩⟩

/-- A faithful value decoded into the zero value of its own type, with fuel for its
depth, comes back: the datum of the value decodes to the value. -/
theorem faithful_decode_self (lib : GoLib) (v : Val) (h : v.Faithful) :
    ∀ (fuel : Nat) (p : String) (fl : Flags), v.inputDepth < fuel → fl.CanSet = true →
      ∃ d, v.Interface = Res.ok d ∧ decode lib fuel p d (Zero v.typ) fl = done v := by
  induction h with
  | scalar ft v hs =>
    intro fuel p fl hf hset
    obtain ⟨n, rfl⟩ : ∃ n, fuel = n + 1 := ⟨fuel - 1, by omega⟩
    obtain ⟨-, -, -, -, hI⟩ := scalarField_facts ft v hs
    have hty : v.typ = ft := by
      rcases hs with ⟨_, rfl, _⟩ | ⟨_, rfl, _⟩ | ⟨_, rfl, _⟩ | ⟨_, rfl, _⟩ | ⟨_, rfl, _⟩ <;> rfl
    exact ⟨v, hI, by rw [hty]; exact scalar_decode_self lib n p ft v fl hs hset⟩
  | nilValue t hk =>
    intro fuel p fl hf hset
    obtain ⟨n, rfl⟩ : ∃ n, fuel = n + 1 := ⟨fuel - 1, by omega⟩
    exact nil_decode_self lib n p t fl hk hset
  | function t i hk =>
    intro fuel p fl hf hset
    obtain ⟨n, rfl⟩ : ∃ n, fuel = n + 1 := ⟨fuel - 1, by omega⟩
    exact ⟨_, rfl, func_decode_self lib n p t i fl hk hset⟩
  | record t fs hk =>
    intro fuel p fl hf hset
    obtain ⟨n, rfl⟩ : ∃ n, fuel = n + 1 := ⟨fuel - 1, by omega⟩
    exact ⟨_, rfl, struct_decode_self lib n p t fs fl hk hset⟩
  | dynamic t x ht hv hi hk hm hp =>
    intro fuel p fl hf hset
    obtain ⟨n, rfl⟩ : ∃ n, fuel = n + 1 := ⟨fuel - 1, by omega⟩
    exact ⟨x, rfl, held_decode_self lib n p t x fl ht hv hi hk hm hp hset⟩
  | sequence t et es ht hne hty _ ih =>
    intro fuel p fl hf hset
    obtain ⟨n, rfl⟩ : ∃ n, fuel = n + 1 := ⟨fuel - 1, by omega⟩
    have htk : t.kind = Kind.Slice := Ty.kind_of_underlying ht
    have hsk : (Val.slice t es).kind = Kind.Slice := htk
    have hI : Indirect (Val.slice t es) = Val.slice t es := Indirect_self (by rw [hsk]; decide)
    obtain ⟨-, -, hzk⟩ := Zero_facts t
    have hg : getKind (Zero t) = Kind.Slice := by rw [getKind_eq, hzk, htk]; rfl
    simp only [Val.inputDepth] at hf
    refine ⟨_, rfl, ?_⟩
    have hty2 : (Val.slice t es).typ = t := rfl
    rw [hty2, decode_dispatch lib n p _ _ fl (by rw [hI]; rfl), hg]
    apply decodeSlice_self (decode lib n) p t et es fl ht hne hset
    intro j x hx
    have hmem : x ∈ es := List.mem_iff_getElem?.2 ⟨j, hx⟩
    have := Val.mem_inputList hmem
    obtain ⟨d, hd, hdec⟩ := ih x hmem n (p ++ "[" ++ toString j ++ "]") Flags.fresh (by omega) rfl
    rw [hty x hmem] at hdec
    exact ⟨d, hd, hdec⟩
  | array t et m es ht hlen hcmp hz hty _ ih =>
    intro fuel p fl hf hset
    obtain ⟨n, rfl⟩ : ∃ n, fuel = n + 1 := ⟨fuel - 1, by omega⟩
    have htk : t.kind = Kind.Array := Ty.kind_of_underlying ht
    have hsk : (Val.array t es).kind = Kind.Array := htk
    have hI : Indirect (Val.array t es) = Val.array t es := Indirect_self (by rw [hsk]; decide)
    obtain ⟨-, -, hzk⟩ := Zero_facts t
    have hg : getKind (Zero t) = Kind.Array := by rw [getKind_eq, hzk, htk]; rfl
    simp only [Val.inputDepth] at hf
    refine ⟨_, rfl, ?_⟩
    have hty2 : (Val.array t es).typ = t := rfl
    rw [hty2, decode_dispatch lib n p _ _ fl (by rw [hI]; rfl), hg]
    apply decodeArray_self (decode lib n) p t et m es fl ht hlen hcmp hz hset
    intro j x hx
    have hmem : x ∈ es := List.mem_iff_getElem?.2 ⟨j, hx⟩
    have := Val.mem_inputList hmem
    obtain ⟨d, hd, hdec⟩ := ih x hmem n (p ++ "[" ++ toString j ++ "]") Flags.fresh (by omega) rfl
    rw [hty x hmem] at hdec
    exact ⟨d, hd, hdec⟩
  | mapping t kt et es ht hkeys hpair _ _ ihk ihv =>
    intro fuel p fl hf hset
    obtain ⟨n, rfl⟩ : ∃ n, fuel = n + 1 := ⟨fuel - 1, by omega⟩
    have htk : t.kind = Kind.Map := Ty.kind_of_underlying ht
    have hsk : (Val.map t es).kind = Kind.Map := htk
    have hI : Indirect (Val.map t es) = Val.map t es := Indirect_self (by rw [hsk]; decide)
    obtain ⟨-, -, hzk⟩ := Zero_facts t
    have hg : getKind (Zero t) = Kind.Map := by rw [getKind_eq, hzk, htk]; rfl
    simp only [Val.inputDepth] at hf
    refine ⟨_, rfl, ?_⟩
    have hty2 : (Val.map t es).typ = t := rfl
    rw [hty2, decode_dispatch lib n p _ _ fl (by rw [hI]; rfl), hg]
    apply decodeMap_self (decode lib n) lib p t kt et es fl ht hset
      (fun e he => ⟨(hkeys e he).1, (hkeys e he).2.1, (hkeys e he).2.2.2.1, (hkeys e he).2.2.2.2⟩)
      hpair
    · intro e he q
      have := (entry_input he).1
      obtain ⟨d, hd, hdec⟩ := ihk e he n q Flags.fresh (by omega) rfl
      rw [(hkeys e he).1] at hdec
      exact ⟨d, hd, hdec⟩
    · intro e he q
      have := (entry_input he).2
      obtain ⟨d, hd, hdec⟩ := ihv e he n q Flags.fresh (by omega) rfl
      rw [(hkeys e he).2.2.2.2] at hdec
      exact ⟨d, hd, hdec⟩
  | pointer t et x ht hpt hpk hpi hnil hfx ih =>
    intro fuel p fl hf hset
    simp only [Val.inputDepth] at hf
    obtain ⟨n, rfl⟩ : ∃ n, fuel = n + 2 := ⟨fuel - 2, by omega⟩
    obtain ⟨haddr, hro⟩ := canSet_bits hset
    have hpset : fl.pointee.CanSet = true := by simp [Flags.pointee, Flags.CanSet, hro]
    obtain ⟨d, hd, hdec⟩ := ih (n + 1) p fl.pointee (by omega) hpset
    obtain ⟨hxv, hshape⟩ := faithful_shape x hfx
    have hdx : d = x := by
      rcases hshape with ⟨-, -, hI⟩ | ⟨u, hu, rfl | ⟨y, rfl⟩⟩
      · rw [hI] at hd
        exact (Res.ok.inj hd).symm
      · exact absurd hu hpi
      · exact absurd hu hpi
    subst hdx
    rw [hpt] at hdec
    exact ⟨_, rfl, decodePtr_self lib n p t et d fl ht hpt hpk hpi hnil hxv hset hdec⟩
  | pointerDynamic t et x ht hek =>
    intro fuel p fl hf hset
    simp only [Val.inputDepth] at hf
    obtain ⟨n, rfl⟩ : ∃ n, fuel = n + 2 := ⟨fuel - 2, by omega⟩
    exact ⟨_, rfl, pointer_dynamic_self lib n p t et x fl ht hek hset⟩

/-- What a map with dynamic values holds for a faithful value yields the datum of the
value. -/
theorem faithful_stored (v : Val) (h : v.Faithful) :
    (dynamicOf v).IsValid = true ∧ (dynamicOf v).Interface = v.Interface := by
  obtain ⟨hv, hshape⟩ := faithful_shape v h
  have h3 : ∀ u : Ty, (emptyInterface.kind == Kind.Interface &&
      emptyInterface.methodSet.all fun m => u.methodSet.contains m) = true := fun _ => rfl
  rcases hshape with ⟨hk, hi, hI⟩ | ⟨t, ht, rfl | ⟨x, rfl⟩⟩
  · rw [dynamicOf_boxed v hv hk hi, hI]
    exact ⟨rfl, rfl⟩
  · have : dynamicOf (Val.nil t) = Val.nil emptyInterface := by
      simp only [dynamicOf, assignTo, Val.IsValid, Bool.not_true, Bool.false_eq_true, if_false,
        Val.typ, Val.withType, ht, if_true, h3]
      split <;> rename_i hq <;> split at hq <;> simp_all
    rw [this]
    simp [Val.Interface, ht, Val.IsValid]
    rfl
  · have : dynamicOf (Val.iface t x) = Val.iface emptyInterface x := by
      simp only [dynamicOf, assignTo, Val.IsValid, Bool.not_true, Bool.false_eq_true, if_false,
        Val.typ, Val.withType, h3, if_true]
      split <;> rename_i hq <;> split at hq <;> simp_all
    rw [this]
    exact ⟨rfl, rfl⟩

mutual
/-- Records are nested in a value no deeper than the value is deep as an input. -/
theorem Val.recordDepth_le : ∀ v : Val, v.recordDepth ≤ v.inputDepth
  | .struct _ fs => by
      have := Val.recordDepthList_le fs
      simp only [Val.recordDepth, Val.inputDepth]
      omega
  | .invalid => by simp [Val.recordDepth]
  | .nil _ => by simp [Val.recordDepth]
  | .bool _ _ => by simp [Val.recordDepth]
  | .int _ _ => by simp [Val.recordDepth]
  | .uint _ _ => by simp [Val.recordDepth]
  | .float _ _ => by simp [Val.recordDepth]
  | .str _ _ => by simp [Val.recordDepth]
  | .other _ _ => by simp [Val.recordDepth]
  | .chan _ _ => by simp [Val.recordDepth]
  | .func _ _ => by simp [Val.recordDepth]
  | .array _ _ => by simp [Val.recordDepth]
  | .slice _ _ => by simp [Val.recordDepth]
  | .map _ _ => by simp [Val.recordDepth]
  | .ptr _ _ => by simp [Val.recordDepth]
  | .iface _ _ => by simp [Val.recordDepth]
/-- Records are nested in the values of a list no deeper than the list is deep as an
input. -/
theorem Val.recordDepthList_le : ∀ vs : List Val,
    Val.recordDepthList vs ≤ Val.inputDepthList vs
  | [] => by simp [Val.recordDepthList, Val.inputDepthList]
  | v :: vs => by
      have := Val.recordDepth_le v
      have := Val.recordDepthList_le vs
      simp only [Val.recordDepthList, Val.inputDepthList]
      omega
end

/-- A well-formed record has one value for each field. -/
theorem wellFormedFields_length : ∀ (fs : List StructField) (vs : List Val),
    Val.wellFormedFields fs vs = true → vs.length = fs.length
  | [], [], _ => rfl
  | [], _ :: _, h => by simp [Val.wellFormedFields] at h
  | _ :: _, [], h => by simp [Val.wellFormedFields] at h
  | _ :: fs, _ :: vs, h => by
      simp only [Val.wellFormedFields, Bool.and_eq_true] at h
      simp [wellFormedFields_length fs vs h.2]

/-- The keys of the entries of a record, in a map keyed by `string`, are texts. -/
theorem recordEntries_keys : ∀ (fs : List StructField) (vs : List Val),
    ∀ e ∈ recordEntries tString fs vs, e.1.IsValid = true ∧ e.1.typ = tString
  | [], _, e, he => by simp [recordEntries] at he
  | _ :: _, [], e, he => by simp [recordEntries] at he
  | f :: fs, v :: vs, e, he => by
      simp only [recordEntries] at he
      split at he
      · exact recordEntries_keys fs vs e he
      · rcases List.mem_cons.1 he with h | h
        · subst h
          exact ⟨rfl, rfl⟩
        · exact recordEntries_keys fs vs e h

/-- The source entry found for a field whose name is a key of the source. -/
theorem resolveField_found (lib : GoLib) (t kt et : Ty) (es : List (Val × Val))
    (keys : List Val) (n : String) (raw : Val) (ht : t.underlying = Ty.map kt et)
    (hkt : kt = Ty.basic Kind.String ∨ kt = emptyInterface)
    (hl : lookupEntry (nameKey kt n) es = some raw) (hv : raw.IsValid = true) :
    resolveField lib (Val.map t es) keys n = Res.ok raw := by
  simp only [resolveField, (MapIndex_nameKey t kt et es n ht hkt).1, hl, Option.getD_some,
    Res.bind_ok, hv, Bool.not_true, Bool.false_eq_true, if_false]

/-- The loop of `decodeStructFromMap` over fields that start as zero values, when the
source holds for every exported field an entry under its name that decodes to the value
the round trip gives: every exported field gets that value and every unexported field
stays zero. -/
theorem decodeStructFields_back (dec : Dec) (lib : GoLib) (name : String) (mt : Ty)
    (M : List (Val × Val)) (fl : Flags)
    (hmt : mt.underlying = Ty.map tString emptyInterface) (hset : fl.CanSet = true)
    (hkeys : ∀ e ∈ M, e.1.IsValid = true ∧ e.1.typ = tString) :
    ∀ (fs : List StructField) (vs : List Val) (errors : List String),
      vs.length = fs.length →
      (∀ (i : Nat) (f : StructField) (v : Val), fs[i]? = some f → vs[i]? = some v →
        f.PkgPath = "" →
        effectiveName f = f.Name ∧
        ∃ raw d, lookupEntry (nameKey tString f.Name) M = some raw ∧ raw.IsValid = true ∧
          raw.Interface = Res.ok d ∧
          dec (fieldPath name f) d (Zero f.Typ) (fl.field f) = done (backValue v)) →
      decodeStructFields dec lib name (Val.map mt M) (M.map Prod.fst) fl fs (zeroFields fs)
        errors = Res.ok (backFields fs vs, errors)
  | [], vs, errors, _, _ => by
      simp [decodeStructFields, zeroFields, backFields]
  | f :: fs, [], errors, hlen, _ => by simp at hlen
  | f :: fs, v :: vs, errors, hlen, hM => by
      have ih := decodeStructFields_back dec lib name mt M fl hmt hset hkeys fs vs errors
        (by simpa using hlen)
        (fun i f2 v2 hf hv hp => hM (i + 1) f2 v2 (by simpa using hf) (by simpa using hv) hp)
      have hz : zeroFields (f :: fs) = Zero f.Typ :: zeroFields fs := by
        cases f
        rfl
      rw [hz, decodeStructFields_cons]
      obtain ⟨hzv, -, -⟩ := Zero_facts f.Typ
      obtain ⟨haddr, hro⟩ := canSet_bits hset
      by_cases hp : f.PkgPath = ""
      · obtain ⟨hname, raw, d, hl, hrv, hd, hdec⟩ := hM 0 f v (by simp) (by simp) hp
        have hfs : (fl.field f).CanSet = true := by
          simp [Flags.field, Flags.CanSet, hro, haddr, hp]
        have hres : resolveField lib (Val.map mt M) (M.map Prod.fst) (effectiveName f) =
            Res.ok raw := by
          rw [hname]
          exact resolveField_found lib mt tString emptyInterface M _ f.Name raw hmt (Or.inl rfl)
            hl hrv
        rw [fieldOutcome_converted dec lib name _ _ fl f (Zero f.Typ) raw d (backValue v) none
          hres hrv hzv hfs hd hdec]
        simp only [Res.bind_ok, errorStrings, List.append_nil, ih, backFields, hp, if_true]
      · rw [fieldOutcome_unexported dec lib name mt tString emptyInterface M fl f (Zero f.Typ)
          hmt (Or.inl rfl) hkeys hp hzv]
        simp only [Res.bind_ok, List.append_nil, ih, backFields, hp, if_false]

/-- A faithful value that is no struct is no struct value: the round trip gives it as it
is. -/
theorem backValue_plain (v : Val) (hk : v.kind ≠ Kind.Struct) (h : v.Faithful) :
    backValue v = v := by
  cases v with
  | struct t fs =>
    exfalso
    cases h with
    | scalar ft _ hs =>
      rcases hs with ⟨_, hc, _⟩ | ⟨_, hc, _⟩ | ⟨_, hc, _⟩ | ⟨_, hc, _⟩ | ⟨_, hc, _⟩ <;> cases hc
    | record _ _ hst => exact hk hst
  | _ => rfl

/-- The value of index `i` of the record the round trip gives. -/
theorem backFields_index : ∀ (fs : List StructField) (vs : List Val) (i : Nat)
    (f : StructField) (v : Val), fs[i]? = some f → vs[i]? = some v →
    (backFields fs vs)[i]? = some (if f.PkgPath = "" then backValue v else Zero f.Typ)
  | [], _, i, f, v, hf, _ => by simp at hf
  | _ :: _, [], i, f, v, _, hv => by simp at hv
  | f0 :: fs, v0 :: vs, 0, f, v, hf, hv => by
      simp only [List.getElem?_cons_zero, Option.some.injEq] at hf hv
      subst hf
      subst hv
      simp [backFields]
  | f0 :: fs, v0 :: vs, i + 1, f, v, hf, hv => by
      simp only [List.getElem?_cons_succ] at hf hv
      simp only [backFields, List.getElem?_cons_succ]
      exact backFields_index fs vs i f v hf hv

/-- The map of the entries of a well-formed record whose exported fields the round trip
gives back, decoded into the zero value of a struct type with the same fields, gives the
record of the round trip: by induction on the fuel, which covers the records nested in
fields. -/
theorem record_back (lib : GoLib) : ∀ (fuel : Nat) (t t2 : Ty) (vs : List Val) (name : String)
    (fl : Flags), (Val.struct t vs).wellFormedRecord = true → faithfulFields t.fieldsOf vs →
    t2.isStruct = true → t2.fieldsOf = t.fieldsOf →
    Zero t2 = Val.struct t2 (zeroFields t.fieldsOf) → fl.CanSet = true →
    Val.inputDepthList vs + 2 ≤ fuel →
    decode lib fuel name (Val.map tMapSI (recordEntries tString t.fieldsOf vs)) (Zero t2) fl =
      done (Val.struct t2 (backFields t.fieldsOf vs)) := by
  intro fuel
  induction fuel using Nat.strong_induction_on with
  | _ fuel ihf =>
    intro t t2 vs name fl hwf hff ht2 hshape hZ hset hfuel
    obtain ⟨n, rfl⟩ : ∃ n, fuel = n + 1 := ⟨fuel - 1, by omega⟩
    simp only [Val.wellFormedRecord, Bool.and_eq_true] at hwf
    obtain ⟨⟨ht, hdist⟩, hwff⟩ := hwf
    obtain ⟨htk2, hsf2⟩ := Ty.isStruct_facts t2 ht2
    have hlen := wellFormedFields_length _ _ hwff
    have hgz : getKind (Val.struct t2 (zeroFields t.fieldsOf)) = Kind.Struct := by
      have : (Val.struct t2 (zeroFields t.fieldsOf)).kind = Kind.Struct := htk2
      simp [getKind_eq, this, Kind.family, Kind.toNat]
    have hIm : ∀ M, Indirect (Val.map tMapSI M) = Val.map tMapSI M := fun _ => rfl
    have hne : (tMapSI == t2) = false := by
      by_contra hc
      have := Ty.kind_of_beq tMapSI t2 (by simpa using hc)
      rw [htk2] at this
      exact absurd this (by decide)
    have hfield : ∀ (i : Nat) (f : StructField) (v : Val), t.fieldsOf[i]? = some f →
        vs[i]? = some v → f.PkgPath = "" →
        effectiveName f = f.Name ∧
        ∃ raw d, lookupEntry (nameKey tString f.Name) (recordEntries tString t.fieldsOf vs) =
            some raw ∧ raw.IsValid = true ∧ raw.Interface = Res.ok d ∧
          decode lib n (fieldPath name f) d (Zero f.Typ) (fl.field f) = done (backValue v) := by
      intro i f v hf hv hp
      obtain ⟨htag, hty, hfv⟩ := hff i f v hf hv hp
      obtain ⟨hskip, hkey, hname⟩ := untagged_field f v hp htag
      obtain ⟨-, hsk2, hsk3⟩ := fieldSkipped_facts f v
      obtain ⟨-, hdash⟩ := hsk3 hskip
      have hlook := recordEntries_lookup tString (Or.inl rfl) t.fieldsOf vs i f v hdist hf hv hp
        hdash
      rw [← hsk2 hp hdash, hskip, hkey] at hlook
      simp only [Bool.false_eq_true, if_false] at hlook
      obtain ⟨haddr, hro⟩ := canSet_bits hset
      have hfs : (fl.field f).CanSet = true := by
        simp [Flags.field, Flags.CanSet, hro, haddr, hp]
      have hmem : v ∈ vs := List.mem_iff_getElem?.2 ⟨i, hv⟩
      have hdepth := Val.mem_inputList hmem
      have hwv := wellFormedFields_mem _ _ hwff v hmem
      refine ⟨hname, dynamicOf (recordValue tString v), ?_⟩
      cases hfv with
      | plain _ hk hfa =>
        obtain ⟨-, hshape2⟩ := wellFormedRecord_facts v hwv
        have hrv : recordValue tString v = v := by
          rcases hshape2 with ⟨t3, fs3, rfl, hst, -, -⟩ | ⟨-, hrv⟩
          · exact absurd (Ty.isStruct_facts t3 hst).1 hk
          · exact (hrv tString).1
        obtain ⟨hsv, hsI⟩ := faithful_stored v hfa
        obtain ⟨d, hd, hdec⟩ := faithful_decode_self lib v hfa n (fieldPath name f) (fl.field f)
          (by omega) hfs
        rw [hrv] at hlook
        rw [hrv, backValue_plain v hk hfa, ← hty]
        exact ⟨d, hlook, hsv, hsI.trans hd, hdec⟩
      | nested t3 vs3 hZ3 htags hsub =>
        simp only [Val.typ] at hty
        rw [← hty]
        have hwv2 := hwv
        have hkm : ∀ X, (Val.map tMapSI X).kind ≠ Kind.Interface := by
          intro X h
          have h2 : (Val.map tMapSI X).kind = Kind.Map := rfl
          rw [h2] at h
          exact absurd h (by decide)
        have hbox : dynamicOf (recordValue tString (Val.struct t3 vs3)) =
            boxed (Val.map tMapSI (recordEntries tString t3.fieldsOf vs3)) := by
          simp only [recordValue]
          exact dynamicOf_boxed (Val.map tMapSI (recordEntries tString t3.fieldsOf vs3)) rfl
            (hkm _) rfl
        simp only [Val.wellFormedRecord, Bool.and_eq_true] at hwv2
        have hinner := ihf n (by omega) t3 t3 vs3 (fieldPath name f) (fl.field f) hwv
          (fun j g w hg hw hgp => ⟨(htags j g w hg hw hgp).1, (htags j g w hg hw hgp).2,
            hsub j g w hg hw hgp⟩)
          hwv2.1.1 rfl hZ3 hfs (by
            simp only [Val.inputDepth] at hdepth
            omega)
        refine ⟨Val.map tMapSI (recordEntries tString t3.fieldsOf vs3), hlook, ?_, ?_, hinner⟩
        · rw [hbox]
          rfl
        · rw [hbox]
          rfl
    have hback : decodeStructFromMap (decode lib n) lib name
        (Val.map tMapSI (recordEntries tString t.fieldsOf vs))
        (Val.struct t2 (zeroFields t.fieldsOf)) fl =
        done (Val.struct t2 (backFields t.fieldsOf vs)) := by
      rw [decodeStructFromMap_eq (decode lib n) lib name
        (Val.map tMapSI (recordEntries tString t.fieldsOf vs)) fl t2 t.fieldsOf
        (zeroFields t.fieldsOf) rfl ⟨emptyInterface, Or.inl rfl⟩ (by rw [hsf2, hshape])
        (by rw [zeroFields_length])]
      simp only [Val.entries]
      rw [decodeStructFields_back (decode lib n) lib name tMapSI _ fl rfl hset
        (recordEntries_keys _ _) t.fieldsOf vs [] hlen hfield]
      rfl
    rw [hZ, decode_dispatch lib n name _ _ fl (by rw [hIm]; rfl), hgz]
    have hT1 : (Val.map tMapSI (recordEntries tString t.fieldsOf vs)).TypeOf = Res.ok tMapSI :=
      rfl
    have hT2 : (Val.struct t2 (zeroFields t.fieldsOf)).TypeOf = Res.ok t2 := rfl
    have hK : (Val.map tMapSI (recordEntries tString t.fieldsOf vs)).kind = Kind.Map := rfl
    simp only [decodeStruct, hIm, hT1, hT2, Res.bind_ok, hne, Bool.false_eq_true, if_false, hK,
      hback]

/-- No field and no value: nothing to give back. -/
theorem faithfulFields_nil : faithfulFields [] [] := by
  intro i f v hf
  simp at hf

/-- The fields the round trip gives back, one field at a time. -/
theorem faithfulFields_cons (f : StructField) (fs : List StructField) (v : Val) (vs : List Val)
    (h : f.PkgPath = "" → tagGet f.Tag tagName = "" ∧ v.typ = f.Typ ∧ v.FaithfulField)
    (hrest : faithfulFields fs vs) : faithfulFields (f :: fs) (v :: vs) := by
  intro i g w hg hw hp
  cases i with
  | zero =>
    simp only [List.getElem?_cons_zero, Option.some.injEq] at hg hw
    subst hg
    subst hw
    exact h hp
  | succ i =>
    simp only [List.getElem?_cons_succ] at hg hw
    exact hrest i g w hg hw hp

/-- A struct value whose exported fields the round trip gives back is given back in a
field, on its exported fields. -/
theorem faithfulField_nested (t : Ty) (vs : List Val)
    (hZ : Zero t = Val.struct t (zeroFields t.fieldsOf)) (h : faithfulFields t.fieldsOf vs) :
    (Val.struct t vs).FaithfulField :=
  Val.FaithfulField.nested t vs hZ
    (fun i f v hf hv hp => ⟨(h i f v hf hv hp).1, (h i f v hf hv hp).2.1⟩)
    (fun i f v hf hv hp => (h i f v hf hv hp).2.2)

/-- C22, amended.  Let `R1` be a well-formed record of struct type `t` (one valid value for
each field, exported fields of pairwise distinct names, at every level) whose exported
fields have no tag and hold, each, a value of the type of the field that is faithful
(`Val.Faithful`: a scalar, a nil value, a function, a dynamic value that holds no nil
pointer, a slice that is not empty, an array of a comparable type, a map, a pointer to a
value that is not nil; elements, keys and values faithful in turn) or a struct value of
the same kind, at every level (`faithfulFields`).  Let `t2` be a struct type with the same
fields, whose zero value holds one zero value per field, and let the fuel cover the depth
of `R1`.  (1) `R1` decoded into an empty `map[string]interface{}` gives the map of its
entries, one for each exported field under its name, a struct value in a field as the map
of its own entries.  (2) That map decoded into the zero value of `t2` gives the record
`backFields`.  (3) When `t2` is a type distinct from `t`, `R1` decoded directly into the
zero value of `t2` gives the same record.  (4) In that record every exported field holds
what `backValue` gives for its value in `R1` and every unexported field holds the zero
value of its type.  (5) For a value that is no struct `backValue` gives the value itself;
for a struct value in a field it gives the struct value with the same exported fields,
taken the same way, and zero unexported fields.  Equality is that of the values: a
pointer comes back as a pointer to an equal value. -/
theorem record_round_trip (lib : GoLib) (fuel : Nat) (name : String) (t t2 : Ty)
    (vs : List Val) (fl : Flags) (hwf : (Val.struct t vs).wellFormedRecord = true)
    (hff : faithfulFields t.fieldsOf vs) (ht2 : t2.isStruct = true)
    (hshape : t2.fieldsOf = t.fieldsOf)
    (hZ : Zero t2 = Val.struct t2 (zeroFields t2.fieldsOf)) (hset : fl.CanSet = true)
    (hfuel : (Val.struct t vs).inputDepth ≤ fuel) :
    decode lib fuel name (Val.struct t vs) (Val.map tMapSI []) Flags.fresh =
        done (Val.map tMapSI (recordEntries tString t.fieldsOf vs)) ∧
    decode lib fuel name (Val.map tMapSI (recordEntries tString t.fieldsOf vs)) (Zero t2) fl =
        done (Val.struct t2 (backFields t.fieldsOf vs)) ∧
    ((t == t2) = false →
      decode lib fuel name (Val.struct t vs) (Zero t2) fl =
        done (Val.struct t2 (backFields t.fieldsOf vs))) ∧
    (∀ (i : Nat) (f : StructField) (v : Val), t.fieldsOf[i]? = some f → vs[i]? = some v →
      (backFields t.fieldsOf vs)[i]? =
        some (if f.PkgPath = "" then backValue v else Zero f.Typ)) ∧
    (∀ (i : Nat) (f : StructField) (v : Val), t.fieldsOf[i]? = some f → vs[i]? = some v →
      f.PkgPath = "" →
      (v.kind ≠ Kind.Struct → backValue v = v) ∧
      (∀ (u : Ty) (ws : List Val), v = Val.struct u ws →
        backValue v = Val.struct u (backFields u.fieldsOf ws))) := by
  have hwf0 := hwf
  simp only [Val.wellFormedRecord, Bool.and_eq_true] at hwf
  obtain ⟨⟨ht, hdist⟩, hwff⟩ := hwf
  obtain ⟨htk, hsf⟩ := Ty.isStruct_facts t ht
  obtain ⟨htk2, hsf2⟩ := Ty.isStruct_facts t2 ht2
  rw [hshape] at hZ
  simp only [Val.inputDepth] at hfuel
  obtain ⟨n, rfl⟩ : ∃ n, fuel = n + 1 := ⟨fuel - 1, by omega⟩
  have hrd := Val.recordDepthList_le vs
  have hgz : getKind (Val.struct t2 (zeroFields t.fieldsOf)) = Kind.Struct := by
    have : (Val.struct t2 (zeroFields t.fieldsOf)).kind = Kind.Struct := htk2
    simp [getKind_eq, this, Kind.family, Kind.toNat]
  have hIs : Indirect (Val.struct t vs) = Val.struct t vs := by
    have : (Val.struct t vs).kind = Kind.Struct := htk
    simp [Indirect, this]
  have hIm : ∀ M, Indirect (Val.map tMapSI M) = Val.map tMapSI M := fun _ => rfl
  have hloopM : decodeMapFromStructLoop (decode lib n) Flags.fresh t.fieldsOf vs
      (Val.map tMapSI []) =
      Res.ok (Val.map tMapSI (recordEntries tString t.fieldsOf vs), none) := by
    have := structLoop_entries lib tString (Or.inl rfl) n t.fieldsOf vs Flags.fresh tMapSI []
      hwff (by omega) rfl rfl hdist (fun e he => by simp at he)
    simpa using this
  have hne : (tMapSI == t2) = false := by
    by_contra hc
    have := Ty.kind_of_beq tMapSI t2 (by simpa using hc)
    rw [htk2] at this
    exact absurd this (by decide)
  have hT1 : (Val.map tMapSI (recordEntries tString t.fieldsOf vs)).TypeOf = Res.ok tMapSI :=
    rfl
  have hT2 : (Val.struct t2 (zeroFields t.fieldsOf)).TypeOf = Res.ok t2 := rfl
  have hK : (Val.map tMapSI (recordEntries tString t.fieldsOf vs)).kind = Kind.Map := rfl
  have h2 := record_back lib (n + 1) t t2 vs name fl hwf0 hff ht2 hshape hZ hset (by omega)
  have hback : decodeStructFromMap (decode lib n) lib name
      (Val.map tMapSI (recordEntries tString t.fieldsOf vs))
      (Val.struct t2 (zeroFields t.fieldsOf)) fl =
      done (Val.struct t2 (backFields t.fieldsOf vs)) := by
    have h3 := h2
    rw [hZ, decode_dispatch lib n name _ _ fl (by rw [hIm]; rfl), hgz] at h3
    simpa only [decodeStruct, hIm, hT1, hT2, Res.bind_ok, hne, Bool.false_eq_true, if_false,
      hK] using h3
  refine ⟨?_, h2, ?_, backFields_index t.fieldsOf vs, ?_⟩
  · exact decode_struct_into_map lib n name _ t vs tMapSI tString emptyInterface [] _
      Flags.fresh hIs ht rfl rfl hloopM
  · intro hd
    rw [hZ, decode_dispatch lib n name _ _ fl (by rw [hIs]; rfl), hgz]
    have hT3 : (Val.struct t vs).TypeOf = Res.ok t := rfl
    have hK3 : (Val.struct t vs).kind = Kind.Struct := htk
    have hS : (Val.map tMapSI []).Set Flags.fresh
        (Val.map tMapSI (recordEntries tString t.fieldsOf vs)) =
        Res.ok (Val.map tMapSI (recordEntries tString t.fieldsOf vs)) := by
      simp only [Val.Set, Val.IsValid, Flags.fresh, Bool.not_true, Bool.false_eq_true, if_false]
      exact assignTo_same _ (Val.map tMapSI (recordEntries tString t.fieldsOf vs)) rfl
    have hms : decodeMapFromStruct (decode lib n) name (Val.struct t vs)
        (Val.map tMapSI []) Flags.fresh (Val.map tMapSI []) Flags.fresh =
        done (Val.map tMapSI (recordEntries tString t.fieldsOf vs)) := by
      simp only [decodeMapFromStruct, hT3, hsf, Res.bind_ok, Val.fieldVals, hloopM]
      have hca : Flags.fresh.CanAddr = true := rfl
      simp only [hca, if_true, hS, Res.bind_ok]
    have hms2 : decodeMapFromStruct (decode lib n) name (Val.struct t vs)
        (Val.map (Ty.map (Ty.basic Kind.String) emptyInterface) []) Flags.fresh
        (Val.map (Ty.map (Ty.basic Kind.String) emptyInterface) []) Flags.fresh =
        done (Val.map tMapSI (recordEntries tString t.fieldsOf vs)) := hms
    simp only [decodeStruct, hIs, hT3, hT2, Res.bind_ok, hd, Bool.false_eq_true, if_false, hK3,
      hms2, done]
    exact hback
  · intro i f v hf hv hp
    obtain ⟨-, -, hfv⟩ := hff i f v hf hv hp
    refine ⟨?_, ?_⟩
    · intro hk
      cases hfv with
      | plain _ _ hfa => exact backValue_plain v hk hfa
      | nested t3 vs3 _ _ _ =>
        have hmem : Val.struct t3 vs3 ∈ vs := List.mem_iff_getElem?.2 ⟨i, hv⟩
        have hwv := wellFormedFields_mem _ _ hwff _ hmem
        simp only [Val.wellFormedRecord, Bool.and_eq_true] at hwv
        exact absurd (Ty.isStruct_facts t3 hwv.1.1).1 hk
    · intro u ws hu
      subst hu
      rfl

/-- A text is a scalar of type `string`. -/
theorem scalarField_text (s : String) : scalarField tString (text s) :=
  Or.inr (Or.inr (Or.inr (Or.inr ⟨s, rfl, rfl⟩)))

/-- An `int` within its width is a scalar of type `int`. -/
theorem scalarField_int (i : Int) (h : wrapInt tInt.kind.bits i = i) :
    scalarField tInt (Val.int tInt i) :=
  Or.inr (Or.inl ⟨i, rfl, rfl, h⟩)

/-- The round trip gives back the fields of the `Basic` of the table tests. -/
theorem basicFilled_faithful : faithfulFields tBasic.fieldsOf basicFilled := by
  have hp : ∀ (ft : Ty) (v : Val), scalarField ft v → v.kind ≠ Kind.Struct →
      v.FaithfulField := fun ft v hs hk => Val.FaithfulField.plain v hk (Val.Faithful.scalar ft v hs)
  refine faithfulFields_cons _ _ _ _
    (fun _ => ⟨rfl, rfl, hp _ _ (scalarField_text _) (by decide)⟩) ?_
  refine faithfulFields_cons _ _ _ _
    (fun _ => ⟨rfl, rfl, hp _ _ (scalarField_int 2 (by decide)) (by decide)⟩) ?_
  refine faithfulFields_cons _ _ _ _
    (fun _ => ⟨rfl, rfl, hp (Ty.basic Kind.Uint) _
      (Or.inr (Or.inr (Or.inl ⟨3, rfl, rfl, by decide⟩))) (by decide)⟩) ?_
  refine faithfulFields_cons _ _ _ _
    (fun _ => ⟨rfl, rfl, hp (Ty.basic Kind.Bool) _ (Or.inl ⟨true, rfl, rfl⟩) (by decide)⟩) ?_
  refine faithfulFields_cons _ _ _ _
    (fun _ => ⟨rfl, rfl, hp (Ty.basic Kind.Float64) _
      (Or.inr (Or.inr (Or.inr (Or.inl ⟨_, rfl, Or.inl rfl⟩)))) (by decide)⟩) ?_
  refine faithfulFields_cons _ _ _ _
    (fun _ => ⟨rfl, rfl, hp _ _ (scalarField_text _) (by decide)⟩) ?_
  refine faithfulFields_cons _ _ _ _ (fun h => absurd h (by decide)) ?_
  refine faithfulFields_cons _ _ _ _
    (fun _ => ⟨rfl, rfl, Val.FaithfulField.plain _ (by decide)
      (Val.Faithful.dynamic emptyInterface _ rfl rfl rfl (by decide) rfl
        (fun h => absurd h (by decide)))⟩) ?_
  refine faithfulFields_cons _ _ _ _
    (fun _ => ⟨rfl, rfl, hp _ _ (scalarField_int 0 (by decide)) (by decide)⟩) ?_
  refine faithfulFields_cons _ _ _ _
    (fun _ => ⟨rfl, rfl, hp (Ty.basic Kind.Float64) _
      (Or.inr (Or.inr (Or.inr (Or.inl ⟨_, rfl, Or.inl rfl⟩)))) (by decide)⟩) ?_
  refine faithfulFields_cons _ _ _ _
    (fun _ => ⟨rfl, rfl, hp jsonNumber _
      (Or.inr (Or.inr (Or.inr (Or.inr ⟨"", rfl, rfl⟩)))) (by decide)⟩) ?_
  exact faithfulFields_nil

/-- The round trip gives back the fields of the `Wide` with a field of each container
shape. -/
theorem wideValues_faithful : faithfulFields tWide.fieldsOf wideValues := by
  have hp : ∀ (ft : Ty) (v : Val), scalarField ft v → v.kind ≠ Kind.Struct →
      v.FaithfulField := fun ft v hs hk => Val.FaithfulField.plain v hk (Val.Faithful.scalar ft v hs)
  have ht : ∀ s, (text s).Faithful := fun s => Val.Faithful.scalar tString _ (scalarField_text s)
  refine faithfulFields_cons _ _ _ _
    (fun _ => ⟨rfl, rfl, hp _ _ (scalarField_text _) (by decide)⟩) ?_
  refine faithfulFields_cons _ _ _ _
    (fun _ => ⟨rfl, rfl, Val.FaithfulField.plain _ (by decide)
      (Val.Faithful.sequence (Ty.slice tString) tString _ rfl (by simp)
        (by
          intro x hx
          simp only [List.mem_cons, List.mem_singleton, List.not_mem_nil, or_false] at hx
          rcases hx with rfl | rfl <;> rfl)
        (by
          intro x hx
          simp only [List.mem_cons, List.mem_singleton, List.not_mem_nil, or_false] at hx
          rcases hx with rfl | rfl <;> exact ht _))⟩) ?_
  refine faithfulFields_cons _ _ _ _
    (fun _ => ⟨rfl, rfl, Val.FaithfulField.plain _ (by decide)
      (Val.Faithful.array (Ty.array 2 tInt) tInt 2 _ rfl rfl rfl (by rfl)
        (by
          intro x hx
          simp only [List.mem_cons, List.mem_singleton, List.not_mem_nil, or_false] at hx
          rcases hx with rfl | rfl <;> rfl)
        (by
          intro x hx
          simp only [List.mem_cons, List.mem_singleton, List.not_mem_nil, or_false] at hx
          rcases hx with rfl | rfl
          · exact Val.Faithful.scalar tInt _ (scalarField_int 1 (by decide))
          · exact Val.Faithful.scalar tInt _ (scalarField_int 2 (by decide))))⟩) ?_
  refine faithfulFields_cons _ _ _ _
    (fun _ => ⟨rfl, rfl, Val.FaithfulField.plain _ (by decide)
      (Val.Faithful.mapping (Ty.map tString tInt) tString tInt _ rfl
        (by
          intro e he
          simp only [List.mem_cons, List.mem_singleton, List.not_mem_nil, or_false] at he
          rcases he with rfl | rfl <;> exact ⟨rfl, rfl, rfl, by rfl, rfl⟩)
        (List.Pairwise.cons
          (by
            intro b hb
            simp only [List.mem_singleton] at hb
            subst hb
            rfl)
          (List.pairwise_singleton _ _))
        (by
          intro e he
          simp only [List.mem_cons, List.mem_singleton, List.not_mem_nil, or_false] at he
          rcases he with rfl | rfl <;> exact ht _)
        (by
          intro e he
          simp only [List.mem_cons, List.mem_singleton, List.not_mem_nil, or_false] at he
          rcases he with rfl | rfl
          · exact Val.Faithful.scalar tInt _ (scalarField_int 80 (by decide))
          · exact Val.Faithful.scalar tInt _ (scalarField_int 443 (by decide))))⟩) ?_
  refine faithfulFields_cons _ _ _ _
    (fun _ => ⟨rfl, rfl, Val.FaithfulField.plain _ (by decide)
      (Val.Faithful.pointer (Ty.ptr tInt) tInt _ rfl rfl (by decide) (by decide) rfl
        (Val.Faithful.scalar tInt _ (scalarField_int 5 (by decide))))⟩) ?_
  refine faithfulFields_cons _ _ _ _
    (fun _ => ⟨rfl, rfl, faithfulField_nested tInner _ rfl
      (faithfulFields_cons _ _ _ _
        (fun _ => ⟨rfl, rfl, hp _ _ (scalarField_text _) (by decide)⟩)
        (faithfulFields_cons _ _ _ _ (fun h => absurd h (by decide)) faithfulFields_nil))⟩) ?_
  refine faithfulFields_cons _ _ _ _
    (fun _ => ⟨rfl, rfl, Val.FaithfulField.plain _ (by decide)
      (Val.Faithful.sequence (Ty.slice tInner) tInner _ rfl (by simp)
        (by
          intro x hx
          simp only [List.mem_singleton] at hx
          subst hx
          rfl)
        (by
          intro x hx
          simp only [List.mem_singleton] at hx
          subst hx
          exact Val.Faithful.record tInner _ rfl))⟩) ?_
  refine faithfulFields_cons _ _ _ _
    (fun _ => ⟨rfl, rfl, Val.FaithfulField.plain _ (by decide)
      (Val.Faithful.dynamic emptyInterface _ rfl rfl rfl (by decide) rfl
        (fun _ => ⟨tInt, rfl, rfl⟩))⟩) ?_
  refine faithfulFields_cons _ _ _ _ (fun h => absurd h (by decide)) ?_
  exact faithfulFields_nil

/-- C22, amended, at a record with a field of each container shape and at the table test
"struct => struct".  The `Wide` decoded into a zero `WideCopy` gives every exported field
its value: the slice, the array, the map, the pointer, the slice of structs and the
dynamic value whole, the struct in the field `Inner` with its unexported field zero, and
the unexported field `hidden` false.  The `Basic` of the test decoded into a zero
`BasicCopy` gives every exported field its value and leaves the unexported `vSilent`
false. -/
theorem record_round_trip_witness :
    decode stdLib 8 "" (Val.struct tWide wideValues) (Zero tWideCopy) Flags.fresh =
      done (Val.struct tWideCopy (backFields tWide.fieldsOf wideValues)) ∧
    backFields tWide.fieldsOf wideValues = wideBack ∧
    decode stdLib 8 "" (Val.struct tWide wideValues) (Val.map tMapSI []) Flags.fresh =
      done (Val.map tMapSI (recordEntries tString tWide.fieldsOf wideValues)) ∧
    decode stdLib 5 "" (Val.struct tBasic basicFilled) (Zero tBasicCopy) Flags.fresh =
      done (Val.struct tBasicCopy (backFields tBasic.fieldsOf basicFilled)) ∧
    backFields tBasic.fieldsOf basicFilled =
      [text "vstring", Val.int tInt 2, Val.uint (Ty.basic Kind.Uint) 3,
        Val.bool (Ty.basic Kind.Bool) true,
        Val.float (Ty.basic Kind.Float64) (GoFloat.fin false 5134103575202365 (-50)),
        text "vextra", Val.bool (Ty.basic Kind.Bool) false,
        Val.iface emptyInterface (Val.slice (Ty.slice (Ty.basic Kind.Uint8))
          [Val.uint (Ty.basic Kind.Uint8) 100, Val.uint (Ty.basic Kind.Uint8) 97,
            Val.uint (Ty.basic Kind.Uint8) 116, Val.uint (Ty.basic Kind.Uint8) 97]),
        Val.int tInt 0, Val.float (Ty.basic Kind.Float64) (GoFloat.fin false 0 0),
        Val.str jsonNumber ""] ∧
    Decode stdLib 3 (Val.ptr (Ty.ptr tBasic) (Val.struct tBasic basicFilled))
        (Val.ptr (Ty.ptr tBasicCopy) (Zero tBasicCopy)) =
      done (Val.ptr (Ty.ptr tBasicCopy)
        (Val.struct tBasicCopy (backFields tBasic.fieldsOf basicFilled))) :=
  ⟨(record_round_trip stdLib 8 "" tWide tWideCopy wideValues Flags.fresh (by rfl)
      wideValues_faithful rfl rfl rfl rfl (by decide)).2.2.1 (by rfl),
    by rfl,
    (record_round_trip stdLib 8 "" tWide tWideCopy wideValues Flags.fresh (by rfl)
      wideValues_faithful rfl rfl rfl rfl (by decide)).1,
    (record_round_trip stdLib 5 "" tBasic tBasicCopy basicFilled Flags.fresh (by rfl)
      basicFilled_faithful rfl rfl rfl rfl (by decide)).2.2.1 (by rfl),
    by rfl, by rfl⟩

/-- C22 fails as stated: fields that do not come back equal.
(1) A `Slice` whose field `VBar` holds an empty slice that is not nil, decoded into a zero
`SliceCopy`, directly or through the map of its entries, gives a `SliceCopy` whose `VBar`
is the nil slice.
(2) A dynamic field that holds a nil pointer comes back as the nil interface value.
(3) A dynamic field that holds a pointer to an `interface{}` comes back holding what that
interface value holds.
(4) A pointer field that points to a nil slice comes back as the nil pointer.
(5) A pointer field that points to a pointer makes the decoding fail, with the message
`'V' expected type 'int', got unconvertible type '*int'`.
(6) A struct in a field comes back with its unexported field zero.
(7) An array field of a type that is not comparable makes the decoding panic.
(8) A channel field, even nil, and (9) a complex number, a `uintptr` and an unsafe
pointer make the decoding fail: the decoder has no converter for them.
(10) A map field with the key NaN makes the decoding panic, in the lookup of the value
under that key. -/
theorem round_trip_losses :
    (decode stdLib 3 ""
        (Val.ptr (Ty.ptr tSlice) (Val.struct tSlice [text "foo", Val.slice (Ty.slice tString) []]))
        (Zero tSliceCopy) Flags.fresh =
      done (Val.struct tSliceCopy [text "foo", Val.nil (Ty.slice tString)]) ∧
    decode stdLib 3 ""
        (Val.ptr (Ty.ptr tSlice) (Val.struct tSlice [text "foo", Val.slice (Ty.slice tString) []]))
        (Val.map tMapSI []) Flags.fresh =
      done (Val.map tMapSI [(text "VFoo", boxed (text "foo")),
        (text "VBar", boxed (Val.slice (Ty.slice tString) []))]) ∧
    decode stdLib 3 ""
        (Val.map tMapSI [(text "VFoo", boxed (text "foo")),
          (text "VBar", boxed (Val.slice (Ty.slice tString) []))])
        (Zero tSliceCopy) Flags.fresh =
      done (Val.struct tSliceCopy [text "foo", Val.nil (Ty.slice tString)]) ∧
    Val.nil (Ty.slice tString) ≠ Val.slice (Ty.slice tString) []) ∧
    holderRoundTrip emptyInterface (Val.iface emptyInterface (Val.nil (Ty.ptr tInt))) =
      done (Val.struct (tHolderCopy emptyInterface) [Val.nil emptyInterface]) ∧
    holderRoundTrip emptyInterface
        (Val.iface emptyInterface
          (Val.ptr (Ty.ptr emptyInterface) (Val.iface emptyInterface (Val.int tInt 1)))) =
      done (Val.struct (tHolderCopy emptyInterface)
        [Val.iface emptyInterface (Val.int tInt 1)]) ∧
    holderRoundTrip (Ty.ptr (Ty.slice tString))
        (Val.ptr (Ty.ptr (Ty.slice tString)) (Val.nil (Ty.slice tString))) =
      done (Val.struct (tHolderCopy (Ty.ptr (Ty.slice tString)))
        [Val.nil (Ty.ptr (Ty.slice tString))]) ∧
    holderRoundTrip (Ty.ptr (Ty.ptr tInt))
        (Val.ptr (Ty.ptr (Ty.ptr tInt)) (Val.ptr (Ty.ptr tInt) (Val.int tInt 1))) =
      fail (Val.struct (tHolderCopy (Ty.ptr (Ty.ptr tInt))) [Val.nil (Ty.ptr (Ty.ptr tInt))])
        (GoError.agg ["'V' expected type 'int', got unconvertible type '*int'"]) ∧
    holderRoundTrip tInner (Val.struct tInner [text "n", Val.int tInt 7]) =
      done (Val.struct (tHolderCopy tInner) [Val.struct tInner [text "n", Val.int tInt 0]]) ∧
    holderRoundTrip (Ty.array 1 (Ty.slice tString))
        (Val.array (Ty.array 1 (Ty.slice tString)) [Val.nil (Ty.slice tString)]) =
      Res.panic "runtime error: comparing uncomparable type [1][]string" ∧
    holderRoundTrip (Ty.chan tInt) (Val.nil (Ty.chan tInt)) =
      fail (Val.struct (tHolderCopy (Ty.chan tInt)) [Val.nil (Ty.chan tInt)])
        (GoError.agg ["V: unsupported type: chan"]) ∧
    holderRoundTrip (Ty.basic Kind.Complex128) (Val.other (Ty.basic Kind.Complex128) 0) =
      fail (Val.struct (tHolderCopy (Ty.basic Kind.Complex128))
          [Val.other (Ty.basic Kind.Complex128) 0])
        (GoError.agg ["V: unsupported type: complex128"]) ∧
    holderRoundTrip (Ty.basic Kind.Uintptr) (Val.uint (Ty.basic Kind.Uintptr) 1) =
      fail (Val.struct (tHolderCopy (Ty.basic Kind.Uintptr)) [Val.uint (Ty.basic Kind.Uintptr) 0])
        (GoError.agg ["V: unsupported type: uintptr"]) ∧
    holderRoundTrip (Ty.basic Kind.UnsafePointer) (Val.other (Ty.basic Kind.UnsafePointer) 1) =
      fail (Val.struct (tHolderCopy (Ty.basic Kind.UnsafePointer))
          [Val.nil (Ty.basic Kind.UnsafePointer)])
        (GoError.agg ["V: unsupported type: unsafe.Pointer"]) ∧
    holderRoundTrip (Ty.map (Ty.basic Kind.Float64) tString)
        (Val.map (Ty.map (Ty.basic Kind.Float64) tString)
          [(Val.float (Ty.basic Kind.Float64) GoFloat.nan, text "a")]) =
      Res.panic "reflect: call of reflect.Value.Interface on zero Value" :=
  ⟨⟨by rfl, by rfl, by rfl, fun h => Val.noConfusion h⟩, by rfl, by rfl, by rfl, by rfl,
    by rfl, by rfl, by rfl, by rfl, by rfl, by rfl, by rfl⟩

end Mapstructure
